import Mathlib

/-!
Address-set algebra of the detection engine.

A shallow embedding of `src/detect-engine-address.c`: the interval record
`DetectAddress`, the set head `DetectAddressHead` with its three lists, the
relational calculus (`DetectAddressCmp`), the cut operators
(`DetectAddressCut`, `DetectAddressCutNot`), sorted insertion
(`DetectAddressInsert`), the expression parser (`DetectAddressParse2`,
`DetectAddressSetup`), the negation merge (`DetectAddressMergeNot`) and
lookup (`DetectAddressLookupInHead`).

Conventions of the embedding.

* Addresses are kept as their host-order numeric value (what `ntohl` yields
  for IPv4, the 128-bit big-endian number for IPv6), as a `Nat`.
* The doubly linked lists are `List DetectAddress`; the payload (signature
  group heads and ports) is not represented.
* C functions that mutate their arguments return the new values.
* The per-family helpers of `detect-engine-address-ipv4.c` and
  `detect-engine-address-ipv6.c` are not part of the available sources; they
  are modelled from the specification and marked as such.
-/

namespace Suricata

/-! ## Data model -/

/-- Address family constant of IPv4 (system header value). -/
def AF_INET : Nat := 2

/-- Address family constant of IPv6 (system header value). -/
def AF_INET6 : Nat := 10

/-- The relation codes returned by `DetectAddressCmp`. -/
inductive AddressRel where
  | ADDRESS_ER
  | ADDRESS_LT
  | ADDRESS_LE
  | ADDRESS_EQ
  | ADDRESS_ES
  | ADDRESS_EB
  | ADDRESS_GE
  | ADDRESS_GT
deriving DecidableEq, Repr

open AddressRel

/-- The record `DetectAddress`: `ip` is the low end and `ip2` the high end of
the range, both as host-order numbers; `flag_any` and `flag_not` are the bits
`ADDRESS_FLAG_ANY` and `ADDRESS_FLAG_NOT` of `flags`; `cnt` is the use count. -/
structure DetectAddress where
  family : Nat
  ip : Nat
  ip2 : Nat
  flag_any : Bool
  flag_not : Bool
  cnt : Nat
deriving DecidableEq, Repr

/-- The record `DetectAddressHead`: the three lists of a set head. -/
structure DetectAddressHead where
  any_head : List DetectAddress
  ipv4_head : List DetectAddress
  ipv6_head : List DetectAddress
deriving DecidableEq, Repr

/-- The record `Address` of a packet: family and host-order numeric value. -/
structure Address where
  family : Nat
  addr : Nat
deriving DecidableEq, Repr

/-- Result of `DetectAddressInit`: all fields zero. -/
def DetectAddressInit : DetectAddress :=
  { family := 0, ip := 0, ip2 := 0, flag_any := false, flag_not := false, cnt := 0 }

/-- Result of `DetectAddressHeadInit`: three empty lists. -/
def DetectAddressHeadInit : DetectAddressHead :=
  { any_head := [], ipv4_head := [], ipv6_head := [] }

/-- Largest address of a family: `0xFFFFFFFF` for IPv4, 128 one bits for IPv6. -/
def addrMax (family : Nat) : Nat :=
  if family = AF_INET6 then 2 ^ 128 - 1 else 2 ^ 32 - 1

/-! ## Numeric domain (modelled) -/

/-- Modelled from the spec: the successor of the numeric domain (4.1,
`succ(max) = max`); the per-family arithmetic lives in files that are not part
of the sources. -/
def addrSucc (family : Nat) (v : Nat) : Nat :=
  if v < addrMax family then v + 1 else addrMax family

/-- Modelled from the spec: the predecessor of the numeric domain (4.1,
`pred(0) = 0`). -/
def addrPred (v : Nat) : Nat := v - 1

/-- Modelled from the spec: the relational calculus of 4.3 on two ranges of one
family, the conditions tried in the order the specification lists them
(EQ, LT, GT, ES, EB, LE, GE), `ADDRESS_ER` when none applies. -/
def addressRelation (a b : DetectAddress) : AddressRel :=
  if a.ip = b.ip ∧ a.ip2 = b.ip2 then ADDRESS_EQ
  else if a.ip2 < b.ip then ADDRESS_LT
  else if a.ip > b.ip2 then ADDRESS_GT
  else if a.ip ≥ b.ip ∧ a.ip2 ≤ b.ip2 then ADDRESS_ES
  else if b.ip ≥ a.ip ∧ b.ip2 ≤ a.ip2 then ADDRESS_EB
  else if a.ip < b.ip ∧ b.ip ≤ a.ip2 ∧ a.ip2 < b.ip2 then ADDRESS_LE
  else if b.ip < a.ip ∧ a.ip ≤ b.ip2 ∧ b.ip2 < a.ip2 then ADDRESS_GE
  else ADDRESS_ER

/-- Modelled from the spec: `DetectAddressCmpIPv4` of
`detect-engine-address-ipv4.c` (not part of the sources), the relation of 4.3
on the host-order 32-bit values. -/
def DetectAddressCmpIPv4 (a b : DetectAddress) : AddressRel := addressRelation a b

/-- Modelled from the spec: `DetectAddressCmpIPv6` of
`detect-engine-address-ipv6.c` (not part of the sources), the relation of 4.3
on the 128-bit values. -/
def DetectAddressCmpIPv6 (a b : DetectAddress) : AddressRel := addressRelation a b

/-- Modelled from the spec: the cut operator of 4.3 on two ranges of one
family. The pieces are handed back in ascending order: the first replaces `a`,
the second replaces `b`, the third (when there are three) is the new record
`c`, as the unit tests `AddressTestCutIPv403` to `AddressTestCutIPv410` expect.
A collapsed outer piece is not produced. `none` stands for the return value
`-1` (relation LT, GT, EQ or ER). The new record `c` starts from
`DetectAddressInit` with the family of `a`. -/
def addressCut (a b : DetectAddress) :
    Option (DetectAddress × DetectAddress × Option DetectAddress) :=
  let f := a.family
  match addressRelation a b with
  | ADDRESS_ES =>
    if a.ip = b.ip then
      some ({ a with ip := a.ip, ip2 := a.ip2 },
            { b with ip := addrSucc f a.ip2, ip2 := b.ip2 }, none)
    else if a.ip2 = b.ip2 then
      some ({ a with ip := b.ip, ip2 := addrPred a.ip },
            { b with ip := a.ip, ip2 := a.ip2 }, none)
    else
      some ({ a with ip := b.ip, ip2 := addrPred a.ip },
            { b with ip := a.ip, ip2 := a.ip2 },
            some { DetectAddressInit with family := f, ip := addrSucc f a.ip2, ip2 := b.ip2 })
  | ADDRESS_EB =>
    if a.ip = b.ip then
      some ({ a with ip := b.ip, ip2 := b.ip2 },
            { b with ip := addrSucc f b.ip2, ip2 := a.ip2 }, none)
    else if a.ip2 = b.ip2 then
      some ({ a with ip := a.ip, ip2 := addrPred b.ip },
            { b with ip := b.ip, ip2 := b.ip2 }, none)
    else
      some ({ a with ip := a.ip, ip2 := addrPred b.ip },
            { b with ip := b.ip, ip2 := b.ip2 },
            some { DetectAddressInit with family := f, ip := addrSucc f b.ip2, ip2 := a.ip2 })
  | ADDRESS_LE =>
    some ({ a with ip := a.ip, ip2 := addrPred b.ip },
          { b with ip := b.ip, ip2 := a.ip2 },
          some { DetectAddressInit with family := f, ip := addrSucc f a.ip2, ip2 := b.ip2 })
  | ADDRESS_GE =>
    some ({ a with ip := b.ip, ip2 := addrPred a.ip },
          { b with ip := a.ip, ip2 := b.ip2 },
          some { DetectAddressInit with family := f, ip := addrSucc f b.ip2, ip2 := a.ip2 })
  | _ => none

/-- Modelled from the spec: `DetectAddressCutIPv4` of
`detect-engine-address-ipv4.c` (not part of the sources). -/
def DetectAddressCutIPv4 (a b : DetectAddress) :
    Option (DetectAddress × DetectAddress × Option DetectAddress) := addressCut a b

/-- Modelled from the spec: `DetectAddressCutIPv6` of
`detect-engine-address-ipv6.c` (not part of the sources). -/
def DetectAddressCutIPv6 (a b : DetectAddress) :
    Option (DetectAddress × DetectAddress × Option DetectAddress) := addressCut a b

/-- Modelled from the spec: cut-under-negation of 4.3. The range `a` is
replaced by the lower part of its complement and `b` is the upper part; when
`a.lo = 0` or `a.hi = max` only one part exists and it replaces `a`; when both
hold the call fails (`none` stands for `-1`). -/
def addressCutNot (a : DetectAddress) : Option (DetectAddress × Option DetectAddress) :=
  let f := a.family
  if a.ip ≠ 0 ∧ a.ip2 ≠ addrMax f then
    some ({ a with ip := 0, ip2 := addrPred a.ip },
          some { DetectAddressInit with family := f, ip := addrSucc f a.ip2, ip2 := addrMax f })
  else if a.ip = 0 ∧ a.ip2 ≠ addrMax f then
    some ({ a with ip := addrSucc f a.ip2, ip2 := addrMax f }, none)
  else if a.ip ≠ 0 ∧ a.ip2 = addrMax f then
    some ({ a with ip := 0, ip2 := addrPred a.ip }, none)
  else none

/-- Modelled from the spec: `DetectAddressCutNotIPv4` of
`detect-engine-address-ipv4.c` (not part of the sources). -/
def DetectAddressCutNotIPv4 (a : DetectAddress) :
    Option (DetectAddress × Option DetectAddress) := addressCutNot a

/-- Modelled from the spec: `DetectAddressCutNotIPv6` of
`detect-engine-address-ipv6.c` (not part of the sources). -/
def DetectAddressCutNotIPv6 (a : DetectAddress) :
    Option (DetectAddress × Option DetectAddress) := addressCutNot a

/-! ## Dispatchers of `detect-engine-address.c` -/

/-- `DetectAddressCut`: dispatch on the family of `a`; `none` is `-1`. -/
def DetectAddressCut (a b : DetectAddress) :
    Option (DetectAddress × DetectAddress × Option DetectAddress) :=
  if a.family = AF_INET then DetectAddressCutIPv4 a b
  else if a.family = AF_INET6 then DetectAddressCutIPv6 a b
  else none

/-- `DetectAddressCutNot`: dispatch on the family of `a`; `none` is `-1`. -/
def DetectAddressCutNot (a : DetectAddress) : Option (DetectAddress × Option DetectAddress) :=
  if a.family = AF_INET then DetectAddressCutNotIPv4 a
  else if a.family = AF_INET6 then DetectAddressCutNotIPv6 a
  else none

/-- `DetectAddressCmp`: family check, the ANY shortcut, then the per-family
comparison. -/
def DetectAddressCmp (a b : DetectAddress) : AddressRel :=
  if a.family ≠ b.family then ADDRESS_ER
  else if a.flag_any && b.flag_any then ADDRESS_EQ
  else if a.family = AF_INET then DetectAddressCmpIPv4 a b
  else if a.family = AF_INET6 then DetectAddressCmpIPv6 a b
  else ADDRESS_ER

/-- Modelled from the spec: `AddressIPv6Ge` of `detect-engine-address-ipv6.c`
(not part of the sources), the comparison `>=` of two 128-bit values (4.1). -/
def AddressIPv6Ge (a b : Nat) : Bool := decide (a ≥ b)

/-- Modelled from the spec: `AddressIPv6Le` of `detect-engine-address-ipv6.c`
(not part of the sources), the comparison `<=` of two 128-bit values (4.1). -/
def AddressIPv6Le (a b : Nat) : Bool := decide (a ≤ b)

/-- `DetectAddressMatch`: `1` when the address has the family of `dd` and lies
in its range, `0` otherwise. The IPv4 branch compares the host-order values,
the IPv6 branch calls `AddressIPv6Ge` and `AddressIPv6Le`. -/
def DetectAddressMatch (dd : DetectAddress) (a : Address) : Int :=
  if dd.family ≠ a.family then 0
  else if a.family = AF_INET then
    (if a.addr ≥ dd.ip ∧ a.addr ≤ dd.ip2 then 1 else 0)
  else if a.family = AF_INET6 then
    (if AddressIPv6Ge a.addr dd.ip = true ∧ AddressIPv6Le a.addr dd.ip2 = true then 1 else 0)
  else 0

/-! ## Sorted insertion -/

/-- Outcome of running a function of the model: the call returned a value, a
`BUG_ON` assertion stopped the program, or the recursion budget that the model
gives to recursive C functions ran out. -/
inductive Run (α : Type) where
  | done (v : α)
  | bug
  | fuel
deriving DecidableEq, Repr

/-- `SetHeadPtr`: store the list `l` as the list selected by the flags and
family of `newhead`; `none` is the return value `-1`. -/
def SetHeadPtr (gh : DetectAddressHead) (newhead : DetectAddress) (l : List DetectAddress) :
    Option DetectAddressHead :=
  if newhead.flag_any then some { gh with any_head := l }
  else if newhead.family = AF_INET then some { gh with ipv4_head := l }
  else if newhead.family = AF_INET6 then some { gh with ipv6_head := l }
  else none

/-- `GetHeadPtr`: the list selected by the flags and family of `new`, empty
(`NULL`) for any other family. -/
def GetHeadPtr (gh : DetectAddressHead) (new : DetectAddress) : List DetectAddress :=
  if new.flag_any then gh.any_head
  else if new.family = AF_INET then gh.ipv4_head
  else if new.family = AF_INET6 then gh.ipv6_head
  else []

/-- Write a list back into the head after the pointer surgery of
`DetectAddressInsert`; the head pointer is only stored by the C code when it
changes, the model always stores the whole list. -/
def putList (gh : DetectAddressHead) (new : DetectAddress) (l : List DetectAddress) :
    DetectAddressHead :=
  (SetHeadPtr gh new l).getD gh

/-- The `for (cur = head; ...)` loop of `DetectAddressInsert`. `pre` holds the
elements already passed, the second list starts at `cur`; `rec` is the
recursive call of `DetectAddressInsert`. The comparison `cur != new` of the EQ
case is taken as true: `new` is never an element of the list it is inserted
into. -/
def InsertLoop (rec : DetectAddressHead → DetectAddress → Run (Int × DetectAddressHead))
    (gh : DetectAddressHead) (new : DetectAddress) :
    List DetectAddress → List DetectAddress → Run (Int × DetectAddressHead)
  | _, [] => Run.done (1, gh)
  | pre, cur :: rest =>
    match DetectAddressCmp new cur with
    | ADDRESS_ER => Run.bug
    | ADDRESS_EQ =>
      Run.done (0, putList gh new (pre ++ { cur with cnt := cur.cnt + new.cnt } :: rest))
    | ADDRESS_GT =>
      match rest with
      | [] => Run.done (1, putList gh new (pre ++ [cur, new]))
      | _ :: _ => InsertLoop rec gh new (pre ++ [cur]) rest
    | ADDRESS_LT => Run.done (1, putList gh new (pre ++ new :: cur :: rest))
    | _ =>
      match DetectAddressCut cur new with
      | none => Run.done (-1, gh)
      | some (cur', new', c) =>
        match rec (putList gh new (pre ++ cur' :: rest)) new' with
        | Run.done (_, gh2) =>
          match c with
          | none => Run.done (1, gh2)
          | some c' =>
            match rec gh2 c' with
            | Run.done (_, gh3) => Run.done (1, gh3)
            | Run.bug => Run.bug
            | Run.fuel => Run.fuel
        | Run.bug => Run.bug
        | Run.fuel => Run.fuel

/-- `DetectAddressInsert` (the `de_ctx` argument only reaches the payload and
is dropped). The first argument bounds the depth of the recursion. The result
pairs the return code with the head after the call. -/
def DetectAddressInsert : Nat → DetectAddressHead → DetectAddress →
    Run (Int × DetectAddressHead)
  | 0, _, _ => Run.fuel
  | n + 1, gh, new =>
    if new.family = 0 ∧ new.flag_any = false then Run.bug
    else
      match GetHeadPtr gh new with
      | [] =>
        match SetHeadPtr gh new [new] with
        | none => Run.done (-1, gh)
        | some gh1 => Run.done (1, gh1)
      | cur :: rest => InsertLoop (DetectAddressInsert n) gh new [] (cur :: rest)

/-- `DetectAddressLookupInHead` on a non-null head: the first element of the
list of the family of `a` that matches. -/
def DetectAddressLookupInHead (gh : DetectAddressHead) (a : Address) : Option DetectAddress :=
  let g := if a.family = AF_INET then gh.ipv4_head
           else if a.family = AF_INET6 then gh.ipv6_head
           else gh.any_head
  g.find? (fun d => DetectAddressMatch d a == 1)

/-! ## Parsing one address string -/

/-- The functions the parser calls that are not part of `src/`: the C library
(`inet_pton` for both families, giving the host-order numeric value of the
address or `none` for a return value `<= 0`; `atoi`) and the variable table
`SCRuleVarsGetConfVar` (`none` is `NULL`). -/
structure Extern where
  inet_pton4 : List Char → Option Nat
  inet_pton6 : List Char → Option Nat
  atoi : List Char → Int
  SCRuleVarsGetConfVar : List Char → Option (List Char)

/-- The test `strcasecmp (str, "any") == 0`. -/
def isAny (str : List Char) : Bool :=
  str.map Char.toLower == ['a', 'n', 'y']

/-- The part of a string before the first occurrence of `c` and the part after
it (`strchr`, a NUL written over the separator, the pointer moved past it);
`none` when `c` does not occur. -/
def splitAt1 (c : Char) : List Char → Option (List Char × List Char)
  | [] => none
  | d :: ds =>
    if d = c then some ([], ds)
    else match splitAt1 c ds with
      | none => none
      | some (l, r) => some (d :: l, r)

/-- Modelled from the spec: `CIDRGet` of `util-cidr.c` (not part of the
sources), the CIDR-prefix-to-mask expansion of 4.1: the 32-bit mask whose
`cidr` most significant bits are set, as a host-order number. -/
def CIDRGet (cidr : Nat) : Nat := 2 ^ 32 - 2 ^ (32 - cidr)

/-- First loop of `DetectAddressParseIPv6CIDR`: `while (cidr > 8)`. The byte
array is a list of 16 bytes; a store past its end is not recorded. -/
def ipv6CidrFull : Nat → Int → Nat → List Nat → Int × Nat × List Nat
  | 0, cidr, i, b => (cidr, i, b)
  | n + 1, cidr, i, b =>
    if cidr > 8 then ipv6CidrFull n (cidr - 8) (i + 1) (b.set i 0xff) else (cidr, i, b)

/-- Second loop of `DetectAddressParseIPv6CIDR`: `while (cidr > 0)`, on the
byte `s6_addr[i]`. -/
def ipv6CidrPart : Nat → Int → Nat → Nat
  | 0, _, byte => byte
  | n + 1, cidr, byte =>
    if cidr > 0 then
      let byte1 := byte ||| 0x80
      if cidr - 1 > 0 then ipv6CidrPart n (cidr - 1) (byte1 >>> 1)
      else ipv6CidrPart n (cidr - 1) byte1
    else byte

/-- The 128-bit number held by 16 bytes in network order. -/
def bytesToNat (b : List Nat) : Nat := b.foldl (fun acc x => acc * 256 + x) 0

/-- `DetectAddressParseIPv6CIDR`: the mask for a prefix length, as a 128-bit
number. Both loops run at most `cidr` times. -/
def DetectAddressParseIPv6CIDR (cidr : Int) : Nat :=
  let r := ipv6CidrFull cidr.toNat cidr 0 (List.replicate 16 0)
  let byte := ipv6CidrPart r.1.toNat r.1 (r.2.2.getD r.2.1 0)
  bytesToNat (r.2.2.set r.2.1 byte)

/-- Modelled from the spec: `AddressIPv6Gt` of `detect-engine-address-ipv6.c`
(not part of the sources), the comparison `>` of two 128-bit values. -/
def AddressIPv6Gt (a b : Nat) : Bool := decide (a > b)

/-- The IPv4 branch of `DetectAddressParseString`, on the text after an
optional `!`. Values returned by `inet_pton` are stored in 32-bit words. -/
def parseIPv4 (E : Extern) (dd : DetectAddress) (ip : List Char) : Option DetectAddress :=
  let dd := { dd with family := AF_INET }
  match splitAt1 '/' ip with
  | some (ip, mask) =>
    let netmask? : Option Nat :=
      if '.' ∉ mask then
        let cidr := E.atoi mask
        if cidr < 0 ∨ cidr > 32 then none else some (CIDRGet cidr.toNat)
      else
        (E.inet_pton4 mask).map (fun v => v % 2 ^ 32)
    match netmask? with
    | none => none
    | some netmask =>
      match E.inet_pton4 ip with
      | none => none
      | some v =>
        let ip4addr := v % 2 ^ 32
        let lo := ip4addr &&& netmask
        some { dd with ip := lo, ip2 := lo ||| (netmask ^^^ (2 ^ 32 - 1)) }
  | none =>
    match splitAt1 '-' ip with
    | some (ip, ip2) =>
      match E.inet_pton4 ip with
      | none => none
      | some v =>
        match E.inet_pton4 ip2 with
        | none => none
        | some w =>
          if v % 2 ^ 32 > w % 2 ^ 32 then none
          else some { dd with ip := v % 2 ^ 32, ip2 := w % 2 ^ 32 }
    | none =>
      match E.inet_pton4 ip with
      | none => none
      | some v => some { dd with ip := v % 2 ^ 32, ip2 := v % 2 ^ 32 }

/-- The IPv6 branch of `DetectAddressParseString`, on the text after an
optional `!`. Values returned by `inet_pton` are stored in 128 bits, and so
are the 16 bytes of the mask that `memcpy` puts into `netmask`. -/
def parseIPv6 (E : Extern) (dd : DetectAddress) (ip : List Char) : Option DetectAddress :=
  let dd := { dd with family := AF_INET6 }
  match splitAt1 '/' ip with
  | some (ip, mask) =>
    match E.inet_pton6 ip with
    | none => none
    | some v =>
      let ip6addr := v % 2 ^ 128
      let netmask := DetectAddressParseIPv6CIDR (E.atoi mask) % 2 ^ 128
      let lo := ip6addr &&& netmask
      some { dd with ip := lo, ip2 := lo ||| (netmask ^^^ (2 ^ 128 - 1)) }
  | none =>
    match splitAt1 '-' ip with
    | some (ip, ip2) =>
      match E.inet_pton6 ip with
      | none => none
      | some v =>
        match E.inet_pton6 ip2 with
        | none => none
        | some w =>
          if AddressIPv6Gt (v % 2 ^ 128) (w % 2 ^ 128) then none
          else some { dd with ip := v % 2 ^ 128, ip2 := w % 2 ^ 128 }
    | none =>
      match E.inet_pton6 ip with
      | none => none
      | some v => some { dd with ip := v % 2 ^ 128, ip2 := v % 2 ^ 128 }

/-- `DetectAddressParseString`: fill the record `dd` from the text `str`;
`none` is the return value `-1`. -/
def DetectAddressParseString (E : Extern) (dd : DetectAddress) (str : List Char) :
    Option DetectAddress :=
  if isAny str then some { dd with flag_any := true }
  else
    let neg := str.head? = some '!'
    let dd := if neg then { dd with flag_not := true } else dd
    let ip := if neg then str.tail else str
    if ':' ∉ str then parseIPv4 E dd ip else parseIPv6 E dd ip

/-- `DetectAddressParseSingle`: a fresh record filled from the text; `none` is
`NULL`. -/
def DetectAddressParseSingle (E : Extern) (str : List Char) : Option DetectAddress :=
  DetectAddressParseString E DetectAddressInit str

/-! ## Setting up one address, the expression parser, the negation merge -/

/-- The text `0.0.0.0/0` that `DetectAddressSetup` and `DetectAddressMergeNot`
hand to the parser. -/
def textZero4 : List Char := ['0', '.', '0', '.', '0', '.', '0', '/', '0']

/-- The text `::/0` that `DetectAddressSetup` and `DetectAddressMergeNot` hand
to the parser. -/
def textZero6 : List Char := [':', ':', '/', '0']

/-- The tail of `DetectAddressSetup` that handles `any`: insert `0.0.0.0/0`
and `::/0` as well. -/
def setupAny (E : Extern) (n : Nat) (gh : DetectAddressHead) : Run (Int × DetectAddressHead) :=
  match DetectAddressParseSingle E textZero4 with
  | none => Run.done (-1, gh)
  | some ad =>
    if ad.family = 0 then Run.bug
    else
      match DetectAddressInsert n gh ad with
      | Run.done (r, gh1) =>
        if r < 0 then Run.done (-1, gh1)
        else
          match DetectAddressParseSingle E textZero6 with
          | none => Run.done (-1, gh1)
          | some ad6 =>
            if ad6.family = 0 then Run.bug
            else
              match DetectAddressInsert n gh1 ad6 with
              | Run.done (r6, gh2) => if r6 < 0 then Run.done (-1, gh2) else Run.done (0, gh2)
              | Run.bug => Run.bug
              | Run.fuel => Run.fuel
      | Run.bug => Run.bug
      | Run.fuel => Run.fuel

/-- The part of `DetectAddressSetup` after the negation has been applied:
insert `ad`, then expand `any`. -/
def setupInsert (E : Extern) (n : Nat) (gh : DetectAddressHead) (ad : DetectAddress) :
    Run (Int × DetectAddressHead) :=
  match DetectAddressInsert n gh ad with
  | Run.done (r, gh1) =>
    if r < 0 then Run.done (-1, gh1)
    else if r = 1 ∧ ad.flag_any = true then setupAny E n gh1
    else Run.done (0, gh1)
  | Run.bug => Run.bug
  | Run.fuel => Run.fuel

/-- `DetectAddressSetup`: parse one address string and insert it into `gh`;
for a record with the NOT flag the two parts of its complement are inserted.
The result pairs the return code with the head as the call leaves it. -/
def DetectAddressSetup (E : Extern) (n : Nat) (gh : DetectAddressHead) (s : List Char) :
    Run (Int × DetectAddressHead) :=
  match DetectAddressParseSingle E s with
  | none => Run.done (-1, gh)
  | some ad =>
    if ad.flag_not then
      match DetectAddressCutNot ad with
      | none => Run.done (-1, gh)
      | some (ad1, none) => setupInsert E n gh ad1
      | some (ad1, some ad2) =>
        match DetectAddressInsert n gh ad2 with
        | Run.done (r, gh1) => if r < 0 then Run.done (-1, gh1) else setupInsert E n gh1 ad1
        | Run.bug => Run.bug
        | Run.fuel => Run.fuel
    else setupInsert E n gh ad

/-- The local variables of `DetectAddressParse2` together with the two heads;
`address` is the content `address[0 .. x)` of the buffer. -/
structure ParseState where
  address : List Char
  o_set : Bool
  n_set : Bool
  d_set : Bool
  depth : Int
  gh : DetectAddressHead
  ghn : DetectAddressHead

/-- Handling of a name `$var` in `DetectAddressParse2`: look the name up, wrap
the text in brackets under negation, parse it; the return value of that parse
is not looked at. -/
def parseVar (E : Extern)
    (rec : DetectAddressHead → DetectAddressHead → List Char → Bool →
      Run (Int × DetectAddressHead × DetectAddressHead))
    (negate : Bool) (st : ParseState) (name : List Char) :
    Run (Int × DetectAddressHead × DetectAddressHead) :=
  match E.SCRuleVarsGetConfVar name with
  | none => Run.done (-1, st.gh, st.ghn)
  | some v =>
    let temp := if negate || st.n_set then '[' :: (v ++ [']']) else v
    match rec st.gh st.ghn temp (negate || st.n_set) with
    | Run.done (_, gh1, ghn1) => Run.done (0, gh1, ghn1)
    | Run.bug => Run.bug
    | Run.fuel => Run.fuel

/-- Handling of a leaf in `DetectAddressParse2`: set the address up in `gh`
when no negation is active, in `ghn` otherwise. -/
def parseLeaf (E : Extern) (n : Nat) (negate : Bool) (st : ParseState) (addr : List Char) :
    Run (Int × DetectAddressHead × DetectAddressHead) :=
  if negate = false ∧ st.n_set = false then
    match DetectAddressSetup E n st.gh addr with
    | Run.done (r, gh1) => Run.done (r, gh1, st.ghn)
    | Run.bug => Run.bug
    | Run.fuel => Run.fuel
  else
    match DetectAddressSetup E n st.ghn addr with
    | Run.done (r, ghn1) => Run.done (r, st.gh, ghn1)
    | Run.bug => Run.bug
    | Run.fuel => Run.fuel

/-- The `for` loop of `DetectAddressParse2` over the remaining characters of
`s`; `rec` is the recursive call. The loop stops when the buffer of 1024
characters is full. The terminating NUL that the last branch stores at
`address[x]` is not modelled. -/
def Parse2Loop (E : Extern) (n : Nat)
    (rec : DetectAddressHead → DetectAddressHead → List Char → Bool →
      Run (Int × DetectAddressHead × DetectAddressHead))
    (negate : Bool) : ParseState → List Char →
    Run (Int × DetectAddressHead × DetectAddressHead)
  | st, [] => Run.done (0, st.gh, st.ghn)
  | st, c :: cs =>
    if st.address.length ≥ 1024 then Run.done (0, st.gh, st.ghn)
    else if st.o_set = false ∧ c = '!' then
      Parse2Loop E n rec negate { st with n_set := true } cs
    else if c = '[' then
      Parse2Loop E n rec negate
        { st with o_set := true,
                  address := if st.o_set then st.address ++ [c] else [],
                  depth := st.depth + 1 } cs
    else if c = ']' then
      if st.depth = 1 then
        match rec st.gh st.ghn st.address (negate || st.n_set) with
        | Run.done (r, gh1, ghn1) =>
          if r < 0 then Run.done (-1, gh1, ghn1)
          else Parse2Loop E n rec negate
            { st with address := [], n_set := false, depth := st.depth - 1,
                      gh := gh1, ghn := ghn1 } cs
        | Run.bug => Run.bug
        | Run.fuel => Run.fuel
      else
        Parse2Loop E n rec negate
          { st with address := st.address ++ [c], depth := st.depth - 1 } cs
    else if st.depth = 0 ∧ c = ',' then
      if st.o_set then
        Parse2Loop E n rec negate { st with o_set := false, address := [] } cs
      else if st.d_set then
        match parseVar E rec negate st st.address with
        | Run.done (r, gh1, ghn1) =>
          if r < 0 then Run.done (-1, gh1, ghn1)
          else Parse2Loop E n rec negate
            { st with address := [], d_set := false, n_set := false,
                      gh := gh1, ghn := ghn1 } cs
        | Run.bug => Run.bug
        | Run.fuel => Run.fuel
      else
        match parseLeaf E n negate st st.address with
        | Run.done (r, gh1, ghn1) =>
          if r < 0 then Run.done (-1, gh1, ghn1)
          else Parse2Loop E n rec negate
            { st with address := [], n_set := false, gh := gh1, ghn := ghn1 } cs
        | Run.bug => Run.bug
        | Run.fuel => Run.fuel
    else if st.depth = 0 ∧ c = '$' then
      Parse2Loop E n rec negate { st with address := st.address ++ [c], d_set := true } cs
    else if st.depth = 0 ∧ cs = [] then
      if st.d_set then
        match parseVar E rec negate st (st.address ++ [c]) with
        | Run.done (r, gh1, ghn1) =>
          if r < 0 then Run.done (-1, gh1, ghn1)
          else Parse2Loop E n rec negate
            { st with address := [], d_set := false, n_set := false,
                      gh := gh1, ghn := ghn1 } cs
        | Run.bug => Run.bug
        | Run.fuel => Run.fuel
      else
        match parseLeaf E n negate st (st.address ++ [c]) with
        | Run.done (r, gh1, ghn1) =>
          if r < 0 then Run.done (-1, gh1, ghn1)
          else Parse2Loop E n rec negate
            { st with address := [], n_set := false, gh := gh1, ghn := ghn1 } cs
        | Run.bug => Run.bug
        | Run.fuel => Run.fuel
    else
      Parse2Loop E n rec negate { st with address := st.address ++ [c] } cs

/-- `DetectAddressParse2`: walk the expression `s`, filling the positive head
`gh` and the negated head `ghn`. The first argument bounds the depth of the
recursion (and is handed to the insertions). The result is the return code and
the two heads as the call leaves them. -/
def DetectAddressParse2 (E : Extern) : Nat → DetectAddressHead → DetectAddressHead →
    List Char → Bool → Run (Int × DetectAddressHead × DetectAddressHead)
  | 0, _, _, _, _ => Run.fuel
  | n + 1, gh, ghn, s, negate =>
    Parse2Loop E n (DetectAddressParse2 E n) negate
      { address := [], o_set := false, n_set := false, d_set := false, depth := 0,
        gh := gh, ghn := ghn } s

/-- Modelled from the spec: `DetectAddressIsCompleteIPSpaceIPv4` of
`detect-engine-address-ipv4.c` (not part of the sources): whether the ranges of
the list cover the entire IPv4 space (4.5 step 1). Starting from address `v`
the walk looks for a range holding `v` and goes on after its end; the first
argument bounds the number of ranges used. -/
def coversFrom (l : List DetectAddress) (max : Nat) : Nat → Nat → Bool
  | 0, _ => false
  | n + 1, v =>
    match l.find? (fun d => decide (d.ip ≤ v ∧ v ≤ d.ip2)) with
    | none => false
    | some d => if d.ip2 ≥ max then true else coversFrom l max n (d.ip2 + 1)

/-- Modelled from the spec: `DetectAddressIsCompleteIPSpaceIPv4` (see
`coversFrom`). -/
def DetectAddressIsCompleteIPSpaceIPv4 (l : List DetectAddress) : Bool :=
  coversFrom l (addrMax AF_INET) l.length 0

/-- `DetectAddressIsCompleteIPSpace`: only the IPv4 list is looked at. -/
def DetectAddressIsCompleteIPSpace (gh : DetectAddressHead) : Bool :=
  DetectAddressIsCompleteIPSpaceIPv4 gh.ipv4_head

/-- `DetectAddressCopy`: flags, family and range are copied, `cnt` is 1. -/
def DetectAddressCopy (orig : DetectAddress) : DetectAddress :=
  { DetectAddressInit with
    flag_any := orig.flag_any, flag_not := orig.flag_not, family := orig.family,
    ip := if orig.family = AF_INET ∨ orig.family = AF_INET6 then orig.ip else 0,
    ip2 := if orig.family = AF_INET ∨ orig.family = AF_INET6 then orig.ip2 else 0,
    cnt := 1 }

/-- Step 1 of `DetectAddressMergeNot` for one list of `ghn`: insert a copy of
each member into `gh`. -/
def mergeNotInsert (n : Nat) : DetectAddressHead → List DetectAddress →
    Run (Int × DetectAddressHead)
  | gh, [] => Run.done (0, gh)
  | gh, ag :: rest =>
    match DetectAddressInsert n gh (DetectAddressCopy ag) with
    | Run.done (r, gh1) => if r < 0 then Run.done (-1, gh1) else mergeNotInsert n gh1 rest
    | Run.bug => Run.bug
    | Run.fuel => Run.fuel

/-- Step 2 of `DetectAddressMergeNot` for one list: for each member `ag` of the
`ghn` list, unlink from the `gh` list every `ag2` with
`DetectAddressCmp (ag, ag2)` equal to EQ or EB. -/
def mergeNotPull (ghnl : List DetectAddress) (l : List DetectAddress) : List DetectAddress :=
  ghnl.foldl
    (fun acc ag => acc.filter (fun ag2 =>
      !(decide (DetectAddressCmp ag ag2 = ADDRESS_EQ) || decide (DetectAddressCmp ag ag2 = ADDRESS_EB))))
    l

/-- Step 0 of `DetectAddressMergeNot` for one family: when the `gh` list is
empty and the `ghn` list is not, set up the full range given by `s`. -/
def mergeNotSeed (E : Extern) (n : Nat) (gh : DetectAddressHead)
    (ghl ghnl : List DetectAddress) (s : List Char) : Run (Int × DetectAddressHead) :=
  if ghl = [] ∧ ghnl ≠ [] then DetectAddressSetup E n gh s else Run.done (0, gh)

/-- `DetectAddressMergeNot`: merge the positive head `gh` and the negated head
`ghn`. The result is the return code and the head `gh` after the call. -/
def DetectAddressMergeNot (E : Extern) (n : Nat) (gh ghn : DetectAddressHead) :
    Run (Int × DetectAddressHead) :=
  if DetectAddressIsCompleteIPSpace ghn then Run.done (-1, gh)
  else
    match mergeNotSeed E n gh gh.ipv4_head ghn.ipv4_head textZero4 with
    | Run.done (r0, gh0) =>
      if r0 < 0 then Run.done (-1, gh0)
      else
        match mergeNotSeed E n gh0 gh0.ipv6_head ghn.ipv6_head textZero6 with
        | Run.done (r1, gh1) =>
          if r1 < 0 then Run.done (-1, gh1)
          else
            match mergeNotInsert n gh1 ghn.ipv4_head with
            | Run.done (r2, gh2) =>
              if r2 < 0 then Run.done (-1, gh2)
              else
                match mergeNotInsert n gh2 ghn.ipv6_head with
                | Run.done (r3, gh3) =>
                  if r3 < 0 then Run.done (-1, gh3)
                  else
                    let gh4 := { gh3 with
                      ipv4_head := mergeNotPull ghn.ipv4_head gh3.ipv4_head,
                      ipv6_head := mergeNotPull ghn.ipv6_head gh3.ipv6_head }
                    if gh4.ipv4_head = [] ∧ gh4.ipv6_head = [] then Run.done (-1, gh4)
                    else Run.done (0, gh4)
                | Run.bug => Run.bug
                | Run.fuel => Run.fuel
            | Run.bug => Run.bug
            | Run.fuel => Run.fuel
        | Run.bug => Run.bug
        | Run.fuel => Run.fuel
    | Run.bug => Run.bug
    | Run.fuel => Run.fuel

/-- `DetectAddressParse`: parse the expression `str` into `gh` with a fresh
negated head, then merge the negations. The result is the return code and the
head `gh` after the call. -/
def DetectAddressParse (E : Extern) (n : Nat) (gh : DetectAddressHead) (str : List Char) :
    Run (Int × DetectAddressHead) :=
  match DetectAddressParse2 E n gh DetectAddressHeadInit str false with
  | Run.done (r, gh1, ghn1) =>
    if r < 0 then Run.done (-1, gh1)
    else
      match DetectAddressMergeNot E n gh1 ghn1 with
      | Run.done (r2, gh2) => if r2 < 0 then Run.done (-1, gh2) else Run.done (0, gh2)
      | Run.bug => Run.bug
      | Run.fuel => Run.fuel
  | Run.bug => Run.bug
  | Run.fuel => Run.fuel

/-! ## Reference models of the external functions

Used to run the parser on concrete texts. -/

/-- Split a text at every occurrence of `c`. -/
def splitAll (c : Char) : List Char → List (List Char)
  | [] => [[]]
  | d :: ds =>
    match splitAll c ds with
    | [] => [[]]
    | w :: ws => if d = c then [] :: w :: ws else (d :: w) :: ws

/-- Value of a run of decimal digits. -/
def decValue (w : List Char) : Nat := w.foldl (fun acc d => acc * 10 + (d.toNat - 48)) 0

/-- A decimal octet of a dotted quad: one to three digits, no leading zero,
at most 255. -/
def octet (w : List Char) : Option Nat :=
  if w ≠ [] ∧ w.length ≤ 3 ∧ w.all Char.isDigit ∧ (w.length = 1 ∨ w.head? ≠ some '0')
      ∧ decValue w ≤ 255 then some (decValue w)
  else none

/-- Model of `inet_pton (AF_INET, ...)`: four decimal octets separated by
dots, as the host-order number. -/
def inet_pton4_model (s : List Char) : Option Nat :=
  match (splitAll '.' s).map octet with
  | [some a, some b, some c, some d] => some (((a * 256 + b) * 256 + c) * 256 + d)
  | _ => none

/-- Value of a hexadecimal digit. -/
def hexDigit (c : Char) : Option Nat :=
  if c.isDigit then some (c.toNat - 48)
  else if 'a'.toNat ≤ c.toNat ∧ c.toNat ≤ 'f'.toNat then some (c.toNat - 87)
  else if 'A'.toNat ≤ c.toNat ∧ c.toNat ≤ 'F'.toNat then some (c.toNat - 55)
  else none

/-- A group of an IPv6 text: one to four hexadecimal digits. -/
def hexGroup (w : List Char) : Option Nat :=
  if w = [] ∨ w.length > 4 then none
  else w.foldl (fun acc c => match acc, hexDigit c with
    | some a, some d => some (a * 16 + d)
    | _, _ => none) (some 0)

/-- All groups of a list, `none` when one of them is malformed. -/
def hexGroups : List (List Char) → Option (List Nat)
  | [] => some []
  | w :: ws =>
    match hexGroup w, hexGroups ws with
    | some v, some vs => some (v :: vs)
    | _, _ => none

/-- The text before the first `::` and the text after it. -/
def splitDouble : List Char → Option (List Char × List Char)
  | [] => none
  | [_] => none
  | a :: b :: cs =>
    if a = ':' ∧ b = ':' then some ([], cs)
    else match splitDouble (b :: cs) with
      | none => none
      | some (l, r) => some (a :: l, r)

/-- Model of `inet_pton (AF_INET6, ...)` for texts of hexadecimal groups with
at most one `::` (no embedded dotted quad), as the 128-bit number. -/
def inet_pton6_model (s : List Char) : Option Nat :=
  let groups (t : List Char) : Option (List Nat) :=
    if t = [] then some [] else hexGroups (splitAll ':' t)
  match splitDouble s with
  | some (l, r) =>
    match groups l, groups r with
    | some gl, some gr =>
      if gl.length + gr.length ≤ 7 then
        some ((gl ++ List.replicate (8 - (gl.length + gr.length)) 0 ++ gr).foldl
          (fun acc g => acc * 65536 + g) 0)
      else none
    | _, _ => none
  | none =>
    match groups s with
    | some g => if g.length = 8 then some (g.foldl (fun acc x => acc * 65536 + x) 0) else none
    | none => none

/-- Model of `atoi`: optional blanks, an optional sign, then decimal digits up
to the first other character (no overflow handling). -/
def atoi_model (s : List Char) : Int :=
  let t := s.dropWhile (fun c => c = ' ' ∨ c = '\t' ∨ c = '\n')
  match t with
  | '-' :: ds => - (decValue (ds.takeWhile Char.isDigit) : Int)
  | '+' :: ds => (decValue (ds.takeWhile Char.isDigit) : Int)
  | ds => (decValue (ds.takeWhile Char.isDigit) : Int)

/-- The external functions as modelled above, with an empty variable table. -/
def stdExtern : Extern :=
  { inet_pton4 := inet_pton4_model, inet_pton6 := inet_pton6_model, atoi := atoi_model,
    SCRuleVarsGetConfVar := fun _ => none }

/-! ## Predicates used by the statements -/

/-- The address value `A` lies in the range of `d`. -/
def inRange (d : DetectAddress) (A : Nat) : Prop := d.ip ≤ A ∧ A ≤ d.ip2

instance (d : DetectAddress) (A : Nat) : Decidable (inRange d A) :=
  inferInstanceAs (Decidable (d.ip ≤ A ∧ A ≤ d.ip2))

/-- The address value `A` lies in the optional record `c`. -/
def inRangeOpt (c : Option DetectAddress) (A : Nat) : Prop := ∃ d, c = some d ∧ inRange d A

/-- A range of its family: `lo <= hi` and `hi` within the family's space. -/
def validRange (d : DetectAddress) : Prop := d.ip ≤ d.ip2 ∧ d.ip2 ≤ addrMax d.family

instance (d : DetectAddress) : Decidable (validRange d) :=
  inferInstanceAs (Decidable (d.ip ≤ d.ip2 ∧ d.ip2 ≤ addrMax d.family))

/-- The defining condition of each relation as the specification words it
(4.3); `ADDRESS_ER` has none for two ranges of one family. -/
def relHolds : AddressRel → DetectAddress → DetectAddress → Prop
  | ADDRESS_EQ, a, b => a.ip = b.ip ∧ a.ip2 = b.ip2
  | ADDRESS_LT, a, b => a.ip2 < b.ip
  | ADDRESS_GT, a, b => a.ip > b.ip2
  | ADDRESS_ES, a, b => a.ip ≥ b.ip ∧ a.ip2 ≤ b.ip2 ∧ ¬ (a.ip = b.ip ∧ a.ip2 = b.ip2)
  | ADDRESS_EB, a, b => b.ip ≥ a.ip ∧ b.ip2 ≤ a.ip2 ∧ ¬ (a.ip = b.ip ∧ a.ip2 = b.ip2)
  | ADDRESS_LE, a, b => a.ip < b.ip ∧ b.ip ≤ a.ip2 ∧ a.ip2 < b.ip2
  | ADDRESS_GE, a, b => b.ip < a.ip ∧ a.ip ≤ b.ip2 ∧ b.ip2 < a.ip2
  | ADDRESS_ER, _, _ => False

/-- A record built for the examples: an IPv4 range. -/
def mkV4 (lo hi : Nat) : DetectAddress :=
  { DetectAddressInit with family := AF_INET, ip := lo, ip2 := hi, cnt := 1 }

/-- A record built for the examples: an IPv6 range. -/
def mkV6 (lo hi : Nat) : DetectAddress :=
  { DetectAddressInit with family := AF_INET6, ip := lo, ip2 := hi, cnt := 1 }

/-! ## Reference function and predicates for sorted lists -/

/-- Closed form of what `DetectAddressInsert` leaves of a sorted list when the
record `x` is inserted: the scan of the loop, with the pieces of a cut put in
place (the lower piece stays where `cur` was, the re-inserted pieces follow).
It is proved equal to the result of `DetectAddressInsert` on sorted lists
(`DetectAddressInsert_eq_insertSorted`). -/
def insertSorted : List DetectAddress → DetectAddress → List DetectAddress
  | [], x => [x]
  | cur :: rest, x =>
    match DetectAddressCmp x cur with
    | ADDRESS_EQ => { cur with cnt := cur.cnt + x.cnt } :: rest
    | ADDRESS_GT => cur :: insertSorted rest x
    | ADDRESS_LT => x :: cur :: rest
    | ADDRESS_ER => cur :: rest
    | _ =>
      match DetectAddressCut cur x with
      | none => cur :: rest
      | some (cur1, x1, none) => cur1 :: insertSorted rest x1
      | some (cur1, x1, some c) => cur1 :: x1 :: insertSorted rest c

/-- A list of ranges of family `f` that is sorted and disjoint from the lower
bound `lb` on: every record has family `f` and `lo <= hi <= max`, the first
`lo` is at least `lb`, and each next `lo` is above the previous `hi`. -/
def SortedRanges (f : Nat) : Nat → List DetectAddress → Prop
  | _, [] => True
  | lb, d :: ds =>
    d.family = f ∧ lb ≤ d.ip ∧ d.ip ≤ d.ip2 ∧ d.ip2 ≤ addrMax f ∧ SortedRanges f (d.ip2 + 1) ds

/-- Some record of the list holds the address value `A`. -/
def covered (l : List DetectAddress) (A : Nat) : Prop := ∃ d ∈ l, inRange d A

/-- The value `v` is a cut point of the list: the low end of a record or the
value after a high end. -/
def cutPoint (l : List DetectAddress) (v : Nat) : Prop := ∃ d ∈ l, v = d.ip ∨ v = d.ip2 + 1

/-- The `(lo, hi)` pairs of a list, in order. -/
def rangesOf (l : List DetectAddress) : List (Nat × Nat) := l.map (fun d => (d.ip, d.ip2))

/-- Every adjacent pair `p, q` of the list satisfies `p.hi < q.lo`. -/
def AdjacentSorted (l : List DetectAddress) : Prop := List.Chain' (fun p q => p.ip2 < q.ip) l

/-- Every record before another one in the list lies entirely below it. -/
def PairwiseDisjoint (l : List DetectAddress) : Prop := List.Pairwise (fun p q => p.ip2 < q.ip) l

/-- What the pieces of a cut of `a` and `b` satisfy. -/
structure CutFacts (a b a1 b1 : DetectAddress) (c : Option DetectAddress) : Prop where
  fam_a : a1.family = a.family
  fam_b : b1.family = b.family
  any_b : b1.flag_any = b.flag_any
  any_a : a1.flag_any = a.flag_any
  lo_a : a1.ip ≤ a.ip ∧ a1.ip ≤ b.ip ∧ (a1.ip = a.ip ∨ a1.ip = b.ip)
  order : a1.ip ≤ a1.ip2 ∧ a1.ip2 < b1.ip ∧ b1.ip ≤ b1.ip2 ∧ b.ip ≤ b1.ip ∧ a1.ip2 ≤ a.ip2
  hi_b : b1.ip2 ≤ a.ip2 ∨ b1.ip2 ≤ b.ip2
  two : c = none → a.ip2 ≤ b1.ip2 ∧ b.ip2 ≤ b1.ip2
  three : ∀ c1, c = some c1 → c1.family = a.family ∧ c1.flag_any = false ∧ b1.ip2 < c1.ip ∧
    c1.ip ≤ c1.ip2 ∧ a.ip2 ≤ c1.ip2 ∧ b.ip2 ≤ c1.ip2 ∧ (c1.ip2 = a.ip2 ∨ c1.ip2 = b.ip2) ∧
    b1.ip2 ≤ a.ip2
  cover : ∀ A, (inRange a1 A ∨ inRange b1 A ∨ inRangeOpt c A) ↔ (inRange a A ∨ inRange b A)
  points : ∀ v, (v = a1.ip ∨ v = a1.ip2 + 1 ∨ v = b1.ip ∨ v = b1.ip2 + 1 ∨
      (∃ c1, c = some c1 ∧ (v = c1.ip ∨ v = c1.ip2 + 1))) ↔
    (v = a.ip ∨ v = a.ip2 + 1 ∨ v = b.ip ∨ v = b.ip2 + 1)

/-- A record that `DetectAddressInsert` files under a family list: its family
is IPv4 or IPv6 and it does not carry the ANY flag. -/
def FamilyRecord (x : DetectAddress) : Prop :=
  (x.family = AF_INET ∨ x.family = AF_INET6) ∧ x.flag_any = false

instance (x : DetectAddress) : Decidable (FamilyRecord x) :=
  inferInstanceAs (Decidable ((x.family = AF_INET ∨ x.family = AF_INET6) ∧ x.flag_any = false))

/-- Every record of the list is a range of family `f`: it has that family,
`lo <= hi` and `hi` inside the family's space. -/
def FamilyList (f : Nat) (l : List DetectAddress) : Prop :=
  ∀ d ∈ l, d.family = f ∧ d.ip ≤ d.ip2 ∧ d.ip2 ≤ addrMax f

instance (f : Nat) (l : List DetectAddress) : Decidable (FamilyList f l) :=
  inferInstanceAs (Decidable (∀ d ∈ l, d.family = f ∧ d.ip ≤ d.ip2 ∧ d.ip2 ≤ addrMax f))

/-- The list is sorted by `lo`. -/
def SortedByLo (l : List DetectAddress) : Prop := List.Pairwise (fun p q => p.ip < q.ip) l

/-- The set head is well formed: the IPv4 list holds IPv4 ranges, the IPv6 list
holds IPv6 ranges, and in both every adjacent pair `p, q` has `p.hi < q.lo`. -/
def WfHead (gh : DetectAddressHead) : Prop :=
  FamilyList AF_INET gh.ipv4_head ∧ AdjacentSorted gh.ipv4_head ∧
  FamilyList AF_INET6 gh.ipv6_head ∧ AdjacentSorted gh.ipv6_head


/-- Insert the records of a list one after the other into a head with
`DetectAddressInsert` (the return codes are not looked at, as in the unit tests
that only check for an error). -/
def insertAll (n : Nat) : DetectAddressHead → List DetectAddress → Run DetectAddressHead
  | gh, [] => Run.done gh
  | gh, x :: xs =>
    match DetectAddressInsert n gh x with
    | Run.done (_, gh1) => insertAll n gh1 xs
    | Run.bug => Run.bug
    | Run.fuel => Run.fuel

/-- The list `l` is a sorted list of ranges of family `f` that covers exactly
the addresses of the ranges in `s` and is cut exactly at the ends of the ranges
in `s`. -/
def Arrangement (f : Nat) (l s : List DetectAddress) : Prop :=
  SortedRanges f 0 l ∧ (∀ A, covered l A ↔ covered s A) ∧ (∀ v, cutPoint l v ↔ cutPoint s v)

/-- The low ends of a list followed by the value after its last high end. -/
def boundaryList : List DetectAddress → List Nat
  | [] => []
  | [d] => [d.ip, d.ip2 + 1]
  | d :: e :: l => d.ip :: boundaryList (e :: l)

/-- The ends of the ranges of a list: each low end and the value after each high
end. -/
def endPoints : List DetectAddress → List Nat
  | [] => []
  | x :: xs => x.ip :: (x.ip2 + 1) :: endPoints xs

/-- The range 10.10.10.10-10.10.11.1 of `AddressTestAddressGroupSetup11`. -/
def testRange : DetectAddress := mkV4 168430090 168430337

/-- The range 10.10.10.0/24 of `AddressTestAddressGroupSetup11`. -/
def testNet24 : DetectAddress := mkV4 168430080 168430335

/-- The range 0.0.0.0/0 of `AddressTestAddressGroupSetup11`. -/
def testNet0 : DetectAddress := mkV4 0 4294967295

/-- The five ranges 0.0.0.0-10.10.9.255, 10.10.10.0-10.10.10.9,
10.10.10.10-10.10.10.255, 10.10.11.0-10.10.11.1, 10.10.11.2-255.255.255.255. -/
def testFive : List (Nat × Nat) :=
  [(0, 168430079), (168430080, 168430089), (168430090, 168430335),
   (168430336, 168430337), (168430338, 4294967295)]

/-- The record that `DetectAddressParseSingle` returns for `any`. -/
def anyRecord : DetectAddress := { DetectAddressInit with flag_any := true }

/-- The invariant of the heads the parser builds: both family lists are well
formed, the wildcard list only holds records with the ANY flag and the family
lists hold none. -/
def HeadInv (gh : DetectAddressHead) : Prop :=
  WfHead gh ∧ (∀ d ∈ gh.any_head, d.flag_any = true) ∧
  (∀ d ∈ gh.ipv4_head, d.flag_any = false) ∧ (∀ d ∈ gh.ipv6_head, d.flag_any = false)

/-- The head `g1` covers at least what `g` covers, in both families. -/
def Grows (g g1 : DetectAddressHead) : Prop :=
  (∀ A, covered g.ipv4_head A → covered g1.ipv4_head A) ∧
  (∀ A, covered g.ipv6_head A → covered g1.ipv6_head A) ∧
  (g.any_head ≠ [] → g1.any_head ≠ [])

/-- Some range of the list of the address's family holds the address. -/
def headCovers (gh : DetectAddressHead) (A : Address) : Prop :=
  (A.family = AF_INET ∧ covered gh.ipv4_head A.addr) ∨
  (A.family = AF_INET6 ∧ covered gh.ipv6_head A.addr)

/-- How `DetectAddressSetup` ends for `any` on a head without a wildcard record:
with `-1` when one of the texts `0.0.0.0/0` and `::/0` does not parse, with `0`
and both parsed ranges covered otherwise. -/
def AnyOutcome (E : Extern) (r : Int) (gh1 : DetectAddressHead) : Prop :=
  (r = -1 ∧ (DetectAddressParseSingle E textZero4 = none ∨
    DetectAddressParseSingle E textZero6 = none)) ∨
  (r = 0 ∧ ∃ a4 a6, DetectAddressParseSingle E textZero4 = some a4 ∧
    DetectAddressParseSingle E textZero6 = some a6 ∧
    (∀ A, inRange a4 A → covered gh1.ipv4_head A) ∧
    (∀ A, inRange a6 A → covered gh1.ipv6_head A))

/-- The head `g1` covers at least what `g` covers and has at least its cut
points, in both families. -/
def Refines (g g1 : DetectAddressHead) : Prop :=
  Grows g g1 ∧ (∀ v, cutPoint g.ipv4_head v → cutPoint g1.ipv4_head v) ∧
  (∀ v, cutPoint g.ipv6_head v → cutPoint g1.ipv6_head v)

/-- The expression `[1.0.0.0/8,![1.1.1.1,[1.2.1.1,1.3.1.1]],2001::/16]`: the one
of `AddressTestAddressGroupSetup34` with an IPv6 range added. -/
def testExpr34 : List Char :=
  ['[', '1', '.', '0', '.', '0', '.', '0', '/', '8', ',', '!', '[', '1', '.', '1', '.', '1',
   '.', '1', ',', '[', '1', '.', '2', '.', '1', '.', '1', ',', '1', '.', '3', '.', '1', '.',
   '1', ']', ']', ',', '2', '0', '0', '1', ':', ':', '/', '1', '6', ']']

/-- The head that `DetectAddressParse` builds for `testExpr34`: the IPv4 ranges
1.0.0.0-1.1.1.0, 1.1.1.2-1.2.1.0, 1.2.1.2-1.3.1.0, 1.3.1.2-1.255.255.255 that
`AddressTestAddressGroupSetup34` expects, and the range `2001::/16`. -/
def testHead34 : DetectAddressHead :=
  { any_head := [],
    ipv4_head := [{ mkV4 16777216 16843008 with cnt := 0 }, { mkV4 16843010 16908544 with cnt := 0 },
      { mkV4 16908546 16974080 with cnt := 0 }, { mkV4 16974082 33554431 with cnt := 0 }],
    ipv6_head := [{ mkV6 42540488161975842760550356425300246528
      42545680458834377588178886921629466623 with cnt := 0 }] }

/-! ## Expressions and the walk of the parser over their text -/

/-- Continue after a call inside `DetectAddressParse2`: a negative return code
ends the walk with `-1`, otherwise the walk goes on with the heads the call
left. -/
def Run.andThen (res : Run (Int × DetectAddressHead × DetectAddressHead))
    (k : DetectAddressHead → DetectAddressHead →
      Run (Int × DetectAddressHead × DetectAddressHead)) :
    Run (Int × DetectAddressHead × DetectAddressHead) :=
  match res with
  | Run.done (r, g, gn) => if r < 0 then Run.done (-1, g, gn) else k g gn
  | Run.bug => Run.bug
  | Run.fuel => Run.fuel

mutual
/-- The address expressions of the grammar (4.5): an atom, a variable
`$name`, a negation `!expr` and a bracketed list. -/
inductive Expr where
  | atom (text : List Char)
  | var (name : List Char)
  | neg (e : Expr)
  | group (es : ExprList)
/-- The non-empty comma-separated lists of the grammar. -/
inductive ExprList where
  | single (e : Expr)
  | cons (e : Expr) (es : ExprList)
end

mutual
/-- The text of an expression. -/
def render : Expr → List Char
  | Expr.atom a => a
  | Expr.var v => '$' :: v
  | Expr.neg e => '!' :: render e
  | Expr.group es => '[' :: (renderList es ++ [']'])
/-- The text of a list: the items separated by commas. -/
def renderList : ExprList → List Char
  | ExprList.single e => render e
  | ExprList.cons e es => render e ++ ',' :: renderList es
end

/-- The characters with a meaning for `DetectAddressParse2`. -/
def specialChar (c : Char) : Bool :=
  c == '!' || c == '[' || c == ']' || c == ',' || c == '$'

/-- A text that can stand as an atom or as a variable name: not empty and
without a character of the expression syntax. -/
def plainText (w : List Char) : Prop := w ≠ [] ∧ ∀ c ∈ w, specialChar c = false

mutual
/-- Every atom and every variable name of the expression is a plain text. -/
def WfExpr : Expr → Prop
  | Expr.atom a => plainText a
  | Expr.var v => plainText v
  | Expr.neg e => WfExpr e
  | Expr.group es => WfList es
/-- Every atom and every variable name of the list is a plain text. -/
def WfList : ExprList → Prop
  | ExprList.single e => WfExpr e
  | ExprList.cons e es => WfExpr e ∧ WfList es
end

/-- The walk of `DetectAddressParse2` over the text `w` inside a bracket (depth
at least one): the text is appended to the buffer, or the walk ends with `0` and
unchanged heads when the buffer is full before the end of `w`. -/
def Scans (E : Extern) (n : Nat)
    (rec : DetectAddressHead → DetectAddressHead → List Char → Bool →
      Run (Int × DetectAddressHead × DetectAddressHead))
    (negate : Bool) (w : List Char) : Prop :=
  ∀ (a : List Char) (ns d : Bool) (dep : Int) (gh ghn : DetectAddressHead) (rest : List Char),
    1 ≤ dep → a.length ≤ 1024 →
    Parse2Loop E n rec negate ⟨a, true, ns, d, dep, gh, ghn⟩ (w ++ rest) =
      if a.length + w.length ≤ 1024 then
        Parse2Loop E n rec negate ⟨a ++ w, true, ns, d, dep, gh, ghn⟩ rest
      else Run.done (0, gh, ghn)

/-- What `DetectAddressParse2` does with one item of a list once its text is
read: a leaf is set up, a variable is expanded, a bracketed list is handed to
the recursive call `rec`; `ns` tells whether a `!` was read before the item. -/
def evalItem (E : Extern) (n : Nat)
    (rec : DetectAddressHead → DetectAddressHead → List Char → Bool →
      Run (Int × DetectAddressHead × DetectAddressHead))
    (negate : Bool) : Expr → Bool → DetectAddressHead → DetectAddressHead →
    Run (Int × DetectAddressHead × DetectAddressHead)
  | Expr.atom a, ns, gh, ghn => parseLeaf E n negate ⟨[], false, ns, false, 0, gh, ghn⟩ a
  | Expr.var v, ns, gh, ghn => parseVar E rec negate ⟨[], false, ns, true, 0, gh, ghn⟩ ('$' :: v)
  | Expr.neg e, _, gh, ghn => evalItem E n rec negate e true gh ghn
  | Expr.group es, ns, gh, ghn => rec gh ghn (renderList es) (negate || ns)

/-- What `DetectAddressParse2` does with the items of a list, one after the
other. -/
def evalItems (E : Extern) (n : Nat)
    (rec : DetectAddressHead → DetectAddressHead → List Char → Bool →
      Run (Int × DetectAddressHead × DetectAddressHead))
    (negate : Bool) : ExprList → DetectAddressHead → DetectAddressHead →
    Run (Int × DetectAddressHead × DetectAddressHead)
  | ExprList.single e, gh, ghn =>
    (evalItem E n rec negate e false gh ghn).andThen (fun g gn => Run.done (0, g, gn))
  | ExprList.cons e es, gh, ghn =>
    (evalItem E n rec negate e false gh ghn).andThen
      (fun g gn => evalItems E n rec negate es g gn)

/-- The last item of a text fits the buffer of 1024 characters of
`DetectAddressParse2`: an atom or a variable name of at most 1024 characters, a
bracketed list of at most 1023. -/
def fitsBuffer : Expr → Bool
  | Expr.atom a => decide (a.length ≤ 1024)
  | Expr.var v => decide (v.length + 1 ≤ 1024)
  | Expr.neg e => fitsBuffer e
  | Expr.group es => decide ((renderList es).length ≤ 1023)

/-- What is assumed of the C library for the texts `0.0.0.0/0` and `::/0` that
the code itself hands to the parser: `inet_pton` accepts `0.0.0.0` and `::`,
and `atoi` of `0` is 0. -/
def SaneExtern (E : Extern) : Prop :=
  E.atoi ['0'] = 0 ∧ (E.inet_pton4 ['0', '.', '0', '.', '0', '.', '0']).isSome = true ∧
  (E.inet_pton6 [':', ':']).isSome = true

/-- The text of a host address: a plain text that is not `any` and has none of
the characters `:`, `/` and `-`. -/
def hostText (w : List Char) : Prop :=
  plainText w ∧ isAny w = false ∧ ':' ∉ w ∧ '/' ∉ w ∧ '-' ∉ w

/-- The record of the whole IPv4 space, as `DetectAddressParseSingle` returns
it for `0.0.0.0/0`. -/
def fullV4 : DetectAddress :=
  { DetectAddressInit with family := AF_INET, ip := 0, ip2 := 2 ^ 32 - 1 }

/-- The record of the whole IPv6 space, as `DetectAddressParseSingle` returns
it for `::/0`. -/
def fullV6 : DetectAddress :=
  { DetectAddressInit with family := AF_INET6, ip := 0, ip2 := 2 ^ 128 - 1 }

/-- The record of the IPv4 host with value `h`, as `DetectAddressParseSingle`
returns it. -/
def hostV4 (h : Nat) : DetectAddress :=
  { DetectAddressInit with family := AF_INET, ip := h, ip2 := h }

mutual
/-- The leaf atoms of an expression, each with the mark whether it lies under a
negation; the first argument of the walk tells whether the expression itself
does. The text of a variable is not looked into. -/
def leaves : Expr → Bool → List (List Char × Bool)
  | Expr.atom a, b => [(a, b)]
  | Expr.var _, _ => []
  | Expr.neg e, _ => leaves e true
  | Expr.group es, b => leavesList es b
/-- The leaf atoms of the items of a list. -/
def leavesList : ExprList → Bool → List (List Char × Bool)
  | ExprList.single e, b => leaves e b
  | ExprList.cons e es, b => leaves e b ++ leavesList es b
end

/-- No text of the variable table has a `!`. -/
def PositiveTable (E : Extern) : Prop :=
  ∀ name t, E.SCRuleVarsGetConfVar name = some t → '!' ∉ t

mutual
/-- Every variable of the expression lies under no negation, and when there is
a variable no text of the variable table has a `!`: the variables add nothing
to the negated head. The second argument tells whether the expression itself
lies under a negation. -/
def VarsPlain (E : Extern) : Expr → Bool → Prop
  | Expr.atom _, _ => True
  | Expr.var _, b => b = false ∧ PositiveTable E
  | Expr.neg e, _ => VarsPlain E e true
  | Expr.group es, b => VarsPlainList E es b
/-- The condition `VarsPlain` for every item of a list. -/
def VarsPlainList (E : Extern) : ExprList → Bool → Prop
  | ExprList.single e, b => VarsPlain E e b
  | ExprList.cons e es, b => VarsPlain E e b ∧ VarsPlainList E es b
end

/-- An address of one of the two families, within the family's space. -/
def validAddress (A : Address) : Prop :=
  (A.family = AF_INET ∧ A.addr < 2 ^ 32) ∨ (A.family = AF_INET6 ∧ A.addr < 2 ^ 128)

/-- The address `A` is contained in the atom with text `a`: the text parses
into a range of the family of `A` that holds it, or into `any`. -/
def atomHolds (E : Extern) (a : List Char) (A : Address) : Prop :=
  validAddress A ∧ ∃ ad, DetectAddressParseSingle E a = some ad ∧
    (ad.flag_any = true ∨ (ad.family = A.family ∧ inRange ad A.addr))

/-- A head with a wildcard record covers both address spaces. -/
def AnyInv (gh : DetectAddressHead) : Prop :=
  gh.any_head ≠ [] →
    (∀ A, A < 2 ^ 32 → covered gh.ipv4_head A) ∧ (∀ A, A < 2 ^ 128 → covered gh.ipv6_head A)

/-- The invariant of the two heads during `DetectAddressParse2`. -/
def ParseInv (gh : DetectAddressHead) : Prop := HeadInv gh ∧ AnyInv gh

/-- What a successful walk over leaves `ls` from the heads `gh`, `ghn` to the
heads `g`, `gn` has done: both heads keep the invariant and grow, and every leaf
is covered by the head of its side. -/
def Sem (E : Extern) (ls : List (List Char × Bool)) (gh ghn g gn : DetectAddressHead) : Prop :=
  ParseInv g ∧ ParseInv gn ∧ Grows gh g ∧ Grows ghn gn ∧
  ∀ a b, (a, b) ∈ ls → ∀ A, atomHolds E a A → headCovers (if b then gn else g) A

/-- What the negated head `gn` covers after a walk over the leaves `ls` was
covered by `ghn` before or lies in a negated leaf. -/
def Exact (E : Extern) (ls : List (List Char × Bool)) (ghn gn : DetectAddressHead) : Prop :=
  ∀ A, headCovers gn A → headCovers ghn A ∨ ∃ a, (a, true) ∈ ls ∧ atomHolds E a A

/-- `DetectAddressLookupInHead` with its null check: `none` as head is `NULL`,
for which the function returns `NULL`. -/
def DetectAddressLookupInHeadPtr (gh : Option DetectAddressHead) (a : Address) :
    Option DetectAddress :=
  match gh with
  | none => none
  | some g => DetectAddressLookupInHead g a

/-- The list of a head that holds the ranges of the family of the address `a`
(IPv4 or IPv6). -/
def familyListOf (gh : DetectAddressHead) (a : Address) : List DetectAddress :=
  if a.family = AF_INET then gh.ipv4_head else gh.ipv6_head

/-- The IPv4 record with the range `lo .. hi`, as `DetectAddressParseSingle`
builds it. -/
def rangeV4 (lo hi : Nat) : DetectAddress :=
  { DetectAddressInit with family := AF_INET, ip := lo, ip2 := hi }

/-- The IPv6 record with the range `lo .. hi`, as `DetectAddressParseSingle`
builds it. -/
def rangeV6 (lo hi : Nat) : DetectAddress :=
  { DetectAddressInit with family := AF_INET6, ip := lo, ip2 := hi }

/-- The text of an address inside an atom: it does not start with `!` and has
no `/` and no `-`. -/
def addrText (a : List Char) : Prop := a.head? ≠ some '!' ∧ '/' ∉ a ∧ '-' ∉ a

/-- A contiguous 32-bit mask: a run of one bits followed only by zero bits. -/
def contiguousMask (M : Nat) : Prop := ∃ n, n ≤ 32 ∧ M = 2 ^ 32 - 2 ^ (32 - n)

instance (M : Nat) : Decidable (contiguousMask M) :=
  inferInstanceAs (Decidable (∃ n, n ≤ 32 ∧ M = 2 ^ 32 - 2 ^ (32 - n)))

/-- The text `1.2.3.4` of the parser tests. -/
def text1234 : List Char := ['1', '.', '2', '.', '3', '.', '4']

/-- The text `24`. -/
def text24 : List Char := ['2', '4']

/-- The text `255.255.255.0`. -/
def textMask24 : List Char :=
  ['2', '5', '5', '.', '2', '5', '5', '.', '2', '5', '5', '.', '0']

/-- The text `2001::1`. -/
def text2001 : List Char := ['2', '0', '0', '1', ':', ':', '1']

/-- The text `16`. -/
def text16 : List Char := ['1', '6']

/-- The text `1.2.3.6`. -/
def text1236 : List Char := ['1', '.', '2', '.', '3', '.', '6']

/-- The text `33` of `AddressTestParseInvalidMask01`. -/
def text33 : List Char := ['3', '3']

/-- The text `-1`. -/
def textMinus1 : List Char := ['-', '1']

/-- The text `255.0.255.0` of a mask that is not contiguous. -/
def textMaskGap : List Char := ['2', '5', '5', '.', '0', '.', '2', '5', '5', '.', '0']

/-- The text `2001::4`. -/
def text2001_4 : List Char := ['2', '0', '0', '1', ':', ':', '4']

/-- Set one leaf up in the head of its side: in the negated head `ghn` when the
mark `b` is set, in the positive head `gh` otherwise. -/
def setupSide (E : Extern) (n : Nat) (b : Bool) (gh ghn : DetectAddressHead) (a : List Char) :
    Run (Int × DetectAddressHead × DetectAddressHead) :=
  if b then
    match DetectAddressSetup E n ghn a with
    | Run.done (r, ghn1) => Run.done (r, gh, ghn1)
    | Run.bug => Run.bug
    | Run.fuel => Run.fuel
  else
    match DetectAddressSetup E n gh a with
    | Run.done (r, gh1) => Run.done (r, gh1, ghn)
    | Run.bug => Run.bug
    | Run.fuel => Run.fuel

/-- Set the leaves of a list up one after the other, each in the head of its
side; the first error ends the walk with `-1`. -/
def setupLeaves (E : Extern) (n : Nat) : List (List Char × Bool) → DetectAddressHead →
    DetectAddressHead → Run (Int × DetectAddressHead × DetectAddressHead)
  | [], gh, ghn => Run.done (0, gh, ghn)
  | (a, b) :: ls, gh, ghn =>
    (setupSide E n b gh ghn a).andThen (fun g gn => setupLeaves E n ls g gn)

mutual
/-- The expression has no variable. -/
def NoVars : Expr → Prop
  | Expr.atom _ => True
  | Expr.var _ => False
  | Expr.neg e => NoVars e
  | Expr.group es => NoVarsList es
/-- The list has no variable. -/
def NoVarsList : ExprList → Prop
  | ExprList.single e => NoVars e
  | ExprList.cons e es => NoVars e ∧ NoVarsList es
end

mutual
/-- The nesting of the brackets of an expression. -/
def nesting : Expr → Nat
  | Expr.atom _ => 0
  | Expr.var _ => 0
  | Expr.neg e => nesting e
  | Expr.group es => nestingList es + 1
/-- The nesting of the brackets of a list. -/
def nestingList : ExprList → Nat
  | ExprList.single e => nesting e
  | ExprList.cons e es => max (nesting e) (nestingList es)
end

/-- The expression `![![a]]`: the atom `a` under two negations. -/
def notNot (a : List Char) : Expr :=
  Expr.neg (Expr.group (ExprList.single
    (Expr.neg (Expr.group (ExprList.single (Expr.atom a))))))

/-- The text `![![1.2.3.4]]`. -/
def textNotNot : List Char :=
  ['!', '[', '!', '[', '1', '.', '2', '.', '3', '.', '4', ']', ']']

/-- The expression `[1.2.3.4,!::/0]`: the negated atom covers the entire IPv6
space. -/
def textNotAll6 : List Char :=
  ['[', '1', '.', '2', '.', '3', '.', '4', ',', '!', ':', ':', '/', '0', ']']

/-- The expression `[::1,!0.0.0.0/0]`: the negated atom covers the entire IPv4
space. -/
def textNotAll4 : List Char :=
  ['[', ':', ':', '1', ',', '!', '0', '.', '0', '.', '0', '.', '0', '/', '0', ']']

/-- The expression `[1.2.3.4,!1.2.3.4]`: the negation takes away the only
address. -/
def textSelfNot : List Char :=
  ['[', '1', '.', '2', '.', '3', '.', '4', ',', '!', '1', '.', '2', '.', '3', '.', '4', ']']

/-- The external functions of `stdExtern` with a variable table that gives the
name `$B` the text `1.2.3.6-1.2.3.4`, a range with reversed ends. -/
def badVarExtern : Extern :=
  { stdExtern with
    SCRuleVarsGetConfVar := fun name =>
      if name = ['$', 'B'] then
        some ['1', '.', '2', '.', '3', '.', '6', '-', '1', '.', '2', '.', '3', '.', '4']
      else none }

/-- The expression `[1.2.3.4,$B]`. -/
def textListVarB : List Char :=
  ['[', '1', '.', '2', '.', '3', '.', '4', ',', '$', 'B', ']']

/-- The invariant under which the model of the parser returns: the invariant of
the heads, and every record of the wildcard list has the family `0` of a fresh
record. -/
def TotalInv (gh : DetectAddressHead) : Prop :=
  HeadInv gh ∧ ∀ d ∈ gh.any_head, d.family = 0

mutual
/-- The expression references a variable for which the variable table has no
entry, alone or as an item of a list. -/
def HasUnknown (E : Extern) : Expr → Prop
  | Expr.atom _ => False
  | Expr.var v => E.SCRuleVarsGetConfVar ('$' :: v) = none
  | Expr.neg e => HasUnknown E e
  | Expr.group es => HasUnknownList E es
/-- Some item of the list references a variable without an entry. -/
def HasUnknownList (E : Extern) : ExprList → Prop
  | ExprList.single e => HasUnknown E e
  | ExprList.cons e es => HasUnknown E e ∨ HasUnknownList E es
end

mutual
/-- No variable of the expression has an entry in the variable table. -/
def AllUnknown (E : Extern) : Expr → Prop
  | Expr.atom _ => True
  | Expr.var v => E.SCRuleVarsGetConfVar ('$' :: v) = none
  | Expr.neg e => AllUnknown E e
  | Expr.group es => AllUnknownList E es
/-- No variable of the list has an entry in the variable table. -/
def AllUnknownList (E : Extern) : ExprList → Prop
  | ExprList.single e => AllUnknown E e
  | ExprList.cons e es => AllUnknown E e ∧ AllUnknownList E es
end

/-- The text `[1.2.3.4]]`: a bracketed list followed by a `]` that closes
nothing. -/
def textSurplusClose : List Char := ['[', '1', '.', '2', '.', '3', '.', '4', ']', ']']

/-- The text `[1.2.3.4`: the bracket is not closed. -/
def textUnclosed : List Char := ['[', '1', '.', '2', '.', '3', '.', '4']

/-- The list that `DetectAddressLookupInHead` scans for the address `a`. -/
def scanList (gh : DetectAddressHead) (a : Address) : List DetectAddress :=
  if a.family = AF_INET then gh.ipv4_head
  else if a.family = AF_INET6 then gh.ipv6_head
  else gh.any_head

/-- The scan of a sorted list that gives up at the first record whose low end
lies above the address: the variant `DetectAddressLookupInHead` is compared
with (the C function scans to the end of the list). -/
def lookupStopEarly (A : Address) : List DetectAddress → Option DetectAddress
  | [] => none
  | d :: ds =>
    if DetectAddressMatch d A = 1 then some d
    else if A.addr < d.ip then none
    else lookupStopEarly A ds

/-- A head with the three IPv4 ranges 5-12, 20-30 and 40-50. -/
def testHeadThree : DetectAddressHead :=
  { any_head := [], ipv4_head := [mkV4 5 12, mkV4 20 30, mkV4 40 50], ipv6_head := [] }

/-- A head with the adjacent IPv4 ranges 1.2.3.0-1.2.3.6 and 1.2.3.7-1.2.3.9,
the two pieces that `AddressTestCutIPv407` expects. -/
def testHeadTwo : DetectAddressHead :=
  { any_head := [],
    ipv4_head := [rangeV4 16909056 16909062, rangeV4 16909063 16909065],
    ipv6_head := [] }

/-- The head left by inserting the wildcard record, the IPv4 range 1-2 and the
wildcard record again into an empty head. -/
def testHeadAnyOne : DetectAddressHead :=
  { any_head := [anyRecord], ipv4_head := [mkV4 1 2], ipv6_head := [] }

/-- A property of records that the use count and the ends of the range do not
touch and that a fresh record has. -/
structure FlagProp (P : DetectAddress → Prop) : Prop where
  cnt : ∀ d k, P d → P { d with cnt := k }
  range : ∀ d lo hi, P d → P { d with ip := lo, ip2 := hi }
  init : ∀ f lo hi, P { DetectAddressInit with family := f, ip := lo, ip2 := hi }

/-- Both family lists of the head hold records with the property only. -/
def FamilyAll (P : DetectAddress → Prop) (gh : DetectAddressHead) : Prop :=
  (∀ d ∈ gh.ipv4_head, P d) ∧ (∀ d ∈ gh.ipv6_head, P d)

/-- The wildcard list holds at most one record, all its records carry the ANY
flag, and the family lists hold no record with the ANY flag. -/
def SingleAny (gh : DetectAddressHead) : Prop :=
  gh.any_head.length ≤ 1 ∧ (∀ d ∈ gh.any_head, d.flag_any = true) ∧
  FamilyAll (fun d => d.flag_any = false) gh

/-- A positive head with the IPv4 range 0-100 and the IPv6 range 0-50. -/
def testMergePos : DetectAddressHead :=
  { any_head := [], ipv4_head := [mkV4 0 100], ipv6_head := [mkV6 0 50] }

/-- A negated head with the IPv4 range 10-20 and the IPv6 range 50-60. -/
def testMergeNeg : DetectAddressHead :=
  { any_head := [], ipv4_head := [mkV4 10 20], ipv6_head := [mkV6 50 60] }

/-- The head `testMergePos` after a copy of the IPv4 record of `testMergeNeg`
is inserted. -/
def testMergeMid : DetectAddressHead :=
  { any_head := [],
    ipv4_head := [mkV4 0 9, mkV4 10 20, { mkV4 21 100 with cnt := 0 }],
    ipv6_head := [mkV6 0 50] }

/-- The head `testMergeMid` after a copy of the IPv6 record of `testMergeNeg`
is inserted. -/
def testMergeCut : DetectAddressHead :=
  { any_head := [],
    ipv4_head := [mkV4 0 9, mkV4 10 20, { mkV4 21 100 with cnt := 0 }],
    ipv6_head := [mkV6 0 49, mkV6 50 50, { mkV6 51 60 with cnt := 0 }] }

/-- The text of the list `L` with an empty list as one more member:
`[L,[]]`. -/
def withEmptyList (L : ExprList) : List Char :=
  '[' :: ((renderList L ++ [',', '[', ']']) ++ [']'])

/-- The text `[1.2.3.4,[]]`. -/
def textHostEmptyList : List Char :=
  ['[', '1', '.', '2', '.', '3', '.', '4', ',', '[', ']', ']']

/-- The text `lo-hi` of the range of a record; `p` writes an address. -/
def printRange (p : Nat → List Char) (d : DetectAddress) : List Char :=
  p d.ip ++ '-' :: p d.ip2

/-- The texts of the ranges of a head: the IPv4 list, then the IPv6 list. -/
def printItems (p4 p6 : Nat → List Char) (g : DetectAddressHead) : List (List Char) :=
  g.ipv4_head.map (printRange p4) ++ g.ipv6_head.map (printRange p6)

/-- Texts joined by commas. -/
def joinComma : List (List Char) → List Char
  | [] => []
  | [a] => a
  | a :: b :: l => a ++ ',' :: joinComma (b :: l)

/-- The ranges of a head written as a bracketed list `[lo-hi,lo-hi,...]`. -/
def printHead (p4 p6 : Nat → List Char) (g : DetectAddressHead) : List Char :=
  '[' :: (joinComma (printItems p4 p6 g) ++ [']'])

/-- The list of the grammar with the atoms `a`, then those of `l`. -/
def atomList (a : List Char) : List (List Char) → ExprList
  | [] => ExprList.single (Expr.atom a)
  | b :: l => ExprList.cons (Expr.atom a) (atomList b l)

/-- The text `t` is an address text that `inet_pton` of the family reads back
as `v`: a plain text without `/` and `-`, with a `:` exactly for IPv6. -/
def readsBack (E : Extern) (f : Nat) (t : List Char) (v : Nat) : Prop :=
  plainText t ∧ '/' ∉ t ∧ '-' ∉ t ∧
  ((f = AF_INET ∧ ':' ∉ t ∧ E.inet_pton4 t = some v) ∨
   (f = AF_INET6 ∧ ':' ∈ t ∧ E.inet_pton6 t = some v))

instance (E : Extern) (f : Nat) (t : List Char) (v : Nat) : Decidable (readsBack E f t v) :=
  inferInstanceAs (Decidable ((t ≠ [] ∧ ∀ c ∈ t, specialChar c = false) ∧ '/' ∉ t ∧ '-' ∉ t ∧
    ((f = AF_INET ∧ ':' ∉ t ∧ E.inet_pton4 t = some v) ∨
     (f = AF_INET6 ∧ ':' ∈ t ∧ E.inet_pton6 t = some v))))

/-- The address texts that `p4` and `p6` write for the ends of the ranges of the
head are read back by `inet_pton` as the values they stand for. -/
def PrintsBack (E : Extern) (p4 p6 : Nat → List Char) (g : DetectAddressHead) : Prop :=
  (∀ d ∈ g.ipv4_head, readsBack E AF_INET (p4 d.ip) d.ip ∧ readsBack E AF_INET (p4 d.ip2) d.ip2) ∧
  (∀ d ∈ g.ipv6_head, readsBack E AF_INET6 (p6 d.ip) d.ip ∧ readsBack E AF_INET6 (p6 d.ip2) d.ip2)

instance (E : Extern) (p4 p6 : Nat → List Char) (g : DetectAddressHead) :
    Decidable (PrintsBack E p4 p6 g) :=
  inferInstanceAs (Decidable (
    (∀ d ∈ g.ipv4_head,
      readsBack E AF_INET (p4 d.ip) d.ip ∧ readsBack E AF_INET (p4 d.ip2) d.ip2) ∧
    (∀ d ∈ g.ipv6_head,
      readsBack E AF_INET6 (p6 d.ip) d.ip ∧ readsBack E AF_INET6 (p6 d.ip2) d.ip2)))

/-- Texts joined by colons. -/
def joinColon : List (List Char) → List Char
  | [] => []
  | [a] => a
  | a :: b :: l => a ++ ':' :: joinColon (b :: l)

/-- Reference model of `inet_ntop (AF_INET, ...)`: the dotted decimal text of a
32-bit value. -/
def inet_ntop4_model (v : Nat) : List Char :=
  Nat.toDigits 10 (v / 2 ^ 24 % 256) ++ '.' :: (Nat.toDigits 10 (v / 2 ^ 16 % 256) ++
    '.' :: (Nat.toDigits 10 (v / 2 ^ 8 % 256) ++ '.' :: Nat.toDigits 10 (v % 256)))

/-- Reference model of `inet_ntop (AF_INET6, ...)` without the `::` shorthand:
the eight groups of a 128-bit value in hexadecimal, separated by colons. -/
def inet_ntop6_model (v : Nat) : List Char :=
  joinColon ((List.range 8).map (fun i => Nat.toDigits 16 (v / 2 ^ (16 * (7 - i)) % 65536)))

/-- The text of the 33 hosts 100.100.100.100, 100.100.100.102, ...,
100.100.100.164, separated by commas. -/
def textManyHosts : List Char :=
  joinComma ((List.range 33).map (fun i => inet_ntop4_model (1684300900 + 2 * i)))

/-- The head that `DetectAddressParse` builds for `textManyHosts`. -/
def headManyHosts : DetectAddressHead :=
  { any_head := [], ipv4_head := (List.range 33).map (fun i => hostV4 (1684300900 + 2 * i)),
    ipv6_head := [] }

/-- An item that is followed by a comma fits the buffer of 1024 characters of
`DetectAddressParse2`: an atom or a variable name (with its `$`) of at most
1023 characters, a bracketed list of at most 1023. -/
def fitsComma : Expr → Bool
  | Expr.atom a => decide (a.length ≤ 1023)
  | Expr.var v => decide (v.length + 1 ≤ 1023)
  | Expr.neg e => fitsComma e
  | Expr.group es => decide ((renderList es).length ≤ 1023)

/-! ## The relational calculus and the cut operators -/

theorem addrMax_cases (f : Nat) : addrMax f = 2 ^ 128 - 1 ∨ addrMax f = 2 ^ 32 - 1 := by
  unfold addrMax; split <;> simp

theorem addrSucc_lt {f v : Nat} (h : v < addrMax f) : addrSucc f v = v + 1 := by
  unfold addrSucc; simp [h]

theorem addressRelation_iff (a b : DetectAddress) (ha : a.ip ≤ a.ip2) (hb : b.ip ≤ b.ip2)
    (r : AddressRel) : addressRelation a b = r ↔ relHolds r a b := by
  unfold addressRelation
  cases r <;> simp only [relHolds] <;> (repeat' split) <;>
    simp only [reduceCtorEq, false_iff, true_iff, iff_false, iff_true, not_false_eq_true,
      not_true_eq_false] <;> omega

/-- C10. For two ranges of one family (IPv4 or IPv6) with `lo <= hi` and
without the ANY flag, `DetectAddressCmp` returns the relation `r` exactly when
the defining condition of `r` holds; in particular it never returns
`ADDRESS_ER`, and since it returns one value the seven conditions are mutually
exclusive and exhaustive. -/
theorem DetectAddressCmp_exact (a b : DetectAddress) (hf : a.family = b.family)
    (hfam : a.family = AF_INET ∨ a.family = AF_INET6)
    (ha : a.ip ≤ a.ip2) (hb : b.ip ≤ b.ip2)
    (hany : a.flag_any = false) (hbny : b.flag_any = false) :
    (∀ r, DetectAddressCmp a b = r ↔ relHolds r a b) ∧
    DetectAddressCmp a b ≠ ADDRESS_ER ∧
    (∃ r, relHolds r a b ∧ ∀ r2, relHolds r2 a b → r2 = r) := by
  have key : DetectAddressCmp a b = addressRelation a b := by
    unfold DetectAddressCmp DetectAddressCmpIPv4 DetectAddressCmpIPv6
    rcases hfam with h | h <;> simp [hf.symm, h, hany, hbny, AF_INET, AF_INET6]
  have hall : ∀ r, DetectAddressCmp a b = r ↔ relHolds r a b := by
    intro r; rw [key]; exact addressRelation_iff a b ha hb r
  refine ⟨hall, ?_, ?_⟩
  · intro h
    exact (hall ADDRESS_ER).1 h
  · refine ⟨DetectAddressCmp a b, (hall _).1 rfl, ?_⟩
    intro r2 h2
    exact ((hall r2).2 h2).symm

/-- Witness for C10 on the ranges of `AddressTestCmpIPv407`
(192.168.1.0/24 against 192.168.1.128-192.168.2.128). -/
theorem DetectAddressCmp_exact_witness :
    (∀ r, DetectAddressCmp (mkV4 3232235776 3232236031) (mkV4 3232235904 3232236160) = r ↔
      relHolds r (mkV4 3232235776 3232236031) (mkV4 3232235904 3232236160)) ∧
    DetectAddressCmp (mkV4 3232235776 3232236031) (mkV4 3232235904 3232236160) ≠ ADDRESS_ER ∧
    (∃ r, relHolds r (mkV4 3232235776 3232236031) (mkV4 3232235904 3232236160) ∧
      ∀ r2, relHolds r2 (mkV4 3232235776 3232236031) (mkV4 3232235904 3232236160) → r2 = r) :=
  DetectAddressCmp_exact (mkV4 3232235776 3232236031) (mkV4 3232235904 3232236160)
    rfl (Or.inl rfl) (by decide) (by decide) rfl rfl

theorem addressCut_sound (a b : DetectAddress)
    (ha : validRange a) (hb : validRange b) (hf : a.family = b.family)
    (hr : addressRelation a b = ADDRESS_ES ∨ addressRelation a b = ADDRESS_EB ∨
      addressRelation a b = ADDRESS_LE ∨ addressRelation a b = ADDRESS_GE) :
    ∃ a1 b1 c, addressCut a b = some (a1, b1, c) ∧
      a1.ip ≤ a1.ip2 ∧ b1.ip ≤ b1.ip2 ∧ a1.ip2 < b1.ip ∧
      (∀ c1, c = some c1 → c1.ip ≤ c1.ip2 ∧ b1.ip2 < c1.ip) ∧
      (∀ A, (inRange a1 A ∨ inRange b1 A ∨ inRangeOpt c A) ↔ (inRange a A ∨ inRange b A)) := by
  obtain ⟨ha1, ha2⟩ := ha
  obtain ⟨hb1, hb2⟩ := hb
  rw [← hf] at hb2
  have hES := addressRelation_iff a b ha1 hb1 ADDRESS_ES
  have hEB := addressRelation_iff a b ha1 hb1 ADDRESS_EB
  have hLE := addressRelation_iff a b ha1 hb1 ADDRESS_LE
  have hGE := addressRelation_iff a b ha1 hb1 ADDRESS_GE
  simp only [relHolds] at hES hEB hLE hGE
  unfold addressCut
  rcases hr with h | h | h | h
  · have c := hES.1 h
    simp only [h]
    by_cases h1 : a.ip = b.ip
    · have hs : addrSucc a.family a.ip2 = a.ip2 + 1 := addrSucc_lt (by omega)
      simp only [h1, if_true, hs]
      refine ⟨_, _, _, rfl, ?_⟩
      simp only [inRange, inRangeOpt]
      refine ⟨by omega, by omega, by omega, by simp, ?_⟩
      intro A; simp; omega
    · by_cases h2 : a.ip2 = b.ip2
      · simp only [h1, h2, if_true, if_false, addrPred]
        refine ⟨_, _, _, rfl, ?_⟩
        simp only [inRange, inRangeOpt]
        refine ⟨by omega, by omega, by omega, by simp, ?_⟩
        intro A; simp; omega
      · have hs : addrSucc a.family a.ip2 = a.ip2 + 1 := addrSucc_lt (by omega)
        simp only [h1, h2, if_false, addrPred, hs]
        refine ⟨_, _, _, rfl, ?_⟩
        simp only [inRange, inRangeOpt, DetectAddressInit]
        refine ⟨by omega, by omega, by omega, ?_, ?_⟩
        · intro c1 hc; cases hc; simp; omega
        · intro A; simp; omega
  · have c := hEB.1 h
    simp only [h]
    by_cases h1 : a.ip = b.ip
    · have hs : addrSucc a.family b.ip2 = b.ip2 + 1 := addrSucc_lt (by omega)
      simp only [h1, if_true, hs]
      refine ⟨_, _, _, rfl, ?_⟩
      simp only [inRange, inRangeOpt]
      refine ⟨by omega, by omega, by omega, by simp, ?_⟩
      intro A; simp; omega
    · by_cases h2 : a.ip2 = b.ip2
      · simp only [h1, h2, if_true, if_false, addrPred]
        refine ⟨_, _, _, rfl, ?_⟩
        simp only [inRange, inRangeOpt]
        refine ⟨by omega, by omega, by omega, by simp, ?_⟩
        intro A; simp; omega
      · have hs : addrSucc a.family b.ip2 = b.ip2 + 1 := addrSucc_lt (by omega)
        simp only [h1, h2, if_false, addrPred, hs]
        refine ⟨_, _, _, rfl, ?_⟩
        simp only [inRange, inRangeOpt, DetectAddressInit]
        refine ⟨by omega, by omega, by omega, ?_, ?_⟩
        · intro c1 hc; cases hc; simp; omega
        · intro A; simp; omega
  · have c := hLE.1 h
    have hs : addrSucc a.family a.ip2 = a.ip2 + 1 := addrSucc_lt (by omega)
    simp only [h, addrPred, hs]
    refine ⟨_, _, _, rfl, ?_⟩
    simp only [inRange, inRangeOpt, DetectAddressInit]
    refine ⟨by omega, by omega, by omega, ?_, ?_⟩
    · intro c1 hc; cases hc; simp; omega
    · intro A; simp; omega
  · have c := hGE.1 h
    have hs : addrSucc a.family b.ip2 = b.ip2 + 1 := addrSucc_lt (by omega)
    simp only [h, addrPred, hs]
    refine ⟨_, _, _, rfl, ?_⟩
    simp only [inRange, inRangeOpt, DetectAddressInit]
    refine ⟨by omega, by omega, by omega, ?_, ?_⟩
    · intro c1 hc; cases hc; simp; omega
    · intro A; simp; omega

theorem DetectAddressCmp_eq_relation (a b : DetectAddress) (hf : a.family = b.family)
    (hfam : a.family = AF_INET ∨ a.family = AF_INET6)
    (hany : (a.flag_any && b.flag_any) = false) :
    DetectAddressCmp a b = addressRelation a b := by
  unfold DetectAddressCmp DetectAddressCmpIPv4 DetectAddressCmpIPv6
  rcases hfam with h | h <;> simp [hf.symm, h, hany, AF_INET, AF_INET6]

theorem DetectAddressCut_eq (a b : DetectAddress)
    (hfam : a.family = AF_INET ∨ a.family = AF_INET6) :
    DetectAddressCut a b = addressCut a b := by
  unfold DetectAddressCut DetectAddressCutIPv4 DetectAddressCutIPv6
  rcases hfam with h | h <;> simp [h, AF_INET, AF_INET6]

/-- C8. For two ranges of one family (IPv4 or IPv6), each with `lo <= hi`
inside the family's space, that `DetectAddressCmp` relates by ES, EB, LE or GE,
`DetectAddressCut` succeeds; the pieces it leaves in `a`, `b` and (when
produced) `c` each have `lo <= hi`, lie in ascending order with a gap between
neighbours (so they are pairwise disjoint and none is empty), and an address is
in one of the pieces exactly when it was in `a` or in `b`. -/
theorem DetectAddressCut_sound (a b : DetectAddress)
    (hf : a.family = b.family) (hfam : a.family = AF_INET ∨ a.family = AF_INET6)
    (ha : validRange a) (hb : validRange b)
    (hr : DetectAddressCmp a b = ADDRESS_ES ∨ DetectAddressCmp a b = ADDRESS_EB ∨
      DetectAddressCmp a b = ADDRESS_LE ∨ DetectAddressCmp a b = ADDRESS_GE) :
    ∃ a1 b1 c, DetectAddressCut a b = some (a1, b1, c) ∧
      a1.ip ≤ a1.ip2 ∧ b1.ip ≤ b1.ip2 ∧ a1.ip2 < b1.ip ∧
      (∀ c1, c = some c1 → c1.ip ≤ c1.ip2 ∧ b1.ip2 < c1.ip) ∧
      (∀ A, (inRange a1 A ∨ inRange b1 A ∨ inRangeOpt c A) ↔ (inRange a A ∨ inRange b A)) := by
  rw [DetectAddressCut_eq a b hfam]
  by_cases hany : (a.flag_any && b.flag_any) = false
  · rw [DetectAddressCmp_eq_relation a b hf hfam hany] at hr
    exact addressCut_sound a b ha hb hf hr
  · exfalso
    have : DetectAddressCmp a b = ADDRESS_EQ := by
      unfold DetectAddressCmp
      simp only [Bool.not_eq_false] at hany
      simp [hf, hany]
    rw [this] at hr
    simp at hr

/-- Witness for C8 on the ranges of `AddressTestCutIPv403`
(1.2.3.0/24 against 1.2.2.0-1.2.3.4). -/
theorem DetectAddressCut_sound_witness :
    ∃ a1 b1 c, DetectAddressCut (mkV4 16909056 16909311) (mkV4 16908800 16909060)
        = some (a1, b1, c) ∧
      a1.ip ≤ a1.ip2 ∧ b1.ip ≤ b1.ip2 ∧ a1.ip2 < b1.ip ∧
      (∀ c1, c = some c1 → c1.ip ≤ c1.ip2 ∧ b1.ip2 < c1.ip) ∧
      (∀ A, (inRange a1 A ∨ inRange b1 A ∨ inRangeOpt c A) ↔
        (inRange (mkV4 16909056 16909311) A ∨ inRange (mkV4 16908800 16909060) A)) :=
  DetectAddressCut_sound (mkV4 16909056 16909311) (mkV4 16908800 16909060)
    rfl (Or.inl rfl) (by decide) (by decide) (by decide)

/-- C9. For a range `a` of family IPv4 or IPv6 with `lo <= hi` inside the
family's space: when `a` is the whole space `DetectAddressCutNot` fails;
otherwise it succeeds, an address of the family is in the resulting `a` or in
`b` exactly when it was not in the original `a`, both results stay inside the
family's space, and `b` is not produced when the original `a.ip` is 0 or `a.ip2`
is the maximum. -/
theorem DetectAddressCutNot_sound (a : DetectAddress)
    (hfam : a.family = AF_INET ∨ a.family = AF_INET6) (ha : validRange a) :
    ((a.ip = 0 ∧ a.ip2 = addrMax a.family) → DetectAddressCutNot a = none) ∧
    (¬ (a.ip = 0 ∧ a.ip2 = addrMax a.family) →
      ∃ a1 b, DetectAddressCutNot a = some (a1, b) ∧
        a1.family = a.family ∧ validRange a1 ∧
        (∀ b1, b = some b1 → b1.family = a.family ∧ validRange b1 ∧ a1.ip2 < b1.ip) ∧
        (∀ A, A ≤ addrMax a.family → ((inRange a1 A ∨ inRangeOpt b A) ↔ ¬ inRange a A)) ∧
        ((a.ip = 0 ∨ a.ip2 = addrMax a.family) → b = none)) := by
  obtain ⟨ha1, ha2⟩ := ha
  have heq : DetectAddressCutNot a = addressCutNot a := by
    unfold DetectAddressCutNot DetectAddressCutNotIPv4 DetectAddressCutNotIPv6
    rcases hfam with h | h <;> simp [h, AF_INET, AF_INET6]
  rw [heq]
  unfold addressCutNot
  constructor
  · rintro ⟨h0, hm⟩
    simp [h0, hm]
  · intro hne
    by_cases h0 : a.ip = 0
    · have hm : a.ip2 ≠ addrMax a.family := fun h => hne ⟨h0, h⟩
      have hs : addrSucc a.family a.ip2 = a.ip2 + 1 := addrSucc_lt (by omega)
      simp only [h0, hm, hs, ne_eq, not_true_eq_false, false_and, if_false, not_false_eq_true,
        and_self, if_true]
      refine ⟨_, _, rfl, rfl, ?_, by simp, ?_, by simp⟩
      · simp only [validRange]; omega
      · intro A hA
        simp only [inRange, inRangeOpt]
        simp
        omega
    · by_cases hm : a.ip2 = addrMax a.family
      · simp only [h0, hm, ne_eq, not_false_eq_true, not_true_eq_false, and_false, if_false,
          false_and, and_self, if_true, addrPred]
        refine ⟨_, _, rfl, rfl, ?_, by simp, ?_, by simp⟩
        · simp only [validRange]; omega
        · intro A hA
          simp only [inRange, inRangeOpt]
          simp
          omega
      · have hs : addrSucc a.family a.ip2 = a.ip2 + 1 := addrSucc_lt (by omega)
        simp only [h0, hm, hs, ne_eq, not_false_eq_true, and_self, if_true, addrPred]
        refine ⟨_, _, rfl, rfl, ?_, ?_, ?_, by simp [h0, hm]⟩
        · simp only [validRange]; omega
        · intro b1 hb1
          cases hb1
          refine ⟨rfl, ?_, ?_⟩ <;> simp only [validRange, DetectAddressInit] <;> omega
        · intro A hA
          simp only [inRange, inRangeOpt, DetectAddressInit]
          simp
          omega

/-- Witness for C9 on the host 1.2.3.4. -/
theorem DetectAddressCutNot_sound_witness :
    (((mkV4 16909060 16909060).ip = 0 ∧
        (mkV4 16909060 16909060).ip2 = addrMax (mkV4 16909060 16909060).family) →
      DetectAddressCutNot (mkV4 16909060 16909060) = none) ∧
    (¬ ((mkV4 16909060 16909060).ip = 0 ∧
        (mkV4 16909060 16909060).ip2 = addrMax (mkV4 16909060 16909060).family) →
      ∃ a1 b, DetectAddressCutNot (mkV4 16909060 16909060) = some (a1, b) ∧
        a1.family = (mkV4 16909060 16909060).family ∧ validRange a1 ∧
        (∀ b1, b = some b1 → b1.family = (mkV4 16909060 16909060).family ∧ validRange b1 ∧
          a1.ip2 < b1.ip) ∧
        (∀ A, A ≤ addrMax (mkV4 16909060 16909060).family →
          ((inRange a1 A ∨ inRangeOpt b A) ↔ ¬ inRange (mkV4 16909060 16909060) A)) ∧
        (((mkV4 16909060 16909060).ip = 0 ∨
          (mkV4 16909060 16909060).ip2 = addrMax (mkV4 16909060 16909060).family) → b = none)) :=
  DetectAddressCutNot_sound (mkV4 16909060 16909060) (Or.inl rfl) (by decide)

/-! ## Facts about the pieces of a cut -/

theorem addressCut_facts (a b : DetectAddress)
    (ha : a.ip ≤ a.ip2) (hb : b.ip ≤ b.ip2) (ham : a.ip2 ≤ addrMax a.family)
    (hbm : b.ip2 ≤ addrMax a.family)
    (hov : b.ip ≤ a.ip2 ∧ a.ip ≤ b.ip2) (hne : ¬ (a.ip = b.ip ∧ a.ip2 = b.ip2)) :
    ∃ a1 b1 c, addressCut a b = some (a1, b1, c) ∧ CutFacts a b a1 b1 c := by
  have hES := addressRelation_iff a b ha hb ADDRESS_ES
  have hEB := addressRelation_iff a b ha hb ADDRESS_EB
  have hLE := addressRelation_iff a b ha hb ADDRESS_LE
  have hGE := addressRelation_iff a b ha hb ADDRESS_GE
  simp only [relHolds] at hES hEB hLE hGE
  have hr : addressRelation a b = ADDRESS_ES ∨ addressRelation a b = ADDRESS_EB ∨
      addressRelation a b = ADDRESS_LE ∨ addressRelation a b = ADDRESS_GE := by
    by_cases h1 : a.ip ≥ b.ip ∧ a.ip2 ≤ b.ip2
    · exact Or.inl (hES.2 ⟨h1.1, h1.2, hne⟩)
    · by_cases h2 : b.ip ≥ a.ip ∧ b.ip2 ≤ a.ip2
      · exact Or.inr (Or.inl (hEB.2 ⟨h2.1, h2.2, hne⟩))
      · by_cases h3 : a.ip < b.ip
        · exact Or.inr (Or.inr (Or.inl (hLE.2 (by omega))))
        · exact Or.inr (Or.inr (Or.inr (hGE.2 (by omega))))
  have hsa : a.ip2 < b.ip2 → addrSucc a.family a.ip2 = a.ip2 + 1 :=
    fun h => addrSucc_lt (by omega)
  have hsb : b.ip2 < a.ip2 → addrSucc a.family b.ip2 = b.ip2 + 1 :=
    fun h => addrSucc_lt (by omega)
  unfold addressCut
  rcases hr with h | h | h | h
  · have c := hES.1 h
    simp only [h]
    split_ifs with h1 h2
    all_goals refine ⟨_, _, _, rfl, ?_⟩
    all_goals constructor
    all_goals try intro v
    all_goals try intro hc
    all_goals try cases hc
    all_goals try (have hv : (_ : Option DetectAddress) = none := v; cases hv)
    all_goals try simp only [inRange, inRangeOpt, addrPred, DetectAddressInit]
    all_goals try simp
    all_goals omega
  · have c := hEB.1 h
    simp only [h]
    split_ifs with h1 h2
    all_goals refine ⟨_, _, _, rfl, ?_⟩
    all_goals constructor
    all_goals try intro v
    all_goals try intro hc
    all_goals try cases hc
    all_goals try (have hv : (_ : Option DetectAddress) = none := v; cases hv)
    all_goals try simp only [inRange, inRangeOpt, addrPred, DetectAddressInit]
    all_goals try simp
    all_goals omega
  · have c := hLE.1 h
    simp only [h]
    refine ⟨_, _, _, rfl, ?_⟩
    constructor
    all_goals try intro v
    all_goals try intro hc
    all_goals try cases hc
    all_goals try (have hv : (_ : Option DetectAddress) = none := v; cases hv)
    all_goals try simp only [inRange, inRangeOpt, addrPred, DetectAddressInit]
    all_goals try simp
    all_goals omega
  · have c := hGE.1 h
    simp only [h]
    refine ⟨_, _, _, rfl, ?_⟩
    constructor
    all_goals try intro v
    all_goals try intro hc
    all_goals try cases hc
    all_goals try (have hv : (_ : Option DetectAddress) = none := v; cases hv)
    all_goals try simp only [inRange, inRangeOpt, addrPred, DetectAddressInit]
    all_goals try simp
    all_goals omega

/-! ## `DetectAddressInsert` on sorted lists -/

theorem SetHeadPtr_eq_putList (gh : DetectAddressHead) (x : DetectAddress)
    (l : List DetectAddress) (hx : FamilyRecord x) :
    SetHeadPtr gh x l = some (putList gh x l) := by
  obtain ⟨hf, ha⟩ := hx
  unfold putList SetHeadPtr
  rcases hf with h | h <;> simp [h, ha, AF_INET, AF_INET6]

theorem GetHeadPtr_putList (gh : DetectAddressHead) (x y : DetectAddress)
    (l : List DetectAddress) (hx : FamilyRecord x) (hy : FamilyRecord y)
    (hxy : y.family = x.family) : GetHeadPtr (putList gh x l) y = l := by
  obtain ⟨hf, ha⟩ := hx
  obtain ⟨_, hb⟩ := hy
  unfold putList SetHeadPtr GetHeadPtr
  rcases hf with h | h <;> simp [h, ha, hb, hxy, AF_INET, AF_INET6]

theorem putList_putList (gh : DetectAddressHead) (x y : DetectAddress)
    (l m : List DetectAddress) (hx : FamilyRecord x) (hy : FamilyRecord y)
    (hxy : y.family = x.family) : putList (putList gh x l) y m = putList gh x m := by
  obtain ⟨hf, ha⟩ := hx
  obtain ⟨_, hb⟩ := hy
  unfold putList SetHeadPtr
  rcases hf with h | h <;> simp [h, ha, hb, hxy, AF_INET, AF_INET6]

theorem Cmp_family_record (x d : DetectAddress) (hx : FamilyRecord x)
    (hd : d.family = x.family) : DetectAddressCmp x d = addressRelation x d :=
  DetectAddressCmp_eq_relation x d hd.symm hx.1 (by simp [hx.2])

theorem SortedRanges_mono {f : Nat} {lb lb2 : Nat} (h : lb2 ≤ lb) :
    ∀ {l : List DetectAddress}, SortedRanges f lb l → SortedRanges f lb2 l
  | [], _ => trivial
  | _ :: _, hl => ⟨hl.1, le_trans h hl.2.1, hl.2.2.1, hl.2.2.2.1, hl.2.2.2.2⟩

theorem InsertLoop_overlap
    (rec : DetectAddressHead → DetectAddress → Run (Int × DetectAddressHead))
    (gh : DetectAddressHead) (x cur : DetectAddress) (pre rest : List DetectAddress)
    (h1 : DetectAddressCmp x cur ≠ ADDRESS_ER) (h2 : DetectAddressCmp x cur ≠ ADDRESS_EQ)
    (h3 : DetectAddressCmp x cur ≠ ADDRESS_GT) (h4 : DetectAddressCmp x cur ≠ ADDRESS_LT) :
    InsertLoop rec gh x pre (cur :: rest) =
      match DetectAddressCut cur x with
      | none => Run.done (-1, gh)
      | some (cur1, x1, c) =>
        match rec (putList gh x (pre ++ cur1 :: rest)) x1 with
        | Run.done (_, gh2) =>
          match c with
          | none => Run.done (1, gh2)
          | some c1 =>
            match rec gh2 c1 with
            | Run.done (_, gh3) => Run.done (1, gh3)
            | Run.bug => Run.bug
            | Run.fuel => Run.fuel
        | Run.bug => Run.bug
        | Run.fuel => Run.fuel := by
  cases hc : DetectAddressCmp x cur <;> simp_all [InsertLoop]

theorem insertSorted_overlap (x cur : DetectAddress) (rest : List DetectAddress)
    (h1 : DetectAddressCmp x cur ≠ ADDRESS_ER) (h2 : DetectAddressCmp x cur ≠ ADDRESS_EQ)
    (h3 : DetectAddressCmp x cur ≠ ADDRESS_GT) (h4 : DetectAddressCmp x cur ≠ ADDRESS_LT) :
    insertSorted (cur :: rest) x =
      match DetectAddressCut cur x with
      | none => cur :: rest
      | some (cur1, x1, none) => cur1 :: insertSorted rest x1
      | some (cur1, x1, some c) => cur1 :: x1 :: insertSorted rest c := by
  rw [insertSorted]
  cases hc : DetectAddressCmp x cur <;> simp_all

theorem insertSorted_below {f lb : Nat} (x : DetectAddress) (hx : FamilyRecord x)
    (hf : x.family = f) (hv : x.ip ≤ x.ip2) (hlt : x.ip2 < lb) :
    ∀ (rest : List DetectAddress), SortedRanges f lb rest → insertSorted rest x = x :: rest
  | [], _ => rfl
  | d :: ds, hs => by
    have hfd : d.family = x.family := by rw [hs.1, hf]
    have hrel : DetectAddressCmp x d = ADDRESS_LT := by
      rw [Cmp_family_record x d hx hfd]
      exact (addressRelation_iff x d hv hs.2.2.1 ADDRESS_LT).2 (by
        simp only [relHolds]; have := hs.2.1; omega)
    rw [insertSorted, hrel]

theorem InsertLoop_gt_nil
    (rec : DetectAddressHead → DetectAddress → Run (Int × DetectAddressHead))
    (gh : DetectAddressHead) (x cur : DetectAddress) (pre : List DetectAddress)
    (h : DetectAddressCmp x cur = ADDRESS_GT) :
    InsertLoop rec gh x pre [cur] = Run.done (1, putList gh x (pre ++ [cur, x])) := by
  simp [InsertLoop, h]

theorem InsertLoop_gt_cons
    (rec : DetectAddressHead → DetectAddress → Run (Int × DetectAddressHead))
    (gh : DetectAddressHead) (x cur y : DetectAddress) (pre ys : List DetectAddress)
    (h : DetectAddressCmp x cur = ADDRESS_GT) :
    InsertLoop rec gh x pre (cur :: y :: ys) = InsertLoop rec gh x (pre ++ [cur]) (y :: ys) := by
  simp [InsertLoop, h]

theorem InsertLoop_skip
    (rec : DetectAddressHead → DetectAddress → Run (Int × DetectAddressHead))
    (gh : DetectAddressHead) (x : DetectAddress) :
    ∀ (P pre rest : List DetectAddress), (∀ p ∈ P, DetectAddressCmp x p = ADDRESS_GT) →
      rest ≠ [] → InsertLoop rec gh x pre (P ++ rest) = InsertLoop rec gh x (pre ++ P) rest
  | [], pre, rest, _, _ => by simp
  | p :: P, pre, rest, hP, hr => by
    have hp : DetectAddressCmp x p = ADDRESS_GT := hP p (List.mem_cons_self _ _)
    have hP2 : ∀ q ∈ P, DetectAddressCmp x q = ADDRESS_GT :=
      fun q hq => hP q (List.mem_cons_of_mem _ hq)
    have ih := InsertLoop_skip rec gh x P (pre ++ [p]) rest hP2 hr
    cases hl : P ++ rest with
    | nil =>
      exfalso
      cases P <;> simp_all
    | cons y ys =>
      rw [List.cons_append, hl, InsertLoop_gt_cons rec gh x p y pre ys hp, ← hl, ih]
      simp

theorem InsertLoop_skip_end
    (rec : DetectAddressHead → DetectAddress → Run (Int × DetectAddressHead))
    (gh : DetectAddressHead) (x : DetectAddress) :
    ∀ (P pre : List DetectAddress), (∀ p ∈ P, DetectAddressCmp x p = ADDRESS_GT) →
      P ≠ [] → InsertLoop rec gh x pre P = Run.done (1, putList gh x (pre ++ P ++ [x]))
  | [], _, _, h => absurd rfl h
  | [p], pre, hP, _ => by
    rw [InsertLoop_gt_nil rec gh x p pre (hP p (List.mem_cons_self _ _))]
    simp
  | p :: q :: P, pre, hP, _ => by
    have hp : DetectAddressCmp x p = ADDRESS_GT := hP p (List.mem_cons_self _ _)
    have hP2 : ∀ r ∈ q :: P, DetectAddressCmp x r = ADDRESS_GT :=
      fun r hr => hP r (List.mem_cons_of_mem _ hr)
    rw [InsertLoop_gt_cons rec gh x p q pre P hp,
      InsertLoop_skip_end rec gh x (q :: P) (pre ++ [p]) hP2 (by simp)]
    simp

theorem Cmp_gt_of_below (x p : DetectAddress) (hx : FamilyRecord x)
    (hp : p.family = x.family ∧ p.ip ≤ p.ip2 ∧ p.ip2 < x.ip) (hv : x.ip ≤ x.ip2) :
    DetectAddressCmp x p = ADDRESS_GT := by
  rw [Cmp_family_record x p hx hp.1]
  exact (addressRelation_iff x p hv hp.2.1 ADDRESS_GT).2 (by simp only [relHolds]; omega)

/-- The scan of `DetectAddressInsert` from `cur` on, in a list whose passed part
`pre` lies below `x`, given that the recursive calls behave as stated. -/
theorem InsertLoop_eq_insertSorted (n : Nat)
    (ih : ∀ (gh : DetectAddressHead) (x : DetectAddress) (pre rest : List DetectAddress),
      FamilyRecord x → GetHeadPtr gh x = pre ++ rest →
      (∀ p ∈ pre, p.family = x.family ∧ p.ip ≤ p.ip2 ∧ p.ip2 < x.ip) →
      SortedRanges x.family 0 rest → x.ip ≤ x.ip2 → x.ip2 ≤ addrMax x.family →
      rest.length < n →
      ∃ r, (r = 0 ∨ r = 1) ∧
        DetectAddressInsert n gh x = Run.done (r, putList gh x (pre ++ insertSorted rest x)))
    (gh : DetectAddressHead) (x : DetectAddress) (hx : FamilyRecord x)
    (hv : x.ip ≤ x.ip2) (hm : x.ip2 ≤ addrMax x.family) :
    ∀ (rest pre : List DetectAddress), rest ≠ [] →
      (∀ p ∈ pre, p.family = x.family ∧ p.ip ≤ p.ip2 ∧ p.ip2 < x.ip) →
      SortedRanges x.family 0 rest → rest.length ≤ n →
      ∃ r, (r = 0 ∨ r = 1) ∧
        InsertLoop (DetectAddressInsert n) gh x pre rest =
          Run.done (r, putList gh x (pre ++ insertSorted rest x))
  | [], _, h, _, _, _ => absurd rfl h
  | cur :: rest, pre, _, hpre, hs, hlen => by
    obtain ⟨hcf, _, hcv, hcm, hrest⟩ := hs
    have hrel := Cmp_family_record x cur hx hcf
    have hiff := addressRelation_iff x cur hv hcv
    have hlen2 : rest.length < n := by simp at hlen; omega
    by_cases hEQ : DetectAddressCmp x cur = ADDRESS_EQ
    · refine ⟨0, Or.inl rfl, ?_⟩
      simp [InsertLoop, insertSorted, hEQ]
    by_cases hLT : DetectAddressCmp x cur = ADDRESS_LT
    · refine ⟨1, Or.inr rfl, ?_⟩
      simp [InsertLoop, insertSorted, hLT]
    by_cases hGT : DetectAddressCmp x cur = ADDRESS_GT
    · have hbelow : cur.ip2 < x.ip := by
        have := (hiff ADDRESS_GT).1 (hrel ▸ hGT)
        simpa only [relHolds] using this
      cases rest with
      | nil =>
        refine ⟨1, Or.inr rfl, ?_⟩
        simp [InsertLoop, insertSorted, hGT]
      | cons y ys =>
        have hpre2 : ∀ p ∈ pre ++ [cur], p.family = x.family ∧ p.ip ≤ p.ip2 ∧ p.ip2 < x.ip := by
          intro p hp
          rcases List.mem_append.1 hp with h | h
          · exact hpre p h
          · simp only [List.mem_singleton] at h
            subst h
            exact ⟨hcf, hcv, hbelow⟩
        obtain ⟨r, hr, he⟩ := InsertLoop_eq_insertSorted n ih gh x hx hv hm (y :: ys)
          (pre ++ [cur]) (by simp) hpre2 (SortedRanges_mono (Nat.zero_le _) hrest)
          (by simp at hlen2 ⊢; omega)
        refine ⟨r, hr, ?_⟩
        rw [InsertLoop_gt_cons _ gh x cur y pre ys hGT, he]
        simp [insertSorted, hGT]
    have hER : DetectAddressCmp x cur ≠ ADDRESS_ER := by
      rw [hrel]
      intro h
      exact (hiff ADDRESS_ER).1 h
    -- the overlap cases
    have hnEQ : ¬ (x.ip = cur.ip ∧ x.ip2 = cur.ip2) := fun h =>
      hEQ (hrel ▸ (hiff ADDRESS_EQ).2 h)
    have hnLT : ¬ x.ip2 < cur.ip := fun h => hLT (hrel ▸ (hiff ADDRESS_LT).2 h)
    have hnGT : ¬ x.ip > cur.ip2 := fun h => hGT (hrel ▸ (hiff ADDRESS_GT).2 h)
    have hcm2 : cur.ip2 ≤ addrMax cur.family := by rw [hcf]; exact hcm
    have hxm2 : x.ip2 ≤ addrMax cur.family := by rw [hcf]; exact hm
    obtain ⟨cur1, x1, c, hcut, F⟩ := addressCut_facts cur x hcv hv hcm2 hxm2
      ⟨by omega, by omega⟩ (by omega)
    have hcut2 : DetectAddressCut cur x = some (cur1, x1, c) := by
      rw [DetectAddressCut_eq cur x (hcf ▸ hx.1)]; exact hcut
    have hx1 : FamilyRecord x1 := ⟨F.fam_b ▸ hx.1, F.any_b ▸ hx.2⟩
    have hpre1 : ∀ p ∈ pre ++ [cur1],
        p.family = x1.family ∧ p.ip ≤ p.ip2 ∧ p.ip2 < x1.ip := by
      intro p hp
      rcases List.mem_append.1 hp with h | h
      · have := hpre p h
        exact ⟨by rw [F.fam_b]; exact this.1, this.2.1, by have := F.order; omega⟩
      · simp only [List.mem_singleton] at h
        subst h
        exact ⟨by rw [F.fam_a, F.fam_b]; exact hcf, F.order.1, F.order.2.1⟩
    have hx1m : x1.ip2 ≤ addrMax x1.family := by
      rw [F.fam_b]
      rcases F.hi_b with h | h <;> omega
    obtain ⟨r1, _, he1⟩ := ih (putList gh x (pre ++ cur1 :: rest)) x1 (pre ++ [cur1]) rest hx1
      (by rw [GetHeadPtr_putList gh x x1 _ hx hx1 F.fam_b]; simp)
      hpre1 (by rw [F.fam_b]; exact SortedRanges_mono (Nat.zero_le _) hrest)
      F.order.2.2.1 hx1m hlen2
    rw [putList_putList gh x x1 _ _ hx hx1 F.fam_b] at he1
    refine ⟨1, Or.inr rfl, ?_⟩
    rw [InsertLoop_overlap _ gh x cur pre rest hER hEQ hGT hLT,
      insertSorted_overlap x cur rest hER hEQ hGT hLT, hcut2]
    cases c with
    | none =>
      simp only [he1]
      simp
    | some c1 =>
      obtain ⟨hc1f, hc1a, hc1lo, hc1v, hc1a2, hc1b2, hc1hi, hx1hi⟩ := F.three c1 rfl
      have hc1 : FamilyRecord c1 := ⟨by rw [hc1f, hcf]; exact hx.1, hc1a⟩
      have hc1x : c1.family = x.family := by rw [hc1f, hcf]
      have hbelow1 : insertSorted rest x1 = x1 :: rest :=
        insertSorted_below x1 hx1 F.fam_b F.order.2.2.1 (by omega) rest hrest
      rw [hbelow1] at he1
      have hpre2 : ∀ p ∈ pre ++ [cur1, x1],
          p.family = c1.family ∧ p.ip ≤ p.ip2 ∧ p.ip2 < c1.ip := by
        intro p hp
        rcases List.mem_append.1 hp with h | h
        · have := hpre p h
          exact ⟨by rw [hc1x]; exact this.1, this.2.1, by have := F.order; omega⟩
        · simp only [List.mem_cons, List.mem_singleton, List.not_mem_nil, or_false] at h
          rcases h with h | h
          · subst h
            exact ⟨by rw [F.fam_a, hc1f], F.order.1, by have := F.order; omega⟩
          · subst h
            exact ⟨by rw [F.fam_b, hc1x], F.order.2.2.1, hc1lo⟩
      have hc1m : c1.ip2 ≤ addrMax c1.family := by
        rw [hc1x]
        rcases hc1hi with h | h <;> omega
      obtain ⟨r2, _, he2⟩ := ih (putList gh x (pre ++ [cur1] ++ x1 :: rest)) c1
        (pre ++ [cur1, x1]) rest hc1
        (by rw [GetHeadPtr_putList gh x c1 _ hx hc1 hc1x]; simp)
        hpre2 (by rw [hc1x]; exact SortedRanges_mono (Nat.zero_le _) hrest)
        hc1v hc1m hlen2
      rw [putList_putList gh x c1 _ _ hx hc1 hc1x] at he2
      simp only [he1, he2]
      simp

/-- On a list whose scanned part lies below `x` and whose remaining part is
sorted, `DetectAddressInsert` returns (with a recursion budget above the length
of the remaining part) and leaves `insertSorted` of the remaining part. -/
theorem DetectAddressInsert_eq_aux : ∀ (n : Nat) (gh : DetectAddressHead) (x : DetectAddress)
    (pre rest : List DetectAddress),
    FamilyRecord x → GetHeadPtr gh x = pre ++ rest →
    (∀ p ∈ pre, p.family = x.family ∧ p.ip ≤ p.ip2 ∧ p.ip2 < x.ip) →
    SortedRanges x.family 0 rest → x.ip ≤ x.ip2 → x.ip2 ≤ addrMax x.family →
    rest.length < n →
    ∃ r, (r = 0 ∨ r = 1) ∧
      DetectAddressInsert n gh x = Run.done (r, putList gh x (pre ++ insertSorted rest x))
  | 0, _, _, _, _, _, _, _, _, _, _, h => absurd h (Nat.not_lt_zero _)
  | n + 1, gh, x, pre, rest, hx, hget, hpre, hs, hv, hm, hlen => by
    have hfam0 : ¬ (x.family = 0 ∧ x.flag_any = false) := by
      rcases hx.1 with h | h <;> simp [h, AF_INET, AF_INET6]
    rw [DetectAddressInsert]
    simp only [hfam0, if_false]
    rw [hget]
    cases hl : pre ++ rest with
    | nil =>
      have hp : pre = [] := by cases pre <;> simp_all
      have hr : rest = [] := by cases rest <;> simp_all
      subst hp hr
      refine ⟨1, Or.inr rfl, ?_⟩
      simp [SetHeadPtr_eq_putList gh x _ hx, insertSorted]
    | cons y ys =>
      simp only
      rw [← hl]
      have hPgt : ∀ p ∈ pre, DetectAddressCmp x p = ADDRESS_GT :=
        fun p hp => Cmp_gt_of_below x p hx (hpre p hp) hv
      cases rest with
      | nil =>
        have hne : pre ≠ [] := by cases pre <;> simp_all
        refine ⟨1, Or.inr rfl, ?_⟩
        rw [List.append_nil, InsertLoop_skip_end _ gh x pre [] hPgt hne]
        simp [insertSorted]
      | cons c cs =>
        rw [InsertLoop_skip _ gh x pre [] (c :: cs) hPgt (by simp)]
        simp only [List.nil_append]
        exact InsertLoop_eq_insertSorted n (DetectAddressInsert_eq_aux n) gh x hx hv hm
          (c :: cs) pre (by simp) hpre hs (by simp at hlen ⊢; omega)

/-! ## Properties of `insertSorted` -/

theorem insertSorted_cons_cases (x cur : DetectAddress) (rest : List DetectAddress)
    (hx : FamilyRecord x) (hcf : cur.family = x.family) (hcv : cur.ip ≤ cur.ip2)
    (hv : x.ip ≤ x.ip2) (hcm : cur.ip2 ≤ addrMax x.family) (hm : x.ip2 ≤ addrMax x.family) :
    (x.ip = cur.ip ∧ x.ip2 = cur.ip2 ∧
      insertSorted (cur :: rest) x = { cur with cnt := cur.cnt + x.cnt } :: rest) ∨
    (x.ip2 < cur.ip ∧ insertSorted (cur :: rest) x = x :: cur :: rest) ∨
    (cur.ip2 < x.ip ∧ insertSorted (cur :: rest) x = cur :: insertSorted rest x) ∨
    (∃ cur1 x1, CutFacts cur x cur1 x1 none ∧
      insertSorted (cur :: rest) x = cur1 :: insertSorted rest x1) ∨
    (∃ cur1 x1 c1, CutFacts cur x cur1 x1 (some c1) ∧
      insertSorted (cur :: rest) x = cur1 :: x1 :: insertSorted rest c1) := by
  have hrel := Cmp_family_record x cur hx hcf
  have hiff := addressRelation_iff x cur hv hcv
  by_cases hEQ : DetectAddressCmp x cur = ADDRESS_EQ
  · have := (hiff ADDRESS_EQ).1 (hrel ▸ hEQ)
    simp only [relHolds] at this
    exact Or.inl ⟨this.1, this.2, by simp [insertSorted, hEQ]⟩
  by_cases hLT : DetectAddressCmp x cur = ADDRESS_LT
  · have := (hiff ADDRESS_LT).1 (hrel ▸ hLT)
    simp only [relHolds] at this
    exact Or.inr (Or.inl ⟨this, by simp [insertSorted, hLT]⟩)
  by_cases hGT : DetectAddressCmp x cur = ADDRESS_GT
  · have := (hiff ADDRESS_GT).1 (hrel ▸ hGT)
    simp only [relHolds] at this
    exact Or.inr (Or.inr (Or.inl ⟨this, by simp [insertSorted, hGT]⟩))
  have hER : DetectAddressCmp x cur ≠ ADDRESS_ER := by
    rw [hrel]
    intro h
    exact (hiff ADDRESS_ER).1 h
  have hnEQ : ¬ (x.ip = cur.ip ∧ x.ip2 = cur.ip2) := fun h =>
    hEQ (hrel ▸ (hiff ADDRESS_EQ).2 h)
  have hnLT : ¬ x.ip2 < cur.ip := fun h => hLT (hrel ▸ (hiff ADDRESS_LT).2 h)
  have hnGT : ¬ x.ip > cur.ip2 := fun h => hGT (hrel ▸ (hiff ADDRESS_GT).2 h)
  have hcm2 : cur.ip2 ≤ addrMax cur.family := by rw [hcf]; exact hcm
  have hxm2 : x.ip2 ≤ addrMax cur.family := by rw [hcf]; exact hm
  obtain ⟨cur1, x1, c, hcut, F⟩ := addressCut_facts cur x hcv hv hcm2 hxm2
    ⟨by omega, by omega⟩ (by omega)
  have hcut2 : DetectAddressCut cur x = some (cur1, x1, c) := by
    rw [DetectAddressCut_eq cur x (hcf ▸ hx.1)]; exact hcut
  have hshape := insertSorted_overlap x cur rest hER hEQ hGT hLT
  rw [hcut2] at hshape
  cases c with
  | none => exact Or.inr (Or.inr (Or.inr (Or.inl ⟨cur1, x1, F, hshape⟩)))
  | some c1 => exact Or.inr (Or.inr (Or.inr (Or.inr ⟨cur1, x1, c1, F, hshape⟩)))

theorem insertSorted_sorted {f : Nat} : ∀ (rest : List DetectAddress) (lb : Nat)
    (x : DetectAddress), FamilyRecord x → x.family = f → lb ≤ x.ip → x.ip ≤ x.ip2 →
    x.ip2 ≤ addrMax f → SortedRanges f lb rest → SortedRanges f lb (insertSorted rest x)
  | [], lb, x, _, hf, hlb, hv, hm, _ => by
    simp only [insertSorted, SortedRanges]
    exact ⟨hf, hlb, hv, hm, trivial⟩
  | cur :: rest, lb, x, hx, hf, hlb, hv, hm, hs => by
    obtain ⟨hcf, hclb, hcv, hcm, hrest⟩ := hs
    subst hf
    rcases insertSorted_cons_cases x cur rest hx hcf hcv hv hcm hm with
      ⟨_, _, he⟩ | ⟨h, he⟩ | ⟨h, he⟩ | ⟨cur1, x1, F, he⟩ | ⟨cur1, x1, c1, F, he⟩
    · rw [he]
      exact ⟨hcf, hclb, hcv, hcm, hrest⟩
    · rw [he]
      exact ⟨rfl, hlb, hv, hm, hcf, by omega, hcv, hcm, hrest⟩
    · rw [he]
      exact ⟨hcf, hclb, hcv, hcm,
        insertSorted_sorted rest (cur.ip2 + 1) x hx rfl (by omega) hv hm hrest⟩
    · rw [he]
      have hx1 : FamilyRecord x1 := ⟨F.fam_b ▸ hx.1, F.any_b ▸ hx.2⟩
      have ho := F.order
      have hl := F.lo_a
      have hx1m : x1.ip2 ≤ addrMax x.family := by rcases F.hi_b with h | h <;> omega
      exact ⟨by rw [F.fam_a, hcf], by omega, ho.1, by omega,
        insertSorted_sorted rest (cur1.ip2 + 1) x1 hx1 F.fam_b (by omega) ho.2.2.1 hx1m
          (SortedRanges_mono (by omega) hrest)⟩
    · rw [he]
      obtain ⟨hc1f, hc1a, hc1lo, hc1v, hc1a2, hc1b2, hc1hi, hx1hi⟩ := F.three c1 rfl
      have hc1 : FamilyRecord c1 := ⟨by rw [hc1f, hcf]; exact hx.1, hc1a⟩
      have ho := F.order
      have hl := F.lo_a
      have hc1m : c1.ip2 ≤ addrMax x.family := by rcases hc1hi with h | h <;> omega
      exact ⟨by rw [F.fam_a, hcf], by omega, ho.1, by omega,
        F.fam_b, by omega, ho.2.2.1, by omega,
        insertSorted_sorted rest (x1.ip2 + 1) c1 hc1 (by rw [hc1f, hcf]) (by omega) hc1v hc1m
          (SortedRanges_mono (by omega) hrest)⟩

theorem or_aux_eq {p q : Prop} : (p ∨ q) ↔ ((p ∨ q) ∨ p) := by tauto
theorem or_aux_lt {p q x : Prop} : (x ∨ p ∨ q) ↔ ((p ∨ q) ∨ x) := by tauto
theorem or_aux_gt {p q x : Prop} : (p ∨ (q ∨ x)) ↔ ((p ∨ q) ∨ x) := by tauto
theorem or_aux2 {p1 p2 q a b : Prop} (h : (p1 ∨ p2) ↔ (a ∨ b)) :
    (p1 ∨ (q ∨ p2)) ↔ ((a ∨ q) ∨ b) := by tauto
theorem or_aux3 {p1 p2 p3 q a b : Prop} (h : (p1 ∨ p2 ∨ p3) ↔ (a ∨ b)) :
    (p1 ∨ p2 ∨ (q ∨ p3)) ↔ ((a ∨ q) ∨ b) := by tauto
theorem or_auxp2 {A1 A2 B1 B2 q a1 a2 b1 b2 : Prop}
    (h : (A1 ∨ A2 ∨ B1 ∨ B2) ↔ (a1 ∨ a2 ∨ b1 ∨ b2)) :
    ((A1 ∨ A2) ∨ (q ∨ (B1 ∨ B2))) ↔ (((a1 ∨ a2) ∨ q) ∨ (b1 ∨ b2)) := by
  calc ((A1 ∨ A2) ∨ (q ∨ (B1 ∨ B2))) ↔ ((A1 ∨ A2 ∨ B1 ∨ B2) ∨ q) := by
        simp only [or_assoc, or_left_comm, or_comm]
    _ ↔ ((a1 ∨ a2 ∨ b1 ∨ b2) ∨ q) := by rw [h]
    _ ↔ (((a1 ∨ a2) ∨ q) ∨ (b1 ∨ b2)) := by simp only [or_assoc, or_left_comm, or_comm]
theorem or_auxp3 {A1 A2 B1 B2 C1 C2 q a1 a2 b1 b2 : Prop}
    (h : (A1 ∨ A2 ∨ B1 ∨ B2 ∨ (C1 ∨ C2)) ↔ (a1 ∨ a2 ∨ b1 ∨ b2)) :
    ((A1 ∨ A2) ∨ (B1 ∨ B2) ∨ (q ∨ (C1 ∨ C2))) ↔ (((a1 ∨ a2) ∨ q) ∨ (b1 ∨ b2)) := by
  calc ((A1 ∨ A2) ∨ (B1 ∨ B2) ∨ (q ∨ (C1 ∨ C2))) ↔ ((A1 ∨ A2 ∨ B1 ∨ B2 ∨ (C1 ∨ C2)) ∨ q) := by
        simp only [or_assoc, or_left_comm, or_comm]
    _ ↔ ((a1 ∨ a2 ∨ b1 ∨ b2) ∨ q) := by rw [h]
    _ ↔ (((a1 ∨ a2) ∨ q) ∨ (b1 ∨ b2)) := by simp only [or_assoc, or_left_comm, or_comm]

theorem covered_cons (d : DetectAddress) (l : List DetectAddress) (A : Nat) :
    covered (d :: l) A ↔ inRange d A ∨ covered l A := by
  simp [covered]

theorem covered_nil (A : Nat) : covered [] A ↔ False := by
  simp [covered]

theorem cutPoint_cons (d : DetectAddress) (l : List DetectAddress) (v : Nat) :
    cutPoint (d :: l) v ↔ (v = d.ip ∨ v = d.ip2 + 1) ∨ cutPoint l v := by
  simp [cutPoint]

theorem cutPoint_nil (v : Nat) : cutPoint [] v ↔ False := by
  simp [cutPoint]

theorem insertSorted_covered {f : Nat} (A : Nat) : ∀ (rest : List DetectAddress) (lb : Nat)
    (x : DetectAddress), FamilyRecord x → x.family = f → x.ip ≤ x.ip2 →
    x.ip2 ≤ addrMax f → SortedRanges f lb rest →
    (covered (insertSorted rest x) A ↔ covered rest A ∨ inRange x A)
  | [], _, x, _, _, _, _, _ => by
    simp [insertSorted, covered_cons, covered_nil]
  | cur :: rest, lb, x, hx, hf, hv, hm, hs => by
    obtain ⟨hcf, hclb, hcv, hcm, hrest⟩ := hs
    subst hf
    rcases insertSorted_cons_cases x cur rest hx hcf hcv hv hcm hm with
      ⟨h1, h2, he⟩ | ⟨h, he⟩ | ⟨h, he⟩ | ⟨cur1, x1, F, he⟩ | ⟨cur1, x1, c1, F, he⟩
    · rw [he]
      simp only [covered_cons, inRange]
      rw [h1, h2]
      exact or_aux_eq
    · rw [he]
      simp only [covered_cons]
      exact or_aux_lt
    · rw [he]
      simp only [covered_cons]
      rw [insertSorted_covered A rest (cur.ip2 + 1) x hx rfl hv hm hrest]
      exact or_aux_gt
    · rw [he]
      have hx1 : FamilyRecord x1 := ⟨F.fam_b ▸ hx.1, F.any_b ▸ hx.2⟩
      have ho := F.order
      have hx1m : x1.ip2 ≤ addrMax x.family := by rcases F.hi_b with h | h <;> omega
      simp only [covered_cons]
      rw [insertSorted_covered A rest (cur.ip2 + 1) x1 hx1 F.fam_b ho.2.2.1 hx1m hrest]
      have hc := F.cover A
      have hn : ¬ inRangeOpt none A := by simp [inRangeOpt]
      simp only [hn, or_false] at hc
      exact or_aux2 hc
    · rw [he]
      obtain ⟨hc1f, hc1a, hc1lo, hc1v, hc1a2, hc1b2, hc1hi, hx1hi⟩ := F.three c1 rfl
      have hc1 : FamilyRecord c1 := ⟨by rw [hc1f, hcf]; exact hx.1, hc1a⟩
      have hc1m : c1.ip2 ≤ addrMax x.family := by rcases hc1hi with h | h <;> omega
      simp only [covered_cons]
      rw [insertSorted_covered A rest (cur.ip2 + 1) c1 hc1 (by rw [hc1f, hcf]) hc1v hc1m hrest]
      have hc := F.cover A
      have hn : inRangeOpt (some c1) A ↔ inRange c1 A := by simp [inRangeOpt]
      rw [hn] at hc
      exact or_aux3 hc

theorem insertSorted_cutPoint {f : Nat} (v : Nat) : ∀ (rest : List DetectAddress) (lb : Nat)
    (x : DetectAddress), FamilyRecord x → x.family = f → x.ip ≤ x.ip2 →
    x.ip2 ≤ addrMax f → SortedRanges f lb rest →
    (cutPoint (insertSorted rest x) v ↔ cutPoint rest v ∨ (v = x.ip ∨ v = x.ip2 + 1))
  | [], _, x, _, _, _, _, _ => by
    simp [insertSorted, cutPoint_cons, cutPoint_nil]
  | cur :: rest, lb, x, hx, hf, hv, hm, hs => by
    obtain ⟨hcf, hclb, hcv, hcm, hrest⟩ := hs
    subst hf
    rcases insertSorted_cons_cases x cur rest hx hcf hcv hv hcm hm with
      ⟨h1, h2, he⟩ | ⟨h, he⟩ | ⟨h, he⟩ | ⟨cur1, x1, F, he⟩ | ⟨cur1, x1, c1, F, he⟩
    · rw [he]
      simp only [cutPoint_cons]
      rw [h1, h2]
      exact or_aux_eq
    · rw [he]
      simp only [cutPoint_cons]
      exact or_aux_lt
    · rw [he]
      simp only [cutPoint_cons]
      rw [insertSorted_cutPoint v rest (cur.ip2 + 1) x hx rfl hv hm hrest]
      exact or_aux_gt
    · rw [he]
      have hx1 : FamilyRecord x1 := ⟨F.fam_b ▸ hx.1, F.any_b ▸ hx.2⟩
      have ho := F.order
      have hx1m : x1.ip2 ≤ addrMax x.family := by rcases F.hi_b with h | h <;> omega
      simp only [cutPoint_cons]
      rw [insertSorted_cutPoint v rest (cur.ip2 + 1) x1 hx1 F.fam_b ho.2.2.1 hx1m hrest]
      have hc := F.points v
      simp only [reduceCtorEq, false_and, exists_false, or_false] at hc
      exact or_auxp2 hc
    · rw [he]
      obtain ⟨hc1f, hc1a, hc1lo, hc1v, hc1a2, hc1b2, hc1hi, hx1hi⟩ := F.three c1 rfl
      have hc1 : FamilyRecord c1 := ⟨by rw [hc1f, hcf]; exact hx.1, hc1a⟩
      have hc1m : c1.ip2 ≤ addrMax x.family := by rcases hc1hi with h | h <;> omega
      simp only [cutPoint_cons]
      rw [insertSorted_cutPoint v rest (cur.ip2 + 1) c1 hc1 (by rw [hc1f, hcf]) hc1v hc1m hrest]
      have hc := F.points v
      simp only [Option.some.injEq, exists_eq_left'] at hc
      exact or_auxp3 hc

/-! ## Sorted lists: the recursive and the adjacent-pair formulation -/

theorem SortedRanges_mem {f : Nat} : ∀ {l : List DetectAddress} {lb : Nat},
    SortedRanges f lb l →
    ∀ e ∈ l, e.family = f ∧ lb ≤ e.ip ∧ e.ip ≤ e.ip2 ∧ e.ip2 ≤ addrMax f
  | [], _, _, e, he => by simp at he
  | d :: ds, lb, hs, e, he => by
    rcases List.mem_cons.1 he with h | h
    · subst h
      exact ⟨hs.1, hs.2.1, hs.2.2.1, hs.2.2.2.1⟩
    · have := SortedRanges_mem hs.2.2.2.2 e h
      have h1 := hs.2.1
      have h2 := hs.2.2.1
      exact ⟨this.1, by omega, this.2.2.1, this.2.2.2⟩

theorem SortedRanges_pairwise {f : Nat} : ∀ {l : List DetectAddress} {lb : Nat},
    SortedRanges f lb l → PairwiseDisjoint l
  | [], _, _ => List.Pairwise.nil
  | d :: ds, _, hs => by
    refine List.Pairwise.cons ?_ (SortedRanges_pairwise hs.2.2.2.2)
    intro e he
    have := SortedRanges_mem hs.2.2.2.2 e he
    omega

theorem SortedRanges_adjacent {f lb : Nat} {l : List DetectAddress}
    (hs : SortedRanges f lb l) : AdjacentSorted l :=
  List.Pairwise.chain' (SortedRanges_pairwise hs)

theorem SortedRanges_familyList {f lb : Nat} {l : List DetectAddress}
    (hs : SortedRanges f lb l) : FamilyList f l := by
  intro d hd
  have := SortedRanges_mem hs d hd
  exact ⟨this.1, this.2.2.1, this.2.2.2⟩

theorem SortedRanges_sortedByLo {f : Nat} : ∀ {l : List DetectAddress} {lb : Nat},
    SortedRanges f lb l → SortedByLo l
  | [], _, _ => List.Pairwise.nil
  | d :: ds, _, hs => by
    refine List.Pairwise.cons ?_ (SortedRanges_sortedByLo hs.2.2.2.2)
    intro e he
    have := SortedRanges_mem hs.2.2.2.2 e he
    have h2 := hs.2.2.1
    omega

theorem SortedRanges_of_adjacent {f : Nat} : ∀ (l : List DetectAddress) (lb : Nat),
    FamilyList f l → AdjacentSorted l → (∀ e, l.head? = some e → lb ≤ e.ip) →
    SortedRanges f lb l
  | [], _, _, _, _ => trivial
  | d :: ds, lb, hf, hc, hlb => by
    have hd := hf d (List.mem_cons_self _ _)
    refine ⟨hd.1, hlb d rfl, hd.2.1, hd.2.2, ?_⟩
    apply SortedRanges_of_adjacent ds (d.ip2 + 1)
    · exact fun e he => hf e (List.mem_cons_of_mem _ he)
    · exact List.Chain'.tail hc
    · intro e he
      cases ds with
      | nil => simp at he
      | cons y ys =>
        simp only [List.head?_cons, Option.some.injEq] at he
        subst he
        have := (List.chain'_cons.1 hc).1
        omega

theorem SortedRanges_iff {f : Nat} (l : List DetectAddress) :
    SortedRanges f 0 l ↔ FamilyList f l ∧ AdjacentSorted l :=
  ⟨fun h => ⟨SortedRanges_familyList h, SortedRanges_adjacent h⟩,
   fun h => SortedRanges_of_adjacent l 0 h.1 h.2 (fun _ _ => Nat.zero_le _)⟩

/-! ## `DetectAddressInsert` on a well-formed head -/

theorem DetectAddressInsert_eq_insertSorted (n : Nat) (gh : DetectAddressHead)
    (x : DetectAddress) (hx : FamilyRecord x) (hv : validRange x)
    (hs : SortedRanges x.family 0 (GetHeadPtr gh x)) (hn : (GetHeadPtr gh x).length < n) :
    ∃ r, (r = 0 ∨ r = 1) ∧
      DetectAddressInsert n gh x =
        Run.done (r, putList gh x (insertSorted (GetHeadPtr gh x) x)) := by
  have := DetectAddressInsert_eq_aux n gh x [] (GetHeadPtr gh x) hx (by simp)
    (by simp) hs hv.1 hv.2 hn
  simpa using this

theorem putList_v4 (gh : DetectAddressHead) (x : DetectAddress) (l : List DetectAddress)
    (hx : FamilyRecord x) (hf : x.family = AF_INET) :
    putList gh x l = { gh with ipv4_head := l } ∧ GetHeadPtr gh x = gh.ipv4_head := by
  unfold putList SetHeadPtr GetHeadPtr
  simp [hx.2, hf]

theorem putList_v6 (gh : DetectAddressHead) (x : DetectAddress) (l : List DetectAddress)
    (hx : FamilyRecord x) (hf : x.family = AF_INET6) :
    putList gh x l = { gh with ipv6_head := l } ∧ GetHeadPtr gh x = gh.ipv6_head := by
  unfold putList SetHeadPtr GetHeadPtr
  simp [hx.2, hf, AF_INET, AF_INET6]

theorem WfHead_GetHeadPtr (gh : DetectAddressHead) (x : DetectAddress) (hx : FamilyRecord x)
    (hw : WfHead gh) : SortedRanges x.family 0 (GetHeadPtr gh x) := by
  obtain ⟨h4, h4s, h6, h6s⟩ := hw
  rcases hx.1 with h | h
  · rw [(putList_v4 gh x [] hx h).2, h]
    exact (SortedRanges_iff _).2 ⟨h4, h4s⟩
  · rw [(putList_v6 gh x [] hx h).2, h]
    exact (SortedRanges_iff _).2 ⟨h6, h6s⟩

theorem WfHead_putList (gh : DetectAddressHead) (x : DetectAddress) (l : List DetectAddress)
    (hx : FamilyRecord x) (hw : WfHead gh) (hl : SortedRanges x.family 0 l) :
    WfHead (putList gh x l) := by
  obtain ⟨h4, h4s, h6, h6s⟩ := hw
  rcases hx.1 with h | h
  · rw [(putList_v4 gh x l hx h).1]
    rw [h] at hl
    exact ⟨SortedRanges_familyList hl, SortedRanges_adjacent hl, h6, h6s⟩
  · rw [(putList_v6 gh x l hx h).1]
    rw [h] at hl
    exact ⟨h4, h4s, SortedRanges_familyList hl, SortedRanges_adjacent hl⟩

/-- C2. On a head whose IPv4 and IPv6 lists hold ranges of their family with
every adjacent pair `p, q` satisfying `p.hi < q.lo`, inserting a range `x` of
family IPv4 or IPv6 with `lo <= hi` returns (for every recursion budget above
the length of the list of `x`), and afterwards the list of `x`'s family is again
sorted by `lo` and pairwise disjoint with adjacent `p.hi < q.lo`, it holds
ranges of that family only, and the other two lists are unchanged. -/
theorem DetectAddressInsert_sorted (n : Nat) (gh : DetectAddressHead) (x : DetectAddress)
    (hw : WfHead gh) (hx : FamilyRecord x) (hv : validRange x)
    (hn : (GetHeadPtr gh x).length < n) :
    ∃ r gh1, DetectAddressInsert n gh x = Run.done (r, gh1) ∧ WfHead gh1 ∧
      AdjacentSorted (GetHeadPtr gh1 x) ∧ PairwiseDisjoint (GetHeadPtr gh1 x) ∧
      SortedByLo (GetHeadPtr gh1 x) ∧ FamilyList x.family (GetHeadPtr gh1 x) ∧
      gh1.any_head = gh.any_head ∧
      (x.family = AF_INET → gh1.ipv6_head = gh.ipv6_head) ∧
      (x.family = AF_INET6 → gh1.ipv4_head = gh.ipv4_head) := by
  have hs := WfHead_GetHeadPtr gh x hx hw
  obtain ⟨r, _, he⟩ := DetectAddressInsert_eq_insertSorted n gh x hx hv hs hn
  have hs2 : SortedRanges x.family 0 (insertSorted (GetHeadPtr gh x) x) :=
    insertSorted_sorted _ 0 x hx rfl (Nat.zero_le _) hv.1 hv.2 hs
  refine ⟨r, _, he, WfHead_putList gh x _ hx hw hs2, ?_⟩
  rw [GetHeadPtr_putList gh x x _ hx hx rfl]
  refine ⟨SortedRanges_adjacent hs2, SortedRanges_pairwise hs2, SortedRanges_sortedByLo hs2,
    SortedRanges_familyList hs2, ?_, ?_, ?_⟩
  · rcases hx.1 with h | h
    · rw [(putList_v4 gh x _ hx h).1]
    · rw [(putList_v6 gh x _ hx h).1]
  · intro h
    rw [(putList_v4 gh x _ hx h).1]
  · intro h
    rw [(putList_v6 gh x _ hx h).1]

/-- Witness for C2: inserting 0-100 into the IPv4 list 5-12, 20-30, 40-50. -/
theorem DetectAddressInsert_sorted_witness :
    ∃ r gh1, DetectAddressInsert 4
        { any_head := [], ipv4_head := [mkV4 5 12, mkV4 20 30, mkV4 40 50], ipv6_head := [] }
        (mkV4 0 100) = Run.done (r, gh1) ∧ WfHead gh1 ∧
      AdjacentSorted (GetHeadPtr gh1 (mkV4 0 100)) ∧
      PairwiseDisjoint (GetHeadPtr gh1 (mkV4 0 100)) ∧
      SortedByLo (GetHeadPtr gh1 (mkV4 0 100)) ∧
      FamilyList (mkV4 0 100).family (GetHeadPtr gh1 (mkV4 0 100)) ∧
      gh1.any_head = [] ∧
      ((mkV4 0 100).family = AF_INET → gh1.ipv6_head = []) ∧
      ((mkV4 0 100).family = AF_INET6 →
        gh1.ipv4_head = [mkV4 5 12, mkV4 20 30, mkV4 40 50]) :=
  DetectAddressInsert_sorted 4
    { any_head := [], ipv4_head := [mkV4 5 12, mkV4 20 30, mkV4 40 50], ipv6_head := [] }
    (mkV4 0 100)
    ⟨by decide, by simp [AdjacentSorted, mkV4], by decide, by simp [AdjacentSorted]⟩
    (by decide) (by decide) (by decide)

/-- C3. On a head whose list for `x`'s family holds ranges of that family with
every adjacent pair `p, q` satisfying `p.hi < q.lo`, inserting a range `x` of
family IPv4 or IPv6 with `lo <= hi` returns, and an address value is in some
range of that list afterwards exactly when it was in some range of the list
before or lies in `x`. -/
theorem DetectAddressInsert_covered (n : Nat) (gh : DetectAddressHead) (x : DetectAddress)
    (hx : FamilyRecord x) (hv : validRange x)
    (hl : FamilyList x.family (GetHeadPtr gh x)) (hs : AdjacentSorted (GetHeadPtr gh x))
    (hn : (GetHeadPtr gh x).length < n) :
    ∃ r gh1, DetectAddressInsert n gh x = Run.done (r, gh1) ∧
      ∀ A, covered (GetHeadPtr gh1 x) A ↔ (covered (GetHeadPtr gh x) A ∨ inRange x A) := by
  have hs0 : SortedRanges x.family 0 (GetHeadPtr gh x) := (SortedRanges_iff _).2 ⟨hl, hs⟩
  obtain ⟨r, _, he⟩ := DetectAddressInsert_eq_insertSorted n gh x hx hv hs0 hn
  refine ⟨r, _, he, ?_⟩
  intro A
  rw [GetHeadPtr_putList gh x x _ hx hx rfl]
  exact insertSorted_covered A _ 0 x hx rfl hv.1 hv.2 hs0

/-- Witness for C3: inserting 10.10.10.10 into the list holding 10.0.0.0/8
(`AddressTestAddressGroupSetup07`). -/
theorem DetectAddressInsert_covered_witness :
    ∃ r gh1, DetectAddressInsert 2
        { any_head := [], ipv4_head := [mkV4 167772160 184549375], ipv6_head := [] }
        (mkV4 168430090 168430090) = Run.done (r, gh1) ∧
      ∀ A, covered (GetHeadPtr gh1 (mkV4 168430090 168430090)) A ↔
        (covered (GetHeadPtr
          { any_head := [], ipv4_head := [mkV4 167772160 184549375], ipv6_head := [] }
          (mkV4 168430090 168430090)) A ∨ inRange (mkV4 168430090 168430090) A) :=
  DetectAddressInsert_covered 2
    { any_head := [], ipv4_head := [mkV4 167772160 184549375], ipv6_head := [] }
    (mkV4 168430090 168430090) (by decide) (by decide) (by decide)
    (by simp [AdjacentSorted, GetHeadPtr, mkV4, DetectAddressInit]) (by decide)

/-! ## A sorted list is determined by what it covers and where it is cut -/

theorem SortedRanges_disjoint {f lb : Nat} {l : List DetectAddress} (hs : SortedRanges f lb l)
    {a b : DetectAddress} (ha : a ∈ l) (hb : b ∈ l) :
    a = b ∨ a.ip2 < b.ip ∨ b.ip2 < a.ip := by
  by_cases hab : a = b
  · exact Or.inl hab
  · right
    have hp : List.Pairwise (fun p q : DetectAddress => p.ip2 < q.ip ∨ q.ip2 < p.ip) l :=
      (SortedRanges_pairwise hs).imp (fun h => Or.inl h)
    exact hp.forall (fun _ _ h => h.symm) ha hb hab

theorem no_cutPoint_inside {f lb : Nat} {l : List DetectAddress} (hs : SortedRanges f lb l)
    {q : DetectAddress} (hq : q ∈ l) {v : Nat} (hv : cutPoint l v) :
    ¬ (q.ip < v ∧ v ≤ q.ip2) := by
  obtain ⟨e, he, hev⟩ := hv
  have hqv := (SortedRanges_mem hs q hq).2.2.1
  have hevv := (SortedRanges_mem hs e he).2.2.1
  rcases SortedRanges_disjoint hs he hq with h | h | h
  · subst h
    omega
  · omega
  · omega

theorem same_range_of_arrangement {f lb1 lb2 : Nat} {l1 l2 : List DetectAddress}
    (h1 : SortedRanges f lb1 l1) (h2 : SortedRanges f lb2 l2)
    (hc : ∀ A, covered l1 A ↔ covered l2 A) (hp : ∀ v, cutPoint l1 v ↔ cutPoint l2 v)
    {p : DetectAddress} (hmem : p ∈ l1) : ∃ q ∈ l2, q.ip = p.ip ∧ q.ip2 = p.ip2 := by
  have hpv := (SortedRanges_mem h1 p hmem).2.2.1
  obtain ⟨q, hq, hq1, hq2⟩ := (hc p.ip).1 ⟨p, hmem, ⟨le_refl _, hpv⟩⟩
  have hqv := (SortedRanges_mem h2 q hq).2.2.1
  refine ⟨q, hq, ?_, ?_⟩
  · by_contra hne
    have hcp : cutPoint l2 p.ip := (hp p.ip).1 ⟨p, hmem, Or.inl rfl⟩
    exact no_cutPoint_inside h2 hq hcp ⟨by omega, hq2⟩
  · have hlo : q.ip = p.ip := by
      by_contra hne
      have hcp : cutPoint l2 p.ip := (hp p.ip).1 ⟨p, hmem, Or.inl rfl⟩
      exact no_cutPoint_inside h2 hq hcp ⟨by omega, hq2⟩
    by_contra hne
    rcases Nat.lt_or_gt_of_ne hne with hlt | hgt
    · have hcp : cutPoint l1 (q.ip2 + 1) := (hp _).2 ⟨q, hq, Or.inr rfl⟩
      exact no_cutPoint_inside h1 hmem hcp ⟨by omega, by omega⟩
    · have hcp : cutPoint l2 (p.ip2 + 1) := (hp _).1 ⟨p, hmem, Or.inr rfl⟩
      exact no_cutPoint_inside h2 hq hcp ⟨by omega, by omega⟩

theorem rangesOf_sorted {f lb : Nat} {l : List DetectAddress} (hs : SortedRanges f lb l) :
    List.Pairwise (fun a b : Nat × Nat => a.1 < b.1) (rangesOf l) := by
  unfold rangesOf
  rw [List.pairwise_map]
  exact SortedRanges_sortedByLo hs

theorem rangesOf_eq_of_arrangement {f lb1 lb2 : Nat} {l1 l2 : List DetectAddress}
    (h1 : SortedRanges f lb1 l1) (h2 : SortedRanges f lb2 l2)
    (hc : ∀ A, covered l1 A ↔ covered l2 A) (hp : ∀ v, cutPoint l1 v ↔ cutPoint l2 v) :
    rangesOf l1 = rangesOf l2 := by
  have hs1 := rangesOf_sorted h1
  have hs2 := rangesOf_sorted h2
  have hsub : ∀ {m1 m2 : List DetectAddress} {b1 b2 : Nat}, SortedRanges f b1 m1 →
      SortedRanges f b2 m2 → (∀ A, covered m1 A ↔ covered m2 A) →
      (∀ v, cutPoint m1 v ↔ cutPoint m2 v) → ∀ r, r ∈ rangesOf m1 → r ∈ rangesOf m2 := by
    intro m1 m2 b1 b2 g1 g2 gc gp r hr
    simp only [rangesOf, List.mem_map] at hr ⊢
    obtain ⟨p, hp1, hp2⟩ := hr
    obtain ⟨q, hq, hq1, hq2⟩ := same_range_of_arrangement g1 g2 gc gp hp1
    exact ⟨q, hq, by rw [← hp2, hq1, hq2]⟩
  have hnd : ∀ {m : List (Nat × Nat)},
      List.Pairwise (fun a b : Nat × Nat => a.1 < b.1) m → m.Nodup := by
    intro m hm
    exact hm.imp (fun {a b} h hab => by rw [hab] at h; exact absurd h (Nat.lt_irrefl _))
  have hperm : (rangesOf l1).Perm (rangesOf l2) :=
    (List.perm_ext_iff_of_nodup (hnd hs1) (hnd hs2)).2 (fun r =>
      ⟨hsub h1 h2 hc hp r, hsub h2 h1 (fun A => (hc A).symm) (fun v => (hp v).symm) r⟩)
  haveI : IsAntisymm (Nat × Nat) (fun a b => a.1 < b.1) :=
    ⟨fun a b hab hba => absurd hab (by omega)⟩
  exact List.eq_of_perm_of_sorted hperm hs1 hs2

/-! ## Inserting a set of ranges in any order -/

theorem mem_endPoints (v : Nat) : ∀ (s : List DetectAddress), v ∈ endPoints s ↔ cutPoint s v
  | [] => by simp [endPoints, cutPoint]
  | x :: xs => by
    simp only [endPoints, List.mem_cons, cutPoint_cons, mem_endPoints v xs]
    exact (or_assoc).symm

theorem length_endPoints : ∀ (s : List DetectAddress), (endPoints s).length = 2 * s.length
  | [] => rfl
  | x :: xs => by
    simp only [endPoints, List.length_cons, length_endPoints xs]
    omega

theorem boundaryList_length : ∀ (l : List DetectAddress), l ≠ [] →
    (boundaryList l).length = l.length + 1
  | [], h => absurd rfl h
  | [_], _ => rfl
  | d :: e :: l, _ => by
    simp only [boundaryList, List.length_cons]
    have := boundaryList_length (e :: l) (by simp)
    simp only [List.length_cons] at this
    omega

theorem boundaryList_sorted {f : Nat} : ∀ (l : List DetectAddress) (lb : Nat),
    SortedRanges f lb l →
    List.Pairwise (· < ·) (boundaryList l) ∧ ∀ v ∈ boundaryList l, lb ≤ v ∧ cutPoint l v
  | [], _, _ => by simp [boundaryList]
  | [d], lb, hs => by
    obtain ⟨_, h1, h2, _, _⟩ := hs
    simp only [boundaryList, cutPoint_cons, cutPoint_nil, or_false]
    refine ⟨?_, ?_⟩
    · simp
      omega
    · intro v hv
      simp only [List.mem_cons, List.mem_singleton, List.not_mem_nil, or_false] at hv
      rcases hv with h | h
      · exact ⟨by omega, Or.inl h⟩
      · exact ⟨by omega, Or.inr h⟩
  | d :: e :: l, lb, hs => by
    obtain ⟨_, h1, h2, _, hrest⟩ := hs
    obtain ⟨ih1, ih2⟩ := boundaryList_sorted (e :: l) (d.ip2 + 1) hrest
    simp only [boundaryList]
    refine ⟨List.Pairwise.cons ?_ ih1, ?_⟩
    · intro v hv
      have := (ih2 v hv).1
      omega
    · intro v hv
      rcases List.mem_cons.1 hv with h | h
      · exact ⟨by omega, (cutPoint_cons d (e :: l) v).2 (Or.inl (Or.inl h))⟩
      · have := ih2 v h
        exact ⟨by omega, (cutPoint_cons d (e :: l) v).2 (Or.inr this.2)⟩

theorem Arrangement_length {f : Nat} {l s : List DetectAddress} (h : Arrangement f l s) :
    l.length ≤ 2 * s.length := by
  by_cases hl : l = []
  · simp [hl]
  · obtain ⟨hs, _, hp⟩ := h
    obtain ⟨b1, b2⟩ := boundaryList_sorted l 0 hs
    have hnd : (boundaryList l).Nodup := b1.imp (fun h => Nat.ne_of_lt h)
    have hsub : boundaryList l ⊆ endPoints s := by
      intro v hv
      exact (mem_endPoints v s).2 ((hp v).1 (b2 v hv).2)
    have := (hnd.subperm hsub).length_le
    rw [boundaryList_length l hl, length_endPoints] at this
    omega

theorem covered_append (s t : List DetectAddress) (A : Nat) :
    covered (s ++ t) A ↔ covered s A ∨ covered t A := by
  simp only [covered, List.mem_append]
  constructor
  · rintro ⟨d, h | h, hd⟩
    · exact Or.inl ⟨d, h, hd⟩
    · exact Or.inr ⟨d, h, hd⟩
  · rintro (⟨d, h, hd⟩ | ⟨d, h, hd⟩)
    · exact ⟨d, Or.inl h, hd⟩
    · exact ⟨d, Or.inr h, hd⟩

theorem cutPoint_append (s t : List DetectAddress) (v : Nat) :
    cutPoint (s ++ t) v ↔ cutPoint s v ∨ cutPoint t v := by
  simp only [cutPoint, List.mem_append]
  constructor
  · rintro ⟨d, h | h, hd⟩
    · exact Or.inl ⟨d, h, hd⟩
    · exact Or.inr ⟨d, h, hd⟩
  · rintro (⟨d, h, hd⟩ | ⟨d, h, hd⟩)
    · exact ⟨d, Or.inl h, hd⟩
    · exact ⟨d, Or.inr h, hd⟩

theorem Arrangement_insert {f : Nat} {l s : List DetectAddress} (x : DetectAddress)
    (h : Arrangement f l s) (hx : FamilyRecord x) (hf : x.family = f) (hv : validRange x) :
    Arrangement f (insertSorted l x) (s ++ [x]) := by
  obtain ⟨hs, hc, hp⟩ := h
  rw [← hf] at hs
  have hm : x.ip2 ≤ addrMax x.family := hv.2
  subst hf
  refine ⟨insertSorted_sorted l 0 x hx rfl (Nat.zero_le _) hv.1 hm hs, ?_, ?_⟩
  · intro A
    rw [insertSorted_covered A l 0 x hx rfl hv.1 hm hs, covered_append, hc A, covered_cons,
      covered_nil, or_false]
  · intro v
    rw [insertSorted_cutPoint v l 0 x hx rfl hv.1 hm hs, cutPoint_append, hp v, cutPoint_cons,
      cutPoint_nil, or_false]

theorem insertAll_arrangement (n : Nat) : ∀ (xs : List DetectAddress) (gh : DetectAddressHead)
    (s0 : List DetectAddress), Arrangement AF_INET gh.ipv4_head s0 →
    (∀ x ∈ xs, x.family = AF_INET ∧ x.flag_any = false ∧ validRange x) →
    2 * (s0.length + xs.length) ≤ n →
    ∃ g, insertAll n gh xs = Run.done g ∧ Arrangement AF_INET g.ipv4_head (s0 ++ xs)
  | [], gh, s0, h, _, _ => ⟨gh, rfl, by simpa using h⟩
  | x :: xs, gh, s0, h, hxs, hn => by
    obtain ⟨hxf, hxa, hxv⟩ := hxs x (List.mem_cons_self _ _)
    have hx : FamilyRecord x := ⟨Or.inl hxf, hxa⟩
    have hget := (putList_v4 gh x [] hx hxf).2
    have hlen := Arrangement_length h
    simp only [List.length_cons] at hn
    obtain ⟨r, _, he⟩ := DetectAddressInsert_eq_insertSorted n gh x hx hxv
      (by rw [hget, hxf]; exact h.1) (by rw [hget]; omega)
    rw [(putList_v4 gh x _ hx hxf).1, hget] at he
    have h2 := Arrangement_insert x h hx hxf hxv
    obtain ⟨g, hg, ha⟩ := insertAll_arrangement n xs
      { gh with ipv4_head := insertSorted gh.ipv4_head x } (s0 ++ [x]) h2
      (fun y hy => hxs y (List.mem_cons_of_mem _ hy))
      (by simp only [List.length_append, List.length_singleton]; omega)
    refine ⟨g, ?_, by simpa using ha⟩
    simp only [insertAll, he]
    exact hg

theorem covered_iff_rangesOf (s : List DetectAddress) (A : Nat) :
    covered s A ↔ ∃ r ∈ rangesOf s, r.1 ≤ A ∧ A ≤ r.2 := by
  simp [covered, rangesOf, inRange]

theorem cutPoint_iff_rangesOf (s : List DetectAddress) (v : Nat) :
    cutPoint s v ↔ ∃ r ∈ rangesOf s, v = r.1 ∨ v = r.2 + 1 := by
  simp [cutPoint, rangesOf]

theorem insertAll_order_independent (n : Nat) (xs ys : List DetectAddress)
    (hx : ∀ x ∈ xs, x.family = AF_INET ∧ x.flag_any = false ∧ validRange x)
    (hy : ∀ y ∈ ys, y.family = AF_INET ∧ y.flag_any = false ∧ validRange y)
    (hset : ∀ r, r ∈ rangesOf xs ↔ r ∈ rangesOf ys)
    (hnx : 2 * xs.length ≤ n) (hny : 2 * ys.length ≤ n) :
    ∃ g1 g2, insertAll n DetectAddressHeadInit xs = Run.done g1 ∧
      insertAll n DetectAddressHeadInit ys = Run.done g2 ∧
      rangesOf g1.ipv4_head = rangesOf g2.ipv4_head := by
  have h0 : Arrangement AF_INET DetectAddressHeadInit.ipv4_head [] :=
    ⟨trivial, fun A => by simp [DetectAddressHeadInit, covered],
      fun v => by simp [DetectAddressHeadInit, cutPoint]⟩
  obtain ⟨g1, hg1, a1⟩ := insertAll_arrangement n xs DetectAddressHeadInit [] h0 hx
    (by simpa using hnx)
  obtain ⟨g2, hg2, a2⟩ := insertAll_arrangement n ys DetectAddressHeadInit [] h0 hy
    (by simpa using hny)
  simp only [List.nil_append] at a1 a2
  refine ⟨g1, g2, hg1, hg2, rangesOf_eq_of_arrangement a1.1 a2.1 ?_ ?_⟩
  · intro A
    rw [a1.2.1 A, a2.2.1 A, covered_iff_rangesOf, covered_iff_rangesOf]
    exact ⟨fun ⟨r, hr, h⟩ => ⟨r, (hset r).1 hr, h⟩, fun ⟨r, hr, h⟩ => ⟨r, (hset r).2 hr, h⟩⟩
  · intro v
    rw [a1.2.2 v, a2.2.2 v, cutPoint_iff_rangesOf, cutPoint_iff_rangesOf]
    exact ⟨fun ⟨r, hr, h⟩ => ⟨r, (hset r).1 hr, h⟩, fun ⟨r, hr, h⟩ => ⟨r, (hset r).2 hr, h⟩⟩

theorem testRanges_ok : ∀ x ∈ [testRange, testNet24, testNet0],
    x.family = AF_INET ∧ x.flag_any = false ∧ validRange x := by decide

theorem testRanges_insertAll :
    ∃ g, insertAll 6 DetectAddressHeadInit [testRange, testNet24, testNet0] = Run.done g ∧
      rangesOf g.ipv4_head = testFive := ⟨_, rfl, by decide⟩

/-- C7. For two lists `xs` and `ys` of IPv4 ranges with `lo <= hi` that hold the
same set of ranges, inserting them one by one with `DetectAddressInsert` into an
empty head returns (with a recursion budget of twice the number of ranges) and
leaves the same sequence of `(lo, hi)` ranges in the IPv4 list. For
10.10.10.10-10.10.11.1, 10.10.10.0/24 and 0.0.0.0/0 in any order that sequence
is the five ranges of `testFive`, and so it is after one `DetectAddressParse`
call per atom in the order of `AddressTestAddressGroupSetup11`. -/
theorem DetectAddressInsert_order_independent (n : Nat) (xs ys : List DetectAddress)
    (hx : ∀ x ∈ xs, x.family = AF_INET ∧ x.flag_any = false ∧ validRange x)
    (hy : ∀ y ∈ ys, y.family = AF_INET ∧ y.flag_any = false ∧ validRange y)
    (hset : ∀ r, r ∈ rangesOf xs ↔ r ∈ rangesOf ys)
    (hnx : 2 * xs.length ≤ n) (hny : 2 * ys.length ≤ n) :
    (∃ g1 g2, insertAll n DetectAddressHeadInit xs = Run.done g1 ∧
      insertAll n DetectAddressHeadInit ys = Run.done g2 ∧
      rangesOf g1.ipv4_head = rangesOf g2.ipv4_head) ∧
    (∀ zs : List DetectAddress, zs.Perm [testRange, testNet24, testNet0] →
      ∃ g, insertAll 6 DetectAddressHeadInit zs = Run.done g ∧
        rangesOf g.ipv4_head = testFive) ∧
    (∃ g1 g2 g3,
      DetectAddressParse stdExtern 6 DetectAddressHeadInit
        ['1', '0', '.', '1', '0', '.', '1', '0', '.', '1', '0', '-',
         '1', '0', '.', '1', '0', '.', '1', '1', '.', '1'] = Run.done (0, g1) ∧
      DetectAddressParse stdExtern 6 g1
        ['1', '0', '.', '1', '0', '.', '1', '0', '.', '0', '/', '2', '4'] = Run.done (0, g2) ∧
      DetectAddressParse stdExtern 6 g2
        ['0', '.', '0', '.', '0', '.', '0', '/', '0'] = Run.done (0, g3) ∧
      rangesOf g3.ipv4_head = testFive) := by
  refine ⟨insertAll_order_independent n xs ys hx hy hset hnx hny, ?_, ?_⟩
  · intro zs hp
    have hz : ∀ z ∈ zs, z.family = AF_INET ∧ z.flag_any = false ∧ validRange z :=
      fun z hzm => testRanges_ok z (hp.mem_iff.1 hzm)
    have hs : ∀ r, r ∈ rangesOf zs ↔ r ∈ rangesOf [testRange, testNet24, testNet0] :=
      fun r => (hp.map _).mem_iff
    have hl : zs.length = 3 := by rw [hp.length_eq]; rfl
    obtain ⟨g1, g2, h1, h2, h3⟩ := insertAll_order_independent 6 zs
      [testRange, testNet24, testNet0] hz testRanges_ok hs (by omega) (by simp)
    obtain ⟨g, hg, hfive⟩ := testRanges_insertAll
    rw [hg] at h2
    cases h2
    exact ⟨g1, h1, h3.trans hfive⟩
  · exact ⟨_, _, _, rfl, rfl, rfl, by decide⟩

/-- Witness for C7: the order of `AddressTestAddressGroupSetup11` against the
order of `AddressTestAddressGroupSetup13`. -/
theorem DetectAddressInsert_order_independent_witness :
    (∃ g1 g2, insertAll 6 DetectAddressHeadInit [testRange, testNet24, testNet0] = Run.done g1 ∧
      insertAll 6 DetectAddressHeadInit [testNet0, testRange, testNet24] = Run.done g2 ∧
      rangesOf g1.ipv4_head = rangesOf g2.ipv4_head) ∧
    (∀ zs : List DetectAddress, zs.Perm [testRange, testNet24, testNet0] →
      ∃ g, insertAll 6 DetectAddressHeadInit zs = Run.done g ∧
        rangesOf g.ipv4_head = testFive) ∧
    (∃ g1 g2 g3,
      DetectAddressParse stdExtern 6 DetectAddressHeadInit
        ['1', '0', '.', '1', '0', '.', '1', '0', '.', '1', '0', '-',
         '1', '0', '.', '1', '0', '.', '1', '1', '.', '1'] = Run.done (0, g1) ∧
      DetectAddressParse stdExtern 6 g1
        ['1', '0', '.', '1', '0', '.', '1', '0', '.', '0', '/', '2', '4'] = Run.done (0, g2) ∧
      DetectAddressParse stdExtern 6 g2
        ['0', '.', '0', '.', '0', '.', '0', '/', '0'] = Run.done (0, g3) ∧
      rangesOf g3.ipv4_head = testFive) :=
  DetectAddressInsert_order_independent 6 [testRange, testNet24, testNet0]
    [testNet0, testRange, testNet24] (by decide) (by decide)
    (fun r => by
      simp only [rangesOf, List.map, List.mem_cons, List.mem_singleton, List.not_mem_nil,
        or_false]
      constructor <;> intro h <;> rcases h with h | h | h <;> simp [h])
    (by decide) (by decide)

/-! ## What `DetectAddressParseSingle` returns -/

theorem Nat_le_or_left (x y : Nat) : x ≤ x ||| y :=
  Nat.le_of_testBit (fun i h => by simp [Nat.testBit_or, h])

theorem masked_range (a m w : Nat) (ha : a < 2 ^ w) (hm : m < 2 ^ w) :
    a &&& m ≤ (a &&& m) ||| (m ^^^ (2 ^ w - 1)) ∧
    (a &&& m) ||| (m ^^^ (2 ^ w - 1)) ≤ 2 ^ w - 1 := by
  refine ⟨Nat_le_or_left _ _, ?_⟩
  have h1 : a &&& m < 2 ^ w := lt_of_le_of_lt Nat.and_le_left ha
  have hp : 0 < 2 ^ w := Nat.two_pow_pos _
  have h2 : m ^^^ (2 ^ w - 1) < 2 ^ w := Nat.xor_lt_two_pow hm (by omega)
  have := Nat.or_lt_two_pow h1 h2
  omega

theorem CIDRGet_lt (c : Nat) : CIDRGet c < 2 ^ 32 := by
  unfold CIDRGet
  have : 0 < 2 ^ (32 - c) := Nat.two_pow_pos _
  omega

theorem parseIPv4_some (E : Extern) (dd ad : DetectAddress) (ip : List Char)
    (hdd : dd.flag_any = false) (h : parseIPv4 E dd ip = some ad) :
    (ad.family = AF_INET ∧ ad.flag_any = false) ∧ validRange ad ∧
      ad.flag_not = dd.flag_not := by
  have hmax : addrMax AF_INET = 2 ^ 32 - 1 := by decide
  have hmod : ∀ v : Nat, v % 2 ^ 32 < 2 ^ 32 := fun v => Nat.mod_lt _ (by decide)
  unfold parseIPv4 at h
  simp only at h
  split at h
  next ipp mask _ =>
    split at h
    next => cases h
    next netmask hnm =>
      have hlt : netmask < 2 ^ 32 := by
        split at hnm
        · split at hnm
          · cases hnm
          · cases hnm
            exact CIDRGet_lt _
        · cases hm : E.inet_pton4 mask <;> rw [hm] at hnm <;> simp at hnm
          rw [← hnm]
          exact hmod _
      split at h
      next => cases h
      next v _ =>
        cases h
        have := masked_range (v % 2 ^ 32) netmask 32 (hmod v) hlt
        exact ⟨⟨rfl, hdd⟩, ⟨this.1, by simp only [hmax]; exact this.2⟩, rfl⟩
  next =>
    split at h
    next ipp ip2 _ =>
      split at h
      next => cases h
      next v _ =>
        split at h
        next => cases h
        next w _ =>
          split at h
          next => cases h
          next hle =>
            cases h
            have := hmod w
            refine ⟨⟨rfl, hdd⟩, ⟨by simp only; omega, ?_⟩, rfl⟩
            simp only [hmax]
            omega
    next =>
      split at h
      next => cases h
      next v _ =>
        cases h
        have := hmod v
        exact ⟨⟨rfl, hdd⟩, ⟨le_refl _, by simp only [hmax]; omega⟩, rfl⟩

theorem parseIPv6_some (E : Extern) (dd ad : DetectAddress) (ip : List Char)
    (hdd : dd.flag_any = false) (h : parseIPv6 E dd ip = some ad) :
    (ad.family = AF_INET6 ∧ ad.flag_any = false) ∧ validRange ad ∧
      ad.flag_not = dd.flag_not := by
  have hmax : addrMax AF_INET6 = 2 ^ 128 - 1 := by decide
  have hmod : ∀ v : Nat, v % 2 ^ 128 < 2 ^ 128 := fun v => Nat.mod_lt _ (by decide)
  unfold parseIPv6 at h
  simp only at h
  split at h
  next ipp mask _ =>
    split at h
    next => cases h
    next v _ =>
      cases h
      have := masked_range (v % 2 ^ 128) (DetectAddressParseIPv6CIDR (E.atoi mask) % 2 ^ 128) 128
        (hmod v) (hmod _)
      exact ⟨⟨rfl, hdd⟩, ⟨this.1, by simp only [hmax]; exact this.2⟩, rfl⟩
  next =>
    split at h
    next ipp ip2 _ =>
      split at h
      next => cases h
      next v _ =>
        split at h
        next => cases h
        next w _ =>
          split at h
          next => cases h
          next hle =>
            cases h
            have := hmod w
            refine ⟨⟨rfl, hdd⟩, ⟨by simp [AddressIPv6Gt] at hle ⊢; omega, ?_⟩, rfl⟩
            simp only [hmax]
            omega
    next =>
      split at h
      next => cases h
      next v _ =>
        cases h
        have := hmod v
        exact ⟨⟨rfl, hdd⟩, ⟨le_refl _, by simp only [hmax]; omega⟩, rfl⟩

theorem ParseSingle_cases (E : Extern) (s : List Char) (ad : DetectAddress)
    (h : DetectAddressParseSingle E s = some ad) :
    (ad = { DetectAddressInit with flag_any := true }) ∨ (FamilyRecord ad ∧ validRange ad) := by
  unfold DetectAddressParseSingle DetectAddressParseString at h
  split at h
  · cases h
    exact Or.inl rfl
  · right
    simp only at h
    split at h
    · have := parseIPv4_some E _ ad _ (by split <;> rfl) h
      exact ⟨⟨Or.inl this.1.1, this.1.2⟩, this.2.1⟩
    · have := parseIPv6_some E _ ad _ (by split <;> rfl) h
      exact ⟨⟨Or.inr this.1.1, this.1.2⟩, this.2.1⟩

/-! ## More recursion budget does not change a result -/

theorem InsertLoop_mono
    (rec1 rec2 : DetectAddressHead → DetectAddress → Run (Int × DetectAddressHead))
    (hrec : ∀ gh x v, rec1 gh x = Run.done v → rec2 gh x = Run.done v)
    (gh : DetectAddressHead) (x : DetectAddress) (v : Int × DetectAddressHead) :
    ∀ (rest pre : List DetectAddress), InsertLoop rec1 gh x pre rest = Run.done v →
      InsertLoop rec2 gh x pre rest = Run.done v
  | [], _, h => by simpa [InsertLoop] using h
  | cur :: rest, pre, h => by
    by_cases hEQ : DetectAddressCmp x cur = ADDRESS_EQ
    · simpa [InsertLoop, hEQ] using h
    by_cases hLT : DetectAddressCmp x cur = ADDRESS_LT
    · simpa [InsertLoop, hLT] using h
    by_cases hER : DetectAddressCmp x cur = ADDRESS_ER
    · simp [InsertLoop, hER] at h
    by_cases hGT : DetectAddressCmp x cur = ADDRESS_GT
    · cases rest with
      | nil => simpa [InsertLoop, hGT] using h
      | cons y ys =>
        rw [InsertLoop_gt_cons _ gh x cur y pre ys hGT] at h ⊢
        exact InsertLoop_mono rec1 rec2 hrec gh x v (y :: ys) (pre ++ [cur]) h
    · rw [InsertLoop_overlap _ gh x cur pre rest hER hEQ hGT hLT] at h ⊢
      cases hcut : DetectAddressCut cur x with
      | none => simpa [hcut] using h
      | some t =>
        obtain ⟨cur1, x1, c⟩ := t
        simp only [hcut] at h ⊢
        cases h1 : rec1 (putList gh x (pre ++ cur1 :: rest)) x1 with
        | bug => simp [h1] at h
        | fuel => simp [h1] at h
        | done v1 =>
          obtain ⟨r1, gh2⟩ := v1
          rw [hrec _ _ _ h1]
          simp only [h1] at h
          cases c with
          | none => exact h
          | some c1 =>
            simp only at h ⊢
            cases h2 : rec1 gh2 c1 with
            | bug => simp [h2] at h
            | fuel => simp [h2] at h
            | done v2 =>
              rw [hrec _ _ _ h2]
              simpa [h2] using h

theorem DetectAddressInsert_mono : ∀ (n m : Nat) (gh : DetectAddressHead) (x : DetectAddress)
    (v : Int × DetectAddressHead), n ≤ m → DetectAddressInsert n gh x = Run.done v →
    DetectAddressInsert m gh x = Run.done v
  | 0, _, _, _, _, _, h => by simp [DetectAddressInsert] at h
  | n + 1, 0, _, _, _, hnm, _ => absurd hnm (by omega)
  | n + 1, m + 1, gh, x, v, hnm, h => by
    rw [DetectAddressInsert] at h ⊢
    split at h
    · cases h
    · rename_i hb
      simp only [hb, if_false]
      split at h
      · exact h
      · exact InsertLoop_mono _ _
          (fun gh x v => DetectAddressInsert_mono n m gh x v (by omega)) gh x v _ _ h

/-- Whenever `DetectAddressInsert` returns for a range of a family on a sorted
list, it has left `insertSorted` of that list, whatever the recursion budget. -/
theorem DetectAddressInsert_done (n : Nat) (gh : DetectAddressHead) (x : DetectAddress)
    (hx : FamilyRecord x) (hv : validRange x)
    (hs : SortedRanges x.family 0 (GetHeadPtr gh x)) (r : Int) (gh1 : DetectAddressHead)
    (h : DetectAddressInsert n gh x = Run.done (r, gh1)) :
    (r = 0 ∨ r = 1) ∧ gh1 = putList gh x (insertSorted (GetHeadPtr gh x) x) := by
  have hm := DetectAddressInsert_mono n (n + (GetHeadPtr gh x).length + 1) gh x (r, gh1)
    (by omega) h
  obtain ⟨r2, hr2, he⟩ := DetectAddressInsert_eq_insertSorted
    (n + (GetHeadPtr gh x).length + 1) gh x hx hv hs (by omega)
  rw [he] at hm
  cases hm
  exact ⟨hr2, rfl⟩

/-! ## Invariants of the heads under insertion and set-up -/

theorem Grows_refl (g : DetectAddressHead) : Grows g g :=
  ⟨fun _ h => h, fun _ h => h, fun h => h⟩

theorem Grows_trans {g1 g2 g3 : DetectAddressHead} (h1 : Grows g1 g2) (h2 : Grows g2 g3) :
    Grows g1 g3 :=
  ⟨fun A h => h2.1 A (h1.1 A h), fun A h => h2.2.1 A (h1.2.1 A h), fun h => h2.2.2 (h1.2.2 h)⟩

theorem HeadInv_init : HeadInv DetectAddressHeadInit := by
  refine ⟨⟨?_, ?_, ?_, ?_⟩, ?_, ?_, ?_⟩ <;>
    simp [DetectAddressHeadInit, FamilyList, AdjacentSorted]

theorem insertSorted_noany {f : Nat} : ∀ (rest : List DetectAddress) (lb : Nat)
    (x : DetectAddress), FamilyRecord x → x.family = f → x.ip ≤ x.ip2 →
    x.ip2 ≤ addrMax f → SortedRanges f lb rest → (∀ d ∈ rest, d.flag_any = false) →
    ∀ d ∈ insertSorted rest x, d.flag_any = false
  | [], _, x, hx, _, _, _, _, _ => by
    intro d hd
    simp only [insertSorted, List.mem_singleton] at hd
    rw [hd]; exact hx.2
  | cur :: rest, lb, x, hx, hf, hv, hm, hs, hall => by
    obtain ⟨hcf, hclb, hcv, hcm, hrest⟩ := hs
    subst hf
    have hcur : cur.flag_any = false := hall cur (List.mem_cons_self _ _)
    have hall2 : ∀ d ∈ rest, d.flag_any = false :=
      fun d hd => hall d (List.mem_cons_of_mem _ hd)
    intro d hd
    rcases insertSorted_cons_cases x cur rest hx hcf hcv hv hcm hm with
      ⟨_, _, he⟩ | ⟨_, he⟩ | ⟨_, he⟩ | ⟨cur1, x1, F, he⟩ | ⟨cur1, x1, c1, F, he⟩
    · rw [he] at hd
      rcases List.mem_cons.1 hd with h | h
      · rw [h]; exact hcur
      · exact hall2 d h
    · rw [he] at hd
      rcases List.mem_cons.1 hd with h | h
      · rw [h]; exact hx.2
      · exact hall d h
    · rw [he] at hd
      rcases List.mem_cons.1 hd with h | h
      · rw [h]; exact hcur
      · exact insertSorted_noany rest (cur.ip2 + 1) x hx rfl hv hm hrest hall2 d h
    · rw [he] at hd
      have hx1 : FamilyRecord x1 := ⟨F.fam_b ▸ hx.1, F.any_b ▸ hx.2⟩
      have ho := F.order
      have hx1m : x1.ip2 ≤ addrMax x.family := by rcases F.hi_b with h | h <;> omega
      rcases List.mem_cons.1 hd with h | h
      · rw [h, F.any_a]; exact hcur
      · exact insertSorted_noany rest (cur.ip2 + 1) x1 hx1 F.fam_b ho.2.2.1 hx1m hrest
          hall2 d h
    · rw [he] at hd
      obtain ⟨hc1f, hc1a, hc1lo, hc1v, hc1a2, hc1b2, hc1hi, hx1hi⟩ := F.three c1 rfl
      have hc1 : FamilyRecord c1 := ⟨by rw [hc1f, hcf]; exact hx.1, hc1a⟩
      have hc1m : c1.ip2 ≤ addrMax x.family := by rcases hc1hi with h | h <;> omega
      rcases List.mem_cons.1 hd with h | h
      · rw [h, F.any_a]; exact hcur
      · rcases List.mem_cons.1 h with h2 | h2
        · rw [h2, F.any_b]; exact hx.2
        · exact insertSorted_noany rest (cur.ip2 + 1) c1 hc1 (by rw [hc1f, hcf]) hc1v hc1m
            hrest hall2 d h2

/-- Inserting a range of a family into a head that satisfies the invariant. -/
theorem Insert_family_step (n : Nat) (gh gh1 : DetectAddressHead) (x : DetectAddress) (r : Int)
    (hi : HeadInv gh) (hx : FamilyRecord x) (hv : validRange x)
    (h : DetectAddressInsert n gh x = Run.done (r, gh1)) :
    (r = 0 ∨ r = 1) ∧ HeadInv gh1 ∧ Grows gh gh1 ∧ gh1.any_head = gh.any_head ∧
    (∀ A, inRange x A → covered (GetHeadPtr gh1 x) A) ∧
    gh1 = putList gh x (insertSorted (GetHeadPtr gh x) x) := by
  have hs := WfHead_GetHeadPtr gh x hx hi.1
  obtain ⟨hr, he⟩ := DetectAddressInsert_done n gh x hx hv hs r gh1 h
  have hs2 : SortedRanges x.family 0 (insertSorted (GetHeadPtr gh x) x) :=
    insertSorted_sorted _ 0 x hx rfl (Nat.zero_le _) hv.1 hv.2 hs
  have hcov := fun A => insertSorted_covered A _ 0 x hx rfl hv.1 hv.2 hs
  have hw := WfHead_putList gh x _ hx hi.1 hs2
  have hna : ∀ l, (∀ d ∈ l, d.flag_any = false) → SortedRanges x.family 0 l →
      ∀ d ∈ insertSorted l x, d.flag_any = false :=
    fun l hl hsl => insertSorted_noany l 0 x hx rfl hv.1 hv.2 hsl hl
  subst he
  refine ⟨hr, ⟨hw, ?_⟩, ?_, ?_, ?_, rfl⟩
  · rcases hx.1 with hf | hf
    · have hg := (putList_v4 gh x [] hx hf).2
      rw [(putList_v4 gh x _ hx hf).1]
      rw [hg] at hs ⊢
      exact ⟨hi.2.1, hna _ hi.2.2.1 hs, hi.2.2.2⟩
    · have hg := (putList_v6 gh x [] hx hf).2
      rw [(putList_v6 gh x _ hx hf).1]
      rw [hg] at hs ⊢
      exact ⟨hi.2.1, hi.2.2.1, hna _ hi.2.2.2 hs⟩
  · rcases hx.1 with hf | hf
    · have hg := (putList_v4 gh x [] hx hf).2
      rw [(putList_v4 gh x _ hx hf).1]
      rw [hg] at hcov ⊢
      exact ⟨fun A hA => (hcov A).2 (Or.inl hA), fun _ hA => hA, fun hA => hA⟩
    · have hg := (putList_v6 gh x [] hx hf).2
      rw [(putList_v6 gh x _ hx hf).1]
      rw [hg] at hcov ⊢
      exact ⟨fun _ hA => hA, fun A hA => (hcov A).2 (Or.inl hA), fun hA => hA⟩
  · rcases hx.1 with hf | hf
    · rw [(putList_v4 gh x _ hx hf).1]
    · rw [(putList_v6 gh x _ hx hf).1]
  · intro A hA
    rw [GetHeadPtr_putList gh x x _ hx hx rfl]
    exact (hcov A).2 (Or.inr hA)

/-- Inserting the wildcard record into a head that satisfies the invariant. -/
theorem Insert_any_step (n : Nat) (gh gh1 : DetectAddressHead) (r : Int)
    (hi : HeadInv gh) (h : DetectAddressInsert n gh anyRecord = Run.done (r, gh1)) :
    (r = 0 ∨ r = 1) ∧ HeadInv gh1 ∧ Grows gh gh1 ∧ gh1.any_head ≠ [] ∧
    gh1.ipv4_head = gh.ipv4_head ∧ gh1.ipv6_head = gh.ipv6_head ∧
    (r = 1 → gh.any_head = []) ∧ (r = 0 → gh.any_head ≠ []) := by
  cases n with
  | zero => simp [DetectAddressInsert] at h
  | succ n =>
    rw [DetectAddressInsert] at h
    simp only [anyRecord, DetectAddressInit, Bool.true_eq_false, and_false, if_false,
      GetHeadPtr, SetHeadPtr, if_true] at h
    cases hl : gh.any_head with
    | nil =>
      simp only [hl] at h
      cases h
      refine ⟨Or.inr rfl, ⟨hi.1, by simp, hi.2.2.1, hi.2.2.2⟩,
        ⟨fun _ hA => hA, fun _ hA => hA, by simp⟩, by simp, rfl, rfl, fun _ => rfl, by simp⟩
    | cons cur rest =>
      simp only [hl] at h
      have hcur : cur.flag_any = true := hi.2.1 cur (by rw [hl]; exact List.mem_cons_self _ _)
      by_cases hf : cur.family = 0
      · have hc : DetectAddressCmp
            { family := 0, ip := 0, ip2 := 0, flag_any := true, flag_not := false, cnt := 0 }
            cur = ADDRESS_EQ := by
          simp [DetectAddressCmp, hf, hcur]
        simp only [InsertLoop, hc, putList, SetHeadPtr, if_true, Option.getD_some] at h
        cases h
        refine ⟨Or.inl rfl, ⟨hi.1, ?_, hi.2.2.1, hi.2.2.2⟩,
          ⟨fun _ hA => hA, fun _ hA => hA, by simp⟩, by simp, rfl, rfl, by simp, by simp⟩
        intro d hd
        rcases List.mem_cons.1 hd with hd1 | hd2
        · rw [hd1]; exact hcur
        · exact hi.2.1 d (by rw [hl]; exact List.mem_cons_of_mem _ hd2)
      · have hc : DetectAddressCmp
            { family := 0, ip := 0, ip2 := 0, flag_any := true, flag_not := false, cnt := 0 }
            cur = ADDRESS_ER := by
          simp [DetectAddressCmp, Ne.symm hf]
        simp [InsertLoop, hc] at h

theorem addressCutNot_facts (a : DetectAddress) (hx : FamilyRecord a) (ha : validRange a)
    (a1 : DetectAddress) (b : Option DetectAddress) (h : DetectAddressCutNot a = some (a1, b)) :
    FamilyRecord a1 ∧ validRange a1 ∧ a1.family = a.family ∧
    ∀ b1, b = some b1 → FamilyRecord b1 ∧ validRange b1 ∧ b1.family = a.family := by
  obtain ⟨ha1, ha2⟩ := ha
  obtain ⟨hfam, hany⟩ := hx
  have heq : DetectAddressCutNot a = addressCutNot a := by
    unfold DetectAddressCutNot DetectAddressCutNotIPv4 DetectAddressCutNotIPv6
    rcases hfam with h | h <;> simp [h, AF_INET, AF_INET6]
  rw [heq] at h
  unfold addressCutNot at h
  simp only at h
  split at h
  next hc =>
    have hs : addrSucc a.family a.ip2 = a.ip2 + 1 := addrSucc_lt (by omega)
    simp only [Option.some.injEq, Prod.mk.injEq] at h
    obtain ⟨h1, h2⟩ := h
    subst h1 h2
    refine ⟨⟨hfam, hany⟩, ⟨by simp [addrPred], by simp only [addrPred]; omega⟩, rfl, ?_⟩
    intro b1 hb1
    cases hb1
    exact ⟨⟨hfam, rfl⟩, ⟨by simp only [hs]; omega, le_refl _⟩, rfl⟩
  next =>
    split at h
    next hc =>
      have hs : addrSucc a.family a.ip2 = a.ip2 + 1 := addrSucc_lt (by omega)
      simp only [Option.some.injEq, Prod.mk.injEq] at h
      obtain ⟨h1, h2⟩ := h
      subst h1 h2
      refine ⟨⟨hfam, hany⟩, ⟨by simp only [hs]; omega, le_refl _⟩, rfl, ?_⟩
      intro b1 hb1
      cases hb1
    next =>
      split at h
      next hc =>
        simp only [Option.some.injEq, Prod.mk.injEq] at h
        obtain ⟨h1, h2⟩ := h
        subst h1 h2
        refine ⟨⟨hfam, hany⟩, ⟨by simp [addrPred], by simp only [addrPred]; omega⟩, rfl, ?_⟩
        intro b1 hb1
        cases hb1
      next => cases h

theorem ParseSingle_zero4 (E : Extern) (a4 : DetectAddress)
    (h : DetectAddressParseSingle E textZero4 = some a4) :
    a4.family = AF_INET ∧ FamilyRecord a4 ∧ validRange a4 := by
  unfold DetectAddressParseSingle DetectAddressParseString at h
  have h1 : isAny textZero4 = false := by decide
  have h2 : ':' ∉ textZero4 := by decide
  have h3 : ¬ (textZero4.head? = some '!') := by decide
  simp only [h1, h2, h3, not_false_eq_true, if_true, if_false, Bool.false_eq_true,
    decide_False] at h
  have := parseIPv4_some E _ a4 _ rfl h
  exact ⟨this.1.1, ⟨Or.inl this.1.1, this.1.2⟩, this.2.1⟩

theorem ParseSingle_zero6 (E : Extern) (a6 : DetectAddress)
    (h : DetectAddressParseSingle E textZero6 = some a6) :
    a6.family = AF_INET6 ∧ FamilyRecord a6 ∧ validRange a6 := by
  unfold DetectAddressParseSingle DetectAddressParseString at h
  have h1 : isAny textZero6 = false := by decide
  have h2 : ':' ∈ textZero6 := by decide
  have h3 : ¬ (textZero6.head? = some '!') := by decide
  simp only [h1, h2, h3, not_true_eq_false, if_false, Bool.false_eq_true,
    decide_False] at h
  have := parseIPv6_some E _ a6 _ rfl h
  exact ⟨this.1.1, ⟨Or.inr this.1.1, this.1.2⟩, this.2.1⟩

theorem setupAny_step (E : Extern) (n : Nat) (gh gh1 : DetectAddressHead) (r : Int)
    (hi : HeadInv gh) (h : setupAny E n gh = Run.done (r, gh1)) :
    HeadInv gh1 ∧ Grows gh gh1 ∧ gh1.any_head = gh.any_head ∧ AnyOutcome E r gh1 := by
  unfold setupAny at h
  cases hp4 : DetectAddressParseSingle E textZero4 with
  | none =>
    simp only [hp4] at h
    cases h
    exact ⟨hi, Grows_refl _, rfl, Or.inl ⟨rfl, Or.inl hp4⟩⟩
  | some a4 =>
    obtain ⟨hf4, hx4, hv4⟩ := ParseSingle_zero4 E a4 hp4
    have hne4 : ¬ a4.family = 0 := by rw [hf4]; decide
    simp only [hp4, hne4, if_false] at h
    cases hI4 : DetectAddressInsert n gh a4 with
    | bug => simp [hI4] at h
    | fuel => simp [hI4] at h
    | done v4 =>
      obtain ⟨r4, g4⟩ := v4
      obtain ⟨hr4, hi4, hg4, ha4, hc4, _⟩ := Insert_family_step n gh g4 a4 r4 hi hx4 hv4 hI4
      have hnn4 : ¬ r4 < 0 := by rcases hr4 with h0 | h0 <;> simp [h0]
      simp only [hI4, hnn4, if_false] at h
      cases hp6 : DetectAddressParseSingle E textZero6 with
      | none =>
        simp only [hp6] at h
        cases h
        exact ⟨hi4, hg4, ha4, Or.inl ⟨rfl, Or.inr hp6⟩⟩
      | some a6 =>
        obtain ⟨hf6, hx6, hv6⟩ := ParseSingle_zero6 E a6 hp6
        have hne6 : ¬ a6.family = 0 := by rw [hf6]; decide
        simp only [hp6, hne6, if_false] at h
        cases hI6 : DetectAddressInsert n g4 a6 with
        | bug => simp [hI6] at h
        | fuel => simp [hI6] at h
        | done v6 =>
          obtain ⟨r6, g6⟩ := v6
          obtain ⟨hr6, hi6, hg6, ha6, hc6, _⟩ :=
            Insert_family_step n g4 g6 a6 r6 hi4 hx6 hv6 hI6
          have hnn6 : ¬ r6 < 0 := by rcases hr6 with h0 | h0 <;> simp [h0]
          simp only [hI6, hnn6, if_false] at h
          cases h
          refine ⟨hi6, Grows_trans hg4 hg6, by rw [ha6, ha4],
            Or.inr ⟨rfl, a4, a6, hp4, hp6, ?_, ?_⟩⟩
          · intro A hA
            have := hc4 A hA
            rw [(putList_v4 g4 a4 [] hx4 hf4).2] at this
            exact hg6.1 A this
          · intro A hA
            have := hc6 A hA
            rw [(putList_v6 gh1 a6 [] hx6 hf6).2] at this
            exact this

theorem setupInsert_family (E : Extern) (n : Nat) (gh gh1 : DetectAddressHead)
    (ad : DetectAddress) (r : Int) (hi : HeadInv gh) (hx : FamilyRecord ad)
    (hv : validRange ad) (h : setupInsert E n gh ad = Run.done (r, gh1)) :
    r = 0 ∧ HeadInv gh1 ∧ Grows gh gh1 ∧ gh1.any_head = gh.any_head ∧
    gh1 = putList gh ad (insertSorted (GetHeadPtr gh ad) ad) := by
  unfold setupInsert at h
  cases hI : DetectAddressInsert n gh ad with
  | bug => simp [hI] at h
  | fuel => simp [hI] at h
  | done v =>
    obtain ⟨r1, g1⟩ := v
    obtain ⟨hr, hi1, hg, ha, _, he⟩ := Insert_family_step n gh g1 ad r1 hi hx hv hI
    have hnn : ¬ r1 < 0 := by rcases hr with h0 | h0 <;> simp [h0]
    simp only [hI, hnn, if_false, hx.2, Bool.false_eq_true, and_false] at h
    cases h
    exact ⟨rfl, hi1, hg, ha, he⟩

theorem setupInsert_any (E : Extern) (n : Nat) (gh gh1 : DetectAddressHead) (r : Int)
    (hi : HeadInv gh) (h : setupInsert E n gh anyRecord = Run.done (r, gh1)) :
    HeadInv gh1 ∧ Grows gh gh1 ∧ gh1.any_head ≠ [] ∧
    (gh.any_head ≠ [] → r = 0 ∧ gh1.ipv4_head = gh.ipv4_head ∧
      gh1.ipv6_head = gh.ipv6_head) ∧
    (gh.any_head = [] → AnyOutcome E r gh1) := by
  unfold setupInsert at h
  cases hI : DetectAddressInsert n gh anyRecord with
  | bug => simp [hI] at h
  | fuel => simp [hI] at h
  | done v =>
    obtain ⟨r1, g1⟩ := v
    obtain ⟨hr, hi1, hg, hne, h4, h6, hr1, hr0⟩ := Insert_any_step n gh g1 r1 hi hI
    have hnn : ¬ r1 < 0 := by rcases hr with h0 | h0 <;> simp [h0]
    simp only [hI, hnn, if_false] at h
    rcases hr with h0 | h1
    · subst h0
      simp only [zero_ne_one, false_and, if_false] at h
      cases h
      exact ⟨hi1, hg, hne, fun _ => ⟨rfl, h4, h6⟩, fun he => absurd he (hr0 rfl)⟩
    · subst h1
      have hany : anyRecord.flag_any = true := rfl
      simp only [hany, and_self, if_true] at h
      obtain ⟨hi2, hg2, ha2, ho⟩ := setupAny_step E n g1 gh1 r hi1 h
      refine ⟨hi2, Grows_trans hg hg2, by rw [ha2]; exact hne,
        fun hne0 => absurd (hr1 rfl) hne0, fun _ => ho⟩

/-- What `DetectAddressSetup` does to a head that satisfies the invariant. -/
theorem Setup_step (E : Extern) (n : Nat) (gh gh1 : DetectAddressHead) (s : List Char)
    (r : Int) (hi : HeadInv gh) (h : DetectAddressSetup E n gh s = Run.done (r, gh1)) :
    HeadInv gh1 ∧ Grows gh gh1 ∧ (r = 0 ∨ r = -1) ∧
    (gh.any_head = [] → gh1.any_head ≠ [] → AnyOutcome E r gh1) ∧
    (r = 0 → ∃ ad, DetectAddressParseSingle E s = some ad ∧
      (ad.flag_not = false →
        (FamilyRecord ad ∧ validRange ad ∧
          gh1 = putList gh ad (insertSorted (GetHeadPtr gh ad) ad)) ∨
        (ad = anyRecord ∧ gh1.any_head ≠ [] ∧
          (gh.any_head ≠ [] → gh1.ipv4_head = gh.ipv4_head ∧
            gh1.ipv6_head = gh.ipv6_head)))) := by
  unfold DetectAddressSetup at h
  cases hp : DetectAddressParseSingle E s with
  | none =>
    simp only [hp] at h
    cases h
    exact ⟨hi, Grows_refl _, Or.inr rfl, fun h0 h1 => absurd h0 h1, by simp⟩
  | some ad =>
    simp only [hp] at h
    rcases ParseSingle_cases E s ad hp with hany | ⟨hx, hv⟩
    · subst hany
      have hnot : anyRecord.flag_not = false := rfl
      simp only [hnot, Bool.false_eq_true, if_false] at h
      obtain ⟨hi1, hg, hne, h1, h2⟩ := setupInsert_any E n gh gh1 r hi h
      have hr : r = 0 ∨ r = -1 := by
        by_cases he : gh.any_head = []
        · rcases h2 he with ⟨hr, _⟩ | ⟨hr, _⟩
          · exact Or.inr hr
          · exact Or.inl hr
        · exact Or.inl (h1 he).1
      exact ⟨hi1, hg, hr, fun he _ => h2 he,
        fun _ => ⟨anyRecord, rfl, fun _ => Or.inr ⟨rfl, hne, fun he => (h1 he).2⟩⟩⟩
    · by_cases hnot : ad.flag_not = true
      · simp only [hnot, if_true] at h
        cases hc : DetectAddressCutNot ad with
        | none =>
          simp only [hc] at h
          cases h
          exact ⟨hi, Grows_refl _, Or.inr rfl, fun h0 h1 => absurd h0 h1, by simp⟩
        | some t =>
          obtain ⟨ad1, b⟩ := t
          obtain ⟨hx1, hv1, _, hb⟩ := addressCutNot_facts ad hx hv ad1 b hc
          cases b with
          | none =>
            simp only [hc] at h
            obtain ⟨hr, hi1, hg, ha, _⟩ := setupInsert_family E n gh gh1 ad1 r hi hx1 hv1 h
            exact ⟨hi1, hg, Or.inl hr, fun h0 h1 => absurd (ha.trans h0) h1,
              fun _ => ⟨ad, rfl, fun hf => by rw [hnot] at hf; cases hf⟩⟩
          | some ad2 =>
            obtain ⟨hx2, hv2, _⟩ := hb ad2 rfl
            simp only [hc] at h
            cases hI : DetectAddressInsert n gh ad2 with
            | bug => simp [hI] at h
            | fuel => simp [hI] at h
            | done v =>
              obtain ⟨r2, g2⟩ := v
              obtain ⟨hr2, hi2, hg2, ha2, _, _⟩ :=
                Insert_family_step n gh g2 ad2 r2 hi hx2 hv2 hI
              have hnn : ¬ r2 < 0 := by rcases hr2 with h0 | h0 <;> simp [h0]
              simp only [hI, hnn, if_false] at h
              obtain ⟨hr, hi1, hg, ha, _⟩ :=
                setupInsert_family E n g2 gh1 ad1 r hi2 hx1 hv1 h
              exact ⟨hi1, Grows_trans hg2 hg, Or.inl hr,
                fun h0 h1 => absurd (by rw [ha, ha2]; exact h0) h1,
                fun _ => ⟨ad, rfl, fun hf => by rw [hnot] at hf; cases hf⟩⟩
      · simp only [hnot, if_false] at h
        obtain ⟨hr, hi1, hg, ha, he⟩ := setupInsert_family E n gh gh1 ad r hi hx hv h
        exact ⟨hi1, hg, Or.inl hr, fun h0 h1 => absurd (ha.trans h0) h1,
          fun _ => ⟨ad, rfl, fun _ => Or.inl ⟨hx, hv, he⟩⟩⟩

/-! ## Properties that every run of the parser preserves -/

theorem parseLeaf_preserve (E : Extern) (n : Nat) (P : DetectAddressHead → Prop)
    (R : DetectAddressHead → DetectAddressHead → Prop) (hrefl : ∀ g, R g g)
    (hsetup : ∀ gh s r gh1, P gh → DetectAddressSetup E n gh s = Run.done (r, gh1) →
      P gh1 ∧ R gh gh1)
    (negate : Bool) (st : ParseState) (addr : List Char) (r : Int)
    (gh1 ghn1 : DetectAddressHead) (hg : P st.gh) (hgn : P st.ghn)
    (h : parseLeaf E n negate st addr = Run.done (r, gh1, ghn1)) :
    P gh1 ∧ P ghn1 ∧ R st.gh gh1 ∧ R st.ghn ghn1 := by
  unfold parseLeaf at h
  split at h
  · cases hs : DetectAddressSetup E n st.gh addr with
    | bug => simp [hs] at h
    | fuel => simp [hs] at h
    | done v =>
      obtain ⟨r1, g1⟩ := v
      simp only [hs, Run.done.injEq, Prod.mk.injEq] at h
      obtain ⟨_, h1, h2⟩ := h
      subst h1 h2
      have := hsetup _ _ _ _ hg hs
      exact ⟨this.1, hgn, this.2, hrefl _⟩
  · cases hs : DetectAddressSetup E n st.ghn addr with
    | bug => simp [hs] at h
    | fuel => simp [hs] at h
    | done v =>
      obtain ⟨r1, g1⟩ := v
      simp only [hs, Run.done.injEq, Prod.mk.injEq] at h
      obtain ⟨_, h1, h2⟩ := h
      subst h1 h2
      have := hsetup _ _ _ _ hgn hs
      exact ⟨hg, this.1, hrefl _, this.2⟩

theorem parseVar_preserve (E : Extern) (P : DetectAddressHead → Prop)
    (R : DetectAddressHead → DetectAddressHead → Prop) (hrefl : ∀ g, R g g)
    (rec : DetectAddressHead → DetectAddressHead → List Char → Bool →
      Run (Int × DetectAddressHead × DetectAddressHead))
    (hrec : ∀ gh ghn s neg r gh1 ghn1, P gh → P ghn →
      rec gh ghn s neg = Run.done (r, gh1, ghn1) → P gh1 ∧ P ghn1 ∧ R gh gh1 ∧ R ghn ghn1)
    (negate : Bool) (st : ParseState) (name : List Char) (r : Int)
    (gh1 ghn1 : DetectAddressHead) (hg : P st.gh) (hgn : P st.ghn)
    (h : parseVar E rec negate st name = Run.done (r, gh1, ghn1)) :
    P gh1 ∧ P ghn1 ∧ R st.gh gh1 ∧ R st.ghn ghn1 := by
  unfold parseVar at h
  cases hv : E.SCRuleVarsGetConfVar name with
  | none =>
    simp only [hv, Run.done.injEq, Prod.mk.injEq] at h
    obtain ⟨_, h1, h2⟩ := h
    subst h1 h2
    exact ⟨hg, hgn, hrefl _, hrefl _⟩
  | some v =>
    simp only [hv] at h
    split at h
    · rename_i r1 g1 gn1 hr
      simp only [Run.done.injEq, Prod.mk.injEq] at h
      obtain ⟨_, h1, h2⟩ := h
      subst h1 h2
      exact hrec _ _ _ _ _ _ _ hg hgn hr
    · cases h
    · cases h

theorem Parse2Loop_nil (E : Extern) (n : Nat)
    (rec : DetectAddressHead → DetectAddressHead → List Char → Bool →
      Run (Int × DetectAddressHead × DetectAddressHead))
    (negate : Bool) (st : ParseState) :
    Parse2Loop E n rec negate st [] = Run.done (0, st.gh, st.ghn) := rfl

theorem Parse2Loop_cons (E : Extern) (n : Nat)
    (rec : DetectAddressHead → DetectAddressHead → List Char → Bool →
      Run (Int × DetectAddressHead × DetectAddressHead))
    (negate : Bool) (st : ParseState) (c : Char) (cs : List Char) :
    Parse2Loop E n rec negate st (c :: cs) =
        if st.address.length ≥ 1024 then Run.done (0, st.gh, st.ghn)
        else if st.o_set = false ∧ c = '!' then
          Parse2Loop E n rec negate { st with n_set := true } cs
        else if c = '[' then
          Parse2Loop E n rec negate
            { st with o_set := true,
                      address := if st.o_set then st.address ++ [c] else [],
                      depth := st.depth + 1 } cs
        else if c = ']' then
          if st.depth = 1 then
            match rec st.gh st.ghn st.address (negate || st.n_set) with
            | Run.done (r, gh1, ghn1) =>
              if r < 0 then Run.done (-1, gh1, ghn1)
              else Parse2Loop E n rec negate
                { st with address := [], n_set := false, depth := st.depth - 1,
                          gh := gh1, ghn := ghn1 } cs
            | Run.bug => Run.bug
            | Run.fuel => Run.fuel
          else
            Parse2Loop E n rec negate
              { st with address := st.address ++ [c], depth := st.depth - 1 } cs
        else if st.depth = 0 ∧ c = ',' then
          if st.o_set then
            Parse2Loop E n rec negate { st with o_set := false, address := [] } cs
          else if st.d_set then
            match parseVar E rec negate st st.address with
            | Run.done (r, gh1, ghn1) =>
              if r < 0 then Run.done (-1, gh1, ghn1)
              else Parse2Loop E n rec negate
                { st with address := [], d_set := false, n_set := false,
                          gh := gh1, ghn := ghn1 } cs
            | Run.bug => Run.bug
            | Run.fuel => Run.fuel
          else
            match parseLeaf E n negate st st.address with
            | Run.done (r, gh1, ghn1) =>
              if r < 0 then Run.done (-1, gh1, ghn1)
              else Parse2Loop E n rec negate
                { st with address := [], n_set := false, gh := gh1, ghn := ghn1 } cs
            | Run.bug => Run.bug
            | Run.fuel => Run.fuel
        else if st.depth = 0 ∧ c = '$' then
          Parse2Loop E n rec negate { st with address := st.address ++ [c], d_set := true } cs
        else if st.depth = 0 ∧ cs = [] then
          if st.d_set then
            match parseVar E rec negate st (st.address ++ [c]) with
            | Run.done (r, gh1, ghn1) =>
              if r < 0 then Run.done (-1, gh1, ghn1)
              else Parse2Loop E n rec negate
                { st with address := [], d_set := false, n_set := false,
                          gh := gh1, ghn := ghn1 } cs
            | Run.bug => Run.bug
            | Run.fuel => Run.fuel
          else
            match parseLeaf E n negate st (st.address ++ [c]) with
            | Run.done (r, gh1, ghn1) =>
              if r < 0 then Run.done (-1, gh1, ghn1)
              else Parse2Loop E n rec negate
                { st with address := [], n_set := false, gh := gh1, ghn := ghn1 } cs
            | Run.bug => Run.bug
            | Run.fuel => Run.fuel
        else
          Parse2Loop E n rec negate { st with address := st.address ++ [c] } cs := rfl

theorem Parse2Loop_preserve (E : Extern) (n : Nat) (P : DetectAddressHead → Prop)
    (R : DetectAddressHead → DetectAddressHead → Prop) (hrefl : ∀ g, R g g)
    (htrans : ∀ g1 g2 g3, R g1 g2 → R g2 g3 → R g1 g3)
    (hsetup : ∀ gh s r gh1, P gh → DetectAddressSetup E n gh s = Run.done (r, gh1) →
      P gh1 ∧ R gh gh1)
    (rec : DetectAddressHead → DetectAddressHead → List Char → Bool →
      Run (Int × DetectAddressHead × DetectAddressHead))
    (hrec : ∀ gh ghn s neg r gh1 ghn1, P gh → P ghn →
      rec gh ghn s neg = Run.done (r, gh1, ghn1) → P gh1 ∧ P ghn1 ∧ R gh gh1 ∧ R ghn ghn1)
    (negate : Bool) : ∀ (cs : List Char) (st : ParseState) (r : Int)
    (gh1 ghn1 : DetectAddressHead), P st.gh → P st.ghn →
    Parse2Loop E n rec negate st cs = Run.done (r, gh1, ghn1) →
    P gh1 ∧ P ghn1 ∧ R st.gh gh1 ∧ R st.ghn ghn1
  | [], st, r, gh1, ghn1, hg, hgn, h => by
    simp only [Parse2Loop_nil, Run.done.injEq, Prod.mk.injEq] at h
    obtain ⟨_, h1, h2⟩ := h
    subst h1 h2
    exact ⟨hg, hgn, hrefl _, hrefl _⟩
  | c :: cs, st, r, gh1, ghn1, hg, hgn, h => by
    have ih := fun st2 h2 hg2 hgn2 =>
      Parse2Loop_preserve E n P R hrefl htrans hsetup rec hrec negate cs st2 r gh1 ghn1 hg2 hgn2 h2
    have cont : ∀ (res : Run (Int × DetectAddressHead × DetectAddressHead))
        (f : DetectAddressHead → DetectAddressHead → ParseState),
        (∀ g gn, (f g gn).gh = g ∧ (f g gn).ghn = gn) →
        (∀ r1 g1 gn1, res = Run.done (r1, g1, gn1) →
          P g1 ∧ P gn1 ∧ R st.gh g1 ∧ R st.ghn gn1) →
        (match res with
          | Run.done (r1, g1, gn1) =>
            if r1 < 0 then Run.done (-1, g1, gn1)
            else Parse2Loop E n rec negate (f g1 gn1) cs
          | Run.bug => Run.bug
          | Run.fuel => Run.fuel) = Run.done (r, gh1, ghn1) →
        P gh1 ∧ P ghn1 ∧ R st.gh gh1 ∧ R st.ghn ghn1 := by
      intro res f hf hres hm
      cases res with
      | bug => simp at hm
      | fuel => simp at hm
      | done v =>
        obtain ⟨r1, g1, gn1⟩ := v
        obtain ⟨p1, p2, q1, q2⟩ := hres r1 g1 gn1 rfl
        simp only at hm
        split at hm
        · simp only [Run.done.injEq, Prod.mk.injEq] at hm
          obtain ⟨_, e1, e2⟩ := hm
          subst e1 e2
          exact ⟨p1, p2, q1, q2⟩
        · have := ih (f g1 gn1) hm (by rw [(hf g1 gn1).1]; exact p1)
            (by rw [(hf g1 gn1).2]; exact p2)
          rw [(hf g1 gn1).1, (hf g1 gn1).2] at this
          exact ⟨this.1, this.2.1, htrans _ _ _ q1 this.2.2.1, htrans _ _ _ q2 this.2.2.2⟩
    rw [Parse2Loop_cons] at h
    by_cases c1 : st.address.length ≥ 1024
    · rw [if_pos c1] at h
      simp only [Run.done.injEq, Prod.mk.injEq] at h
      obtain ⟨_, h1, h2⟩ := h
      subst h1 h2
      exact ⟨hg, hgn, hrefl _, hrefl _⟩
    rw [if_neg c1] at h
    by_cases c2 : st.o_set = false ∧ c = '!'
    · rw [if_pos c2] at h
      have t := ih _ h hg hgn
      exact t
    rw [if_neg c2] at h
    by_cases c3 : c = '['
    · rw [if_pos c3] at h
      have t := ih _ h hg hgn
      exact t
    rw [if_neg c3] at h
    by_cases c4 : c = ']'
    · rw [if_pos c4] at h
      by_cases c41 : st.depth = 1
      · rw [if_pos c41] at h
        exact cont _
          (fun g gn =>
            { st with address := [], n_set := false, depth := st.depth - 1, gh := g, ghn := gn })
          (fun _ _ => ⟨rfl, rfl⟩)
          (fun r1 g1 gn1 hr => hrec _ _ _ _ _ _ _ hg hgn hr) h
      · rw [if_neg c41] at h
        have t := ih _ h hg hgn
        exact t
    rw [if_neg c4] at h
    by_cases c5 : st.depth = 0 ∧ c = ','
    · rw [if_pos c5] at h
      by_cases c51 : st.o_set = true
      · rw [if_pos c51] at h
        have t := ih _ h hg hgn
        exact t
      · rw [if_neg c51] at h
        by_cases c52 : st.d_set = true
        · rw [if_pos c52] at h
          exact cont _
            (fun g gn =>
              { st with address := [], d_set := false, n_set := false, gh := g, ghn := gn })
            (fun _ _ => ⟨rfl, rfl⟩)
            (fun r1 g1 gn1 hr =>
              parseVar_preserve E P R hrefl rec hrec negate st _ r1 g1 gn1 hg hgn hr) h
        · rw [if_neg c52] at h
          exact cont _
            (fun g gn => { st with address := [], n_set := false, gh := g, ghn := gn })
            (fun _ _ => ⟨rfl, rfl⟩)
            (fun r1 g1 gn1 hr =>
              parseLeaf_preserve E n P R hrefl hsetup negate st _ r1 g1 gn1 hg hgn hr) h
    rw [if_neg c5] at h
    by_cases c6 : st.depth = 0 ∧ c = '$'
    · rw [if_pos c6] at h
      have t := ih _ h hg hgn
      exact t
    rw [if_neg c6] at h
    by_cases c7 : st.depth = 0 ∧ cs = []
    · rw [if_pos c7] at h
      by_cases c71 : st.d_set = true
      · rw [if_pos c71] at h
        exact cont _
          (fun g gn =>
            { st with address := [], d_set := false, n_set := false, gh := g, ghn := gn })
          (fun _ _ => ⟨rfl, rfl⟩)
          (fun r1 g1 gn1 hr =>
            parseVar_preserve E P R hrefl rec hrec negate st _ r1 g1 gn1 hg hgn hr) h
      · rw [if_neg c71] at h
        exact cont _
          (fun g gn => { st with address := [], n_set := false, gh := g, ghn := gn })
          (fun _ _ => ⟨rfl, rfl⟩)
          (fun r1 g1 gn1 hr =>
            parseLeaf_preserve E n P R hrefl hsetup negate st _ r1 g1 gn1 hg hgn hr) h
    · rw [if_neg c7] at h
      have t := ih _ h hg hgn
      exact t

/-- Every run of `DetectAddressParse2` that returns keeps a property `P` of both
heads and relates each head to its final value by `R`, when every run of
`DetectAddressSetup` does. -/
theorem Parse2_preserve (E : Extern) (P : DetectAddressHead → Prop)
    (R : DetectAddressHead → DetectAddressHead → Prop) (hrefl : ∀ g, R g g)
    (htrans : ∀ g1 g2 g3, R g1 g2 → R g2 g3 → R g1 g3)
    (hsetup : ∀ n gh s r gh1, P gh → DetectAddressSetup E n gh s = Run.done (r, gh1) →
      P gh1 ∧ R gh gh1) :
    ∀ (n : Nat) (gh ghn : DetectAddressHead) (s : List Char) (neg : Bool) (r : Int)
      (gh1 ghn1 : DetectAddressHead), P gh → P ghn →
      DetectAddressParse2 E n gh ghn s neg = Run.done (r, gh1, ghn1) →
      P gh1 ∧ P ghn1 ∧ R gh gh1 ∧ R ghn ghn1
  | 0, _, _, _, _, _, _, _, _, _, h => by simp [DetectAddressParse2] at h
  | n + 1, gh, ghn, s, neg, r, gh1, ghn1, hg, hgn, h => by
    rw [DetectAddressParse2] at h
    exact Parse2Loop_preserve E n P R hrefl htrans (hsetup n) (DetectAddressParse2 E n)
      (Parse2_preserve E P R hrefl htrans hsetup n) neg s _ r gh1 ghn1 hg hgn h

/-! ## The merge of the negated head -/

theorem Refines_refl (g : DetectAddressHead) : Refines g g :=
  ⟨Grows_refl g, fun _ h => h, fun _ h => h⟩

theorem Refines_trans {g1 g2 g3 : DetectAddressHead} (h1 : Refines g1 g2)
    (h2 : Refines g2 g3) : Refines g1 g3 :=
  ⟨Grows_trans h1.1 h2.1, fun v h => h2.2.1 v (h1.2.1 v h), fun v h => h2.2.2 v (h1.2.2 v h)⟩

/-- Inserting a range of a family: the head refines the old one, the range is
covered and both its ends are cut points of its list. -/
theorem Insert_family_refines (n : Nat) (gh gh1 : DetectAddressHead) (x : DetectAddress)
    (r : Int) (hi : HeadInv gh) (hx : FamilyRecord x) (hv : validRange x)
    (h : DetectAddressInsert n gh x = Run.done (r, gh1)) :
    Refines gh gh1 ∧ cutPoint (GetHeadPtr gh1 x) x.ip ∧ cutPoint (GetHeadPtr gh1 x) (x.ip2 + 1) ∧
    (∀ A, covered (GetHeadPtr gh1 x) A ↔ covered (GetHeadPtr gh x) A ∨ inRange x A) ∧
    (x.family = AF_INET → gh1.ipv6_head = gh.ipv6_head) ∧
    (x.family = AF_INET6 → gh1.ipv4_head = gh.ipv4_head) := by
  obtain ⟨_, _, hg, _, _, he⟩ := Insert_family_step n gh gh1 x r hi hx hv h
  have hs := WfHead_GetHeadPtr gh x hx hi.1
  have hcut := fun v => insertSorted_cutPoint v _ 0 x hx rfl hv.1 hv.2 hs
  have hcov := fun A => insertSorted_covered A _ 0 x hx rfl hv.1 hv.2 hs
  have hget : GetHeadPtr gh1 x = insertSorted (GetHeadPtr gh x) x := by
    rw [he]; exact GetHeadPtr_putList gh x x _ hx hx rfl
  refine ⟨⟨hg, ?_, ?_⟩, ?_, ?_, ?_, ?_, ?_⟩
  · rcases hx.1 with hf | hf
    · have hp := putList_v4 gh x (insertSorted (GetHeadPtr gh x) x) hx hf
      intro v hc
      rw [he, hp.1]
      rw [hp.2] at hcut ⊢
      exact (hcut v).2 (Or.inl hc)
    · have hp := putList_v6 gh x (insertSorted (GetHeadPtr gh x) x) hx hf
      intro v hc
      rw [he, hp.1]
      exact hc
  · rcases hx.1 with hf | hf
    · have hp := putList_v4 gh x (insertSorted (GetHeadPtr gh x) x) hx hf
      intro v hc
      rw [he, hp.1]
      exact hc
    · have hp := putList_v6 gh x (insertSorted (GetHeadPtr gh x) x) hx hf
      intro v hc
      rw [he, hp.1]
      rw [hp.2] at hcut ⊢
      exact (hcut v).2 (Or.inl hc)
  · rw [hget]; exact (hcut _).2 (Or.inr (Or.inl rfl))
  · rw [hget]; exact (hcut _).2 (Or.inr (Or.inr rfl))
  · intro A; rw [hget]; exact hcov A
  · intro hf
    rw [he, (putList_v4 gh x _ hx hf).1]
  · intro hf
    rw [he, (putList_v6 gh x _ hx hf).1]

theorem Copy_record (ag : DetectAddress) (h : FamilyRecord ag) (hv : validRange ag) :
    FamilyRecord (DetectAddressCopy ag) ∧ validRange (DetectAddressCopy ag) ∧
    (DetectAddressCopy ag).family = ag.family ∧ (DetectAddressCopy ag).ip = ag.ip ∧
    (DetectAddressCopy ag).ip2 = ag.ip2 := by
  obtain ⟨hf, ha⟩ := h
  obtain ⟨h1, h2⟩ := hv
  have e1 : (DetectAddressCopy ag).family = ag.family := rfl
  have e2 : (DetectAddressCopy ag).flag_any = ag.flag_any := rfl
  have e3 : (DetectAddressCopy ag).ip = ag.ip := by simp only [DetectAddressCopy, if_pos hf]
  have e4 : (DetectAddressCopy ag).ip2 = ag.ip2 := by simp only [DetectAddressCopy, if_pos hf]
  refine ⟨⟨by rw [e1]; exact hf, by rw [e2]; exact ha⟩, ?_, e1, e3, e4⟩
  simp only [validRange, e1, e3, e4]
  exact ⟨h1, h2⟩

theorem GetHeadPtr_congr (gh : DetectAddressHead) (x y : DetectAddress)
    (hf : x.family = y.family) (ha : x.flag_any = y.flag_any) :
    GetHeadPtr gh x = GetHeadPtr gh y := by
  simp only [GetHeadPtr, hf, ha]

theorem GetHeadPtr_family (gh : DetectAddressHead) (x : DetectAddress) (hx : FamilyRecord x) :
    (x.family = AF_INET ∧ GetHeadPtr gh x = gh.ipv4_head) ∨
    (x.family = AF_INET6 ∧ GetHeadPtr gh x = gh.ipv6_head) := by
  rcases hx.1 with hf | hf
  · exact Or.inl ⟨hf, (putList_v4 gh x [] hx hf).2⟩
  · exact Or.inr ⟨hf, (putList_v6 gh x [] hx hf).2⟩

theorem Refines_get {g g1 : DetectAddressHead} (h : Refines g g1) (d : DetectAddress)
    (hd : FamilyRecord d) :
    (∀ A, covered (GetHeadPtr g d) A → covered (GetHeadPtr g1 d) A) ∧
    (∀ v, cutPoint (GetHeadPtr g d) v → cutPoint (GetHeadPtr g1 d) v) := by
  rcases hd.1 with hf | hf
  · rw [(putList_v4 g d [] hd hf).2, (putList_v4 g1 d [] hd hf).2]
    exact ⟨h.1.1, h.2.1⟩
  · rw [(putList_v6 g d [] hd hf).2, (putList_v6 g1 d [] hd hf).2]
    exact ⟨h.1.2.1, h.2.2⟩

/-- Step 1 of the merge: after the copies of the records of `l` are inserted,
the head refines the old one, covers every record of `l` and has the ends of
every record of `l` among its cut points. -/
theorem mergeNotInsert_spec (n : Nat) : ∀ (l : List DetectAddress) (gh gh3 : DetectAddressHead)
    (r : Int), HeadInv gh → (∀ d ∈ l, FamilyRecord d ∧ validRange d) →
    mergeNotInsert n gh l = Run.done (r, gh3) →
    r = 0 ∧ HeadInv gh3 ∧ Refines gh gh3 ∧ gh3.any_head = gh.any_head ∧
    (∀ d ∈ l, (∀ A, inRange d A → covered (GetHeadPtr gh3 d) A) ∧
      cutPoint (GetHeadPtr gh3 d) d.ip ∧ cutPoint (GetHeadPtr gh3 d) (d.ip2 + 1))
  | [], gh, gh3, r, hi, _, h => by
    simp only [mergeNotInsert, Run.done.injEq, Prod.mk.injEq] at h
    obtain ⟨h1, h2⟩ := h
    subst h1 h2
    exact ⟨rfl, hi, Refines_refl _, rfl, by simp⟩
  | ag :: rest, gh, gh3, r, hi, hl, h => by
    obtain ⟨hag, hagv⟩ := hl ag (List.mem_cons_self _ _)
    obtain ⟨hc, hcv, hcf, hcl, hch⟩ := Copy_record ag hag hagv
    simp only [mergeNotInsert] at h
    cases hins : DetectAddressInsert n gh (DetectAddressCopy ag) with
    | bug => rw [hins] at h; cases h
    | fuel => rw [hins] at h; cases h
    | done v =>
      obtain ⟨r1, g1⟩ := v
      rw [hins] at h
      simp only at h
      obtain ⟨hr1, hi1, _, hany1, _, _⟩ := Insert_family_step n gh g1 _ r1 hi hc hcv hins
      obtain ⟨href, hcp1, hcp2, hcov, _, _⟩ := Insert_family_refines n gh g1 _ r1 hi hc hcv hins
      have hnn : ¬ r1 < 0 := by rcases hr1 with h0 | h0 <;> omega
      rw [if_neg hnn] at h
      obtain ⟨hr, hi3, href3, hany3, hall⟩ :=
        mergeNotInsert_spec n rest g1 gh3 r hi1
          (fun d hd => hl d (List.mem_cons_of_mem _ hd)) h
      refine ⟨hr, hi3, Refines_trans href href3, hany3.trans hany1, ?_⟩
      intro d hd
      rcases List.mem_cons.1 hd with h1 | h1
      · subst h1
        have hge := fun g => GetHeadPtr_congr g (DetectAddressCopy d) d hcf
          (by rw [hc.2, hag.2])
        rw [hge] at hcp1 hcp2 hcov
        rw [hcl] at hcp1
        rw [hch] at hcp2
        obtain ⟨m1, m2⟩ := Refines_get href3 d hag
        refine ⟨fun A hA => m1 A ((hcov A).2 (Or.inr ?_)), m2 _ hcp1, m2 _ hcp2⟩
        simp only [inRange, hcl, hch]
        exact hA
      · exact hall d h1

theorem mergeNotPull_mem : ∀ (ghnl l : List DetectAddress) (p : DetectAddress),
    p ∈ mergeNotPull ghnl l ↔
      p ∈ l ∧ ∀ s ∈ ghnl, ¬ (DetectAddressCmp s p = ADDRESS_EQ ∨ DetectAddressCmp s p = ADDRESS_EB)
  | [], l, p => by simp [mergeNotPull]
  | s :: ghnl, l, p => by
    have ih := mergeNotPull_mem ghnl
      (l.filter (fun ag2 => !(decide (DetectAddressCmp s ag2 = ADDRESS_EQ) ||
        decide (DetectAddressCmp s ag2 = ADDRESS_EB)))) p
    simp only [mergeNotPull, List.foldl_cons] at ih ⊢
    rw [ih]
    simp only [List.mem_filter, List.mem_cons, forall_eq_or_imp, Bool.not_eq_true',
      Bool.or_eq_false_iff, decide_eq_false_iff_not, not_or]
    tauto

theorem mergeNotPull_sublist : ∀ (ghnl l : List DetectAddress),
    List.Sublist (mergeNotPull ghnl l) l
  | [], l => by simp [mergeNotPull]
  | s :: ghnl, l => by
    have ih := mergeNotPull_sublist ghnl
      (l.filter (fun ag2 => !(decide (DetectAddressCmp s ag2 = ADDRESS_EQ) ||
        decide (DetectAddressCmp s ag2 = ADDRESS_EB))))
    simp only [mergeNotPull, List.foldl_cons] at ih ⊢
    exact ih.trans (List.filter_sublist _)

theorem SortedRanges_sublist {f : Nat} {l l1 : List DetectAddress}
    (hs : SortedRanges f 0 l) (hsub : List.Sublist l1 l) : SortedRanges f 0 l1 := by
  rw [SortedRanges_iff]
  refine ⟨fun d hd => SortedRanges_familyList hs d (hsub.subset hd), ?_⟩
  exact List.Pairwise.chain' ((SortedRanges_pairwise hs).sublist hsub)

theorem HeadInv_pull (gh : DetectAddressHead) (a b : List DetectAddress) (hi : HeadInv gh) :
    HeadInv { gh with ipv4_head := mergeNotPull a gh.ipv4_head,
                      ipv6_head := mergeNotPull b gh.ipv6_head } := by
  obtain ⟨⟨h1, h2, h3, h4⟩, h5, h6, h7⟩ := hi
  have s4 := SortedRanges_sublist ((SortedRanges_iff _).2 ⟨h1, h2⟩) (mergeNotPull_sublist a _)
  have s6 := SortedRanges_sublist ((SortedRanges_iff _).2 ⟨h3, h4⟩) (mergeNotPull_sublist b _)
  refine ⟨⟨(SortedRanges_iff _).1 s4 |>.1, (SortedRanges_iff _).1 s4 |>.2,
    (SortedRanges_iff _).1 s6 |>.1, (SortedRanges_iff _).1 s6 |>.2⟩, h5, ?_, ?_⟩
  · exact fun d hd => h6 d ((mergeNotPull_sublist a _).subset hd)
  · exact fun d hd => h7 d ((mergeNotPull_sublist b _).subset hd)

theorem Cmp_covers (s p : DetectAddress) (hs : FamilyRecord s) (hf : p.family = s.family)
    (hsv : s.ip ≤ s.ip2) (hpv : p.ip ≤ p.ip2) :
    (DetectAddressCmp s p = ADDRESS_EQ ∨ DetectAddressCmp s p = ADDRESS_EB) ↔
      (s.ip ≤ p.ip ∧ p.ip2 ≤ s.ip2) := by
  rw [Cmp_family_record s p hs hf, addressRelation_iff s p hsv hpv,
    addressRelation_iff s p hsv hpv]
  simp only [relHolds]
  constructor
  · rintro (h | h) <;> omega
  · intro h
    by_cases he : s.ip = p.ip ∧ s.ip2 = p.ip2
    · exact Or.inl he
    · exact Or.inr ⟨h.1, h.2, he⟩

/-- Step 2 of the merge on a list that is cut at the ends of every negated
range: what stays covered is what was covered and is not in a negated range. -/
theorem mergeNotPull_covered {f : Nat} (ghnl l : List DetectAddress)
    (hs : SortedRanges f 0 l)
    (hn : ∀ s ∈ ghnl, FamilyRecord s ∧ s.family = f ∧ s.ip ≤ s.ip2 ∧
      cutPoint l s.ip ∧ cutPoint l (s.ip2 + 1))
    (A : Nat) : covered (mergeNotPull ghnl l) A ↔ covered l A ∧ ¬ covered ghnl A := by
  constructor
  · rintro ⟨p, hp, hA⟩
    obtain ⟨hpl, hall⟩ := (mergeNotPull_mem ghnl l p).1 hp
    refine ⟨⟨p, hpl, hA⟩, ?_⟩
    rintro ⟨s, hsm, hsA⟩
    obtain ⟨hsr, hsf, hsv, hc1, hc2⟩ := hn s hsm
    obtain ⟨hpf, _, hpv, _⟩ := SortedRanges_mem hs p hpl
    have hnot := hall s hsm
    rw [Cmp_covers s p hsr (by rw [hpf, hsf]) hsv hpv] at hnot
    have n1 := no_cutPoint_inside hs hpl hc1
    have n2 := no_cutPoint_inside hs hpl hc2
    simp only [inRange] at hA hsA
    omega
  · rintro ⟨⟨p, hpl, hA⟩, hnc⟩
    refine ⟨p, (mergeNotPull_mem ghnl l p).2 ⟨hpl, ?_⟩, hA⟩
    intro s hsm hrel
    obtain ⟨hsr, hsf, hsv, _, _⟩ := hn s hsm
    obtain ⟨hpf, _, hpv, _⟩ := SortedRanges_mem hs p hpl
    rw [Cmp_covers s p hsr (by rw [hpf, hsf]) hsv hpv] at hrel
    apply hnc
    refine ⟨s, hsm, ?_⟩
    simp only [inRange] at hA ⊢
    omega

theorem mergeNotSeed_spec (E : Extern) (n : Nat) (gh g0 : DetectAddressHead)
    (ghl ghnl : List DetectAddress) (s : List Char) (r : Int) (hi : HeadInv gh)
    (h : mergeNotSeed E n gh ghl ghnl s = Run.done (r, g0)) :
    HeadInv g0 ∧ Grows gh g0 ∧ (r = 0 ∨ r = -1) := by
  simp only [mergeNotSeed] at h
  by_cases hc : ghl = [] ∧ ghnl ≠ []
  · rw [if_pos hc] at h
    obtain ⟨h1, h2, h3, _⟩ := Setup_step E n gh g0 s r hi h
    exact ⟨h1, h2, h3⟩
  · rw [if_neg hc] at h
    simp only [Run.done.injEq, Prod.mk.injEq] at h
    obtain ⟨h1, h2⟩ := h
    subst h1 h2
    exact ⟨hi, Grows_refl _, Or.inl rfl⟩

theorem HeadInv_records (gh : DetectAddressHead) (hi : HeadInv gh) :
    (∀ d ∈ gh.ipv4_head, FamilyRecord d ∧ validRange d ∧ d.family = AF_INET) ∧
    (∀ d ∈ gh.ipv6_head, FamilyRecord d ∧ validRange d ∧ d.family = AF_INET6) := by
  obtain ⟨⟨h1, _, h3, _⟩, _, h6, h7⟩ := hi
  constructor
  · intro d hd
    obtain ⟨a, b, c⟩ := h1 d hd
    exact ⟨⟨Or.inl a, h6 d hd⟩, ⟨b, by rw [a]; exact c⟩, a⟩
  · intro d hd
    obtain ⟨a, b, c⟩ := h3 d hd
    exact ⟨⟨Or.inr a, h7 d hd⟩, ⟨b, by rw [a]; exact c⟩, a⟩

/-- What `DetectAddressMergeNot` leaves: a head that satisfies the invariant,
and on success the coverage of an intermediate head that grew from `gh`, minus
the coverage of the negated head. -/
theorem MergeNot_spec (E : Extern) (n : Nat) (gh ghn gh1 : DetectAddressHead) (r : Int)
    (hi : HeadInv gh) (hin : HeadInv ghn)
    (h : DetectAddressMergeNot E n gh ghn = Run.done (r, gh1)) :
    HeadInv gh1 ∧ (r = 0 ∨ r = -1) ∧
    (r = 0 → ∃ g3, HeadInv g3 ∧ Grows gh g3 ∧
      (∀ A, covered gh1.ipv4_head A ↔ covered g3.ipv4_head A ∧ ¬ covered ghn.ipv4_head A) ∧
      (∀ A, covered gh1.ipv6_head A ↔ covered g3.ipv6_head A ∧ ¬ covered ghn.ipv6_head A) ∧
      (gh1.ipv4_head ≠ [] ∨ gh1.ipv6_head ≠ [])) := by
  simp only [DetectAddressMergeNot] at h
  by_cases hc : DetectAddressIsCompleteIPSpace ghn = true
  · rw [if_pos hc] at h
    simp only [Run.done.injEq, Prod.mk.injEq] at h
    obtain ⟨h1, h2⟩ := h
    subst h1 h2
    exact ⟨hi, Or.inr rfl, fun h0 => by omega⟩
  rw [if_neg hc] at h
  cases hs0 : mergeNotSeed E n gh gh.ipv4_head ghn.ipv4_head textZero4 with
  | bug => rw [hs0] at h; cases h
  | fuel => rw [hs0] at h; cases h
  | done v0 =>
  obtain ⟨r0, g0⟩ := v0
  rw [hs0] at h
  simp only at h
  obtain ⟨hi0, hg0, _⟩ := mergeNotSeed_spec E n gh g0 _ _ _ r0 hi hs0
  by_cases hr0 : r0 < 0
  · rw [if_pos hr0] at h
    simp only [Run.done.injEq, Prod.mk.injEq] at h
    obtain ⟨h1, h2⟩ := h
    subst h1 h2
    exact ⟨hi0, Or.inr rfl, fun h0 => by omega⟩
  rw [if_neg hr0] at h
  cases hs1 : mergeNotSeed E n g0 g0.ipv6_head ghn.ipv6_head textZero6 with
  | bug => rw [hs1] at h; cases h
  | fuel => rw [hs1] at h; cases h
  | done v1 =>
  obtain ⟨r1, g1⟩ := v1
  rw [hs1] at h
  simp only at h
  obtain ⟨hi1, hg1, _⟩ := mergeNotSeed_spec E n g0 g1 _ _ _ r1 hi0 hs1
  by_cases hr1 : r1 < 0
  · rw [if_pos hr1] at h
    simp only [Run.done.injEq, Prod.mk.injEq] at h
    obtain ⟨h1, h2⟩ := h
    subst h1 h2
    exact ⟨hi1, Or.inr rfl, fun h0 => by omega⟩
  rw [if_neg hr1] at h
  obtain ⟨hn4, hn6⟩ := HeadInv_records ghn hin
  cases hs2 : mergeNotInsert n g1 ghn.ipv4_head with
  | bug => rw [hs2] at h; cases h
  | fuel => rw [hs2] at h; cases h
  | done v2 =>
  obtain ⟨r2, g2⟩ := v2
  rw [hs2] at h
  simp only at h
  obtain ⟨hr2, hi2, href2, _, hall2⟩ := mergeNotInsert_spec n _ g1 g2 r2 hi1
    (fun d hd => ⟨(hn4 d hd).1, (hn4 d hd).2.1⟩) hs2
  have hr2n : ¬ r2 < 0 := by omega
  rw [if_neg hr2n] at h
  cases hs3 : mergeNotInsert n g2 ghn.ipv6_head with
  | bug => rw [hs3] at h; cases h
  | fuel => rw [hs3] at h; cases h
  | done v3 =>
  obtain ⟨r3, g3⟩ := v3
  rw [hs3] at h
  simp only at h
  obtain ⟨hr3, hi3, href3, _, hall3⟩ := mergeNotInsert_spec n _ g2 g3 r3 hi2
    (fun d hd => ⟨(hn6 d hd).1, (hn6 d hd).2.1⟩) hs3
  have hr3n : ¬ r3 < 0 := by omega
  rw [if_neg hr3n] at h
  have hpull := HeadInv_pull g3 ghn.ipv4_head ghn.ipv6_head hi3
  by_cases he : mergeNotPull ghn.ipv4_head g3.ipv4_head = [] ∧
      mergeNotPull ghn.ipv6_head g3.ipv6_head = []
  · rw [if_pos he] at h
    simp only [Run.done.injEq, Prod.mk.injEq] at h
    obtain ⟨h1, h2⟩ := h
    subst h1 h2
    exact ⟨hpull, Or.inr rfl, fun h0 => by omega⟩
  rw [if_neg he] at h
  simp only [Run.done.injEq, Prod.mk.injEq] at h
  obtain ⟨h1, h2⟩ := h
  subst h1 h2
  refine ⟨hpull, Or.inl rfl, fun _ => ⟨g3, hi3, ?_, ?_, ?_, ?_⟩⟩
  · exact Grows_trans hg0 (Grows_trans hg1 (Grows_trans href2.1 href3.1))
  · intro A
    apply mergeNotPull_covered ghn.ipv4_head g3.ipv4_head ((SortedRanges_iff _).2 ⟨hi3.1.1, hi3.1.2.1⟩)
    intro s hs
    obtain ⟨hsr, hsv, hsf⟩ := hn4 s hs
    obtain ⟨_, c1, c2⟩ := hall2 s hs
    have e2 := (putList_v4 g2 s [] hsr hsf).2
    rw [e2] at c1 c2
    exact ⟨hsr, hsf, hsv.1, href3.2.1 _ c1, href3.2.1 _ c2⟩
  · intro A
    apply mergeNotPull_covered ghn.ipv6_head g3.ipv6_head ((SortedRanges_iff _).2 ⟨hi3.1.2.2.1, hi3.1.2.2.2⟩)
    intro s hs
    obtain ⟨hsr, hsv, hsf⟩ := hn6 s hs
    obtain ⟨_, c1, c2⟩ := hall3 s hs
    have e2 := (putList_v6 g3 s [] hsr hsf).2
    rw [e2] at c1 c2
    exact ⟨hsr, hsf, hsv.1, c1, c2⟩
  · by_contra hcon
    simp only [not_or, not_not] at hcon
    exact he hcon

/-- C1. For every address expression `X`: if `DetectAddressParse` succeeds on an
initially empty head, then in the IPv4 list and in the IPv6 list of the result
every adjacent pair `p, q` has `p.hi < q.lo`; so each list is sorted by `lo`
and its ranges are pairwise disjoint. -/
theorem DetectAddressParse_sorted (E : Extern) (n : Nat) (X : List Char)
    (gh : DetectAddressHead)
    (h : DetectAddressParse E n DetectAddressHeadInit X = Run.done (0, gh)) :
    (AdjacentSorted gh.ipv4_head ∧ SortedByLo gh.ipv4_head ∧ PairwiseDisjoint gh.ipv4_head) ∧
    (AdjacentSorted gh.ipv6_head ∧ SortedByLo gh.ipv6_head ∧ PairwiseDisjoint gh.ipv6_head) := by
  simp only [DetectAddressParse] at h
  cases hp : DetectAddressParse2 E n DetectAddressHeadInit DetectAddressHeadInit X false with
  | bug => rw [hp] at h; cases h
  | fuel => rw [hp] at h; cases h
  | done v =>
  obtain ⟨r, g1, gn1⟩ := v
  rw [hp] at h
  simp only at h
  obtain ⟨hg1, hgn1, _, _⟩ := Parse2_preserve E HeadInv Grows Grows_refl
    (fun _ _ _ a b => Grows_trans a b)
    (fun n gh s r gh1 hi hs => ⟨(Setup_step E n gh gh1 s r hi hs).1,
      (Setup_step E n gh gh1 s r hi hs).2.1⟩)
    n _ _ X false r g1 gn1 HeadInv_init HeadInv_init hp
  have hinv : HeadInv gh := by
    by_cases hr : r < 0
    · rw [if_pos hr] at h
      simp only [Run.done.injEq, Prod.mk.injEq] at h
      omega
    · rw [if_neg hr] at h
      cases hm : DetectAddressMergeNot E n g1 gn1 with
      | bug => rw [hm] at h; cases h
      | fuel => rw [hm] at h; cases h
      | done w =>
        obtain ⟨r2, g2⟩ := w
        rw [hm] at h
        simp only at h
        have hi2 := (MergeNot_spec E n g1 gn1 g2 r2 hg1 hgn1 hm).1
        by_cases hr2 : r2 < 0
        · rw [if_pos hr2] at h
          simp only [Run.done.injEq, Prod.mk.injEq] at h
          omega
        · rw [if_neg hr2] at h
          simp only [Run.done.injEq, Prod.mk.injEq, true_and] at h
          rw [← h]; exact hi2
  obtain ⟨⟨h1, h2, h3, h4⟩, _⟩ := hinv
  have s4 : SortedRanges AF_INET 0 gh.ipv4_head := (SortedRanges_iff _).2 ⟨h1, h2⟩
  have s6 : SortedRanges AF_INET6 0 gh.ipv6_head := (SortedRanges_iff _).2 ⟨h3, h4⟩
  exact ⟨⟨h2, SortedRanges_sortedByLo s4, SortedRanges_pairwise s4⟩,
    ⟨h4, SortedRanges_sortedByLo s6, SortedRanges_pairwise s6⟩⟩

set_option maxRecDepth 100000 in
theorem DetectAddressParse_sorted_witness :
    DetectAddressParse stdExtern 8 DetectAddressHeadInit testExpr34 = Run.done (0, testHead34) ∧
      (AdjacentSorted testHead34.ipv4_head ∧ SortedByLo testHead34.ipv4_head ∧
        PairwiseDisjoint testHead34.ipv4_head) ∧
      (AdjacentSorted testHead34.ipv6_head ∧ SortedByLo testHead34.ipv6_head ∧
        PairwiseDisjoint testHead34.ipv6_head) :=
  ⟨rfl, DetectAddressParse_sorted stdExtern 8 testExpr34 testHead34 rfl⟩

/-! ## The walk of `DetectAddressParse2` over the text of an expression -/

section Tokens

variable (E : Extern) (n : Nat)
  (rec : DetectAddressHead → DetectAddressHead → List Char → Bool →
    Run (Int × DetectAddressHead × DetectAddressHead))
  (negate : Bool)

theorem step_full (st : ParseState) (c : Char) (cs : List Char)
    (h : 1024 ≤ st.address.length) :
    Parse2Loop E n rec negate st (c :: cs) = Run.done (0, st.gh, st.ghn) := by
  rw [Parse2Loop_cons, if_pos h]

theorem step_bang (a : List Char) (ns d : Bool) (dep : Int) (gh ghn : DetectAddressHead)
    (cs : List Char) (h : a.length < 1024) :
    Parse2Loop E n rec negate ⟨a, false, ns, d, dep, gh, ghn⟩ ('!' :: cs) =
      Parse2Loop E n rec negate ⟨a, false, true, d, dep, gh, ghn⟩ cs := by
  rw [Parse2Loop_cons]
  dsimp only
  rw [if_neg (by omega), if_pos ⟨rfl, rfl⟩]

theorem step_open (a : List Char) (ns d : Bool) (dep : Int) (gh ghn : DetectAddressHead)
    (cs : List Char) (h : a.length < 1024) :
    Parse2Loop E n rec negate ⟨a, false, ns, d, dep, gh, ghn⟩ ('[' :: cs) =
      Parse2Loop E n rec negate ⟨[], true, ns, d, dep + 1, gh, ghn⟩ cs := by
  rw [Parse2Loop_cons]
  dsimp only
  rw [if_neg (by omega), if_neg (by decide), if_pos rfl]
  rfl

theorem step_open_in (a : List Char) (ns d : Bool) (dep : Int) (gh ghn : DetectAddressHead)
    (cs : List Char) (h : a.length < 1024) :
    Parse2Loop E n rec negate ⟨a, true, ns, d, dep, gh, ghn⟩ ('[' :: cs) =
      Parse2Loop E n rec negate ⟨a ++ ['['], true, ns, d, dep + 1, gh, ghn⟩ cs := by
  rw [Parse2Loop_cons]
  dsimp only
  rw [if_neg (by omega), if_neg (by decide), if_pos rfl]
  rfl

theorem step_close_in (a : List Char) (o ns d : Bool) (dep : Int) (gh ghn : DetectAddressHead)
    (cs : List Char) (h : a.length < 1024) (hd : dep ≠ 1) :
    Parse2Loop E n rec negate ⟨a, o, ns, d, dep, gh, ghn⟩ (']' :: cs) =
      Parse2Loop E n rec negate ⟨a ++ [']'], o, ns, d, dep - 1, gh, ghn⟩ cs := by
  rw [Parse2Loop_cons]
  dsimp only
  rw [if_neg (by omega), if_neg (by simp), if_neg (by decide), if_pos rfl, if_neg hd]

theorem step_close (a : List Char) (o ns d : Bool) (gh ghn : DetectAddressHead)
    (cs : List Char) (h : a.length < 1024) :
    Parse2Loop E n rec negate ⟨a, o, ns, d, 1, gh, ghn⟩ (']' :: cs) =
      (rec gh ghn a (negate || ns)).andThen
        (fun g gn => Parse2Loop E n rec negate ⟨[], o, false, d, 0, g, gn⟩ cs) := by
  rw [Parse2Loop_cons]
  dsimp only
  rw [if_neg (by omega), if_neg (by simp), if_neg (by decide), if_pos rfl, if_pos rfl]
  rfl

theorem step_inner (a : List Char) (ns d : Bool) (dep : Int) (gh ghn : DetectAddressHead)
    (c : Char) (cs : List Char) (h : a.length < 1024) (hd : dep ≠ 0)
    (h1 : c ≠ '[') (h2 : c ≠ ']') :
    Parse2Loop E n rec negate ⟨a, true, ns, d, dep, gh, ghn⟩ (c :: cs) =
      Parse2Loop E n rec negate ⟨a ++ [c], true, ns, d, dep, gh, ghn⟩ cs := by
  rw [Parse2Loop_cons]
  dsimp only
  rw [if_neg (by omega), if_neg (by simp), if_neg h1, if_neg h2, if_neg (by simp [hd]),
    if_neg (by simp [hd]), if_neg (by simp [hd])]

theorem step_plain (a : List Char) (o ns d : Bool) (gh ghn : DetectAddressHead)
    (c : Char) (cs : List Char) (h : a.length < 1024)
    (h0 : c ≠ '!') (h1 : c ≠ '[') (h2 : c ≠ ']') (h3 : c ≠ ',') (h4 : c ≠ '$')
    (hcs : cs ≠ []) :
    Parse2Loop E n rec negate ⟨a, o, ns, d, 0, gh, ghn⟩ (c :: cs) =
      Parse2Loop E n rec negate ⟨a ++ [c], o, ns, d, 0, gh, ghn⟩ cs := by
  rw [Parse2Loop_cons]
  dsimp only
  rw [if_neg (by omega), if_neg (by simp [h0]), if_neg h1, if_neg h2, if_neg (by simp [h3]),
    if_neg (by simp [h4]), if_neg (by simp [hcs])]

theorem step_comma_group (a : List Char) (ns d : Bool) (gh ghn : DetectAddressHead)
    (cs : List Char) (h : a.length < 1024) :
    Parse2Loop E n rec negate ⟨a, true, ns, d, 0, gh, ghn⟩ (',' :: cs) =
      Parse2Loop E n rec negate ⟨[], false, ns, d, 0, gh, ghn⟩ cs := by
  rw [Parse2Loop_cons]
  dsimp only
  rw [if_neg (by omega), if_neg (by simp), if_neg (by decide), if_neg (by decide),
    if_pos ⟨rfl, rfl⟩, if_pos rfl]

theorem step_comma_var (a : List Char) (ns : Bool) (gh ghn : DetectAddressHead)
    (cs : List Char) (h : a.length < 1024) :
    Parse2Loop E n rec negate ⟨a, false, ns, true, 0, gh, ghn⟩ (',' :: cs) =
      (parseVar E rec negate ⟨a, false, ns, true, 0, gh, ghn⟩ a).andThen
        (fun g gn => Parse2Loop E n rec negate ⟨[], false, false, false, 0, g, gn⟩ cs) := by
  rw [Parse2Loop_cons]
  dsimp only
  rw [if_neg (by omega), if_neg (by decide), if_neg (by decide), if_neg (by decide),
    if_pos ⟨rfl, rfl⟩, if_neg (by decide), if_pos rfl]
  rfl

theorem step_comma_leaf (a : List Char) (ns : Bool) (gh ghn : DetectAddressHead)
    (cs : List Char) (h : a.length < 1024) :
    Parse2Loop E n rec negate ⟨a, false, ns, false, 0, gh, ghn⟩ (',' :: cs) =
      (parseLeaf E n negate ⟨a, false, ns, false, 0, gh, ghn⟩ a).andThen
        (fun g gn => Parse2Loop E n rec negate ⟨[], false, false, false, 0, g, gn⟩ cs) := by
  rw [Parse2Loop_cons]
  dsimp only
  rw [if_neg (by omega), if_neg (by decide), if_neg (by decide), if_neg (by decide),
    if_pos ⟨rfl, rfl⟩, if_neg (by decide), if_neg (by decide)]
  rfl

theorem step_dollar (a : List Char) (o ns d : Bool) (gh ghn : DetectAddressHead)
    (cs : List Char) (h : a.length < 1024) :
    Parse2Loop E n rec negate ⟨a, o, ns, d, 0, gh, ghn⟩ ('$' :: cs) =
      Parse2Loop E n rec negate ⟨a ++ ['$'], o, ns, true, 0, gh, ghn⟩ cs := by
  rw [Parse2Loop_cons]
  dsimp only
  rw [if_neg (by omega), if_neg (by simp), if_neg (by decide), if_neg (by decide),
    if_neg (by simp), if_pos ⟨rfl, rfl⟩]

theorem step_last_var (a : List Char) (o ns : Bool) (gh ghn : DetectAddressHead)
    (c : Char) (h : a.length < 1024)
    (h0 : c ≠ '!') (h1 : c ≠ '[') (h2 : c ≠ ']') (h3 : c ≠ ',') (h4 : c ≠ '$') :
    Parse2Loop E n rec negate ⟨a, o, ns, true, 0, gh, ghn⟩ [c] =
      (parseVar E rec negate ⟨a, o, ns, true, 0, gh, ghn⟩ (a ++ [c])).andThen
        (fun g gn => Run.done (0, g, gn)) := by
  rw [Parse2Loop_cons]
  dsimp only
  rw [if_neg (by omega), if_neg (by simp [h0]), if_neg h1, if_neg h2, if_neg (by simp [h3]),
    if_neg (by simp [h4]), if_pos ⟨rfl, rfl⟩, if_pos rfl]
  rfl

theorem step_last_leaf (a : List Char) (o ns : Bool) (gh ghn : DetectAddressHead)
    (c : Char) (h : a.length < 1024)
    (h0 : c ≠ '!') (h1 : c ≠ '[') (h2 : c ≠ ']') (h3 : c ≠ ',') (h4 : c ≠ '$') :
    Parse2Loop E n rec negate ⟨a, o, ns, false, 0, gh, ghn⟩ [c] =
      (parseLeaf E n negate ⟨a, o, ns, false, 0, gh, ghn⟩ (a ++ [c])).andThen
        (fun g gn => Run.done (0, g, gn)) := by
  rw [Parse2Loop_cons]
  dsimp only
  rw [if_neg (by omega), if_neg (by simp [h0]), if_neg h1, if_neg h2, if_neg (by simp [h3]),
    if_neg (by simp [h4]), if_pos ⟨rfl, rfl⟩, if_neg (by decide)]
  rfl

end Tokens

section Scanning

variable (E : Extern) (n : Nat)
  (rec : DetectAddressHead → DetectAddressHead → List Char → Bool →
    Run (Int × DetectAddressHead × DetectAddressHead))
  (negate : Bool)

theorem Scans_nil : Scans E n rec negate [] := by
  intro a ns d dep gh ghn rest _ ha
  simp only [List.nil_append, List.length_nil, Nat.add_zero, List.append_nil]
  rw [if_pos ha]

theorem Scans_char (c : Char) (h1 : c ≠ '[') (h2 : c ≠ ']') : Scans E n rec negate [c] := by
  intro a ns d dep gh ghn rest hd ha
  simp only [List.singleton_append, List.length_singleton]
  by_cases hl : a.length < 1024
  · rw [step_inner E n rec negate a ns d dep gh ghn c rest hl (by omega) h1 h2,
      if_pos (by omega)]
  · rw [step_full E n rec negate _ c rest (by simpa using hl), if_neg (by omega)]

theorem Scans_append (u v : List Char) (hu : Scans E n rec negate u)
    (hv : Scans E n rec negate v) : Scans E n rec negate (u ++ v) := by
  intro a ns d dep gh ghn rest hd ha
  rw [List.append_assoc, hu a ns d dep gh ghn (v ++ rest) hd ha]
  by_cases h1 : a.length + u.length ≤ 1024
  · rw [if_pos h1, hv (a ++ u) ns d dep gh ghn rest hd (by simpa using h1)]
    simp only [List.length_append, List.append_assoc]
    by_cases h2 : a.length + u.length + v.length ≤ 1024
    · rw [if_pos h2, if_pos (by omega)]
    · rw [if_neg h2, if_neg (by omega)]
  · rw [if_neg h1, if_neg (by simp only [List.length_append]; omega)]

theorem Scans_run : ∀ (w : List Char), (∀ c ∈ w, c ≠ '[' ∧ c ≠ ']') → Scans E n rec negate w
  | [], _ => Scans_nil E n rec negate
  | c :: w, h => by
    have hc := h c (List.mem_cons_self _ _)
    have := Scans_append E n rec negate [c] w (Scans_char E n rec negate c hc.1 hc.2)
      (Scans_run w (fun x hx => h x (List.mem_cons_of_mem _ hx)))
    simpa using this

theorem Scans_bracket (w : List Char) (hw : Scans E n rec negate w) :
    Scans E n rec negate ('[' :: (w ++ [']'])) := by
  intro a ns d dep gh ghn rest hd ha
  simp only [List.cons_append, List.append_assoc, List.length_cons, List.length_append,
    List.length_singleton, List.singleton_append, List.nil_append, List.length_nil,
    Nat.zero_add]
  by_cases hl : a.length < 1024
  · rw [step_open_in E n rec negate a ns d dep gh ghn _ hl,
      hw (a ++ ['[']) ns d (dep + 1) gh ghn (']' :: rest) (by omega) (by simp; omega)]
    simp only [List.length_append, List.length_singleton]
    by_cases h1 : a.length + 1 + w.length ≤ 1024
    · rw [if_pos h1]
      by_cases h2 : a.length + 1 + w.length < 1024
      · rw [step_close_in E n rec negate _ true ns d (dep + 1) gh ghn rest
          (by simp; omega) (by omega), if_pos (by omega)]
        simp only [List.append_assoc, List.singleton_append, add_sub_cancel_right,
          List.cons_append, List.nil_append]
      · rw [step_full E n rec negate _ ']' rest (by simp; omega), if_neg (by omega)]
    · rw [if_neg h1, if_neg (by omega)]
  · rw [step_full E n rec negate _ '[' _ (by simpa using hl), if_neg (by omega)]

theorem plainText_brackets (w : List Char) (h : plainText w) : ∀ c ∈ w, c ≠ '[' ∧ c ≠ ']' := by
  intro c hc
  have := h.2 c hc
  simp only [specialChar, Bool.or_eq_false_iff, beq_eq_false_iff_ne, ne_eq] at this
  exact ⟨this.1.1.1.2, this.1.1.2⟩

mutual
theorem Scans_render : ∀ (e : Expr), WfExpr e → Scans E n rec negate (render e)
  | Expr.atom a, h => by
    rw [render]
    exact Scans_run E n rec negate a (plainText_brackets a h)
  | Expr.var v, h => by
    rw [render]
    exact Scans_append E n rec negate ['$'] v
      (Scans_char E n rec negate '$' (by decide) (by decide))
      (Scans_run E n rec negate v (plainText_brackets v h))
  | Expr.neg e, h => by
    rw [render]
    exact Scans_append E n rec negate ['!'] (render e)
      (Scans_char E n rec negate '!' (by decide) (by decide)) (Scans_render e h)
  | Expr.group es, h => by
    rw [render]
    exact Scans_bracket E n rec negate _ (Scans_renderList es h)
theorem Scans_renderList : ∀ (es : ExprList), WfList es → Scans E n rec negate (renderList es)
  | ExprList.single e, h => by
    rw [renderList]
    exact Scans_render e h
  | ExprList.cons e es, h => by
    rw [renderList]
    have h2 := Scans_append E n rec negate [','] (renderList es)
      (Scans_char E n rec negate ',' (by decide) (by decide)) (Scans_renderList es h.2)
    exact Scans_append E n rec negate (render e) _ (Scans_render e h.1) h2
end

end Scanning

section Items

variable (E : Extern) (n : Nat)
  (rec : DetectAddressHead → DetectAddressHead → List Char → Bool →
    Run (Int × DetectAddressHead × DetectAddressHead))
  (negate : Bool)

theorem plainText_chars (w : List Char) (h : ∀ c ∈ w, specialChar c = false) :
    ∀ c ∈ w, c ≠ '!' ∧ c ≠ '[' ∧ c ≠ ']' ∧ c ≠ ',' ∧ c ≠ '$' := by
  intro c hc
  have := h c hc
  simp only [specialChar, Bool.or_eq_false_iff, beq_eq_false_iff_ne, ne_eq] at this
  exact ⟨this.1.1.1.1, this.1.1.1.2, this.1.1.2, this.1.2, this.2⟩

theorem run_plain : ∀ (w : List Char), (∀ c ∈ w, specialChar c = false) →
    ∀ (a : List Char) (o ns d : Bool) (gh ghn : DetectAddressHead) (rest : List Char),
    rest ≠ [] → a.length ≤ 1024 →
    Parse2Loop E n rec negate ⟨a, o, ns, d, 0, gh, ghn⟩ (w ++ rest) =
      if a.length + w.length ≤ 1024 then
        Parse2Loop E n rec negate ⟨a ++ w, o, ns, d, 0, gh, ghn⟩ rest
      else Run.done (0, gh, ghn)
  | [], _, a, o, ns, d, gh, ghn, rest, _, ha => by
    simp only [List.nil_append, List.length_nil, Nat.add_zero, List.append_nil]
    rw [if_pos ha]
  | c :: w, h, a, o, ns, d, gh, ghn, rest, hr, ha => by
    obtain ⟨h0, h1, h2, h3, h4⟩ := plainText_chars _ h c (List.mem_cons_self _ _)
    simp only [List.cons_append, List.length_cons]
    by_cases hl : a.length < 1024
    · rw [step_plain E n rec negate a o ns d gh ghn c (w ++ rest) hl h0 h1 h2 h3 h4 (by simp [hr]),
        run_plain w (fun x hx => h x (List.mem_cons_of_mem _ hx)) (a ++ [c]) o ns d gh ghn rest
          hr (by simp; omega)]
      simp only [List.length_append, List.length_singleton, List.append_assoc,
        List.singleton_append]
      by_cases h5 : a.length + 1 + w.length ≤ 1024
      · rw [if_pos h5, if_pos (by omega)]
      · rw [if_neg h5, if_neg (by omega)]
    · rw [step_full E n rec negate _ c _ (by simpa using hl), if_neg (by omega)]

theorem plainText_concat (w : List Char) (h : plainText w) :
    ∃ u c, w = u ++ [c] ∧ (∀ x ∈ u, specialChar x = false) ∧ specialChar c = false := by
  obtain ⟨hne, hall⟩ := h
  rcases List.eq_nil_or_concat w with h0 | ⟨u, c, h1⟩
  · exact absurd h0 hne
  · rw [List.concat_eq_append] at h1
    subst h1
    exact ⟨u, c, rfl, fun x hx => hall x (by simp [hx]), hall c (by simp)⟩

theorem item_last : ∀ (e : Expr), WfExpr e → ∀ (ns : Bool) (gh ghn : DetectAddressHead),
    Parse2Loop E n rec negate ⟨[], false, ns, false, 0, gh, ghn⟩ (render e) =
      if fitsBuffer e then
        (evalItem E n rec negate e ns gh ghn).andThen (fun g gn => Run.done (0, g, gn))
      else Run.done (0, gh, ghn)
  | Expr.atom a, h, ns, gh, ghn => by
    obtain ⟨u, c, hw, hu, hc⟩ := plainText_concat a h
    obtain ⟨h0, h1, h2, h3, h4⟩ := plainText_chars [c] (by simpa using hc) c (by simp)
    subst hw
    simp only [render, fitsBuffer, evalItem, List.length_append, List.length_singleton,
      decide_eq_true_eq]
    rw [run_plain E n rec negate u hu [] false ns false gh ghn [c] (by simp) (by simp)]
    simp only [List.length_nil, Nat.zero_add, List.nil_append]
    by_cases hl : u.length + 1 ≤ 1024
    · rw [if_pos (by omega), if_pos hl,
        step_last_leaf E n rec negate u false ns gh ghn c (by omega) h0 h1 h2 h3 h4]
      rfl
    · rw [if_neg hl]
      by_cases hl2 : u.length ≤ 1024
      · rw [if_pos hl2, step_full E n rec negate _ c _ (by simp; omega)]
      · rw [if_neg hl2]
  | Expr.var v, h, ns, gh, ghn => by
    obtain ⟨u, c, hw, hu, hc⟩ := plainText_concat v h
    obtain ⟨h0, h1, h2, h3, h4⟩ := plainText_chars [c] (by simpa using hc) c (by simp)
    subst hw
    simp only [render, fitsBuffer, evalItem, List.length_append, List.length_singleton,
      decide_eq_true_eq]
    rw [step_dollar E n rec negate [] false ns false gh ghn _ (by simp),
      run_plain E n rec negate u hu _ false ns true gh ghn [c] (by simp) (by simp)]
    simp only [List.length_append, List.length_nil, Nat.zero_add, List.nil_append,
      List.length_singleton, List.singleton_append]
    by_cases hl : u.length + 1 + 1 ≤ 1024
    · rw [if_pos (by omega), if_pos hl,
        step_last_var E n rec negate _ false ns gh ghn c (by simp; omega) h0 h1 h2 h3 h4]
      rfl
    · rw [if_neg hl]
      by_cases hl2 : 1 + u.length ≤ 1024
      · rw [if_pos hl2, step_full E n rec negate _ c _ (by simp; omega)]
      · rw [if_neg hl2]
  | Expr.neg e, h, ns, gh, ghn => by
    simp only [render, fitsBuffer, evalItem]
    rw [step_bang E n rec negate [] ns false 0 gh ghn _ (by simp)]
    exact item_last e h true gh ghn
  | Expr.group es, h, ns, gh, ghn => by
    simp only [render, fitsBuffer, evalItem, decide_eq_true_eq]
    rw [step_open E n rec negate [] ns false 0 gh ghn _ (by simp),
      Scans_renderList E n rec negate es h [] ns false (0 + 1) gh ghn [']'] (by omega) (by simp)]
    simp only [List.length_nil, Nat.zero_add, List.nil_append]
    by_cases hl : (renderList es).length ≤ 1023
    · rw [if_pos (by omega), if_pos hl]
      have hz : (0 : Int) + 1 = 1 := by omega
      rw [hz, step_close E n rec negate _ true ns false gh ghn [] (by omega)]
      rfl
    · rw [if_neg hl]
      by_cases hl2 : (renderList es).length ≤ 1024
      · rw [if_pos hl2, step_full E n rec negate _ ']' _ (by simp; omega)]
      · rw [if_neg hl2]

theorem item_comma : ∀ (e : Expr), WfExpr e → (render e).length ≤ 1023 →
    ∀ (ns : Bool) (gh ghn : DetectAddressHead) (more : List Char),
    Parse2Loop E n rec negate ⟨[], false, ns, false, 0, gh, ghn⟩ (render e ++ ',' :: more) =
      (evalItem E n rec negate e ns gh ghn).andThen
        (fun g gn => Parse2Loop E n rec negate ⟨[], false, false, false, 0, g, gn⟩ more)
  | Expr.atom a, h, hl, ns, gh, ghn, more => by
    simp only [render, evalItem] at hl ⊢
    rw [run_plain E n rec negate a h.2 [] false ns false gh ghn _ (by simp) (by simp)]
    simp only [List.length_nil, Nat.zero_add, List.nil_append]
    rw [if_pos (by omega), step_comma_leaf E n rec negate a ns gh ghn more (by omega)]
    rfl
  | Expr.var v, h, hl, ns, gh, ghn, more => by
    simp only [render, evalItem, List.length_cons] at hl ⊢
    rw [List.cons_append, step_dollar E n rec negate [] false ns false gh ghn _ (by simp),
      run_plain E n rec negate v h.2 _ false ns true gh ghn _ (by simp) (by simp)]
    simp only [List.length_nil, Nat.zero_add, List.nil_append, List.length_singleton,
      List.singleton_append]
    rw [if_pos (by omega), step_comma_var E n rec negate _ ns gh ghn more (by simp; omega)]
    rfl
  | Expr.neg e, h, hl, ns, gh, ghn, more => by
    simp only [render, evalItem, List.length_cons] at hl ⊢
    rw [List.cons_append, step_bang E n rec negate [] ns false 0 gh ghn _ (by simp)]
    exact item_comma e h (by omega) true gh ghn more
  | Expr.group es, h, hl, ns, gh, ghn, more => by
    simp only [render, evalItem, List.length_cons, List.length_append,
      List.length_singleton] at hl ⊢
    rw [List.cons_append, List.append_assoc,
      step_open E n rec negate [] ns false 0 gh ghn _ (by simp),
      Scans_renderList E n rec negate es h [] ns false (0 + 1) gh ghn _ (by omega) (by simp)]
    simp only [List.length_nil, Nat.zero_add, List.nil_append, List.singleton_append]
    have hz : (0 : Int) + 1 = 1 := by omega
    rw [if_pos (by omega), hz, step_close E n rec negate _ true ns false gh ghn _ (by omega)]
    have hk : (fun g gn => Parse2Loop E n rec negate ⟨[], true, false, false, 0, g, gn⟩
        (',' :: more)) =
        (fun g gn => Parse2Loop E n rec negate ⟨[], false, false, false, 0, g, gn⟩ more) := by
      funext g gn
      exact step_comma_group E n rec negate [] false false g gn more (by simp)
    rw [hk]

end Items

section Lists

variable (E : Extern) (n : Nat)
  (rec : DetectAddressHead → DetectAddressHead → List Char → Bool →
    Run (Int × DetectAddressHead × DetectAddressHead))
  (negate : Bool)

theorem fitsBuffer_of_length : ∀ (e : Expr), (render e).length ≤ 1024 → fitsBuffer e = true
  | Expr.atom a, h => by
    simp only [render] at h
    simp [fitsBuffer, h]
  | Expr.var v, h => by
    simp only [render, List.length_cons] at h
    simp [fitsBuffer, h]
  | Expr.neg e, h => by
    simp only [render, List.length_cons] at h
    rw [fitsBuffer]
    exact fitsBuffer_of_length e (by omega)
  | Expr.group es, h => by
    simp only [render, List.length_cons, List.length_append, List.length_singleton] at h
    simp only [fitsBuffer, decide_eq_true_eq]
    omega

theorem items_eq : ∀ (es : ExprList), WfList es → (renderList es).length ≤ 1023 →
    ∀ (gh ghn : DetectAddressHead),
    Parse2Loop E n rec negate ⟨[], false, false, false, 0, gh, ghn⟩ (renderList es) =
      evalItems E n rec negate es gh ghn
  | ExprList.single e, h, hl, gh, ghn => by
    simp only [renderList, evalItems] at hl ⊢
    rw [item_last E n rec negate e h false gh ghn,
      if_pos (fitsBuffer_of_length e (by omega))]
  | ExprList.cons e es, h, hl, gh, ghn => by
    simp only [renderList, evalItems, List.length_append, List.length_cons] at hl ⊢
    rw [item_comma E n rec negate e h.1 (by omega) false gh ghn]
    have hk : (fun g gn => Parse2Loop E n rec negate ⟨[], false, false, false, 0, g, gn⟩
        (renderList es)) = (fun g gn => evalItems E n rec negate es g gn) := by
      funext g gn
      exact items_eq es h.2 (by omega) g gn
    rw [hk]

end Lists

/-- `DetectAddressParse2` on the text of an expression: the expression is
handled as one item, unless it does not fit the buffer; then nothing is done
and `0` is returned. -/
theorem Parse2_render (E : Extern) (n : Nat) (negate : Bool) (e : Expr) (h : WfExpr e)
    (gh ghn : DetectAddressHead) :
    DetectAddressParse2 E (n + 1) gh ghn (render e) negate =
      if fitsBuffer e then
        (evalItem E n (DetectAddressParse2 E n) negate e false gh ghn).andThen
          (fun g gn => Run.done (0, g, gn))
      else Run.done (0, gh, ghn) :=
  item_last E n (DetectAddressParse2 E n) negate e h false gh ghn

/-- `DetectAddressParse2` on the text of a list that fits the buffer handles
the items one after the other. -/
theorem Parse2_renderList (E : Extern) (n : Nat) (negate : Bool) (es : ExprList)
    (h : WfList es) (hl : (renderList es).length ≤ 1023) (gh ghn : DetectAddressHead) :
    DetectAddressParse2 E (n + 1) gh ghn (renderList es) negate =
      evalItems E n (DetectAddressParse2 E n) negate es gh ghn :=
  items_eq E n (DetectAddressParse2 E n) negate es h hl gh ghn

/-! ## The negation of one host -/

theorem ParseSingle_zero4_sane (E : Extern) (hE : SaneExtern E) :
    DetectAddressParseSingle E textZero4 = some fullV4 := by
  obtain ⟨h0, h4, _⟩ := hE
  obtain ⟨v, hv⟩ := Option.isSome_iff_exists.1 h4
  simp [DetectAddressParseSingle, DetectAddressParseString, isAny, textZero4, parseIPv4,
    splitAt1, h0, hv, CIDRGet, fullV4]

theorem ParseSingle_zero6_sane (E : Extern) (hE : SaneExtern E) :
    DetectAddressParseSingle E textZero6 = some fullV6 := by
  obtain ⟨h0, _, h6⟩ := hE
  obtain ⟨v, hv⟩ := Option.isSome_iff_exists.1 h6
  have hm : DetectAddressParseIPv6CIDR 0 = 0 := by decide
  simp [DetectAddressParseSingle, DetectAddressParseString, isAny, textZero6, parseIPv6,
    splitAt1, h0, hv, hm, fullV6]

theorem splitAt1_none (c : Char) : ∀ (w : List Char), c ∉ w → splitAt1 c w = none
  | [], _ => rfl
  | d :: ds, h => by
    have h1 : d ≠ c := fun e => h (by simp [e])
    have h2 : c ∉ ds := fun e => h (by simp [e])
    simp [splitAt1, h1, splitAt1_none c ds h2]

theorem ParseSingle_host (E : Extern) (w : List Char) (h : Nat) (hw : hostText w)
    (hp : E.inet_pton4 w = some h) (hh : h < 2 ^ 32) :
    DetectAddressParseSingle E w = some (hostV4 h) := by
  obtain ⟨hpl, hany, h1, h2, h3⟩ := hw
  obtain ⟨u, c, hu, _, hc⟩ := plainText_concat w hpl
  have hb : w.head? ≠ some '!' := by
    intro hx
    have hm := List.mem_of_mem_head? hx
    have := hpl.2 _ hm
    simp [specialChar] at this
  have hmod : h % 4294967296 = h := Nat.mod_eq_of_lt (by simpa using hh)
  simp [DetectAddressParseSingle, DetectAddressParseString, hany, hb, h1, parseIPv4,
    splitAt1_none _ w h2, splitAt1_none _ w h3, hp, hostV4, hmod]

/-- With enough recursion budget `DetectAddressSetup` returns `0` for a text
that parses into a range of a family, and leaves `insertSorted` of the list. -/
theorem Setup_family_done (E : Extern) (n : Nat) (gh : DetectAddressHead) (s : List Char)
    (ad : DetectAddress) (hp : DetectAddressParseSingle E s = some ad)
    (hnot : ad.flag_not = false) (hx : FamilyRecord ad) (hv : validRange ad)
    (hs : SortedRanges ad.family 0 (GetHeadPtr gh ad)) (hn : (GetHeadPtr gh ad).length < n) :
    DetectAddressSetup E n gh s =
      Run.done (0, putList gh ad (insertSorted (GetHeadPtr gh ad) ad)) := by
  obtain ⟨r, hr, hins⟩ := DetectAddressInsert_eq_insertSorted n gh ad hx hv hs hn
  have hr0 : ¬ r < 0 := by rcases hr with h | h <;> omega
  simp only [DetectAddressSetup, hp, hnot, setupInsert, hins, if_neg hr0, hx.2]
  simp

theorem fullV4_record : FamilyRecord fullV4 ∧ validRange fullV4 ∧ fullV4.flag_not = false := by
  refine ⟨⟨Or.inl rfl, rfl⟩, ?_, rfl⟩
  simp [validRange, fullV4, addrMax, AF_INET, AF_INET6]

theorem hostV4_record (h : Nat) (hh : h < 2 ^ 32) :
    FamilyRecord (hostV4 h) ∧ validRange (hostV4 h) ∧ (hostV4 h).flag_not = false := by
  refine ⟨⟨Or.inl rfl, rfl⟩, ?_, rfl⟩
  simp [validRange, hostV4, addrMax, AF_INET, AF_INET6]
  omega

/-- Steps 2 and 3 of the merge for one negated host on the whole IPv4 space:
the host is cut out. -/
theorem pull_host_ranges (h : Nat) (hh : h < 2 ^ 32) :
    rangesOf (mergeNotPull [hostV4 h] (insertSorted [fullV4] (DetectAddressCopy (hostV4 h)))) =
      if h = 0 then [(1, 2 ^ 32 - 1)]
      else if h = 2 ^ 32 - 1 then [(0, 2 ^ 32 - 2)]
      else [(0, h - 1), (h + 1, 2 ^ 32 - 1)] := by
  by_cases c0 : h = 0
  · subst c0
    simp [mergeNotPull, insertSorted, DetectAddressCopy, hostV4, fullV4, DetectAddressCmp,
      DetectAddressCmpIPv4, addressRelation, DetectAddressCut, DetectAddressCutIPv4, addressCut,
      addrSucc, addrPred, addrMax, AF_INET, AF_INET6, DetectAddressInit, rangesOf, List.filter]
  · by_cases c1 : h = 2 ^ 32 - 1
    · subst c1
      simp [mergeNotPull, insertSorted, DetectAddressCopy, hostV4, fullV4, DetectAddressCmp,
        DetectAddressCmpIPv4, addressRelation, DetectAddressCut, DetectAddressCutIPv4,
        addressCut, addrSucc, addrPred, addrMax, AF_INET, AF_INET6, DetectAddressInit, rangesOf,
        List.filter]
    · rw [if_neg c0, if_neg c1]
      have a1 : ¬ h = 0 := by omega
      have a2 : ¬ h = 4294967295 := by omega
      have a3 : h ≤ 4294967295 := by omega
      have a4 : ¬ 4294967295 < h := by omega
      have a5 : ¬ 0 = h := by omega
      have a6 : ¬ 4294967295 = h := by omega
      have a7 : ¬ 4294967295 ≤ h := by omega
      have a8 : h < 4294967295 := by omega
      have a9 : h - 1 < h := by omega
      have a10 : ¬ h = h - 1 := by omega
      have a11 : ¬ h + 1 ≤ h := by omega
      simp [mergeNotPull, insertSorted, DetectAddressCopy, hostV4, fullV4, DetectAddressCmp,
        DetectAddressCmpIPv4, addressRelation, DetectAddressCut, DetectAddressCutIPv4,
        addressCut, addrSucc, addrPred, addrMax, AF_INET, AF_INET6, DetectAddressInit, rangesOf,
        a1, a2, a3, a4, a5, a6, a7, a8, a9, a10, a11, List.filter]

theorem IsComplete_host (h : Nat) :
    DetectAddressIsCompleteIPSpace ⟨[], [hostV4 h], []⟩ = false := by
  by_cases c0 : h = 0
  · subst c0
    simp [DetectAddressIsCompleteIPSpace, DetectAddressIsCompleteIPSpaceIPv4, coversFrom,
      hostV4, addrMax, AF_INET, AF_INET6, DetectAddressInit]
  · simp [DetectAddressIsCompleteIPSpace, DetectAddressIsCompleteIPSpaceIPv4, coversFrom,
      hostV4, addrMax, AF_INET, AF_INET6, DetectAddressInit, c0]

/-- The merge of one negated host into the empty head: the whole IPv4 space is
seeded and the host is cut out. -/
theorem MergeNot_host (E : Extern) (n : Nat) (h : Nat) (hE : SaneExtern E) (hh : h < 2 ^ 32)
    (hn : 2 ≤ n) :
    DetectAddressMergeNot E n DetectAddressHeadInit ⟨[], [hostV4 h], []⟩ =
      Run.done (0, ⟨[], mergeNotPull [hostV4 h]
        (insertSorted [fullV4] (DetectAddressCopy (hostV4 h))), []⟩) := by
  obtain ⟨hf1, hf2, hf3⟩ := fullV4_record
  obtain ⟨hh1, hh2, hh3⟩ := hostV4_record h hh
  obtain ⟨hc1, hc2, hc3, hc4, hc5⟩ := Copy_record (hostV4 h) hh1 hh2
  have hseed : DetectAddressSetup E n ⟨[], [], []⟩ textZero4 =
      Run.done (0, ⟨[], [fullV4], []⟩) := by
    rw [Setup_family_done E n _ _ fullV4 (ParseSingle_zero4_sane E hE) hf3 hf1 hf2
      (by simp [GetHeadPtr, fullV4, DetectAddressInit, SortedRanges])
      (by simp [GetHeadPtr, fullV4, DetectAddressInit]; omega)]
    simp [putList, SetHeadPtr, GetHeadPtr, fullV4, DetectAddressInit, insertSorted, AF_INET]
  have hget : GetHeadPtr ⟨[], [fullV4], []⟩ (DetectAddressCopy (hostV4 h)) = [fullV4] := by
    simp [GetHeadPtr, DetectAddressCopy, hostV4, DetectAddressInit, AF_INET]
  obtain ⟨r, hr, hins⟩ := DetectAddressInsert_eq_insertSorted n
    ⟨[], [fullV4], []⟩ (DetectAddressCopy (hostV4 h)) hc1 hc2
    (by
      rw [hget, hc3]
      simp [SortedRanges, fullV4, hostV4, DetectAddressInit, addrMax, AF_INET, AF_INET6])
    (by rw [hget]; simp; omega)
  have hr0 : ¬ r < 0 := by rcases hr with h | h <;> omega
  rw [hget] at hins
  have hput : putList ⟨[], [fullV4], []⟩
      (DetectAddressCopy (hostV4 h)) (insertSorted [fullV4] (DetectAddressCopy (hostV4 h))) =
      ⟨[], insertSorted [fullV4] (DetectAddressCopy (hostV4 h)), []⟩ := by
    simp [putList, SetHeadPtr, DetectAddressCopy, hostV4, DetectAddressInit, AF_INET]
  rw [hput] at hins
  have hne : mergeNotPull [hostV4 h] (insertSorted [fullV4] (DetectAddressCopy (hostV4 h))) ≠
      [] := by
    intro he
    have := pull_host_ranges h hh
    rw [he] at this
    simp only [rangesOf, List.map_nil] at this
    split at this
    · cases this
    · split at this <;> cases this
  have hp0 : mergeNotPull [] ([] : List DetectAddress) = [] := rfl
  simp only [DetectAddressMergeNot, DetectAddressHeadInit, IsComplete_host]
  simp [mergeNotSeed, mergeNotInsert, hseed, hins, hr0, hne, hp0]

/-- C6. For every IPv4 host address `h` (a host text `w` that `inet_pton` reads as
the 32-bit value `h`): `DetectAddressParse` of `!h` on an empty head returns `0`
and leaves an IPv4 list that covers exactly the addresses other than `h`: the
two ranges `[0, h-1]` and `[h+1, 255.255.255.255]` in that order when
`0 < h < 255.255.255.255`, and a single range when `h` is `0.0.0.0` or
`255.255.255.255`. -/
theorem DetectAddressParse_not_host (E : Extern) (n : Nat) (w : List Char) (h : Nat)
    (hE : SaneExtern E) (hw : hostText w) (hl : w.length ≤ 1024)
    (hp : E.inet_pton4 w = some h) (hh : h < 2 ^ 32) (hn : 2 ≤ n) :
    ∃ gh, DetectAddressParse E n DetectAddressHeadInit ('!' :: w) = Run.done (0, gh) ∧
      rangesOf gh.ipv4_head =
        (if h = 0 then [(1, 2 ^ 32 - 1)]
         else if h = 2 ^ 32 - 1 then [(0, 2 ^ 32 - 2)]
         else [(0, h - 1), (h + 1, 2 ^ 32 - 1)]) ∧
      ∀ A, A < 2 ^ 32 → (covered gh.ipv4_head A ↔ A ≠ h) := by
  obtain ⟨m, rfl⟩ : ∃ m, n = m + 1 := ⟨n - 1, by omega⟩
  obtain ⟨hh1, hh2, hh3⟩ := hostV4_record h hh
  have hsetup : DetectAddressSetup E m ⟨[], [], []⟩ w = Run.done (0, ⟨[], [hostV4 h], []⟩) := by
    rw [Setup_family_done E m _ _ (hostV4 h) (ParseSingle_host E w h hw hp hh) hh3 hh1 hh2
      (by simp [GetHeadPtr, hostV4, DetectAddressInit, SortedRanges])
      (by simp [GetHeadPtr, hostV4, DetectAddressInit]; omega)]
    simp [putList, SetHeadPtr, GetHeadPtr, hostV4, DetectAddressInit, insertSorted, AF_INET]
  have hparse : DetectAddressParse2 E (m + 1) DetectAddressHeadInit DetectAddressHeadInit
      ('!' :: w) false = Run.done (0, ⟨[], [], []⟩, ⟨[], [hostV4 h], []⟩) := by
    have hr : '!' :: w = render (Expr.neg (Expr.atom w)) := by simp [render]
    rw [hr, Parse2_render E m false _ (by simpa [WfExpr] using hw.1)]
    simp [fitsBuffer, hl, evalItem, parseLeaf, DetectAddressHeadInit, hsetup, Run.andThen]
  refine ⟨⟨[], mergeNotPull [hostV4 h]
    (insertSorted [fullV4] (DetectAddressCopy (hostV4 h))), []⟩, ?_, pull_host_ranges h hh, ?_⟩
  · have hm := MergeNot_host E (m + 1) h hE hh hn
    simp only [DetectAddressHeadInit] at hm
    simp [DetectAddressParse, hparse, hm]
  · intro A hA
    rw [covered_iff_rangesOf, pull_host_ranges h hh]
    by_cases c0 : h = 0
    · rw [if_pos c0]
      simp only [List.mem_singleton, exists_eq_left]
      omega
    · rw [if_neg c0]
      by_cases c1 : h = 2 ^ 32 - 1
      · rw [if_pos c1]
        simp only [List.mem_singleton, exists_eq_left]
        omega
      · rw [if_neg c1]
        simp only [List.mem_cons, List.mem_singleton, List.not_mem_nil, or_false,
          exists_eq_or_imp, exists_eq_left]
        omega

theorem DetectAddressParse_not_host_witness :
    SaneExtern stdExtern ∧ hostText ['1', '.', '2', '.', '3', '.', '4'] ∧
    stdExtern.inet_pton4 ['1', '.', '2', '.', '3', '.', '4'] = some 16909060 ∧
    ∃ gh, DetectAddressParse stdExtern 2 DetectAddressHeadInit
        ['!', '1', '.', '2', '.', '3', '.', '4'] = Run.done (0, gh) ∧
      rangesOf gh.ipv4_head =
        (if 16909060 = 0 then [(1, 2 ^ 32 - 1)]
         else if 16909060 = 2 ^ 32 - 1 then [(0, 2 ^ 32 - 2)]
         else [(0, 16909060 - 1), (16909060 + 1, 2 ^ 32 - 1)]) ∧
      ∀ A, A < 2 ^ 32 → (covered gh.ipv4_head A ↔ A ≠ 16909060) :=
  ⟨⟨by decide, by decide, by decide⟩,
    ⟨⟨by decide, by decide⟩, by decide, by decide, by decide, by decide⟩, by decide,
    DetectAddressParse_not_host stdExtern 2 ['1', '.', '2', '.', '3', '.', '4'] 16909060
      ⟨by decide, by decide, by decide⟩
      ⟨⟨by decide, by decide⟩, by decide, by decide, by decide, by decide⟩
      (by decide) (by decide) (by decide) (by decide)⟩

/-! ## Leaves of an expression: negation exclusion and positive coverage -/

theorem Setup_ParseInv (E : Extern) (hE : SaneExtern E) (n : Nat) (gh gh1 : DetectAddressHead)
    (s : List Char) (r : Int) (hi : ParseInv gh)
    (h : DetectAddressSetup E n gh s = Run.done (r, gh1)) :
    ParseInv gh1 ∧ Grows gh gh1 := by
  obtain ⟨h1, h2, _, h4, _⟩ := Setup_step E n gh gh1 s r hi.1 h
  refine ⟨⟨h1, ?_⟩, h2⟩
  intro hne
  by_cases h0 : gh.any_head = []
  · rcases h4 h0 hne with ⟨_, hn⟩ | ⟨_, a4, a6, e4, e6, c4, c6⟩
    · rw [ParseSingle_zero4_sane E hE, ParseSingle_zero6_sane E hE] at hn
      simp at hn
    · rw [ParseSingle_zero4_sane E hE] at e4
      rw [ParseSingle_zero6_sane E hE] at e6
      cases e4
      cases e6
      constructor
      · intro A hA
        exact c4 A (by simp only [inRange, fullV4]; omega)
      · intro A hA
        exact c6 A (by simp only [inRange, fullV6]; omega)
  · obtain ⟨c4, c6⟩ := hi.2 h0
    exact ⟨fun A hA => h2.1 A (c4 A hA), fun A hA => h2.2.1 A (c6 A hA)⟩

theorem Parse2_ParseInv (E : Extern) (hE : SaneExtern E) (n : Nat)
    (gh ghn gh1 ghn1 : DetectAddressHead) (s : List Char) (neg : Bool) (r : Int)
    (hi : ParseInv gh) (hin : ParseInv ghn)
    (h : DetectAddressParse2 E n gh ghn s neg = Run.done (r, gh1, ghn1)) :
    ParseInv gh1 ∧ ParseInv ghn1 ∧ Grows gh gh1 ∧ Grows ghn ghn1 :=
  Parse2_preserve E ParseInv Grows Grows_refl (fun _ _ _ a b => Grows_trans a b)
    (fun n gh s r gh1 hp hs => Setup_ParseInv E hE n gh gh1 s r hp hs)
    n gh ghn s neg r gh1 ghn1 hi hin h

theorem ParseSingle_flag_not (E : Extern) (a : List Char) (ad : DetectAddress)
    (hb : a.head? ≠ some '!') (h : DetectAddressParseSingle E a = some ad) :
    ad.flag_not = false := by
  simp only [DetectAddressParseSingle, DetectAddressParseString] at h
  by_cases hany : isAny a = true
  · rw [if_pos hany] at h
    cases h
    rfl
  · rw [if_neg hany] at h
    simp only [hb, decide_False, Bool.false_eq_true, if_false] at h
    by_cases hc : ':' ∉ a
    · rw [if_pos hc] at h
      exact (parseIPv4_some E _ ad a rfl h).2.2
    · rw [if_neg hc] at h
      exact (parseIPv6_some E _ ad a rfl h).2.2

theorem plainText_head (a : List Char) (h : plainText a) : a.head? ≠ some '!' := by
  intro hx
  have := h.2 _ (List.mem_of_mem_head? hx)
  simp [specialChar] at this

theorem headCovers_valid (gh : DetectAddressHead) (A : Address) (hi : HeadInv gh)
    (h : headCovers gh A) : validAddress A := by
  obtain ⟨h4, h6⟩ := HeadInv_records gh hi
  rcases h with ⟨hf, d, hd, hA⟩ | ⟨hf, d, hd, hA⟩
  · obtain ⟨_, hv, hdf⟩ := h4 d hd
    have := hv.2
    rw [hdf] at this
    simp only [addrMax, AF_INET, AF_INET6] at this
    simp only [inRange] at hA
    exact Or.inl ⟨hf, by norm_num at this ⊢; omega⟩
  · obtain ⟨_, hv, hdf⟩ := h6 d hd
    have := hv.2
    rw [hdf] at this
    simp only [addrMax, AF_INET6, if_true] at this
    simp only [inRange] at hA
    exact Or.inr ⟨hf, by norm_num at this ⊢; omega⟩

/-- A plain atom that `DetectAddressSetup` sets up in a head: every address in
the atom is covered afterwards, and what is covered afterwards was covered
before or lies in the atom. -/
theorem Setup_leaf (E : Extern) (hE : SaneExtern E) (n : Nat) (gh gh1 : DetectAddressHead)
    (a : List Char) (r : Int) (hi : ParseInv gh) (hp : plainText a)
    (h : DetectAddressSetup E n gh a = Run.done (r, gh1)) (hr : ¬ r < 0) :
    (∀ A, atomHolds E a A → headCovers gh1 A) ∧
    (∀ A, headCovers gh1 A → headCovers gh A ∨ atomHolds E a A) := by
  obtain ⟨hP1, _⟩ := Setup_ParseInv E hE n gh gh1 a r hi h
  obtain ⟨_, _, hr01, _, hlast⟩ := Setup_step E n gh gh1 a r hi.1 h
  have hr0 : r = 0 := by rcases hr01 with h0 | h0 <;> omega
  obtain ⟨ad, hps, hcase⟩ := hlast hr0
  have hnot := ParseSingle_flag_not E a ad (plainText_head a hp) hps
  rcases hcase hnot with ⟨hx, hv, he⟩ | ⟨hany, hne, _⟩
  · have hs := WfHead_GetHeadPtr gh ad hx hi.1.1
    have hcov := fun A => insertSorted_covered A _ 0 ad hx rfl hv.1 hv.2 hs
    have hmax : ad.ip2 ≤ addrMax ad.family := hv.2
    rcases hx.1 with hf | hf
    · obtain ⟨hp1, hp2⟩ := putList_v4 gh ad (insertSorted (GetHeadPtr gh ad) ad) hx hf
      rw [hp2] at hcov
      rw [hp1, hp2] at he
      constructor
      · rintro A ⟨_, ad2, hps2, hin⟩
        rw [hps] at hps2
        cases hps2
        rcases hin with ha | ⟨hfa, hA⟩
        · rw [hx.2] at ha; cases ha
        · exact Or.inl ⟨by rw [← hfa, hf], by rw [he]; exact (hcov _).2 (Or.inr hA)⟩
      · rintro A (⟨hfa, hc⟩ | ⟨hfa, hc⟩)
        · rw [he] at hc
          rcases (hcov _).1 hc with h1 | h1
          · exact Or.inl (Or.inl ⟨hfa, h1⟩)
          · refine Or.inr ⟨Or.inl ⟨hfa, ?_⟩, ad, hps, Or.inr ⟨by rw [hf, hfa], h1⟩⟩
            rw [hf] at hmax
            simp only [addrMax, AF_INET, AF_INET6] at hmax
            simp only [inRange] at h1
            norm_num at hmax ⊢
            omega
        · rw [he] at hc
          exact Or.inl (Or.inr ⟨hfa, hc⟩)
    · obtain ⟨hp1, hp2⟩ := putList_v6 gh ad (insertSorted (GetHeadPtr gh ad) ad) hx hf
      rw [hp2] at hcov
      rw [hp1, hp2] at he
      constructor
      · rintro A ⟨_, ad2, hps2, hin⟩
        rw [hps] at hps2
        cases hps2
        rcases hin with ha | ⟨hfa, hA⟩
        · rw [hx.2] at ha; cases ha
        · exact Or.inr ⟨by rw [← hfa, hf], by rw [he]; exact (hcov _).2 (Or.inr hA)⟩
      · rintro A (⟨hfa, hc⟩ | ⟨hfa, hc⟩)
        · rw [he] at hc
          exact Or.inl (Or.inl ⟨hfa, hc⟩)
        · rw [he] at hc
          rcases (hcov _).1 hc with h1 | h1
          · exact Or.inl (Or.inr ⟨hfa, h1⟩)
          · refine Or.inr ⟨Or.inr ⟨hfa, ?_⟩, ad, hps, Or.inr ⟨by rw [hf, hfa], h1⟩⟩
            rw [hf] at hmax
            simp only [addrMax, AF_INET6, if_true] at hmax
            simp only [inRange] at h1
            norm_num at hmax ⊢
            omega
  · obtain ⟨c4, c6⟩ := hP1.2 hne
    constructor
    · rintro A ⟨hva, _⟩
      rcases hva with ⟨hf, hlt⟩ | ⟨hf, hlt⟩
      · exact Or.inl ⟨hf, c4 _ hlt⟩
      · exact Or.inr ⟨hf, c6 _ hlt⟩
    · intro A hc
      exact Or.inr ⟨headCovers_valid gh1 A hP1.1 hc, ad, hps, Or.inl (by rw [hany]; rfl)⟩

theorem parseLeaf_positive (E : Extern) (n : Nat) (st : ParseState) (addr : List Char)
    (r : Int) (gh1 ghn1 : DetectAddressHead) (hn : st.n_set = false)
    (h : parseLeaf E n false st addr = Run.done (r, gh1, ghn1)) : ghn1 = st.ghn := by
  simp only [parseLeaf, hn, and_self, if_true] at h
  cases hs : DetectAddressSetup E n st.gh addr with
  | bug => rw [hs] at h; cases h
  | fuel => rw [hs] at h; cases h
  | done v =>
    obtain ⟨r1, g1⟩ := v
    rw [hs] at h
    simp only [Run.done.injEq, Prod.mk.injEq] at h
    exact h.2.2.symm

theorem parseVar_positive (E : Extern) (hT : PositiveTable E)
    (rec : DetectAddressHead → DetectAddressHead → List Char → Bool →
      Run (Int × DetectAddressHead × DetectAddressHead))
    (hrec : ∀ gh ghn s r gh1 ghn1, '!' ∉ s →
      rec gh ghn s false = Run.done (r, gh1, ghn1) → ghn1 = ghn)
    (st : ParseState) (name : List Char) (r : Int) (gh1 ghn1 : DetectAddressHead)
    (hn : st.n_set = false)
    (h : parseVar E rec false st name = Run.done (r, gh1, ghn1)) : ghn1 = st.ghn := by
  simp only [parseVar, hn, Bool.or_false, Bool.false_eq_true, if_false] at h
  cases hv : E.SCRuleVarsGetConfVar name with
  | none =>
    rw [hv] at h
    simp only [Run.done.injEq, Prod.mk.injEq] at h
    exact h.2.2.symm
  | some t =>
    rw [hv] at h
    simp only at h
    cases hr : rec st.gh st.ghn t false with
    | bug => rw [hr] at h; cases h
    | fuel => rw [hr] at h; cases h
    | done v =>
      obtain ⟨r1, g1, gn1⟩ := v
      rw [hr] at h
      simp only [Run.done.injEq, Prod.mk.injEq] at h
      rw [← h.2.2]
      exact hrec _ _ _ _ _ _ (hT name t hv) hr

/-- Without a `!` in the text and in the variable table, the walk of
`DetectAddressParse2` outside a negation leaves the negated head as it is. -/
theorem Parse2Loop_positive (E : Extern) (hT : PositiveTable E) (n : Nat)
    (rec : DetectAddressHead → DetectAddressHead → List Char → Bool →
      Run (Int × DetectAddressHead × DetectAddressHead))
    (hrec : ∀ gh ghn s r gh1 ghn1, '!' ∉ s →
      rec gh ghn s false = Run.done (r, gh1, ghn1) → ghn1 = ghn) :
    ∀ (cs : List Char) (st : ParseState) (r : Int) (gh1 ghn1 : DetectAddressHead),
    st.n_set = false → '!' ∉ st.address → '!' ∉ cs →
    Parse2Loop E n rec false st cs = Run.done (r, gh1, ghn1) → ghn1 = st.ghn
  | [], st, r, gh1, ghn1, _, _, _, h => by
    simp only [Parse2Loop_nil, Run.done.injEq, Prod.mk.injEq] at h
    exact h.2.2.symm
  | c :: cs, st, r, gh1, ghn1, hn, ha, hcs, h => by
    have hc : c ≠ '!' := fun e => hcs (by simp [e])
    have hcs2 : '!' ∉ cs := fun e => hcs (by simp [e])
    have hac : '!' ∉ st.address ++ [c] := by
      simp only [List.mem_append, List.mem_singleton, not_or]
      exact ⟨ha, fun e => hc e.symm⟩
    have ih := fun st2 h2 hn2 ha2 =>
      Parse2Loop_positive E hT n rec hrec cs st2 r gh1 ghn1 hn2 ha2 hcs2 h2
    have cont : ∀ (res : Run (Int × DetectAddressHead × DetectAddressHead))
        (f : DetectAddressHead → DetectAddressHead → ParseState),
        (∀ g gn, (f g gn).ghn = gn ∧ (f g gn).n_set = false ∧ (f g gn).address = []) →
        (∀ r1 g1 gn1, res = Run.done (r1, g1, gn1) → gn1 = st.ghn) →
        (match res with
          | Run.done (r1, g1, gn1) =>
            if r1 < 0 then Run.done (-1, g1, gn1)
            else Parse2Loop E n rec false (f g1 gn1) cs
          | Run.bug => Run.bug
          | Run.fuel => Run.fuel) = Run.done (r, gh1, ghn1) →
        ghn1 = st.ghn := by
      intro res f hf hres hm
      cases res with
      | bug => simp at hm
      | fuel => simp at hm
      | done v =>
        obtain ⟨r1, g1, gn1⟩ := v
        have e := hres r1 g1 gn1 rfl
        simp only at hm
        split at hm
        · simp only [Run.done.injEq, Prod.mk.injEq] at hm
          rw [← hm.2.2]; exact e
        · obtain ⟨f1, f2, f3⟩ := hf g1 gn1
          have := ih (f g1 gn1) hm f2 (by rw [f3]; simp)
          rw [this, f1, e]
    rw [Parse2Loop_cons] at h
    by_cases c1 : st.address.length ≥ 1024
    · rw [if_pos c1] at h
      simp only [Run.done.injEq, Prod.mk.injEq] at h
      exact h.2.2.symm
    rw [if_neg c1] at h
    rw [if_neg (fun e => hc e.2)] at h
    by_cases c3 : c = '['
    · rw [if_pos c3] at h
      have t := ih _ h hn (by
        show '!' ∉ (if st.o_set = true then st.address ++ [c] else [])
        split
        · exact hac
        · simp)
      exact t
    rw [if_neg c3] at h
    by_cases c4 : c = ']'
    · rw [if_pos c4] at h
      by_cases c41 : st.depth = 1
      · rw [if_pos c41] at h
        have e0 : (false || st.n_set) = false := by rw [hn]; rfl
        rw [e0] at h
        exact cont _
          (fun g gn =>
            { st with address := [], n_set := false, depth := st.depth - 1, gh := g, ghn := gn })
          (fun _ _ => ⟨rfl, rfl, rfl⟩)
          (fun r1 g1 gn1 hr => hrec _ _ _ _ _ _ ha hr) h
      · rw [if_neg c41] at h
        have t := ih _ h hn hac
        exact t
    rw [if_neg c4] at h
    by_cases c5 : st.depth = 0 ∧ c = ','
    · rw [if_pos c5] at h
      by_cases c51 : st.o_set = true
      · rw [if_pos c51] at h
        have t := ih _ h hn (by simp)
        exact t
      · rw [if_neg c51] at h
        by_cases c52 : st.d_set = true
        · rw [if_pos c52] at h
          exact cont _
            (fun g gn =>
              { st with address := [], d_set := false, n_set := false, gh := g, ghn := gn })
            (fun _ _ => ⟨rfl, rfl, rfl⟩)
            (fun r1 g1 gn1 hr => parseVar_positive E hT rec hrec st _ r1 g1 gn1 hn hr) h
        · rw [if_neg c52] at h
          exact cont _
            (fun g gn => { st with address := [], n_set := false, gh := g, ghn := gn })
            (fun _ _ => ⟨rfl, rfl, rfl⟩)
            (fun r1 g1 gn1 hr => parseLeaf_positive E n st _ r1 g1 gn1 hn hr) h
    rw [if_neg c5] at h
    by_cases c6 : st.depth = 0 ∧ c = '$'
    · rw [if_pos c6] at h
      have t := ih _ h hn hac
      exact t
    rw [if_neg c6] at h
    by_cases c7 : st.depth = 0 ∧ cs = []
    · rw [if_pos c7] at h
      by_cases c71 : st.d_set = true
      · rw [if_pos c71] at h
        exact cont _
          (fun g gn =>
            { st with address := [], d_set := false, n_set := false, gh := g, ghn := gn })
          (fun _ _ => ⟨rfl, rfl, rfl⟩)
          (fun r1 g1 gn1 hr => parseVar_positive E hT rec hrec st _ r1 g1 gn1 hn hr) h
      · rw [if_neg c71] at h
        exact cont _
          (fun g gn => { st with address := [], n_set := false, gh := g, ghn := gn })
          (fun _ _ => ⟨rfl, rfl, rfl⟩)
          (fun r1 g1 gn1 hr => parseLeaf_positive E n st _ r1 g1 gn1 hn hr) h
    · rw [if_neg c7] at h
      have t := ih _ h hn hac
      exact t

theorem Parse2_positive (E : Extern) (hT : PositiveTable E) :
    ∀ (n : Nat) (gh ghn : DetectAddressHead) (s : List Char) (r : Int)
      (gh1 ghn1 : DetectAddressHead), '!' ∉ s →
      DetectAddressParse2 E n gh ghn s false = Run.done (r, gh1, ghn1) → ghn1 = ghn
  | 0, _, _, _, _, _, _, _, h => by simp [DetectAddressParse2] at h
  | n + 1, gh, ghn, s, r, gh1, ghn1, hs, h => by
    rw [DetectAddressParse2] at h
    exact Parse2Loop_positive E hT n (DetectAddressParse2 E n)
      (fun gh ghn s r gh1 ghn1 a b => Parse2_positive E hT n gh ghn s r gh1 ghn1 a b)
      s _ r gh1 ghn1 rfl (by simp) hs h

theorem andThen_done (res : Run (Int × DetectAddressHead × DetectAddressHead))
    (k : DetectAddressHead → DetectAddressHead →
      Run (Int × DetectAddressHead × DetectAddressHead))
    (r : Int) (g gn : DetectAddressHead) (h : res.andThen k = Run.done (r, g, gn))
    (hr : ¬ r < 0) :
    ∃ r1 g1 gn1, res = Run.done (r1, g1, gn1) ∧ ¬ r1 < 0 ∧ k g1 gn1 = Run.done (r, g, gn) := by
  cases res with
  | bug => cases h
  | fuel => cases h
  | done v =>
    obtain ⟨r1, g1, gn1⟩ := v
    simp only [Run.andThen] at h
    by_cases h1 : r1 < 0
    · rw [if_pos h1] at h
      simp only [Run.done.injEq, Prod.mk.injEq] at h
      omega
    · rw [if_neg h1] at h
      exact ⟨r1, g1, gn1, rfl, h1, h⟩

theorem Grows_headCovers {g g1 : DetectAddressHead} (h : Grows g g1) (A : Address)
    (hc : headCovers g A) : headCovers g1 A := by
  rcases hc with ⟨hf, hc⟩ | ⟨hf, hc⟩
  · exact Or.inl ⟨hf, h.1 _ hc⟩
  · exact Or.inr ⟨hf, h.2.1 _ hc⟩

theorem Sem_append (E : Extern) (l1 l2 : List (List Char × Bool))
    (gh ghn g1 gn1 g gn : DetectAddressHead) (h1 : Sem E l1 gh ghn g1 gn1)
    (h2 : Sem E l2 g1 gn1 g gn) : Sem E (l1 ++ l2) gh ghn g gn := by
  obtain ⟨_, _, a3, a4, a5⟩ := h1
  obtain ⟨b1, b2, b3, b4, b5⟩ := h2
  refine ⟨b1, b2, Grows_trans a3 b3, Grows_trans a4 b4, ?_⟩
  intro a b hab A hA
  rcases List.mem_append.1 hab with hm | hm
  · have := a5 a b hm A hA
    cases b
    · exact Grows_headCovers b3 A this
    · exact Grows_headCovers b4 A this
  · exact b5 a b hm A hA

theorem Exact_append (E : Extern) (l1 l2 : List (List Char × Bool))
    (ghn gn1 gn : DetectAddressHead) (h1 : Exact E l1 ghn gn1) (h2 : Exact E l2 gn1 gn) :
    Exact E (l1 ++ l2) ghn gn := by
  intro A hA
  rcases h2 A hA with h | ⟨a, ha, hh⟩
  · rcases h1 A h with h0 | ⟨a, ha, hh⟩
    · exact Or.inl h0
    · exact Or.inr ⟨a, List.mem_append.2 (Or.inl ha), hh⟩
  · exact Or.inr ⟨a, List.mem_append.2 (Or.inr ha), hh⟩

/-- A leaf that `parseLeaf` sets up with success. -/
theorem parseLeaf_sem (E : Extern) (hE : SaneExtern E) (n : Nat) (negate ns : Bool)
    (gh ghn g gn : DetectAddressHead) (a : List Char) (r : Int) (hp : plainText a)
    (hi : ParseInv gh) (hin : ParseInv ghn)
    (h : parseLeaf E n negate ⟨[], false, ns, false, 0, gh, ghn⟩ a = Run.done (r, g, gn))
    (hr : ¬ r < 0) :
    Sem E [(a, negate || ns)] gh ghn g gn ∧ Exact E [(a, negate || ns)] ghn gn := by
  simp only [parseLeaf] at h
  by_cases hc : negate = false ∧ ns = false
  · rw [if_pos hc] at h
    obtain ⟨hc1, hc2⟩ := hc
    subst hc1 hc2
    cases hs : DetectAddressSetup E n gh a with
    | bug => rw [hs] at h; cases h
    | fuel => rw [hs] at h; cases h
    | done v =>
      obtain ⟨r1, g1⟩ := v
      rw [hs] at h
      simp only [Run.done.injEq, Prod.mk.injEq] at h
      obtain ⟨e1, e2, e3⟩ := h
      subst e1 e2 e3
      obtain ⟨p1, p2⟩ := Setup_ParseInv E hE n gh g1 a r1 hi hs
      obtain ⟨c1, _⟩ := Setup_leaf E hE n gh g1 a r1 hi hp hs hr
      refine ⟨⟨p1, hin, p2, Grows_refl _, ?_⟩, fun A hA => Or.inl hA⟩
      intro a2 b hab A hA
      simp only [Bool.or_false, List.mem_singleton, Prod.mk.injEq] at hab
      obtain ⟨e1, e2⟩ := hab
      subst e1 e2
      exact c1 A hA
  · rw [if_neg hc] at h
    have hb : (negate || ns) = true := by
      cases negate <;> cases ns <;> simp at hc ⊢
    cases hs : DetectAddressSetup E n ghn a with
    | bug => rw [hs] at h; cases h
    | fuel => rw [hs] at h; cases h
    | done v =>
      obtain ⟨r1, g1⟩ := v
      rw [hs] at h
      simp only [Run.done.injEq, Prod.mk.injEq] at h
      obtain ⟨e1, e2, e3⟩ := h
      subst e1 e2 e3
      obtain ⟨p1, p2⟩ := Setup_ParseInv E hE n ghn g1 a r1 hin hs
      obtain ⟨c1, c2⟩ := Setup_leaf E hE n ghn g1 a r1 hin hp hs hr
      rw [hb]
      refine ⟨⟨hi, p1, Grows_refl _, p2, ?_⟩, ?_⟩
      · intro a2 b hab A hA
        simp only [List.mem_singleton, Prod.mk.injEq] at hab
        obtain ⟨e1, e2⟩ := hab
        subst e1 e2
        exact c1 A hA
      · intro A hA
        rcases c2 A hA with h0 | h0
        · exact Or.inl h0
        · exact Or.inr ⟨a, by simp, h0⟩

mutual
/-- One item of a list that `DetectAddressParse2` handles with success: every
leaf of the item is covered by the head of its side; when the variables add
nothing to the negated head, it gains nothing but negated leaves. -/
theorem sem_item (E : Extern) (hE : SaneExtern E) : ∀ (e : Expr) (n : Nat) (negate ns : Bool)
    (gh ghn g gn : DetectAddressHead) (r : Int), WfExpr e → fitsBuffer e = true →
    ParseInv gh → ParseInv ghn →
    evalItem E n (DetectAddressParse2 E n) negate e ns gh ghn = Run.done (r, g, gn) →
    ¬ r < 0 →
    Sem E (leaves e (negate || ns)) gh ghn g gn ∧
      (VarsPlain E e (negate || ns) → Exact E (leaves e (negate || ns)) ghn gn)
  | Expr.atom a, n, negate, ns, gh, ghn, g, gn, r, hw, _, hi, hin, h, hr => by
    simp only [evalItem] at h
    simp only [leaves]
    obtain ⟨s1, s2⟩ := parseLeaf_sem E hE n negate ns gh ghn g gn a r hw hi hin h hr
    exact ⟨s1, fun _ => s2⟩
  | Expr.var v, n, negate, ns, gh, ghn, g, gn, r, _, _, hi, hin, h, _ => by
    simp only [evalItem] at h
    simp only [leaves, VarsPlain]
    obtain ⟨p1, p2, p3, p4⟩ := parseVar_preserve E ParseInv Grows Grows_refl
      (DetectAddressParse2 E n)
      (fun gh ghn s neg r gh1 ghn1 a b c => Parse2_ParseInv E hE n gh ghn gh1 ghn1 s neg r a b c)
      negate ⟨[], false, ns, true, 0, gh, ghn⟩ _ r g gn hi hin h
    refine ⟨⟨p1, p2, p3, p4, fun a b hab => by simp at hab⟩, ?_⟩
    rintro ⟨hb, hT⟩
    have h1 : negate = false := by cases negate <;> simp at hb ⊢
    have h2 : ns = false := by cases ns <;> simp [h1] at hb ⊢
    subst h1 h2
    have e := parseVar_positive E hT (DetectAddressParse2 E n)
      (fun gh ghn s r gh1 ghn1 a b => Parse2_positive E hT n gh ghn s r gh1 ghn1 a b)
      ⟨[], false, false, true, 0, gh, ghn⟩ _ r g gn rfl h
    simp only at e
    subst e
    exact fun A hA => Or.inl hA
  | Expr.neg e, n, negate, ns, gh, ghn, g, gn, r, hw, hf, hi, hin, h, hr => by
    simp only [evalItem] at h
    simp only [leaves, VarsPlain]
    have := sem_item E hE e n negate true gh ghn g gn r hw hf hi hin h hr
    simpa only [Bool.or_true] using this
  | Expr.group es, n, negate, ns, gh, ghn, g, gn, r, hw, hf, hi, hin, h, hr => by
    simp only [evalItem] at h
    simp only [leaves, VarsPlain]
    simp only [fitsBuffer, decide_eq_true_eq] at hf
    exact sem_list E hE es n (negate || ns) gh ghn g gn r hw hf hi hin h hr
/-- A list that fits the buffer and that `DetectAddressParse2` handles with
success. -/
theorem sem_list (E : Extern) (hE : SaneExtern E) : ∀ (es : ExprList) (n : Nat) (negate : Bool)
    (gh ghn g gn : DetectAddressHead) (r : Int), WfList es →
    (renderList es).length ≤ 1023 → ParseInv gh → ParseInv ghn →
    DetectAddressParse2 E n gh ghn (renderList es) negate = Run.done (r, g, gn) →
    ¬ r < 0 →
    Sem E (leavesList es negate) gh ghn g gn ∧
      (VarsPlainList E es negate → Exact E (leavesList es negate) ghn gn)
  | ExprList.single e, n, negate, gh, ghn, g, gn, r, hw, hl, hi, hin, h, hr => by
    cases n with
    | zero => simp [DetectAddressParse2] at h
    | succ m =>
      rw [Parse2_renderList E m negate _ hw hl] at h
      simp only [evalItems] at h
      simp only [renderList] at hl
      obtain ⟨r1, g1, gn1, he, hr1, hk⟩ := andThen_done _ _ r g gn h hr
      simp only [Run.done.injEq, Prod.mk.injEq] at hk
      obtain ⟨_, e2, e3⟩ := hk
      subst e2 e3
      have := sem_item E hE e m negate false gh ghn g1 gn1 r1 hw
        (fitsBuffer_of_length e (by omega)) hi hin he hr1
      simpa only [leavesList, VarsPlainList, Bool.or_false] using this
  | ExprList.cons e es, n, negate, gh, ghn, g, gn, r, hw, hl, hi, hin, h, hr => by
    cases n with
    | zero => simp [DetectAddressParse2] at h
    | succ m =>
      rw [Parse2_renderList E m negate _ hw hl] at h
      simp only [evalItems] at h
      simp only [renderList, List.length_append, List.length_cons] at hl
      obtain ⟨r1, g1, gn1, he, hr1, hk⟩ := andThen_done _ _ r g gn h hr
      have h1 := sem_item E hE e m negate false gh ghn g1 gn1 r1 hw.1
        (fitsBuffer_of_length e (by omega)) hi hin he hr1
      simp only [Bool.or_false] at h1
      rw [← Parse2_renderList E m negate es hw.2 (by omega)] at hk
      have h2 := sem_list E hE es (m + 1) negate g1 gn1 g gn r hw.2 (by omega)
        h1.1.1 h1.1.2.1 hk hr
      simp only [leavesList, VarsPlainList]
      exact ⟨Sem_append E _ _ gh ghn g1 gn1 g gn h1.1 h2.1,
        fun hv => Exact_append E _ _ ghn gn1 gn (h1.2 hv.1) (h2.2 hv.2)⟩
end

theorem Match_values (dd : DetectAddress) (A : Address) :
    DetectAddressMatch dd A = 1 ∨ DetectAddressMatch dd A = 0 := by
  unfold DetectAddressMatch
  split_ifs <;> simp

theorem Match_eq_one (dd : DetectAddress) (A : Address) :
    DetectAddressMatch dd A = 1 ↔
      dd.family = A.family ∧ (A.family = AF_INET ∨ A.family = AF_INET6) ∧
        dd.ip ≤ A.addr ∧ A.addr ≤ dd.ip2 := by
  have zero : ∀ P : Prop, DetectAddressMatch dd A = 0 → ¬ P →
      (DetectAddressMatch dd A = 1 ↔ P) := by
    intro P e hP
    rw [e]
    exact ⟨fun h => absurd h (by decide), fun h => absurd h hP⟩
  by_cases hf : dd.family = A.family
  · by_cases h4 : A.family = AF_INET
    · by_cases hin : A.addr ≥ dd.ip ∧ A.addr ≤ dd.ip2
      · have e : DetectAddressMatch dd A = 1 := by
          simp [DetectAddressMatch, hf, h4, hin.1, hin.2]
        rw [e]
        exact ⟨fun _ => ⟨hf, Or.inl h4, hin.1, hin.2⟩, fun _ => rfl⟩
      · apply zero
        · simp only [DetectAddressMatch, hf, h4, ne_eq, not_true_eq_false, if_false, if_true,
            if_neg hin]
        · exact fun h => hin ⟨h.2.2.1, h.2.2.2⟩
    · by_cases h6 : A.family = AF_INET6
      · by_cases hin : A.addr ≥ dd.ip ∧ A.addr ≤ dd.ip2
        · have e : DetectAddressMatch dd A = 1 := by
            simp [DetectAddressMatch, hf, h4, h6, hin.1, hin.2, AddressIPv6Ge, AddressIPv6Le]
          rw [e]
          exact ⟨fun _ => ⟨hf, Or.inr h6, hin.1, hin.2⟩, fun _ => rfl⟩
        · have hin2 : ¬ (AddressIPv6Ge A.addr dd.ip = true ∧
              AddressIPv6Le A.addr dd.ip2 = true) := by
            simpa only [AddressIPv6Ge, AddressIPv6Le, decide_eq_true_eq] using hin
          apply zero
          · simp only [DetectAddressMatch, hf, ne_eq, not_true_eq_false, if_false, if_neg h4,
              if_pos h6, if_neg hin2]
          · exact fun h => hin ⟨h.2.2.1, h.2.2.2⟩
      · apply zero
        · simp only [DetectAddressMatch, hf, ne_eq, not_true_eq_false, if_false, if_neg h4,
            if_neg h6]
        · rintro ⟨_, h | h, _⟩
          · exact h4 h
          · exact h6 h
  · apply zero
    · simp only [DetectAddressMatch, ne_eq, hf, not_false_eq_true, if_true]
    · exact fun h => hf h.1

/-- C12. For every record `dd` and every address `A`, `DetectAddressMatch`
returns `1` exactly when `dd` and `A` have the same family, IPv4 or IPv6, and
`dd.ip <= A <= dd.ip2` in the host-order numeric comparison of that family; it
returns `0` otherwise. -/
theorem DetectAddressMatch_iff (dd : DetectAddress) (A : Address) :
    (DetectAddressMatch dd A = 1 ↔
      dd.family = A.family ∧ (A.family = AF_INET ∨ A.family = AF_INET6) ∧
        dd.ip ≤ A.addr ∧ A.addr ≤ dd.ip2) ∧
    (¬ (dd.family = A.family ∧ (A.family = AF_INET ∨ A.family = AF_INET6) ∧
        dd.ip ≤ A.addr ∧ A.addr ≤ dd.ip2) → DetectAddressMatch dd A = 0) := by
  refine ⟨Match_eq_one dd A, fun hn => ?_⟩
  rcases Match_values dd A with h | h
  · exact absurd ((Match_eq_one dd A).1 h) hn
  · exact h

theorem Lookup_eq_find (gh : DetectAddressHead) (A : Address)
    (hA : A.family = AF_INET ∨ A.family = AF_INET6) :
    DetectAddressLookupInHead gh A =
      (familyListOf gh A).find? (fun d => DetectAddressMatch d A == 1) := by
  rcases hA with h | h
  · simp [DetectAddressLookupInHead, familyListOf, h]
  · have hne : ¬ AF_INET6 = AF_INET := by decide
    simp [DetectAddressLookupInHead, familyListOf, h, hne]

/-- C11. For every head and every address `A` of family IPv4 or IPv6:
`DetectAddressLookupInHead` never returns a record of another family than
that of `A`; when the list of the family of `A` holds records of that family,
it returns the first record of that list with `ip <= A <= ip2`, and it returns
nothing exactly when no record of that list holds `A`; for a null head it
returns nothing. -/
theorem DetectAddressLookupInHead_first (gh : DetectAddressHead) (A : Address)
    (hA : A.family = AF_INET ∨ A.family = AF_INET6) :
    (∀ d, DetectAddressLookupInHead gh A = some d →
      d.family = A.family ∧ d ∈ familyListOf gh A ∧ inRange d A.addr) ∧
    ((∀ e ∈ familyListOf gh A, e.family = A.family) →
      (∀ d, DetectAddressLookupInHead gh A = some d ↔
        ∃ pre post, familyListOf gh A = pre ++ d :: post ∧ inRange d A.addr ∧
          ∀ e ∈ pre, ¬ inRange e A.addr) ∧
      (DetectAddressLookupInHead gh A = none ↔
        ∀ e ∈ familyListOf gh A, ¬ inRange e A.addr)) ∧
    DetectAddressLookupInHeadPtr none A = none ∧
    DetectAddressLookupInHeadPtr (some gh) A = DetectAddressLookupInHead gh A := by
  have hfind := Lookup_eq_find gh A hA
  refine ⟨?_, ?_, rfl, rfl⟩
  · intro d hd
    rw [hfind] at hd
    have hm := List.find?_some hd
    have hmem := List.mem_of_find?_eq_some hd
    simp only [beq_iff_eq] at hm
    obtain ⟨h1, _, h3, h4⟩ := (Match_eq_one d A).1 hm
    exact ⟨h1, hmem, h3, h4⟩
  · intro hl
    have hiff : ∀ e ∈ familyListOf gh A,
        ((DetectAddressMatch e A == 1) = true ↔ inRange e A.addr) := by
      intro e he
      simp only [beq_iff_eq, Match_eq_one, inRange]
      exact ⟨fun h => ⟨h.2.2.1, h.2.2.2⟩, fun h => ⟨hl e he, hA, h.1, h.2⟩⟩
    constructor
    · intro d
      rw [hfind, List.find?_eq_some]
      constructor
      · rintro ⟨hm, pre, post, hsplit, hpre⟩
        have hd : d ∈ familyListOf gh A := by rw [hsplit]; simp
        refine ⟨pre, post, hsplit, (hiff d hd).1 hm, fun e he hin => ?_⟩
        have hmem : e ∈ familyListOf gh A := by rw [hsplit]; simp [he]
        have := hpre e he
        rw [(hiff e hmem).2 hin] at this
        cases this
      · rintro ⟨pre, post, hsplit, hin, hpre⟩
        have hd : d ∈ familyListOf gh A := by rw [hsplit]; simp
        refine ⟨(hiff d hd).2 hin, pre, post, hsplit, fun e he => ?_⟩
        have hmem : e ∈ familyListOf gh A := by rw [hsplit]; simp [he]
        have hn := hpre e he
        rw [← hiff e hmem] at hn
        simpa using hn
    · rw [hfind, List.find?_eq_none]
      constructor
      · intro h e he hin
        exact h e he ((hiff e he).2 hin)
      · intro h e he hm
        exact h e he ((hiff e he).1 hm)

theorem DetectAddressLookupInHead_first_witness :
    DetectAddressLookupInHead testHead34 ⟨AF_INET, 16843012⟩ =
      some { mkV4 16843010 16908544 with cnt := 0 } ∧
    (∀ e ∈ familyListOf testHead34 ⟨AF_INET, 16843012⟩, e.family = AF_INET) ∧
    ((∀ d, DetectAddressLookupInHead testHead34 ⟨AF_INET, 16843012⟩ = some d →
      d.family = AF_INET ∧ d ∈ familyListOf testHead34 ⟨AF_INET, 16843012⟩ ∧
        inRange d 16843012) ∧
    ((∀ e ∈ familyListOf testHead34 ⟨AF_INET, 16843012⟩, e.family = AF_INET) →
      (∀ d, DetectAddressLookupInHead testHead34 ⟨AF_INET, 16843012⟩ = some d ↔
        ∃ pre post, familyListOf testHead34 ⟨AF_INET, 16843012⟩ = pre ++ d :: post ∧
          inRange d 16843012 ∧ ∀ e ∈ pre, ¬ inRange e 16843012) ∧
      (DetectAddressLookupInHead testHead34 ⟨AF_INET, 16843012⟩ = none ↔
        ∀ e ∈ familyListOf testHead34 ⟨AF_INET, 16843012⟩, ¬ inRange e 16843012)) ∧
    DetectAddressLookupInHeadPtr none ⟨AF_INET, 16843012⟩ = none ∧
    DetectAddressLookupInHeadPtr (some testHead34) ⟨AF_INET, 16843012⟩ =
      DetectAddressLookupInHead testHead34 ⟨AF_INET, 16843012⟩) :=
  ⟨by decide, by decide,
    DetectAddressLookupInHead_first testHead34 ⟨AF_INET, 16843012⟩ (Or.inl rfl)⟩

theorem testBit_mask (w k i : Nat) (hk : k ≤ w) :
    (2 ^ w - 2 ^ k).testBit i = (decide (k ≤ i) && decide (i < w)) := by
  have e : 2 ^ w - 2 ^ k = (2 ^ (w - k) - 1) <<< k := by
    rw [Nat.shiftLeft_eq, Nat.sub_mul, one_mul, ← pow_add, Nat.sub_add_cancel hk]
  rw [e, Nat.testBit_shiftLeft, Nat.testBit_two_pow_sub_one]
  by_cases h : k ≤ i
  · have : (i - k < w - k) ↔ i < w := by omega
    simp [h, this]
  · simp [h]

/-- Clearing the low `k` bits of a `w`-bit value with the mask of `w - k` leading
ones. -/
theorem mask_and (w k A : Nat) (hk : k ≤ w) (hA : A < 2 ^ w) :
    A &&& (2 ^ w - 2 ^ k) = A / 2 ^ k * 2 ^ k := by
  apply Nat.eq_of_testBit_eq
  intro i
  rw [Nat.testBit_and, testBit_mask w k i hk, ← Nat.shiftRight_eq_div_pow, ← Nat.shiftLeft_eq,
    Nat.testBit_shiftLeft, Nat.testBit_shiftRight]
  by_cases h : k ≤ i
  · have e : k + (i - k) = i := by omega
    simp only [h, decide_True, Bool.true_and, ge_iff_le, e]
    by_cases h2 : i < w
    · simp [h2]
    · have : A.testBit i = false :=
        Nat.testBit_lt_two_pow (lt_of_lt_of_le hA (Nat.pow_le_pow_right (by decide) (by omega)))
      simp [this]
  · simp [h]

theorem mask_xor (w k : Nat) (hk : k ≤ w) : (2 ^ w - 2 ^ k) ^^^ (2 ^ w - 1) = 2 ^ k - 1 := by
  apply Nat.eq_of_testBit_eq
  intro i
  rw [Nat.testBit_xor, testBit_mask w k i hk, Nat.testBit_two_pow_sub_one,
    Nat.testBit_two_pow_sub_one]
  by_cases h1 : k ≤ i <;> by_cases h2 : i < w <;> simp [h1, h2] <;> omega

/-- Setting the low `k` bits of a value whose low `k` bits are clear. -/
theorem mask_or (w k A : Nat) (hk : k ≤ w) :
    (A / 2 ^ k * 2 ^ k) ||| ((2 ^ w - 2 ^ k) ^^^ (2 ^ w - 1)) =
      A / 2 ^ k * 2 ^ k + (2 ^ k - 1) := by
  rw [mask_xor w k hk, Nat.mul_comm (A / 2 ^ k) (2 ^ k)]
  have hp : 0 < 2 ^ k := Nat.two_pow_pos k
  exact (Nat.mul_add_lt_is_or (by omega) _).symm

theorem isAny_false_of_mem (s : List Char) (c : Char) (hc : c ∈ s)
    (hl : c.toLower ∉ ['a', 'n', 'y']) : isAny s = false := by
  by_contra h
  simp only [isAny, Bool.not_eq_false, beq_iff_eq] at h
  apply hl
  rw [← h]
  exact List.mem_map_of_mem _ hc

theorem splitAt1_append (c : Char) : ∀ (a b : List Char), c ∉ a →
    splitAt1 c (a ++ c :: b) = some (a, b)
  | [], b, _ => by simp [splitAt1]
  | d :: ds, b, h => by
    have h1 : d ≠ c := fun e => h (by simp [e])
    have h2 : c ∉ ds := fun e => h (by simp [e])
    simp [splitAt1, h1, splitAt1_append c ds b h2]

theorem head_append_ne (a b : List Char) (c : Char) (h : a.head? ≠ some '!') (hc : c ≠ '!') :
    (a ++ c :: b).head? ≠ some '!' := by
  cases a with
  | nil => simpa using hc
  | cons d ds => simpa using h

/-- An atom text without `:` that is not `any` and does not start with `!` is
handed to the IPv4 branch with a fresh record. -/
theorem ParseSingle_v4 (E : Extern) (s : List Char) (h1 : isAny s = false)
    (h2 : s.head? ≠ some '!') (h3 : ':' ∉ s) :
    DetectAddressParseSingle E s = parseIPv4 E DetectAddressInit s := by
  simp [DetectAddressParseSingle, DetectAddressParseString, h1, h2, h3]

/-- An atom text with a `:` that is not `any` and does not start with `!` is
handed to the IPv6 branch with a fresh record. -/
theorem ParseSingle_v6 (E : Extern) (s : List Char) (h1 : isAny s = false)
    (h2 : s.head? ≠ some '!') (h3 : ':' ∈ s) :
    DetectAddressParseSingle E s = parseIPv6 E DetectAddressInit s := by
  simp [DetectAddressParseSingle, DetectAddressParseString, h1, h2, h3]

theorem ParseSingle_slash4 (E : Extern) (a m : List Char) (ha : addrText a)
    (h1 : ':' ∉ a) (h2 : ':' ∉ m) :
    DetectAddressParseSingle E (a ++ '/' :: m) =
      parseIPv4 E DetectAddressInit (a ++ '/' :: m) ∧
    splitAt1 '/' (a ++ '/' :: m) = some (a, m) := by
  refine ⟨ParseSingle_v4 E _ ?_ (head_append_ne a m '/' ha.1 (by decide)) ?_,
    splitAt1_append '/' a m ha.2.1⟩
  · exact isAny_false_of_mem _ '/' (by simp) (by decide)
  · simp only [List.mem_append, List.mem_cons, not_or]
    exact ⟨h1, by decide, h2⟩

theorem ParseSingle_slash6 (E : Extern) (a m : List Char) (ha : addrText a) (h1 : ':' ∈ a) :
    DetectAddressParseSingle E (a ++ '/' :: m) =
      parseIPv6 E DetectAddressInit (a ++ '/' :: m) ∧
    splitAt1 '/' (a ++ '/' :: m) = some (a, m) := by
  refine ⟨ParseSingle_v6 E _ ?_ (head_append_ne a m '/' ha.1 (by decide)) ?_,
    splitAt1_append '/' a m ha.2.1⟩
  · exact isAny_false_of_mem _ '/' (by simp) (by decide)
  · simp [h1]

theorem ParseSingle_dash (a b : List Char) (ha : addrText a) (hb : '/' ∉ b) :
    isAny (a ++ '-' :: b) = false ∧ (a ++ '-' :: b).head? ≠ some '!' ∧
    splitAt1 '/' (a ++ '-' :: b) = none ∧ splitAt1 '-' (a ++ '-' :: b) = some (a, b) := by
  refine ⟨isAny_false_of_mem _ '-' (by simp) (by decide),
    head_append_ne a b '-' ha.1 (by decide), splitAt1_none _ _ ?_,
    splitAt1_append '-' a b ha.2.2⟩
  simp only [List.mem_append, List.mem_cons, not_or]
  exact ⟨ha.2.1, by decide, hb⟩

/-- The IPv4 branch of the parser on `A/n` with a prefix length `n` between 0 and
32. -/
theorem parse_cidr4 (E : Extern) (a m : List Char) (A n : Nat) (ha : addrText a)
    (hac : ':' ∉ a) (hA : E.inet_pton4 a = some A) (hlt : A < 2 ^ 32) (hn : n ≤ 32)
    (hm : '.' ∉ m ∧ ':' ∉ m ∧ E.atoi m = (n : Int)) :
    DetectAddressParseSingle E (a ++ '/' :: m) =
      some (rangeV4 (A / 2 ^ (32 - n) * 2 ^ (32 - n))
        (A / 2 ^ (32 - n) * 2 ^ (32 - n) + (2 ^ (32 - n) - 1))) := by
  obtain ⟨e1, e2⟩ := ParseSingle_slash4 E a m ha hac hm.2.1
  have hmod : A % 4294967296 = A := Nat.mod_eq_of_lt (by simpa using hlt)
  have c1 : ¬ ((n : Int) < 0 ∨ (n : Int) > 32) := by omega
  have k1 := mask_and 32 (32 - n) A (by omega) hlt
  have k2 := mask_or 32 (32 - n) A (by omega)
  have hc : CIDRGet n = 2 ^ 32 - 2 ^ (32 - n) := rfl
  rw [e1]
  simp only [parseIPv4, e2, hm.1, not_false_eq_true, if_true, hm.2.2, if_neg c1, Int.toNat_ofNat,
    hA, hc, Nat.reducePow, hmod]
  simp only [Nat.reducePow] at k1 k2
  rw [k1, k2]
  rfl

/-- The IPv4 branch of the parser on `A/M` with a dotted-quad mask `M`. -/
theorem parse_mask4 (E : Extern) (a mm : List Char) (A M : Nat) (ha : addrText a)
    (hac : ':' ∉ a) (hA : E.inet_pton4 a = some A) (hlt : A < 2 ^ 32)
    (hm : '.' ∈ mm ∧ ':' ∉ mm) (hM : E.inet_pton4 mm = some M) (hMlt : M < 2 ^ 32) :
    DetectAddressParseSingle E (a ++ '/' :: mm) =
      some (rangeV4 (A &&& M) ((A &&& M) ||| (M ^^^ (2 ^ 32 - 1)))) := by
  obtain ⟨e1, e2⟩ := ParseSingle_slash4 E a mm ha hac hm.2
  have hmod : A % 4294967296 = A := Nat.mod_eq_of_lt (by simpa using hlt)
  have hmod2 : M % 4294967296 = M := Nat.mod_eq_of_lt (by simpa using hMlt)
  rw [e1]
  simp only [parseIPv4, e2, hm.1, not_true_eq_false, if_false, hM, Option.map_some',
    hA, Nat.reducePow, hmod, hmod2]
  rfl

/-- C13. For every IPv4 address `A` (a text `a` that `inet_pton` reads as the
32-bit value `A`) and every prefix length `n` between 0 and 32,
`DetectAddressParseSingle` of `A/n` yields the IPv4 record with `ip` the value
`A` with its low `32 - n` bits cleared and `ip2` the value `A` with its low
`32 - n` bits set; an address that agrees with `A` on the top `n` bits parses
to the same record, and so does `A` with the dotted-quad mask of `n` ones. -/
theorem DetectAddressParseSingle_cidr (E : Extern) (a m : List Char) (A n : Nat)
    (ha : addrText a) (hac : ':' ∉ a) (hA : E.inet_pton4 a = some A) (hlt : A < 2 ^ 32)
    (hn : n ≤ 32) (hm : '.' ∉ m ∧ ':' ∉ m ∧ E.atoi m = (n : Int)) :
    DetectAddressParseSingle E (a ++ '/' :: m) =
      some (rangeV4 (A / 2 ^ (32 - n) * 2 ^ (32 - n))
        (A / 2 ^ (32 - n) * 2 ^ (32 - n) + (2 ^ (32 - n) - 1))) ∧
    (∀ (b : List Char) (B : Nat), addrText b → ':' ∉ b → E.inet_pton4 b = some B →
      B < 2 ^ 32 → B / 2 ^ (32 - n) = A / 2 ^ (32 - n) →
      DetectAddressParseSingle E (b ++ '/' :: m) = DetectAddressParseSingle E (a ++ '/' :: m)) ∧
    (∀ mm : List Char, '.' ∈ mm → ':' ∉ mm → E.inet_pton4 mm = some (2 ^ 32 - 2 ^ (32 - n)) →
      DetectAddressParseSingle E (a ++ '/' :: mm) =
        DetectAddressParseSingle E (a ++ '/' :: m)) := by
  have h1 := parse_cidr4 E a m A n ha hac hA hlt hn hm
  refine ⟨h1, ?_, ?_⟩
  · intro b B hb hbc hB hBlt hagree
    rw [h1, parse_cidr4 E b m B n hb hbc hB hBlt hn hm, hagree]
  · intro mm hd hc hM
    have hp : 0 < 2 ^ (32 - n) := Nat.two_pow_pos _
    rw [h1, parse_mask4 E a mm A _ ha hac hA hlt ⟨hd, hc⟩ hM (by omega),
      mask_and 32 (32 - n) A (by omega) hlt, mask_or 32 (32 - n) A (by omega)]

theorem DetectAddressParseSingle_cidr_witness :
    (addrText text1234 ∧ stdExtern.inet_pton4 text1234 = some 16909060 ∧
      stdExtern.atoi text24 = 24 ∧ stdExtern.inet_pton4 textMask24 = some (2 ^ 32 - 2 ^ 8)) ∧
    DetectAddressParseSingle stdExtern (text1234 ++ '/' :: text24) =
      some (rangeV4 16909056 16909311) ∧
    (DetectAddressParseSingle stdExtern (text1234 ++ '/' :: text24) =
      some (rangeV4 (16909060 / 2 ^ (32 - 24) * 2 ^ (32 - 24))
        (16909060 / 2 ^ (32 - 24) * 2 ^ (32 - 24) + (2 ^ (32 - 24) - 1))) ∧
    (∀ (b : List Char) (B : Nat), addrText b → ':' ∉ b → stdExtern.inet_pton4 b = some B →
      B < 2 ^ 32 → B / 2 ^ (32 - 24) = 16909060 / 2 ^ (32 - 24) →
      DetectAddressParseSingle stdExtern (b ++ '/' :: text24) =
        DetectAddressParseSingle stdExtern (text1234 ++ '/' :: text24)) ∧
    (∀ mm : List Char, '.' ∈ mm → ':' ∉ mm →
      stdExtern.inet_pton4 mm = some (2 ^ 32 - 2 ^ (32 - 24)) →
      DetectAddressParseSingle stdExtern (text1234 ++ '/' :: mm) =
        DetectAddressParseSingle stdExtern (text1234 ++ '/' :: text24))) :=
  ⟨⟨⟨by decide, by decide, by decide⟩, by decide, by decide, by decide⟩, by decide,
    DetectAddressParseSingle_cidr stdExtern text1234 text24 16909060 24
      ⟨by decide, by decide, by decide⟩ (by decide) (by decide) (by decide) (by decide)
      ⟨by decide, by decide, by decide⟩⟩

set_option maxRecDepth 100000 in
/-- For every prefix length between 0 and 128 `DetectAddressParseIPv6CIDR`
builds the mask of that many leading ones. -/
theorem IPv6CIDR_mask : ∀ n : Nat, n ≤ 128 →
    DetectAddressParseIPv6CIDR (n : Int) = 2 ^ 128 - 2 ^ (128 - n) := by
  decide

/-- C14. For every prefix length `n` between 0 and 128,
`DetectAddressParseIPv6CIDR` produces the 128-bit mask whose `n` most
significant bits are set and whose other bits are clear; and for every IPv6
address `A` (a text `a` that `inet_pton` reads as the 128-bit value `A`),
`DetectAddressParseSingle` of `A/n` yields the IPv6 record with `ip` the value
`A` with its low `128 - n` bits cleared and `ip2` the value `A` with its low
`128 - n` bits set. -/
theorem DetectAddressParseSingle_cidr6 (E : Extern) (a m : List Char) (A n : Nat)
    (ha : addrText a) (hac : ':' ∈ a) (hA : E.inet_pton6 a = some A) (hlt : A < 2 ^ 128)
    (hn : n ≤ 128) (hm : E.atoi m = (n : Int)) :
    DetectAddressParseIPv6CIDR (n : Int) = 2 ^ 128 - 2 ^ (128 - n) ∧
    (∀ i, (DetectAddressParseIPv6CIDR (n : Int)).testBit i =
      (decide (128 - n ≤ i) && decide (i < 128))) ∧
    DetectAddressParseSingle E (a ++ '/' :: m) =
      some (rangeV6 (A / 2 ^ (128 - n) * 2 ^ (128 - n))
        (A / 2 ^ (128 - n) * 2 ^ (128 - n) + (2 ^ (128 - n) - 1))) := by
  have hmask := IPv6CIDR_mask n hn
  refine ⟨hmask, fun i => by rw [hmask]; exact testBit_mask 128 (128 - n) i (by omega), ?_⟩
  obtain ⟨e1, e2⟩ := ParseSingle_slash6 E a m ha hac
  have hp : 0 < 2 ^ (128 - n) := Nat.two_pow_pos _
  have hmod : A % 2 ^ 128 = A := Nat.mod_eq_of_lt hlt
  have hmod2 : (2 ^ 128 - 2 ^ (128 - n)) % 2 ^ 128 = 2 ^ 128 - 2 ^ (128 - n) :=
    Nat.mod_eq_of_lt (by omega)
  have k1 := mask_and 128 (128 - n) A (by omega) hlt
  have k2 := mask_or 128 (128 - n) A (by omega)
  rw [e1]
  simp only [parseIPv6, e2, hA, hm, hmask, hmod, hmod2]
  rw [k1, k2]
  rfl

theorem DetectAddressParseSingle_cidr6_witness :
    (addrText text2001 ∧ ':' ∈ text2001 ∧
      stdExtern.inet_pton6 text2001 = some 42540488161975842760550356425300246529 ∧
      stdExtern.atoi text16 = 16) ∧
    DetectAddressParseSingle stdExtern (text2001 ++ '/' :: text16) =
      some (rangeV6 42540488161975842760550356425300246528
        42545680458834377588178886921629466623) ∧
    (DetectAddressParseIPv6CIDR ((16 : Nat) : Int) = 2 ^ 128 - 2 ^ (128 - 16) ∧
    (∀ i, (DetectAddressParseIPv6CIDR ((16 : Nat) : Int)).testBit i =
      (decide (128 - 16 ≤ i) && decide (i < 128))) ∧
    DetectAddressParseSingle stdExtern (text2001 ++ '/' :: text16) =
      some (rangeV6 (42540488161975842760550356425300246529 / 2 ^ (128 - 16) * 2 ^ (128 - 16))
        (42540488161975842760550356425300246529 / 2 ^ (128 - 16) * 2 ^ (128 - 16) +
          (2 ^ (128 - 16) - 1)))) :=
  ⟨⟨⟨by decide, by decide, by decide⟩, by decide, by decide, by decide⟩, by decide,
    DetectAddressParseSingle_cidr6 stdExtern text2001 text16
      42540488161975842760550356425300246529 16 ⟨by decide, by decide, by decide⟩
      (by decide) (by decide) (by decide) (by decide) (by decide)⟩

/-- C15. For every text for which `DetectAddressParseSingle` succeeds with a
family of IPv4 or IPv6, the record satisfies `ip <= ip2` in the host-order
numeric comparison of its family (and `ip2` lies in the family's space) - for
single hosts, ranges, CIDR prefixes and dotted-quad masks of any value. -/
theorem DetectAddressParseSingle_ordered (E : Extern) (s : List Char) (ad : DetectAddress)
    (h : DetectAddressParseSingle E s = some ad)
    (hf : ad.family = AF_INET ∨ ad.family = AF_INET6) :
    ad.ip ≤ ad.ip2 ∧ ad.ip2 ≤ addrMax ad.family := by
  rcases ParseSingle_cases E s ad h with he | ⟨_, hv⟩
  · rw [he] at hf
    rcases hf with h0 | h0 <;> exact absurd h0 (by decide)
  · exact hv

theorem DetectAddressParseSingle_ordered_witness :
    DetectAddressParseSingle stdExtern (text1234 ++ '/' :: textMaskGap) =
      some (rangeV4 16777984 33489919) ∧
    ((rangeV4 16777984 33489919).family = AF_INET ∨
      (rangeV4 16777984 33489919).family = AF_INET6) ∧
    ((rangeV4 16777984 33489919).ip ≤ (rangeV4 16777984 33489919).ip2 ∧
      (rangeV4 16777984 33489919).ip2 ≤ addrMax (rangeV4 16777984 33489919).family) :=
  ⟨by decide, Or.inl rfl,
    DetectAddressParseSingle_ordered stdExtern (text1234 ++ '/' :: textMaskGap)
      (rangeV4 16777984 33489919) (by decide) (Or.inl rfl)⟩

/-- C16. For two addresses `A` and `B` of one family (texts `a` and `b` that
`inet_pton` of that family reads as `A` and `B`), `DetectAddressParseSingle` of
the range `A-B` fails when `A > B` in host-order numeric comparison and
succeeds with `ip = A` and `ip2 = B` when `A <= B`; equal ends are accepted. -/
theorem DetectAddressParseSingle_range (E : Extern) (a b : List Char) (A B : Nat)
    (ha : addrText a) (hb : '/' ∉ b) :
    ((':' ∉ a ∧ ':' ∉ b ∧ E.inet_pton4 a = some A ∧ E.inet_pton4 b = some B ∧
        A < 2 ^ 32 ∧ B < 2 ^ 32) →
      (A > B → DetectAddressParseSingle E (a ++ '-' :: b) = none) ∧
      (A ≤ B → DetectAddressParseSingle E (a ++ '-' :: b) = some (rangeV4 A B))) ∧
    ((':' ∈ a ∧ E.inet_pton6 a = some A ∧ E.inet_pton6 b = some B ∧
        A < 2 ^ 128 ∧ B < 2 ^ 128) →
      (A > B → DetectAddressParseSingle E (a ++ '-' :: b) = none) ∧
      (A ≤ B → DetectAddressParseSingle E (a ++ '-' :: b) = some (rangeV6 A B))) := by
  obtain ⟨d1, d2, d3, d4⟩ := ParseSingle_dash a b ha hb
  constructor
  · rintro ⟨c1, c2, hA, hB, hAlt, hBlt⟩
    have hc : ':' ∉ a ++ '-' :: b := by
      simp only [List.mem_append, List.mem_cons, not_or]
      exact ⟨c1, by decide, c2⟩
    have hmA : A % 4294967296 = A := Nat.mod_eq_of_lt (by simpa using hAlt)
    have hmB : B % 4294967296 = B := Nat.mod_eq_of_lt (by simpa using hBlt)
    rw [ParseSingle_v4 E _ d1 d2 hc]
    simp only [parseIPv4, d3, d4, hA, hB, Nat.reducePow, hmA, hmB]
    constructor
    · intro hgt
      rw [if_pos hgt]
    · intro hle
      rw [if_neg (by omega)]
      rfl
  · rintro ⟨c1, hA, hB, hAlt, hBlt⟩
    have hc : ':' ∈ a ++ '-' :: b := by simp [c1]
    have hmA : A % 2 ^ 128 = A := Nat.mod_eq_of_lt hAlt
    have hmB : B % 2 ^ 128 = B := Nat.mod_eq_of_lt hBlt
    rw [ParseSingle_v6 E _ d1 d2 hc]
    simp only [parseIPv6, d3, d4, hA, hB, hmA, hmB, AddressIPv6Gt, decide_eq_true_eq]
    constructor
    · intro hgt
      rw [if_pos hgt]
    · intro hle
      rw [if_neg (by omega)]
      rfl

theorem DetectAddressParseSingle_range_witness :
    (addrText text1234 ∧ '/' ∉ text1236 ∧ addrText text1236 ∧ '/' ∉ text1234 ∧
      stdExtern.inet_pton4 text1234 = some 16909060 ∧
      stdExtern.inet_pton4 text1236 = some 16909062) ∧
    DetectAddressParseSingle stdExtern (text1234 ++ '-' :: text1236) =
      some (rangeV4 16909060 16909062) ∧
    DetectAddressParseSingle stdExtern (text1236 ++ '-' :: text1234) = none ∧
    DetectAddressParseSingle stdExtern (text1234 ++ '-' :: text1234) =
      some (rangeV4 16909060 16909060) ∧
    DetectAddressParseSingle stdExtern (text2001 ++ '-' :: text2001_4) =
      some (rangeV6 42540488161975842760550356425300246529
        42540488161975842760550356425300246532) ∧
    DetectAddressParseSingle stdExtern (text2001_4 ++ '-' :: text2001) = none :=
  ⟨⟨⟨by decide, by decide, by decide⟩, by decide, ⟨by decide, by decide, by decide⟩,
      by decide, by decide, by decide⟩,
    ((DetectAddressParseSingle_range stdExtern text1234 text1236 16909060 16909062
      ⟨by decide, by decide, by decide⟩ (by decide)).1
      ⟨by decide, by decide, by decide, by decide, by decide, by decide⟩).2 (by decide),
    ((DetectAddressParseSingle_range stdExtern text1236 text1234 16909062 16909060
      ⟨by decide, by decide, by decide⟩ (by decide)).1
      ⟨by decide, by decide, by decide, by decide, by decide, by decide⟩).1 (by decide),
    ((DetectAddressParseSingle_range stdExtern text1234 text1234 16909060 16909060
      ⟨by decide, by decide, by decide⟩ (by decide)).1
      ⟨by decide, by decide, by decide, by decide, by decide, by decide⟩).2 (by decide),
    ((DetectAddressParseSingle_range stdExtern text2001 text2001_4
      42540488161975842760550356425300246529 42540488161975842760550356425300246532
      ⟨by decide, by decide, by decide⟩ (by decide)).2
      ⟨by decide, by decide, by decide, by decide, by decide⟩).2 (by decide),
    ((DetectAddressParseSingle_range stdExtern text2001_4 text2001
      42540488161975842760550356425300246532 42540488161975842760550356425300246529
      ⟨by decide, by decide, by decide⟩ (by decide)).2
      ⟨by decide, by decide, by decide, by decide, by decide⟩).1 (by decide)⟩

/-- C17. For every IPv4 address text `a` and every integer prefix length `n`
with `n < 0` or `n > 32` (a text `m` without `.` that `atoi` reads as `n`),
`DetectAddressParseSingle` of `A/n` fails. -/
theorem DetectAddressParseSingle_cidr_invalid (E : Extern) (a m : List Char) (n : Int)
    (ha : addrText a) (hac : ':' ∉ a) (hm : '.' ∉ m ∧ ':' ∉ m ∧ E.atoi m = n)
    (hn : n < 0 ∨ n > 32) :
    DetectAddressParseSingle E (a ++ '/' :: m) = none := by
  obtain ⟨e1, e2⟩ := ParseSingle_slash4 E a m ha hac hm.2.1
  rw [e1]
  simp only [parseIPv4, e2, hm.1, not_false_eq_true, if_true, hm.2.2, if_pos hn]

theorem DetectAddressParseSingle_cidr_invalid_witness :
    (addrText text1234 ∧ stdExtern.atoi text33 = 33 ∧ stdExtern.atoi textMinus1 = -1) ∧
    DetectAddressParseSingle stdExtern (text1234 ++ '/' :: text33) = none ∧
    DetectAddressParseSingle stdExtern (text1234 ++ '/' :: textMinus1) = none :=
  ⟨⟨⟨by decide, by decide, by decide⟩, by decide, by decide⟩,
    DetectAddressParseSingle_cidr_invalid stdExtern text1234 text33 33
      ⟨by decide, by decide, by decide⟩ (by decide) ⟨by decide, by decide, by decide⟩
      (Or.inr (by decide)),
    DetectAddressParseSingle_cidr_invalid stdExtern text1234 textMinus1 (-1)
      ⟨by decide, by decide, by decide⟩ (by decide) ⟨by decide, by decide, by decide⟩
      (Or.inl (by decide))⟩

theorem IPv6CIDR_negative (n : Int) (hn : n < 0) : DetectAddressParseIPv6CIDR n = 0 := by
  have h0 : n.toNat = 0 := Int.toNat_eq_zero.2 (by omega)
  simp only [DetectAddressParseIPv6CIDR, h0, ipv6CidrFull, ipv6CidrPart]
  decide

/-- C18, what the code does. The IPv6 branch hands the prefix length to
`DetectAddressParseIPv6CIDR` without a range check: for every IPv6 address text
that `inet_pton` accepts and every integer prefix length `n`, also one with
`n < 0` or `n > 128`, `DetectAddressParseSingle` of `A/n` succeeds; for a
negative `n` the record holds the whole IPv6 space. -/
theorem DetectAddressParseSingle_cidr6_unchecked (E : Extern) (a m : List Char) (A : Nat)
    (n : Int) (ha : addrText a) (hac : ':' ∈ a) (hA : E.inet_pton6 a = some A)
    (hm : E.atoi m = n) :
    (∃ ad, DetectAddressParseSingle E (a ++ '/' :: m) = some ad ∧ ad.family = AF_INET6) ∧
    (n < 0 → DetectAddressParseSingle E (a ++ '/' :: m) = some (rangeV6 0 (2 ^ 128 - 1))) := by
  obtain ⟨e1, e2⟩ := ParseSingle_slash6 E a m ha hac
  rw [e1]
  simp only [parseIPv6, e2, hA, hm]
  refine ⟨⟨_, rfl, rfl⟩, fun h0 => ?_⟩
  rw [IPv6CIDR_negative n h0]
  simp [rangeV6]

set_option maxRecDepth 100000 in
theorem DetectAddressParseSingle_cidr6_unchecked_witness :
    (addrText text2001 ∧ ':' ∈ text2001 ∧ stdExtern.atoi textMinus1 = -1 ∧
      stdExtern.atoi ['1', '2', '9'] = 129) ∧
    DetectAddressParseSingle stdExtern (text2001 ++ '/' :: textMinus1) =
      some (rangeV6 0 (2 ^ 128 - 1)) ∧
    DetectAddressParseSingle stdExtern (text2001 ++ '/' :: ['1', '2', '9']) =
      some (rangeV6 42540488161975842760550356425300246529
        42540488161975842760550356425300246529) ∧
    ∃ ad, DetectAddressParseSingle stdExtern (text2001 ++ '/' :: ['1', '2', '9']) = some ad ∧
      ad.family = AF_INET6 :=
  ⟨⟨⟨by decide, by decide, by decide⟩, by decide, by decide, by decide⟩,
    (DetectAddressParseSingle_cidr6_unchecked stdExtern text2001 textMinus1
      42540488161975842760550356425300246529 (-1) ⟨by decide, by decide, by decide⟩
      (by decide) (by decide) (by decide)).2 (by decide),
    by decide,
    (DetectAddressParseSingle_cidr6_unchecked stdExtern text2001 ['1', '2', '9']
      42540488161975842760550356425300246529 129 ⟨by decide, by decide, by decide⟩
      (by decide) (by decide) (by decide)).1⟩

/-- C19, as the code has it. For every IPv4 address `A` and every dotted-quad
mask text: `DetectAddressParseSingle` of `A/M` succeeds whenever `inet_pton`
accepts the mask, contiguous or not, with `ip = A & M` and `ip2 = ip | ~M`; it
fails when `inet_pton` rejects the mask text. -/
theorem DetectAddressParseSingle_dotted_mask (E : Extern) (a mm : List Char) (A : Nat)
    (ha : addrText a) (hac : ':' ∉ a) (hA : E.inet_pton4 a = some A) (hlt : A < 2 ^ 32)
    (hm : '.' ∈ mm ∧ ':' ∉ mm) :
    (∀ M, E.inet_pton4 mm = some M → M < 2 ^ 32 →
      DetectAddressParseSingle E (a ++ '/' :: mm) =
        some (rangeV4 (A &&& M) ((A &&& M) ||| (M ^^^ (2 ^ 32 - 1))))) ∧
    (E.inet_pton4 mm = none → DetectAddressParseSingle E (a ++ '/' :: mm) = none) := by
  constructor
  · intro M hM hMlt
    exact parse_mask4 E a mm A M ha hac hA hlt hm hM hMlt
  · intro hM
    obtain ⟨e1, e2⟩ := ParseSingle_slash4 E a mm ha hac hm.2
    rw [e1]
    simp only [parseIPv4, e2, hm.1, not_true_eq_false, if_false, hM, Option.map_none']

theorem DetectAddressParseSingle_dotted_mask_witness :
    (addrText text1234 ∧ stdExtern.inet_pton4 text1234 = some 16909060 ∧
      stdExtern.inet_pton4 textMaskGap = some 4278255360 ∧
      stdExtern.inet_pton4 ['2', '5', '5', '.', '2', '5', '5', '.', '2', '5', '7', '.', '0'] =
        none) ∧
    DetectAddressParseSingle stdExtern (text1234 ++ '/' :: textMaskGap) =
      some (rangeV4 (16909060 &&& 4278255360)
        ((16909060 &&& 4278255360) ||| (4278255360 ^^^ (2 ^ 32 - 1)))) ∧
    DetectAddressParseSingle stdExtern
      (text1234 ++ '/' :: ['2', '5', '5', '.', '2', '5', '5', '.', '2', '5', '7', '.', '0']) =
      none :=
  ⟨⟨⟨by decide, by decide, by decide⟩, by decide, by decide, by decide⟩,
    (DetectAddressParseSingle_dotted_mask stdExtern text1234 textMaskGap 16909060
      ⟨by decide, by decide, by decide⟩ (by decide) (by decide) (by decide)
      ⟨by decide, by decide⟩).1 4278255360 (by decide) (by decide),
    (DetectAddressParseSingle_dotted_mask stdExtern text1234
      ['2', '5', '5', '.', '2', '5', '5', '.', '2', '5', '7', '.', '0'] 16909060
      ⟨by decide, by decide, by decide⟩ (by decide) (by decide) (by decide)
      ⟨by decide, by decide⟩).2 (by decide)⟩

/-- The statement of C19 fails on the code: `inet_pton` reads the mask text
`255.0.255.0` as a value that is not contiguous, and `DetectAddressParseSingle`
of `1.2.3.4/255.0.255.0` succeeds, with the range 1.0.3.0-1.255.3.255. -/
theorem DetectAddressParseSingle_dotted_mask_counterexample :
    stdExtern.inet_pton4 textMaskGap = some 4278255360 ∧ ¬ contiguousMask 4278255360 ∧
    DetectAddressParseSingle stdExtern (text1234 ++ '/' :: textMaskGap) =
      some (rangeV4 16777984 33489919) :=
  ⟨by decide, by decide, by decide⟩

/-- C20. For every text that spells `any` in any mix of upper and lower case
letters, `DetectAddressParseSingle` succeeds and returns a record with the ANY
flag set and the NOT flag clear. -/
theorem DetectAddressParseSingle_any (E : Extern) (c1 c2 c3 : Char)
    (h1 : c1 = 'a' ∨ c1 = 'A') (h2 : c2 = 'n' ∨ c2 = 'N') (h3 : c3 = 'y' ∨ c3 = 'Y') :
    ∃ ad, DetectAddressParseSingle E [c1, c2, c3] = some ad ∧
      ad.flag_any = true ∧ ad.flag_not = false := by
  have hany : isAny [c1, c2, c3] = true := by
    rcases h1 with h | h <;> rcases h2 with h' | h' <;> rcases h3 with h'' | h'' <;>
      subst h h' h'' <;> decide
  refine ⟨{ DetectAddressInit with flag_any := true }, ?_, rfl, rfl⟩
  simp only [DetectAddressParseSingle, DetectAddressParseString, hany, if_true]

theorem DetectAddressParseSingle_any_witness :
    (∃ ad, DetectAddressParseSingle stdExtern ['A', 'n', 'Y'] = some ad ∧
      ad.flag_any = true ∧ ad.flag_not = false) ∧
    DetectAddressParseSingle stdExtern ['a', 'n', 'y'] = some anyRecord ∧
    DetectAddressParseSingle stdExtern ['A', 'n', 'y'] = some anyRecord ∧
    DetectAddressParseSingle stdExtern ['A', 'N', 'Y'] = some anyRecord :=
  ⟨DetectAddressParseSingle_any stdExtern 'A' 'n' 'Y' (Or.inr rfl) (Or.inl rfl) (Or.inr rfl),
    by decide, by decide, by decide⟩

/-- The merge with an empty negated head only checks that an address is left. -/
theorem MergeNot_empty_neg (E : Extern) (n : Nat) (gh : DetectAddressHead) :
    DetectAddressMergeNot E n gh DetectAddressHeadInit =
      Run.done (if gh.ipv4_head = [] ∧ gh.ipv6_head = [] then -1 else 0, gh) := by
  have hc : DetectAddressIsCompleteIPSpace ⟨[], [], []⟩ = false := by decide
  obtain ⟨a, b, c⟩ := gh
  by_cases h : b = [] ∧ c = []
  · obtain ⟨h1, h2⟩ := h
    subst h1 h2
    simp [DetectAddressMergeNot, hc, mergeNotSeed, DetectAddressHeadInit, mergeNotInsert,
      mergeNotPull]
  · simp [DetectAddressMergeNot, hc, mergeNotSeed, DetectAddressHeadInit, mergeNotInsert,
      mergeNotPull, h]

theorem ParseSingle_any_text (E : Extern) (s : List Char) (h : isAny s = true) :
    DetectAddressParseSingle E s = some anyRecord := by
  simp [DetectAddressParseSingle, DetectAddressParseString, h, anyRecord]

/-- Setting up `any` in the empty head: the wildcard record and both full
ranges. -/
theorem Setup_any_init (E : Extern) (hE : SaneExtern E) (n : Nat) (hn : 1 ≤ n)
    (s : List Char) (h : isAny s = true) :
    DetectAddressSetup E n ⟨[], [], []⟩ s = Run.done (0, ⟨[anyRecord], [fullV4], [fullV6]⟩) := by
  obtain ⟨m, rfl⟩ : ∃ m, n = m + 1 := ⟨n - 1, by omega⟩
  simp [DetectAddressSetup, ParseSingle_any_text E s h, anyRecord, DetectAddressInit,
    setupInsert, DetectAddressInsert, GetHeadPtr, SetHeadPtr, setupAny,
    ParseSingle_zero4_sane E hE, ParseSingle_zero6_sane E hE, fullV4, fullV6, AF_INET, AF_INET6]

theorem IsComplete_full (a b : List DetectAddress) :
    DetectAddressIsCompleteIPSpace ⟨a, [fullV4], b⟩ = true := by
  simp [DetectAddressIsCompleteIPSpace, DetectAddressIsCompleteIPSpaceIPv4, coversFrom, fullV4,
    DetectAddressInit, addrMax, AF_INET, AF_INET6]

/-- The text `any`. -/
theorem plainText_any : plainText ['a', 'n', 'y'] := by
  refine ⟨by simp, ?_⟩
  decide

/-- A walk that returns `0` and leaves the negated head empty: the merge only
checks that an address is left. -/
theorem Parse_of_walk (E : Extern) (n : Nat) (gh g : DetectAddressHead) (str : List Char)
    (h : DetectAddressParse2 E n gh DetectAddressHeadInit str false =
      Run.done (0, g, DetectAddressHeadInit)) :
    DetectAddressParse E n gh str =
      Run.done (if g.ipv4_head = [] ∧ g.ipv6_head = [] then -1 else 0, g) := by
  simp only [DetectAddressParse, h]
  rw [if_neg (by decide), MergeNot_empty_neg]
  by_cases hc : g.ipv4_head = [] ∧ g.ipv6_head = []
  · simp [hc]
  · simp [hc]

/-- Every returned call of `DetectAddressParse2` keeps the invariant of both
heads and lets them grow. -/
theorem Parse2_HeadInv (E : Extern) (n : Nat) (gh ghn gh1 ghn1 : DetectAddressHead)
    (s : List Char) (neg : Bool) (r : Int) (hi : HeadInv gh) (hin : HeadInv ghn)
    (h : DetectAddressParse2 E n gh ghn s neg = Run.done (r, gh1, ghn1)) :
    HeadInv gh1 ∧ HeadInv ghn1 ∧ Grows gh gh1 ∧ Grows ghn ghn1 :=
  Parse2_preserve E HeadInv Grows Grows_refl (fun _ _ _ a b => Grows_trans a b)
    (fun n gh s r gh1 hi hs => ⟨(Setup_step E n gh gh1 s r hi hs).1,
      (Setup_step E n gh gh1 s r hi hs).2.1⟩)
    n gh ghn s neg r gh1 ghn1 hi hin h

/-- How `DetectAddressParse` ends: with the error of the walk and the heads as
the walk left them, or with the result of the merge. -/
theorem Parse_cases (E : Extern) (n : Nat) (gh : DetectAddressHead) (str : List Char)
    (r : Int) (g : DetectAddressHead)
    (h : DetectAddressParse E n gh str = Run.done (r, g)) :
    ∃ r1 g1 gn1, DetectAddressParse2 E n gh DetectAddressHeadInit str false =
        Run.done (r1, g1, gn1) ∧
      ((r1 < 0 ∧ r = -1 ∧ g = g1) ∨
       (¬ r1 < 0 ∧ ∃ r2, DetectAddressMergeNot E n g1 gn1 = Run.done (r2, g) ∧
          ((r2 < 0 ∧ r = -1) ∨ (¬ r2 < 0 ∧ r = 0)))) := by
  simp only [DetectAddressParse] at h
  cases hp : DetectAddressParse2 E n gh DetectAddressHeadInit str false with
  | bug => rw [hp] at h; cases h
  | fuel => rw [hp] at h; cases h
  | done v =>
    obtain ⟨r1, g1, gn1⟩ := v
    rw [hp] at h
    simp only at h
    refine ⟨r1, g1, gn1, rfl, ?_⟩
    by_cases hr : r1 < 0
    · rw [if_pos hr] at h
      simp only [Run.done.injEq, Prod.mk.injEq] at h
      exact Or.inl ⟨hr, h.1.symm, h.2.symm⟩
    · rw [if_neg hr] at h
      cases hm : DetectAddressMergeNot E n g1 gn1 with
      | bug => rw [hm] at h; cases h
      | fuel => rw [hm] at h; cases h
      | done w =>
        obtain ⟨r2, g2⟩ := w
        rw [hm] at h
        simp only at h
        by_cases hr2 : r2 < 0
        · rw [if_pos hr2] at h
          simp only [Run.done.injEq, Prod.mk.injEq] at h
          obtain ⟨e1, e2⟩ := h
          subst e1 e2
          exact Or.inr ⟨hr, r2, rfl, Or.inl ⟨hr2, rfl⟩⟩
        · rw [if_neg hr2] at h
          simp only [Run.done.injEq, Prod.mk.injEq] at h
          obtain ⟨e1, e2⟩ := h
          subst e1 e2
          exact Or.inr ⟨hr, r2, rfl, Or.inr ⟨hr2, rfl⟩⟩

/-- The head that a returned call of `DetectAddressParse` leaves satisfies the
invariant when the head it was given did. -/
theorem Parse_HeadInv (E : Extern) (n : Nat) (gh : DetectAddressHead) (str : List Char)
    (r : Int) (g : DetectAddressHead) (hi : HeadInv gh)
    (h : DetectAddressParse E n gh str = Run.done (r, g)) : HeadInv g := by
  obtain ⟨r1, g1, gn1, hp, hc⟩ := Parse_cases E n gh str r g h
  obtain ⟨hg1, hgn1, _, _⟩ := Parse2_HeadInv E n gh _ g1 gn1 str false r1 hi HeadInv_init hp
  rcases hc with ⟨_, _, e⟩ | ⟨_, r2, hm, _⟩
  · rw [e]; exact hg1
  · exact (MergeNot_spec E n g1 gn1 g r2 hg1 hgn1 hm).1

/-- The last check of `DetectAddressMergeNot`: a return value of `0` comes with
a list that is not empty. -/
theorem MergeNot_nonempty (E : Extern) (n : Nat) (gh ghn g : DetectAddressHead) (r : Int)
    (h : DetectAddressMergeNot E n gh ghn = Run.done (r, g)) :
    r = -1 ∨ (r = 0 ∧ (g.ipv4_head ≠ [] ∨ g.ipv6_head ≠ [])) := by
  simp only [DetectAddressMergeNot] at h
  split at h
  · simp only [Run.done.injEq, Prod.mk.injEq] at h; exact Or.inl h.1.symm
  · split at h
    · split at h
      · simp only [Run.done.injEq, Prod.mk.injEq] at h; exact Or.inl h.1.symm
      · split at h
        · split at h
          · simp only [Run.done.injEq, Prod.mk.injEq] at h; exact Or.inl h.1.symm
          · split at h
            · split at h
              · simp only [Run.done.injEq, Prod.mk.injEq] at h; exact Or.inl h.1.symm
              · split at h
                · split at h
                  · simp only [Run.done.injEq, Prod.mk.injEq] at h; exact Or.inl h.1.symm
                  · split at h
                    · simp only [Run.done.injEq, Prod.mk.injEq] at h; exact Or.inl h.1.symm
                    · rename_i hne
                      simp only [Run.done.injEq, Prod.mk.injEq] at h
                      obtain ⟨e1, e2⟩ := h
                      subst e1 e2
                      refine Or.inr ⟨rfl, ?_⟩
                      by_contra hcon
                      simp only [not_or, not_not] at hcon
                      exact hne hcon
                · cases h
                · cases h
            · cases h
            · cases h
        · cases h
        · cases h
    · cases h
    · cases h

theorem nonempty_covers (f : Nat) (l : List DetectAddress) (hl : FamilyList f l) (hne : l ≠ []) :
    ∃ A, covered l A := by
  cases l with
  | nil => exact absurd rfl hne
  | cons d ds =>
    have hd := hl d (List.mem_cons_self _ _)
    exact ⟨d.ip, d, List.mem_cons_self _ _, le_refl _, hd.2.1⟩

/-- C21. The negated wildcard is rejected: `DetectAddressParseSingle` of `!any`
returns no record (the text `any` after the `!` is handed to `inet_pton`, which
rejects it), and `DetectAddressParse` of `!any` returns an error for every head
and leaves the head as it was (the wildcard fills the negated head, which then
covers the whole IPv4 space). -/
theorem DetectAddressParse_not_any (E : Extern) (n : Nat) (gh : DetectAddressHead)
    (hE : SaneExtern E) (hany : E.inet_pton4 ['a', 'n', 'y'] = none) (hn : 2 ≤ n) :
    DetectAddressParseSingle E ['!', 'a', 'n', 'y'] = none ∧
    DetectAddressParse E n gh ['!', 'a', 'n', 'y'] = Run.done (-1, gh) := by
  constructor
  · simp [DetectAddressParseSingle, DetectAddressParseString, isAny, parseIPv4, splitAt1, hany]
  · obtain ⟨m, rfl⟩ : ∃ m, n = m + 1 := ⟨n - 1, by omega⟩
    have hparse : DetectAddressParse2 E (m + 1) gh DetectAddressHeadInit
        ['!', 'a', 'n', 'y'] false = Run.done (0, gh, ⟨[anyRecord], [fullV4], [fullV6]⟩) := by
      have hr : ['!', 'a', 'n', 'y'] = render (Expr.neg (Expr.atom ['a', 'n', 'y'])) := rfl
      rw [hr, Parse2_render E m false _ (by simpa [WfExpr] using plainText_any)]
      simp [fitsBuffer, evalItem, parseLeaf, DetectAddressHeadInit,
        Setup_any_init E hE m (by omega) ['a', 'n', 'y'] (by decide), Run.andThen]
    simp [DetectAddressParse, hparse, DetectAddressMergeNot, IsComplete_full]

theorem DetectAddressParse_not_any_witness :
    (SaneExtern stdExtern ∧ stdExtern.inet_pton4 ['a', 'n', 'y'] = none) ∧
    DetectAddressParseSingle stdExtern ['!', 'a', 'n', 'y'] = none ∧
    DetectAddressParse stdExtern 2 ⟨[], [hostV4 16909060], []⟩ ['!', 'a', 'n', 'y'] =
      Run.done (-1, ⟨[], [hostV4 16909060], []⟩) :=
  ⟨⟨⟨by decide, by decide, by decide⟩, by decide⟩,
    DetectAddressParse_not_any stdExtern 2 ⟨[], [hostV4 16909060], []⟩
      ⟨by decide, by decide, by decide⟩ (by decide) (by decide)⟩

/-- C22. `DetectAddressParse` of `any` on an empty head succeeds and expands the
wildcard into both families: the wildcard list holds one ANY record, the IPv4
list is the single range 0.0.0.0-255.255.255.255 and the IPv6 list is the single
range from `::` to `ffff:ffff:ffff:ffff:ffff:ffff:ffff:ffff`. -/
theorem DetectAddressParse_any (E : Extern) (n : Nat) (hE : SaneExtern E) (hn : 2 ≤ n) :
    DetectAddressParse E n DetectAddressHeadInit ['a', 'n', 'y'] =
      Run.done (0, ⟨[anyRecord], [fullV4], [fullV6]⟩) ∧
    anyRecord.flag_any = true ∧
    rangesOf [fullV4] = [(0, 2 ^ 32 - 1)] ∧ rangesOf [fullV6] = [(0, 2 ^ 128 - 1)] := by
  refine ⟨?_, rfl, rfl, rfl⟩
  obtain ⟨m, rfl⟩ : ∃ m, n = m + 1 := ⟨n - 1, by omega⟩
  have hparse : DetectAddressParse2 E (m + 1) DetectAddressHeadInit DetectAddressHeadInit
      ['a', 'n', 'y'] false =
      Run.done (0, ⟨[anyRecord], [fullV4], [fullV6]⟩, DetectAddressHeadInit) := by
    have hr : ['a', 'n', 'y'] = render (Expr.atom ['a', 'n', 'y']) := rfl
    rw [hr, Parse2_render E m false _ (by simpa [WfExpr] using plainText_any)]
    simp [fitsBuffer, evalItem, parseLeaf, DetectAddressHeadInit,
      Setup_any_init E hE m (by omega) ['a', 'n', 'y'] (by decide), Run.andThen]
  have hm := MergeNot_empty_neg E (m + 1) ⟨[anyRecord], [fullV4], [fullV6]⟩
  simp only [List.cons_ne_nil, false_and, if_false] at hm
  simp [DetectAddressParse, hparse, hm]

theorem DetectAddressParse_any_witness :
    SaneExtern stdExtern ∧
    (DetectAddressParse stdExtern 2 DetectAddressHeadInit ['a', 'n', 'y'] =
      Run.done (0, ⟨[anyRecord], [fullV4], [fullV6]⟩) ∧
    anyRecord.flag_any = true ∧
    rangesOf [fullV4] = [(0, 2 ^ 32 - 1)] ∧ rangesOf [fullV6] = [(0, 2 ^ 128 - 1)]) :=
  ⟨⟨by decide, by decide, by decide⟩,
    DetectAddressParse_any stdExtern 2 ⟨by decide, by decide, by decide⟩ (by decide)⟩

/-- C25. Whenever `DetectAddressParse` returns, for every head and every text:
it returns an error when the IPv4 list and the IPv6 list that it leaves (the
lists after the negated ranges are taken out) are both empty; hence after every
successful parse at least one of the two lists is not empty, and the head covers
an address. -/
theorem DetectAddressParse_not_empty (E : Extern) (n : Nat) (gh : DetectAddressHead)
    (str : List Char) (r : Int) (g : DetectAddressHead)
    (h : DetectAddressParse E n gh str = Run.done (r, g)) :
    (r = 0 ∨ r = -1) ∧
    (g.ipv4_head = [] ∧ g.ipv6_head = [] → r = -1) ∧
    (r = 0 → (g.ipv4_head ≠ [] ∨ g.ipv6_head ≠ []) ∧ (HeadInv gh → ∃ A, headCovers g A)) := by
  obtain ⟨r1, g1, gn1, _, hc⟩ := Parse_cases E n gh str r g h
  have key : r = -1 ∨ (r = 0 ∧ (g.ipv4_head ≠ [] ∨ g.ipv6_head ≠ [])) := by
    rcases hc with ⟨_, e, _⟩ | ⟨_, r2, hm, hc2⟩
    · exact Or.inl e
    · rcases hc2 with ⟨_, e⟩ | ⟨hr2, e⟩
      · exact Or.inl e
      · rcases MergeNot_nonempty E n g1 gn1 g r2 hm with h0 | ⟨_, hne⟩
        · omega
        · exact Or.inr ⟨e, hne⟩
  refine ⟨?_, ?_, ?_⟩
  · rcases key with k | k
    · exact Or.inr k
    · exact Or.inl k.1
  · rintro ⟨e4, e6⟩
    rcases key with k | ⟨_, k | k⟩
    · exact k
    · exact absurd e4 k
    · exact absurd e6 k
  · intro hr
    rcases key with k | ⟨_, k⟩
    · omega
    · refine ⟨k, fun hi => ?_⟩
      have hg := (Parse_HeadInv E n gh str r g hi h).1
      rcases k with k | k
      · obtain ⟨A, hA⟩ := nonempty_covers AF_INET _ hg.1 k
        exact ⟨⟨AF_INET, A⟩, Or.inl ⟨rfl, hA⟩⟩
      · obtain ⟨A, hA⟩ := nonempty_covers AF_INET6 _ hg.2.2.1 k
        exact ⟨⟨AF_INET6, A⟩, Or.inr ⟨rfl, hA⟩⟩

set_option maxRecDepth 100000 in
theorem DetectAddressParse_not_empty_witness :
    DetectAddressParse stdExtern 4 DetectAddressHeadInit textSelfNot =
      Run.done (-1, ⟨[], [], []⟩) ∧
    DetectAddressParse stdExtern 4 DetectAddressHeadInit text1234 =
      Run.done (0, ⟨[], [hostV4 16909060], []⟩) ∧
    ((((-1 : Int) = 0 ∨ (-1 : Int) = -1) ∧
      ((⟨[], [], []⟩ : DetectAddressHead).ipv4_head = [] ∧
        (⟨[], [], []⟩ : DetectAddressHead).ipv6_head = [] → (-1 : Int) = -1) ∧
      ((-1 : Int) = 0 → ((⟨[], [], []⟩ : DetectAddressHead).ipv4_head ≠ [] ∨
        (⟨[], [], []⟩ : DetectAddressHead).ipv6_head ≠ []) ∧
        (HeadInv DetectAddressHeadInit → ∃ A, headCovers ⟨[], [], []⟩ A))) ∧
    (((0 : Int) = 0 ∨ (0 : Int) = -1) ∧
      ((⟨[], [hostV4 16909060], []⟩ : DetectAddressHead).ipv4_head = [] ∧
        (⟨[], [hostV4 16909060], []⟩ : DetectAddressHead).ipv6_head = [] → (0 : Int) = -1) ∧
      ((0 : Int) = 0 → ((⟨[], [hostV4 16909060], []⟩ : DetectAddressHead).ipv4_head ≠ [] ∨
        (⟨[], [hostV4 16909060], []⟩ : DetectAddressHead).ipv6_head ≠ []) ∧
        (HeadInv DetectAddressHeadInit → ∃ A, headCovers ⟨[], [hostV4 16909060], []⟩ A)))) :=
  ⟨rfl, rfl,
    DetectAddressParse_not_empty stdExtern 4 DetectAddressHeadInit textSelfNot (-1)
      ⟨[], [], []⟩ rfl,
    DetectAddressParse_not_empty stdExtern 4 DetectAddressHeadInit text1234 0
      ⟨[], [hostV4 16909060], []⟩ rfl⟩

set_option maxRecDepth 100000 in
/-- C24, what the code does. `DetectAddressIsCompleteIPSpace` only looks at the
IPv4 list of the negated head: for `[1.2.3.4,!::/0]`, whose negated atom `::/0`
covers the entire IPv6 space (the negated head holds the range from `::` to
`ffff:ffff:ffff:ffff:ffff:ffff:ffff:ffff`), `DetectAddressParse` returns `0`
and leaves the range 1.2.3.4 and an empty IPv6 list; for `[::1,!0.0.0.0/0]`,
whose negated atom covers the entire IPv4 space, it returns an error. -/
theorem DetectAddressParse_full_negation6 :
    DetectAddressParseSingle stdExtern [':', ':', '/', '0'] = some fullV6 ∧
    DetectAddressParse2 stdExtern 4 DetectAddressHeadInit DetectAddressHeadInit textNotAll6
      false = Run.done (0, ⟨[], [hostV4 16909060], []⟩, ⟨[], [], [fullV6]⟩) ∧
    DetectAddressIsCompleteIPSpace ⟨[], [], [fullV6]⟩ = false ∧
    DetectAddressParse stdExtern 4 DetectAddressHeadInit textNotAll6 =
      Run.done (0, ⟨[], [hostV4 16909060], []⟩) ∧
    DetectAddressParse stdExtern 4 DetectAddressHeadInit textNotAll4 =
      Run.done (-1, ⟨[], [], [rangeV6 1 1]⟩) :=
  ⟨rfl, rfl, rfl, rfl, rfl⟩

/-- C28, what the code does. The return value of the nested parse that
`DetectAddressParse2` starts for the text of a variable is not looked at: for
every variable `$v` with a table entry `t`, whatever the nested call on `t`
(in brackets under a negation) returns, also an error, the enclosing call on
`$v` returns `0`, with the heads as the nested call left them. -/
theorem DetectAddressParse2_var_error_dropped (E : Extern) (n : Nat) (v t : List Char)
    (gh ghn g gn : DetectAddressHead) (neg : Bool) (r : Int)
    (hv : plainText v) (hl : v.length + 1 ≤ 1024)
    (ht : E.SCRuleVarsGetConfVar ('$' :: v) = some t)
    (hnested : DetectAddressParse2 E n gh ghn (if neg then '[' :: (t ++ [']']) else t) neg =
      Run.done (r, g, gn)) :
    DetectAddressParse2 E (n + 1) gh ghn ('$' :: v) neg = Run.done (0, g, gn) := by
  have hrd : '$' :: v = render (Expr.var v) := rfl
  rw [hrd, Parse2_render E n neg _ (by simpa [WfExpr] using hv)]
  cases neg with
  | false =>
    simp only [Bool.false_eq_true, if_false] at hnested
    simp [fitsBuffer, hl, evalItem, parseVar, ht, hnested, Run.andThen]
  | true =>
    simp only [if_true] at hnested
    simp [fitsBuffer, hl, evalItem, parseVar, ht, hnested, Run.andThen]

set_option maxRecDepth 100000 in
theorem DetectAddressParse2_var_error_dropped_witness :
    (plainText ['B'] ∧ badVarExtern.SCRuleVarsGetConfVar ['$', 'B'] =
      some ['1', '.', '2', '.', '3', '.', '6', '-', '1', '.', '2', '.', '3', '.', '4']) ∧
    DetectAddressParse2 badVarExtern 3 DetectAddressHeadInit DetectAddressHeadInit
      ['1', '.', '2', '.', '3', '.', '6', '-', '1', '.', '2', '.', '3', '.', '4'] false =
      Run.done (-1, DetectAddressHeadInit, DetectAddressHeadInit) ∧
    DetectAddressParse2 badVarExtern (3 + 1) DetectAddressHeadInit DetectAddressHeadInit
      ['$', 'B'] false = Run.done (0, DetectAddressHeadInit, DetectAddressHeadInit) ∧
    DetectAddressParse badVarExtern 5 DetectAddressHeadInit textListVarB =
      Run.done (0, ⟨[], [hostV4 16909060], []⟩) :=
  ⟨⟨⟨by decide, by decide⟩, rfl⟩, rfl,
    DetectAddressParse2_var_error_dropped badVarExtern 3 ['B']
      ['1', '.', '2', '.', '3', '.', '6', '-', '1', '.', '2', '.', '3', '.', '4']
      DetectAddressHeadInit DetectAddressHeadInit DetectAddressHeadInit DetectAddressHeadInit
      false (-1) ⟨by decide, by decide⟩ (by decide) rfl rfl,
    rfl⟩

/-- The walk over a bracket that is not closed: nothing is set up and `0` is
returned. -/
theorem Parse2_unclosed (E : Extern) (n : Nat) (es : ExprList) (h : WfList es)
    (gh ghn : DetectAddressHead) (neg : Bool) :
    DetectAddressParse2 E (n + 1) gh ghn ('[' :: renderList es) neg =
      Run.done (0, gh, ghn) := by
  rw [DetectAddressParse2, step_open E n _ neg [] false false 0 gh ghn _ (by simp)]
  have hs := Scans_renderList E n (DetectAddressParse2 E n) neg es h [] false false (0 + 1)
    gh ghn [] (by omega) (by simp)
  rw [List.append_nil] at hs
  rw [hs]
  split
  · rfl
  · rfl

/-- A `]` that closes nothing after a bracketed list is passed over. -/
theorem Parse2_surplus_close (E : Extern) (n : Nat) (es : ExprList) (h : WfList es)
    (gh ghn : DetectAddressHead) (neg : Bool) :
    DetectAddressParse2 E (n + 1) gh ghn ('[' :: (renderList es ++ [']', ']'])) neg =
      DetectAddressParse2 E (n + 1) gh ghn ('[' :: (renderList es ++ [']'])) neg := by
  rw [DetectAddressParse2, DetectAddressParse2,
    step_open E n _ neg [] false false 0 gh ghn _ (by simp),
    step_open E n _ neg [] false false 0 gh ghn _ (by simp),
    Scans_renderList E n (DetectAddressParse2 E n) neg es h [] false false (0 + 1)
      gh ghn _ (by omega) (by simp),
    Scans_renderList E n (DetectAddressParse2 E n) neg es h [] false false (0 + 1)
      gh ghn _ (by omega) (by simp)]
  simp only [List.length_nil, Nat.zero_add, List.nil_append]
  have hz : (0 : Int) + 1 = 1 := by omega
  rw [hz]
  by_cases hl : (renderList es).length ≤ 1024
  · rw [if_pos hl, if_pos hl]
    by_cases hl2 : (renderList es).length < 1024
    · rw [step_close E n _ neg _ true false false gh ghn _ hl2,
        step_close E n _ neg _ true false false gh ghn _ hl2]
      have hk : (fun g gn => Parse2Loop E n (DetectAddressParse2 E n) neg
          ⟨[], true, false, false, 0, g, gn⟩ [']']) =
          (fun g gn => Parse2Loop E n (DetectAddressParse2 E n) neg
          ⟨[], true, false, false, 0, g, gn⟩ []) := by
        funext g gn
        rw [step_close_in E n _ neg [] true false false 0 g gn [] (by simp) (by decide)]
        rfl
      rw [hk]
    · rw [step_full E n _ neg _ _ _ (by simpa using hl2),
        step_full E n _ neg _ _ _ (by simpa using hl2)]
  · rw [if_neg hl, if_neg hl]

/-- C30, as the code has it. `DetectAddressParse` makes no check that the
brackets are balanced. For every list `L` and every head: the text `[L` with
the bracket left open is not read at all, `DetectAddressParse2` returns `0`
with both heads unchanged, and `DetectAddressParse` returns an error exactly
when the head it was given has no IPv4 and no IPv6 range; a `]` with no
matching `[` after `[L]` is passed over, `[L]]` is handled as `[L]`. -/
theorem DetectAddressParse_unbalanced (E : Extern) (n : Nat) (es : ExprList)
    (gh : DetectAddressHead) (h : WfList es) :
    (∀ ghn neg, DetectAddressParse2 E (n + 1) gh ghn ('[' :: renderList es) neg =
      Run.done (0, gh, ghn)) ∧
    DetectAddressParse E (n + 1) gh ('[' :: renderList es) =
      Run.done (if gh.ipv4_head = [] ∧ gh.ipv6_head = [] then -1 else 0, gh) ∧
    DetectAddressParse E (n + 1) gh ('[' :: (renderList es ++ [']', ']'])) =
      DetectAddressParse E (n + 1) gh ('[' :: (renderList es ++ [']'])) := by
  refine ⟨fun ghn neg => Parse2_unclosed E n es h gh ghn neg, ?_, ?_⟩
  · simp only [DetectAddressParse, Parse2_unclosed E n es h]
    rw [if_neg (by decide), MergeNot_empty_neg]
    by_cases hc : gh.ipv4_head = [] ∧ gh.ipv6_head = []
    · simp [hc]
    · simp [hc]
  · simp only [DetectAddressParse, Parse2_surplus_close E n es h]

set_option maxRecDepth 100000 in
theorem DetectAddressParse_unbalanced_witness :
    WfList (ExprList.single (Expr.atom text1234)) ∧
    DetectAddressParse stdExtern (2 + 1) ⟨[], [hostV4 1], []⟩ textUnclosed =
      Run.done (0, ⟨[], [hostV4 1], []⟩) ∧
    DetectAddressParse stdExtern (2 + 1) DetectAddressHeadInit textUnclosed =
      Run.done (-1, DetectAddressHeadInit) ∧
    DetectAddressParse stdExtern (2 + 1) DetectAddressHeadInit textSurplusClose =
      DetectAddressParse stdExtern (2 + 1) DetectAddressHeadInit
        ('[' :: (renderList (ExprList.single (Expr.atom text1234)) ++ [']'])) :=
  ⟨⟨by decide, by decide⟩,
    (DetectAddressParse_unbalanced stdExtern 2 (ExprList.single (Expr.atom text1234))
      ⟨[], [hostV4 1], []⟩ ⟨by decide, by decide⟩).2.1,
    (DetectAddressParse_unbalanced stdExtern 2 (ExprList.single (Expr.atom text1234))
      DetectAddressHeadInit ⟨by decide, by decide⟩).2.1,
    (DetectAddressParse_unbalanced stdExtern 2 (ExprList.single (Expr.atom text1234))
      DetectAddressHeadInit ⟨by decide, by decide⟩).2.2⟩

set_option maxRecDepth 100000 in
/-- The statement of C30 fails on the code: for `[1.2.3.4]]`, with a `]` that
has no matching `[`, `DetectAddressParse` on the empty head returns `0` and
leaves the range 1.2.3.4; for `[1.2.3.4`, with the bracket left open, it returns
`0` on a head that holds a range. -/
theorem DetectAddressParse_unbalanced_counterexample :
    DetectAddressParse stdExtern 3 DetectAddressHeadInit textSurplusClose =
      Run.done (0, ⟨[], [hostV4 16909060], []⟩) ∧
    DetectAddressParse stdExtern 3 ⟨[], [hostV4 1], []⟩ textUnclosed =
      Run.done (0, ⟨[], [hostV4 1], []⟩) :=
  ⟨rfl, rfl⟩

theorem setupAny_mono (E : Extern) (n m : Nat) (hnm : n ≤ m) (gh : DetectAddressHead)
    (v : Int × DetectAddressHead) (h : setupAny E n gh = Run.done v) :
    setupAny E m gh = Run.done v := by
  simp only [setupAny] at h ⊢
  cases h4 : DetectAddressParseSingle E textZero4 with
  | none => simpa [h4] using h
  | some ad =>
    simp only [h4] at h ⊢
    by_cases hf : ad.family = 0
    · simp [hf] at h
    · simp only [hf, if_false] at h ⊢
      cases hi : DetectAddressInsert n gh ad with
      | bug => simp [hi] at h
      | fuel => simp [hi] at h
      | done w =>
        obtain ⟨r, gh1⟩ := w
        rw [DetectAddressInsert_mono n m gh ad _ hnm hi]
        simp only [hi] at h ⊢
        by_cases hr : r < 0
        · simpa [hr] using h
        · simp only [hr, if_false] at h ⊢
          cases h6 : DetectAddressParseSingle E textZero6 with
          | none => simpa [h6] using h
          | some ad6 =>
            simp only [h6] at h ⊢
            by_cases hf6 : ad6.family = 0
            · simp [hf6] at h
            · simp only [hf6, if_false] at h ⊢
              cases hi6 : DetectAddressInsert n gh1 ad6 with
              | bug => simp [hi6] at h
              | fuel => simp [hi6] at h
              | done w6 =>
                rw [DetectAddressInsert_mono n m gh1 ad6 _ hnm hi6]
                simpa [hi6] using h

theorem setupInsert_mono (E : Extern) (n m : Nat) (hnm : n ≤ m) (gh : DetectAddressHead)
    (ad : DetectAddress) (v : Int × DetectAddressHead)
    (h : setupInsert E n gh ad = Run.done v) : setupInsert E m gh ad = Run.done v := by
  simp only [setupInsert] at h ⊢
  cases hi : DetectAddressInsert n gh ad with
  | bug => simp [hi] at h
  | fuel => simp [hi] at h
  | done w =>
    obtain ⟨r, gh1⟩ := w
    rw [DetectAddressInsert_mono n m gh ad _ hnm hi]
    simp only [hi] at h ⊢
    by_cases hr : r < 0
    · simpa [hr] using h
    · simp only [hr, if_false] at h ⊢
      by_cases hc : r = 1 ∧ ad.flag_any = true
      · rw [if_pos hc] at h ⊢
        exact setupAny_mono E n m hnm gh1 v h
      · rw [if_neg hc] at h ⊢
        exact h

/-- More recursion budget does not change what `DetectAddressSetup` returns. -/
theorem Setup_mono (E : Extern) (n m : Nat) (hnm : n ≤ m) (gh : DetectAddressHead)
    (s : List Char) (v : Int × DetectAddressHead)
    (h : DetectAddressSetup E n gh s = Run.done v) : DetectAddressSetup E m gh s = Run.done v := by
  simp only [DetectAddressSetup] at h ⊢
  cases hp : DetectAddressParseSingle E s with
  | none => simpa [hp] using h
  | some ad =>
    simp only [hp] at h ⊢
    by_cases hnot : ad.flag_not = true
    · simp only [hnot, if_true] at h ⊢
      cases hc : DetectAddressCutNot ad with
      | none => simpa [hc] using h
      | some p =>
        obtain ⟨ad1, o⟩ := p
        cases o with
        | none =>
          simp only [hc] at h ⊢
          exact setupInsert_mono E n m hnm gh ad1 v h
        | some ad2 =>
          simp only [hc] at h ⊢
          cases hi : DetectAddressInsert n gh ad2 with
          | bug => simp [hi] at h
          | fuel => simp [hi] at h
          | done w =>
            obtain ⟨r, gh1⟩ := w
            rw [DetectAddressInsert_mono n m gh ad2 _ hnm hi]
            simp only [hi] at h ⊢
            by_cases hr : r < 0
            · simpa [hr] using h
            · simp only [hr, if_false] at h ⊢
              exact setupInsert_mono E n m hnm gh1 ad1 v h
    · simp only [hnot, if_false, Bool.false_eq_true] at h ⊢
      exact setupInsert_mono E n m hnm gh ad v h

theorem setupSide_mono (E : Extern) (n m : Nat) (hnm : n ≤ m) (b : Bool)
    (gh ghn : DetectAddressHead) (a : List Char) (v : Int × DetectAddressHead × DetectAddressHead)
    (h : setupSide E n b gh ghn a = Run.done v) : setupSide E m b gh ghn a = Run.done v := by
  cases b with
  | true =>
    simp only [setupSide, if_true] at h ⊢
    cases hs : DetectAddressSetup E n ghn a with
    | bug => simp [hs] at h
    | fuel => simp [hs] at h
    | done w =>
      rw [Setup_mono E n m hnm ghn a w hs]
      simpa [hs] using h
  | false =>
    simp only [setupSide, Bool.false_eq_true, if_false] at h ⊢
    cases hs : DetectAddressSetup E n gh a with
    | bug => simp [hs] at h
    | fuel => simp [hs] at h
    | done w =>
      rw [Setup_mono E n m hnm gh a w hs]
      simpa [hs] using h

theorem andThen_eq_done (res : Run (Int × DetectAddressHead × DetectAddressHead))
    (k : DetectAddressHead → DetectAddressHead →
      Run (Int × DetectAddressHead × DetectAddressHead))
    (v : Int × DetectAddressHead × DetectAddressHead) (h : res.andThen k = Run.done v) :
    ∃ r1 g1 gn1, res = Run.done (r1, g1, gn1) ∧
      ((r1 < 0 ∧ v = (-1, g1, gn1)) ∨ (¬ r1 < 0 ∧ k g1 gn1 = Run.done v)) := by
  cases res with
  | bug => simp [Run.andThen] at h
  | fuel => simp [Run.andThen] at h
  | done w =>
    obtain ⟨r1, g1, gn1⟩ := w
    refine ⟨r1, g1, gn1, rfl, ?_⟩
    simp only [Run.andThen] at h
    by_cases hr : r1 < 0
    · rw [if_pos hr] at h
      simp only [Run.done.injEq] at h
      exact Or.inl ⟨hr, h.symm⟩
    · rw [if_neg hr] at h
      exact Or.inr ⟨hr, h⟩

theorem andThen_assoc (res : Run (Int × DetectAddressHead × DetectAddressHead))
    (k1 k2 : DetectAddressHead → DetectAddressHead →
      Run (Int × DetectAddressHead × DetectAddressHead)) :
    (res.andThen k1).andThen k2 = res.andThen (fun g gn => (k1 g gn).andThen k2) := by
  cases res with
  | bug => rfl
  | fuel => rfl
  | done w =>
    obtain ⟨r1, g1, gn1⟩ := w
    simp only [Run.andThen]
    by_cases hr : r1 < 0
    · simp [hr, Run.andThen]
    · simp [hr]

theorem setupLeaves_mono (E : Extern) (n m : Nat) (hnm : n ≤ m) :
    ∀ (ls : List (List Char × Bool)) (gh ghn : DetectAddressHead)
      (v : Int × DetectAddressHead × DetectAddressHead),
      setupLeaves E n ls gh ghn = Run.done v → setupLeaves E m ls gh ghn = Run.done v
  | [], gh, ghn, v, h => by simpa [setupLeaves] using h
  | (a, b) :: ls, gh, ghn, v, h => by
    simp only [setupLeaves] at h ⊢
    obtain ⟨r1, g1, gn1, h1, hc⟩ := andThen_eq_done _ _ v h
    rw [setupSide_mono E n m hnm b gh ghn a _ h1]
    rcases hc with ⟨hr, e⟩ | ⟨hr, hk⟩
    · simp [Run.andThen, hr, e]
    · simp only [Run.andThen, hr, if_false]
      exact setupLeaves_mono E n m hnm ls g1 gn1 v hk

theorem setupLeaves_append (E : Extern) (n : Nat) :
    ∀ (l1 l2 : List (List Char × Bool)) (gh ghn : DetectAddressHead),
      setupLeaves E n (l1 ++ l2) gh ghn =
        (setupLeaves E n l1 gh ghn).andThen (fun g gn => setupLeaves E n l2 g gn)
  | [], l2, gh, ghn => by
    simp [setupLeaves, Run.andThen]
  | (a, b) :: l1, l2, gh, ghn => by
    simp only [List.cons_append, setupLeaves]
    rw [andThen_assoc]
    congr 1
    funext g gn
    exact setupLeaves_append E n l1 l2 g gn

theorem parseLeaf_eq_setupSide (E : Extern) (n : Nat) (negate ns : Bool)
    (gh ghn : DetectAddressHead) (a : List Char) :
    parseLeaf E n negate ⟨[], false, ns, false, 0, gh, ghn⟩ a =
      setupSide E n (negate || ns) gh ghn a := by
  cases negate <;> cases ns <;> simp only [parseLeaf, setupSide, Bool.or_false, Bool.or_true,
    Bool.false_eq_true, and_self, and_false, and_true, if_true, if_false, Bool.true_eq_false]

theorem evalItems_norm (E : Extern) (n : Nat)
    (rec : DetectAddressHead → DetectAddressHead → List Char → Bool →
      Run (Int × DetectAddressHead × DetectAddressHead))
    (negate : Bool) : ∀ (es : ExprList) (gh ghn : DetectAddressHead),
    (evalItems E n rec negate es gh ghn).andThen (fun g gn => Run.done (0, g, gn)) =
      evalItems E n rec negate es gh ghn
  | ExprList.single e, gh, ghn => by
    simp only [evalItems]
    rw [andThen_assoc]
    congr 1
  | ExprList.cons e es, gh, ghn => by
    simp only [evalItems]
    rw [andThen_assoc]
    congr 1
    funext g gn
    exact evalItems_norm E n rec negate es g gn

mutual
/-- One item without variables that `DetectAddressParse2` has handled: its
leaves were set up one after the other, each in the head of its side. -/
theorem item_leaves (E : Extern) : ∀ (e : Expr) (n : Nat) (negate ns : Bool)
    (gh ghn : DetectAddressHead) (v : Int × DetectAddressHead × DetectAddressHead),
    WfExpr e → NoVars e → fitsBuffer e = true →
    (evalItem E n (DetectAddressParse2 E n) negate e ns gh ghn).andThen
      (fun g gn => Run.done (0, g, gn)) = Run.done v →
    setupLeaves E n (leaves e (negate || ns)) gh ghn = Run.done v
  | Expr.atom a, n, negate, ns, gh, ghn, v, _, _, _, h => by
    simp only [evalItem, parseLeaf_eq_setupSide] at h
    simp only [leaves, setupLeaves]
    exact h
  | Expr.var _, _, _, _, _, _, _, _, hv, _, _ => by
    simp [NoVars] at hv
  | Expr.neg e, n, negate, ns, gh, ghn, v, hw, hv, hf, h => by
    simp only [evalItem] at h
    simp only [leaves]
    have := item_leaves E e n negate true gh ghn v hw hv hf h
    simpa only [Bool.or_true] using this
  | Expr.group es, n, negate, ns, gh, ghn, v, hw, hv, hf, h => by
    simp only [evalItem] at h
    simp only [leaves]
    simp only [fitsBuffer, decide_eq_true_eq] at hf
    cases n with
    | zero => simp [DetectAddressParse2, Run.andThen] at h
    | succ m =>
      rw [Parse2_renderList E m (negate || ns) es hw hf, evalItems_norm] at h
      exact setupLeaves_mono E m (m + 1) (by omega) _ gh ghn v
        (list_leaves E es m (negate || ns) gh ghn v hw hv hf h)
/-- A list without variables that `DetectAddressParse2` has handled. -/
theorem list_leaves (E : Extern) : ∀ (es : ExprList) (n : Nat) (negate : Bool)
    (gh ghn : DetectAddressHead) (v : Int × DetectAddressHead × DetectAddressHead),
    WfList es → NoVarsList es → (renderList es).length ≤ 1023 →
    evalItems E n (DetectAddressParse2 E n) negate es gh ghn = Run.done v →
    setupLeaves E n (leavesList es negate) gh ghn = Run.done v
  | ExprList.single e, n, negate, gh, ghn, v, hw, hv, hl, h => by
    simp only [evalItems] at h
    simp only [leavesList]
    simp only [renderList] at hl
    have := item_leaves E e n negate false gh ghn v hw hv
      (fitsBuffer_of_length e (by omega)) h
    simpa only [Bool.or_false] using this
  | ExprList.cons e es, n, negate, gh, ghn, v, hw, hv, hl, h => by
    simp only [evalItems] at h
    simp only [leavesList]
    simp only [renderList, List.length_append, List.length_cons] at hl
    obtain ⟨r1, g1, gn1, h1, hc⟩ := andThen_eq_done _ _ v h
    rw [setupLeaves_append]
    have hi := item_leaves E e n negate false gh ghn
      (if r1 < 0 then -1 else 0, g1, gn1) hw.1 hv.1 (fitsBuffer_of_length e (by omega))
      (by rw [h1]; by_cases hr : r1 < 0 <;> simp [Run.andThen, hr])
    simp only [Bool.or_false] at hi
    rw [hi]
    rcases hc with ⟨hr, e1⟩ | ⟨hr, hk⟩
    · simp [Run.andThen, hr, e1]
    · simp only [Run.andThen, hr, if_false]
      exact list_leaves E es n negate g1 gn1 v hw.2 hv.2 (by omega) hk
end

mutual
/-- The leaves of an item without variables set up one after the other: with
budget for the brackets `DetectAddressParse2` returns the same. -/
theorem leaves_item (E : Extern) : ∀ (e : Expr) (n k : Nat) (negate ns : Bool)
    (gh ghn : DetectAddressHead) (v : Int × DetectAddressHead × DetectAddressHead),
    WfExpr e → NoVars e → fitsBuffer e = true → nesting e ≤ k →
    setupLeaves E n (leaves e (negate || ns)) gh ghn = Run.done v →
    (evalItem E (n + k) (DetectAddressParse2 E (n + k)) negate e ns gh ghn).andThen
      (fun g gn => Run.done (0, g, gn)) = Run.done v
  | Expr.atom a, n, k, negate, ns, gh, ghn, v, _, _, _, _, h => by
    simp only [evalItem, parseLeaf_eq_setupSide]
    have := setupLeaves_mono E n (n + k) (by omega) _ gh ghn v h
    simpa only [leaves, setupLeaves] using this
  | Expr.var _, _, _, _, _, _, _, _, _, hv, _, _, _ => by
    simp [NoVars] at hv
  | Expr.neg e, n, k, negate, ns, gh, ghn, v, hw, hv, hf, hd, h => by
    simp only [evalItem]
    simp only [leaves] at h
    exact leaves_item E e n k negate true gh ghn v hw hv hf hd
      (by simpa only [Bool.or_true] using h)
  | Expr.group es, n, k, negate, ns, gh, ghn, v, hw, hv, hf, hd, h => by
    simp only [evalItem]
    simp only [leaves] at h
    simp only [fitsBuffer, decide_eq_true_eq] at hf
    simp only [nesting] at hd
    obtain ⟨k1, rfl⟩ : ∃ k1, k = k1 + 1 := ⟨k - 1, by omega⟩
    have e1 : n + (k1 + 1) = (n + k1) + 1 := by omega
    rw [e1, Parse2_renderList E (n + k1) (negate || ns) es hw hf, evalItems_norm]
    exact leaves_list E es n k1 (negate || ns) gh ghn v hw hv hf (by omega) h
/-- The leaves of a list without variables set up one after the other. -/
theorem leaves_list (E : Extern) : ∀ (es : ExprList) (n k : Nat) (negate : Bool)
    (gh ghn : DetectAddressHead) (v : Int × DetectAddressHead × DetectAddressHead),
    WfList es → NoVarsList es → (renderList es).length ≤ 1023 → nestingList es ≤ k →
    setupLeaves E n (leavesList es negate) gh ghn = Run.done v →
    evalItems E (n + k) (DetectAddressParse2 E (n + k)) negate es gh ghn = Run.done v
  | ExprList.single e, n, k, negate, gh, ghn, v, hw, hv, hl, hd, h => by
    simp only [evalItems]
    simp only [leavesList] at h
    simp only [renderList] at hl
    exact leaves_item E e n k negate false gh ghn v hw hv
      (fitsBuffer_of_length e (by omega)) hd (by simpa only [Bool.or_false] using h)
  | ExprList.cons e es, n, k, negate, gh, ghn, v, hw, hv, hl, hd, h => by
    simp only [evalItems]
    simp only [leavesList] at h
    simp only [renderList, List.length_append, List.length_cons] at hl
    simp only [nestingList] at hd
    rw [setupLeaves_append] at h
    obtain ⟨r1, g1, gn1, h1, hc⟩ := andThen_eq_done _ _ v h
    have hi := leaves_item E e n k negate false gh ghn (r1, g1, gn1) hw.1 hv.1
      (fitsBuffer_of_length e (by omega)) (by omega) (by simpa only [Bool.or_false] using h1)
    obtain ⟨r2, g2, gn2, h2, hc2⟩ := andThen_eq_done _ _ _ hi
    rw [h2]
    rcases hc2 with ⟨hr2, e2⟩ | ⟨hr2, e2⟩
    · simp only [Prod.mk.injEq] at e2
      obtain ⟨a1, a2, a3⟩ := e2
      subst a1 a2 a3
      rcases hc with ⟨_, e⟩ | ⟨hr, _⟩
      · simp [Run.andThen, hr2, e]
      · omega
    · simp only [Run.done.injEq, Prod.mk.injEq] at e2
      obtain ⟨a1, a2, a3⟩ := e2
      subst a1 a2 a3
      rcases hc with ⟨hr, _⟩ | ⟨_, hk⟩
      · omega
      · simp only [Run.andThen, hr2, if_false]
        exact leaves_list E es n k negate g2 gn2 v hw.2 hv.2 (by omega) (by omega) hk
end

/-- C23, as the code has it. In `DetectAddressParse2` the negate state of a leaf
atom is the OR of all `!` operators that enclose it (the mark of `leaves`), for
every expression `X` whose text fits the buffer. When `X` has no variable, what
a call on the text of `X` returns is what setting up the leaves of `X` one after
the other returns, a leaf enclosed by no negation in the positive head and a
leaf enclosed by one or more negations in the negated head; with budget for the
brackets the call returns whenever that walk over the leaves does. With or
without variables, after a call that returns `0` every leaf enclosed by no
negation is covered by the positive head and every leaf enclosed by one or more
negations by the negated head. For every atom `a`, `![![a]]` puts `a` in the
negated head and nothing in the positive head. -/
theorem DetectAddressParse2_negate_or (E : Extern) (n : Nat) (X : Expr)
    (gh ghn : DetectAddressHead) (v : Int × DetectAddressHead × DetectAddressHead)
    (hX : WfExpr X) (hl : (render X).length ≤ 1024) :
    (NoVars X →
      (DetectAddressParse2 E n gh ghn (render X) false = Run.done v →
        setupLeaves E n (leaves X false) gh ghn = Run.done v) ∧
      (setupLeaves E n (leaves X false) gh ghn = Run.done v →
        DetectAddressParse2 E (n + nesting X + 1) gh ghn (render X) false = Run.done v)) ∧
    (SaneExtern E → ParseInv gh → ParseInv ghn →
      DetectAddressParse2 E n gh ghn (render X) false = Run.done v → ¬ v.1 < 0 →
      ∀ a b, (a, b) ∈ leaves X false → ∀ A, atomHolds E a A →
        headCovers (if b then v.2.2 else v.2.1) A) ∧
    (∀ a, plainText a → a.length ≤ 1016 → ∀ r g gn,
      DetectAddressParse2 E n gh ghn (render (notNot a)) false = Run.done (r, g, gn) →
      g = gh ∧ ∃ r1, DetectAddressSetup E n ghn a = Run.done (r1, gn)) := by
  have fwd : ∀ (Y : Expr) (w : Int × DetectAddressHead × DetectAddressHead), WfExpr Y →
      NoVars Y → (render Y).length ≤ 1024 →
      DetectAddressParse2 E n gh ghn (render Y) false = Run.done w →
      setupLeaves E n (leaves Y false) gh ghn = Run.done w := by
    intro Y w hY hnv hlen h
    cases n with
    | zero => simp [DetectAddressParse2] at h
    | succ m =>
      rw [Parse2_render E m false Y hY, if_pos (fitsBuffer_of_length Y hlen)] at h
      exact setupLeaves_mono E m (m + 1) (by omega) _ gh ghn w
        (item_leaves E Y m false false gh ghn w hY hnv (fitsBuffer_of_length Y hlen) h)
  refine ⟨fun hv => ⟨fwd X v hX hv hl, fun h => ?_⟩, ?_, ?_⟩
  · rw [Parse2_render E (n + nesting X) false X hX, if_pos (fitsBuffer_of_length X hl)]
    exact leaves_item E X n (nesting X) false false gh ghn v hX hv
      (fitsBuffer_of_length X hl) (le_refl _) h
  · intro hE hi hin h hr a b hm A hA
    obtain ⟨r, g, gn⟩ := v
    cases n with
    | zero => simp [DetectAddressParse2] at h
    | succ m =>
      rw [Parse2_render E m false X hX, if_pos (fitsBuffer_of_length X hl)] at h
      obtain ⟨r1, g1, gn1, he, hr1, hk⟩ := andThen_done _ _ r g gn h hr
      simp only [Run.done.injEq, Prod.mk.injEq] at hk
      obtain ⟨_, e2, e3⟩ := hk
      subst e2 e3
      have hs := (sem_item E hE X m false false gh ghn g1 gn1 r1 hX
        (fitsBuffer_of_length X hl) hi hin he hr1).1
      exact hs.2.2.2.2 a b (by simpa only [Bool.or_false] using hm) A hA
  · intro a ha hlen r g gn h
    have h1 := fwd (notNot a) (r, g, gn) (by simpa [notNot, WfExpr, WfList] using ha)
      (by simp [notNot, NoVars, NoVarsList])
      (by simp [notNot, render, renderList]; omega) h
    simp only [notNot, leaves, leavesList, setupLeaves, setupSide, if_true] at h1
    cases hs : DetectAddressSetup E n ghn a with
    | bug => simp [hs, Run.andThen] at h1
    | fuel => simp [hs, Run.andThen] at h1
    | done w =>
      obtain ⟨r1, gn1⟩ := w
      simp only [hs, Run.andThen] at h1
      by_cases hr : r1 < 0
      · simp only [hr, if_true, Run.done.injEq, Prod.mk.injEq] at h1
        exact ⟨h1.2.1.symm, r1, by rw [h1.2.2]⟩
      · simp only [hr, if_false, Run.done.injEq, Prod.mk.injEq] at h1
        exact ⟨h1.2.1.symm, r1, by rw [h1.2.2]⟩

set_option maxRecDepth 100000 in
theorem DetectAddressParse2_negate_or_witness :
    (WfExpr (notNot text1234) ∧ NoVars (notNot text1234) ∧
      (render (notNot text1234)).length ≤ 1024) ∧
    leaves (notNot text1234) false = [(text1234, true)] ∧
    DetectAddressParse2 stdExtern 4 DetectAddressHeadInit DetectAddressHeadInit
      (render (notNot text1234)) false =
      Run.done (0, DetectAddressHeadInit, ⟨[], [hostV4 16909060], []⟩) ∧
    setupLeaves stdExtern 4 (leaves (notNot text1234) false) DetectAddressHeadInit
      DetectAddressHeadInit = Run.done (0, DetectAddressHeadInit, ⟨[], [hostV4 16909060], []⟩) :=
  ⟨⟨⟨by decide, by decide⟩, trivial, by decide⟩, rfl, rfl,
    ((DetectAddressParse2_negate_or stdExtern 4 (notNot text1234) DetectAddressHeadInit
      DetectAddressHeadInit (0, DetectAddressHeadInit, ⟨[], [hostV4 16909060], []⟩)
      ⟨by decide, by decide⟩ (by decide)).1 trivial).1 rfl⟩

set_option maxRecDepth 100000 in
/-- The statement of C23 fails on the code: for `![![1.2.3.4]]`, where the atom
lies under two negations, `DetectAddressParse2` leaves the positive head empty
and puts the range 1.2.3.4 in the negated head, and `DetectAddressParse` leaves
the ranges 0.0.0.0-1.2.3.3 and 1.2.3.5-255.255.255.255, without 1.2.3.4. -/
theorem DetectAddressParse2_negate_or_counterexample :
    DetectAddressParse2 stdExtern 4 DetectAddressHeadInit DetectAddressHeadInit textNotNot
      false = Run.done (0, ⟨[], [], []⟩, ⟨[], [hostV4 16909060], []⟩) ∧
    DetectAddressParse stdExtern 4 DetectAddressHeadInit textNotNot =
      Run.done (0, ⟨[], [rangeV4 0 16909059, rangeV4 16909061 4294967295], []⟩) :=
  ⟨rfl, rfl⟩

/-- With enough recursion budget `DetectAddressInsert` returns for a range of a
family on a head that satisfies the invariant, always with the same result. -/
theorem Insert_family_total (gh : DetectAddressHead) (x : DetectAddress) (hi : TotalInv gh)
    (hx : FamilyRecord x) (hv : validRange x) :
    ∃ N r g, (∀ n, N ≤ n → DetectAddressInsert n gh x = Run.done (r, g)) ∧
      (r = 0 ∨ r = 1) ∧ TotalInv g := by
  obtain ⟨r, hr, hins⟩ := DetectAddressInsert_eq_insertSorted ((GetHeadPtr gh x).length + 1)
    gh x hx hv (WfHead_GetHeadPtr gh x hx hi.1.1) (by omega)
  refine ⟨(GetHeadPtr gh x).length + 1, r, _,
    fun n hn => DetectAddressInsert_mono _ n gh x _ hn hins, hr, ?_⟩
  obtain ⟨_, h2, _, h4, _⟩ := Insert_family_step _ gh _ x r hi.1 hx hv hins
  exact ⟨h2, by rw [h4]; exact hi.2⟩

/-- With a recursion budget of one `DetectAddressInsert` returns for the
wildcard record on a head that satisfies the invariant. -/
theorem Insert_any_total (gh : DetectAddressHead) (hi : TotalInv gh) :
    ∃ r g, (∀ n, 1 ≤ n → DetectAddressInsert n gh anyRecord = Run.done (r, g)) ∧
      (r = 0 ∨ r = 1) ∧ TotalInv g := by
  have key : ∃ r g, DetectAddressInsert 1 gh anyRecord = Run.done (r, g) ∧
      ∀ d ∈ g.any_head, d.family = 0 := by
    rw [DetectAddressInsert]
    simp only [anyRecord, DetectAddressInit, Bool.true_eq_false, and_false, if_false,
      GetHeadPtr, SetHeadPtr, if_true]
    cases hl : gh.any_head with
    | nil => exact ⟨1, _, rfl, by simp⟩
    | cons cur rest =>
      have hcur : cur.flag_any = true := hi.1.2.1 cur (by rw [hl]; exact List.mem_cons_self _ _)
      have hf : cur.family = 0 := hi.2 cur (by rw [hl]; exact List.mem_cons_self _ _)
      have hc : DetectAddressCmp
          { family := 0, ip := 0, ip2 := 0, flag_any := true, flag_not := false, cnt := 0 }
          cur = ADDRESS_EQ := by
        simp [DetectAddressCmp, hf, hcur]
      simp only [InsertLoop, hc, putList, SetHeadPtr, if_true, Option.getD_some]
      refine ⟨0, _, rfl, ?_⟩
      intro d hd
      simp only [List.nil_append, List.mem_cons] at hd
      rcases hd with hd1 | hd2
      · rw [hd1]; exact hf
      · exact hi.2 d (by rw [hl]; exact List.mem_cons_of_mem _ hd2)
  obtain ⟨r, g, h1, h2⟩ := key
  obtain ⟨hr, hg, _⟩ := Insert_any_step 1 gh g r hi.1 h1
  exact ⟨r, g, fun n hn => DetectAddressInsert_mono 1 n gh anyRecord _ hn h1, hr, hg, h2⟩

theorem setupAny_total (E : Extern) (gh : DetectAddressHead) (hi : TotalInv gh) :
    ∃ N r g, (∀ n, N ≤ n → setupAny E n gh = Run.done (r, g)) ∧ TotalInv g := by
  cases h4 : DetectAddressParseSingle E textZero4 with
  | none => exact ⟨0, -1, gh, fun n _ => by simp [setupAny, h4], hi⟩
  | some ad =>
    obtain ⟨hf, hx, hv⟩ := ParseSingle_zero4 E ad h4
    have hf0 : ¬ ad.family = 0 := by rw [hf]; decide
    obtain ⟨N1, r1, g1, hins, hr1, hi1⟩ := Insert_family_total gh ad hi hx hv
    have hr1n : ¬ r1 < 0 := by rcases hr1 with h | h <;> omega
    cases h6 : DetectAddressParseSingle E textZero6 with
    | none =>
      exact ⟨N1, -1, g1, fun n hn => by simp [setupAny, h4, hf0, hins n hn, hr1n, h6], hi1⟩
    | some ad6 =>
      obtain ⟨hf6, hx6, hv6⟩ := ParseSingle_zero6 E ad6 h6
      have hf60 : ¬ ad6.family = 0 := by rw [hf6]; decide
      obtain ⟨N2, r2, g2, hins2, hr2, hi2⟩ := Insert_family_total g1 ad6 hi1 hx6 hv6
      have hr2n : ¬ r2 < 0 := by rcases hr2 with h | h <;> omega
      refine ⟨max N1 N2, 0, g2, fun n hn => ?_, hi2⟩
      simp [setupAny, h4, hf0, hins n (le_trans (le_max_left _ _) hn), hr1n, h6, hf60,
        hins2 n (le_trans (le_max_right _ _) hn), hr2n]

theorem setupInsert_total (E : Extern) (gh : DetectAddressHead) (ad : DetectAddress)
    (hi : TotalInv gh) (had : ad = anyRecord ∨ (FamilyRecord ad ∧ validRange ad)) :
    ∃ N r g, (∀ n, N ≤ n → setupInsert E n gh ad = Run.done (r, g)) ∧ TotalInv g := by
  rcases had with rfl | ⟨hx, hv⟩
  · obtain ⟨r1, g1, hins, hr1, hi1⟩ := Insert_any_total gh hi
    have hr1n : ¬ r1 < 0 := by rcases hr1 with h | h <;> omega
    by_cases h1 : r1 = 1
    · obtain ⟨N, r, g, hany, hg⟩ := setupAny_total E g1 hi1
      refine ⟨max 1 N, r, g, fun n hn => ?_, hg⟩
      have hfa : anyRecord.flag_any = true := rfl
      simp [setupInsert, hins n (le_trans (le_max_left _ _) hn), hr1n, h1, hfa,
        hany n (le_trans (le_max_right _ _) hn)]
    · refine ⟨1, 0, g1, fun n hn => ?_, hi1⟩
      simp [setupInsert, hins n hn, hr1n, h1]
  · obtain ⟨N1, r1, g1, hins, hr1, hi1⟩ := Insert_family_total gh ad hi hx hv
    have hr1n : ¬ r1 < 0 := by rcases hr1 with h | h <;> omega
    refine ⟨N1, 0, g1, fun n hn => ?_, hi1⟩
    simp [setupInsert, hins n hn, hr1n, hx.2]

/-- With enough recursion budget `DetectAddressSetup` returns for a text that
does not start with `!` on a head that satisfies the invariant, always with the
same result, and the invariant holds afterwards. -/
theorem Setup_total (E : Extern) (gh : DetectAddressHead) (s : List Char) (hi : TotalInv gh)
    (hs : s.head? ≠ some '!') :
    ∃ N r g, (∀ n, N ≤ n → DetectAddressSetup E n gh s = Run.done (r, g)) ∧ TotalInv g := by
  cases hp : DetectAddressParseSingle E s with
  | none => exact ⟨0, -1, gh, fun n _ => by simp [DetectAddressSetup, hp], hi⟩
  | some ad =>
    have hnot := ParseSingle_flag_not E s ad hs hp
    obtain ⟨N, r, g, h1, h2⟩ := setupInsert_total E gh ad hi (ParseSingle_cases E s ad hp)
    exact ⟨N, r, g, fun n hn => by simp [DetectAddressSetup, hp, hnot, h1 n hn], h2⟩

theorem parseVar_unknown (E : Extern)
    (rec : DetectAddressHead → DetectAddressHead → List Char → Bool →
      Run (Int × DetectAddressHead × DetectAddressHead))
    (negate : Bool) (st : ParseState) (name : List Char)
    (h : E.SCRuleVarsGetConfVar name = none) :
    parseVar E rec negate st name = Run.done (-1, st.gh, st.ghn) := by
  simp [parseVar, h]

mutual
/-- An item that references a variable without an entry: every return of the
walk over it is an error. -/
theorem item_unknown (E : Extern) : ∀ (e : Expr) (n : Nat) (negate ns : Bool)
    (gh ghn g gn : DetectAddressHead) (r : Int), WfExpr e → fitsBuffer e = true →
    HasUnknown E e →
    evalItem E n (DetectAddressParse2 E n) negate e ns gh ghn = Run.done (r, g, gn) → r < 0
  | Expr.atom _, _, _, _, _, _, _, _, _, _, _, hu, _ => by
    simp [HasUnknown] at hu
  | Expr.var v, n, negate, ns, gh, ghn, g, gn, r, _, _, hu, h => by
    simp only [HasUnknown] at hu
    simp only [evalItem, parseVar_unknown E _ negate _ _ hu, Run.done.injEq,
      Prod.mk.injEq] at h
    omega
  | Expr.neg e, n, negate, ns, gh, ghn, g, gn, r, hw, hf, hu, h => by
    simp only [evalItem] at h
    exact item_unknown E e n negate true gh ghn g gn r hw hf hu h
  | Expr.group es, n, negate, ns, gh, ghn, g, gn, r, hw, hf, hu, h => by
    simp only [evalItem] at h
    simp only [fitsBuffer, decide_eq_true_eq] at hf
    exact list_unknown E es n (negate || ns) gh ghn g gn r hw hf hu h
/-- A list with an item that references a variable without an entry. -/
theorem list_unknown (E : Extern) : ∀ (es : ExprList) (n : Nat) (negate : Bool)
    (gh ghn g gn : DetectAddressHead) (r : Int), WfList es →
    (renderList es).length ≤ 1023 → HasUnknownList E es →
    DetectAddressParse2 E n gh ghn (renderList es) negate = Run.done (r, g, gn) → r < 0
  | ExprList.single e, n, negate, gh, ghn, g, gn, r, hw, hl, hu, h => by
    cases n with
    | zero => simp [DetectAddressParse2] at h
    | succ m =>
      rw [Parse2_renderList E m negate _ hw hl] at h
      simp only [evalItems] at h
      simp only [renderList] at hl
      obtain ⟨r1, g1, gn1, h1, hc⟩ := andThen_eq_done _ _ _ h
      have := item_unknown E e m negate false gh ghn g1 gn1 r1 hw
        (fitsBuffer_of_length e (by omega)) hu h1
      rcases hc with ⟨_, e1⟩ | ⟨hr, _⟩
      · simp only [Prod.mk.injEq] at e1
        omega
      · exact absurd this hr
  | ExprList.cons e es, n, negate, gh, ghn, g, gn, r, hw, hl, hu, h => by
    cases n with
    | zero => simp [DetectAddressParse2] at h
    | succ m =>
      rw [Parse2_renderList E m negate _ hw hl] at h
      simp only [evalItems] at h
      simp only [renderList, List.length_append, List.length_cons] at hl
      obtain ⟨r1, g1, gn1, h1, hc⟩ := andThen_eq_done _ _ _ h
      rcases hc with ⟨_, e1⟩ | ⟨hr, hk⟩
      · simp only [Prod.mk.injEq] at e1
        omega
      · rcases hu with hu | hu
        · exact absurd (item_unknown E e m negate false gh ghn g1 gn1 r1 hw.1
            (fitsBuffer_of_length e (by omega)) hu h1) hr
        · rw [← Parse2_renderList E m negate es hw.2 (by omega)] at hk
          exact list_unknown E es (m + 1) negate g1 gn1 g gn r hw.2 (by omega) hu hk
end

mutual
/-- With enough recursion budget the walk over an item whose variables have no
entry returns, always with the same result. -/
theorem item_total (E : Extern) : ∀ (e : Expr), WfExpr e → fitsBuffer e = true →
    AllUnknown E e → ∀ (negate ns : Bool) (gh ghn : DetectAddressHead),
    TotalInv gh → TotalInv ghn →
    ∃ N r g gn, (∀ n, N ≤ n →
        evalItem E n (DetectAddressParse2 E n) negate e ns gh ghn = Run.done (r, g, gn)) ∧
      TotalInv g ∧ TotalInv gn
  | Expr.atom a, hw, _, _, negate, ns, gh, ghn, hi, hin => by
    simp only [evalItem, parseLeaf_eq_setupSide]
    cases hb : (negate || ns) with
    | true =>
      obtain ⟨N, r, gn1, hs, hgn1⟩ := Setup_total E ghn a hin (plainText_head a hw)
      exact ⟨N, r, gh, gn1, fun n hn => by simp [setupSide, hs n hn], hi, hgn1⟩
    | false =>
      obtain ⟨N, r, g1, hs, hg1⟩ := Setup_total E gh a hi (plainText_head a hw)
      exact ⟨N, r, g1, ghn, fun n hn => by simp [setupSide, hs n hn], hg1, hin⟩
  | Expr.var v, _, _, hu, negate, ns, gh, ghn, hi, hin => by
    simp only [AllUnknown] at hu
    exact ⟨0, -1, gh, ghn, fun n _ => by
      simp only [evalItem, parseVar_unknown E _ negate _ _ hu], hi, hin⟩
  | Expr.neg e, hw, hf, hu, negate, ns, gh, ghn, hi, hin => by
    simp only [evalItem]
    exact item_total E e hw hf hu negate true gh ghn hi hin
  | Expr.group es, hw, hf, hu, negate, ns, gh, ghn, hi, hin => by
    simp only [evalItem]
    simp only [fitsBuffer, decide_eq_true_eq] at hf
    exact list_total E es hw hf hu (negate || ns) gh ghn hi hin
/-- With enough recursion budget `DetectAddressParse2` returns on the text of a
list whose variables have no entry. -/
theorem list_total (E : Extern) : ∀ (es : ExprList), WfList es →
    (renderList es).length ≤ 1023 → AllUnknownList E es →
    ∀ (negate : Bool) (gh ghn : DetectAddressHead), TotalInv gh → TotalInv ghn →
    ∃ N r g gn, (∀ n, N ≤ n →
        DetectAddressParse2 E n gh ghn (renderList es) negate = Run.done (r, g, gn)) ∧
      TotalInv g ∧ TotalInv gn
  | ExprList.single e, hw, hl, hu, negate, gh, ghn, hi, hin => by
    have hl1 : (render e).length ≤ 1023 := by simpa only [renderList] using hl
    obtain ⟨N, r1, g1, gn1, h1, hg1, hgn1⟩ := item_total E e hw
      (fitsBuffer_of_length e (by omega)) hu negate false gh ghn hi hin
    refine ⟨N + 1, if r1 < 0 then -1 else 0, g1, gn1, fun n hn => ?_, hg1, hgn1⟩
    obtain ⟨m, rfl⟩ : ∃ m, n = m + 1 := ⟨n - 1, by omega⟩
    rw [Parse2_renderList E m negate _ hw hl]
    simp only [evalItems, h1 m (by omega), Run.andThen]
    by_cases hr : r1 < 0 <;> simp [hr]
  | ExprList.cons e es, hw, hl, hu, negate, gh, ghn, hi, hin => by
    have hl1 : (render e).length + (renderList es).length + 1 ≤ 1023 := by
      simpa only [renderList, List.length_append, List.length_cons] using hl
    obtain ⟨N1, r1, g1, gn1, h1, hg1, hgn1⟩ := item_total E e hw.1
      (fitsBuffer_of_length e (by omega)) hu.1 negate false gh ghn hi hin
    by_cases hr : r1 < 0
    · refine ⟨N1 + 1, -1, g1, gn1, fun n hn => ?_, hg1, hgn1⟩
      obtain ⟨m, rfl⟩ : ∃ m, n = m + 1 := ⟨n - 1, by omega⟩
      rw [Parse2_renderList E m negate _ hw hl]
      simp [evalItems, h1 m (by omega), Run.andThen, hr]
    · obtain ⟨N2, r, g, gn, h2, hg, hgn⟩ := list_total E es hw.2 (by omega) hu.2 negate
        g1 gn1 hg1 hgn1
      refine ⟨max (N1 + 1) N2, r, g, gn, fun n hn => ?_, hg, hgn⟩
      obtain ⟨m, rfl⟩ : ∃ m, n = m + 1 := ⟨n - 1, by omega⟩
      rw [Parse2_renderList E m negate _ hw hl]
      simp only [evalItems, h1 m (by omega), Run.andThen, hr, if_false]
      rw [← Parse2_renderList E m negate es hw.2 (by omega)]
      exact h2 (m + 1) (by omega)
end

mutual
theorem leaves_plain : ∀ (e : Expr) (c : Bool), WfExpr e →
    ∀ a b, (a, b) ∈ leaves e c → plainText a
  | Expr.atom a0, c, hw, a, b, hm => by
    simp only [leaves, List.mem_singleton, Prod.mk.injEq] at hm
    rw [hm.1]
    exact hw
  | Expr.var _, _, _, _, _, hm => by
    simp [leaves] at hm
  | Expr.neg e, _, hw, a, b, hm => by
    simp only [leaves] at hm
    exact leaves_plain e true hw a b hm
  | Expr.group es, c, hw, a, b, hm => by
    simp only [leaves] at hm
    exact leavesList_plain es c hw a b hm
theorem leavesList_plain : ∀ (es : ExprList) (c : Bool), WfList es →
    ∀ a b, (a, b) ∈ leavesList es c → plainText a
  | ExprList.single e, c, hw, a, b, hm => by
    simp only [leavesList] at hm
    exact leaves_plain e c hw a b hm
  | ExprList.cons e es, c, hw, a, b, hm => by
    simp only [leavesList, List.mem_append] at hm
    rcases hm with hm | hm
    · exact leaves_plain e c hw.1 a b hm
    · exact leavesList_plain es c hw.2 a b hm
end

/-- C39. Two records whose families differ compare as the error relation
`ADDRESS_ER`, whatever their ranges and flags, and so as none of the seven
ordering relations. -/
theorem DetectAddressCmp_family_mismatch (a b : DetectAddress) (h : a.family ≠ b.family) :
    DetectAddressCmp a b = ADDRESS_ER ∧
    ∀ r ∈ [ADDRESS_LT, ADDRESS_LE, ADDRESS_EQ, ADDRESS_ES, ADDRESS_EB, ADDRESS_GE, ADDRESS_GT],
      DetectAddressCmp a b ≠ r := by
  have he : DetectAddressCmp a b = ADDRESS_ER := by
    unfold DetectAddressCmp
    rw [if_pos h]
  refine ⟨he, ?_⟩
  intro r hr
  rw [he]
  simp only [List.mem_cons, List.mem_singleton, List.not_mem_nil, or_false] at hr
  rcases hr with h | h | h | h | h | h | h <;> rw [h] <;> decide

theorem DetectAddressCmp_family_mismatch_witness :
    DetectAddressCmp { mkV4 1 2 with flag_any := true } { mkV6 1 2 with flag_any := true } =
      ADDRESS_ER ∧
    ∀ r ∈ [ADDRESS_LT, ADDRESS_LE, ADDRESS_EQ, ADDRESS_ES, ADDRESS_EB, ADDRESS_GE, ADDRESS_GT],
      DetectAddressCmp { mkV4 1 2 with flag_any := true }
        { mkV6 1 2 with flag_any := true } ≠ r :=
  DetectAddressCmp_family_mismatch _ _ (by decide)

theorem Lookup_eq_scan (gh : DetectAddressHead) (A : Address) :
    DetectAddressLookupInHead gh A =
      (scanList gh A).find? (fun d => DetectAddressMatch d A == 1) := rfl

theorem find_of_unique (A : Address) :
    ∀ (l : List DetectAddress),
      l.Pairwise (fun p q => ¬ (DetectAddressMatch p A = 1 ∧ DetectAddressMatch q A = 1)) →
      ∀ d ∈ l, DetectAddressMatch d A = 1 →
        l.find? (fun d => DetectAddressMatch d A == 1) = some d
  | [], _, d, hd, _ => by simp at hd
  | e :: es, hp, d, hd, hm => by
    rcases List.mem_cons.1 hd with h | h
    · subst h
      simp [List.find?, hm]
    · have hne : DetectAddressMatch e A ≠ 1 := fun he =>
        (List.rel_of_pairwise_cons hp h) ⟨he, hm⟩
      have ih := find_of_unique A es (List.Pairwise.of_cons hp) d h hm
      rw [List.find?_cons_of_neg _ (by simpa using hne), ih]

theorem scanList_unique (gh : DetectAddressHead) (A : Address) (hw : WfHead gh) :
    (scanList gh A).Pairwise
      (fun p q => ¬ (DetectAddressMatch p A = 1 ∧ DetectAddressMatch q A = 1)) := by
  have key : ∀ l : List DetectAddress, PairwiseDisjoint l →
      l.Pairwise (fun p q => ¬ (DetectAddressMatch p A = 1 ∧ DetectAddressMatch q A = 1)) := by
    intro l hl
    refine List.Pairwise.imp ?_ hl
    intro p q hpq hm
    have h1 := ((Match_eq_one p A).1 hm.1).2.2
    have h2 := ((Match_eq_one q A).1 hm.2).2.2
    omega
  unfold scanList
  split_ifs with h4 h6
  · exact key _ (SortedRanges_pairwise ((SortedRanges_iff _).2 ⟨hw.1, hw.2.1⟩))
  · exact key _ (SortedRanges_pairwise ((SortedRanges_iff _).2 ⟨hw.2.2.1, hw.2.2.2⟩))
  · refine List.pairwise_of_forall ?_
    intro p q hm
    rcases ((Match_eq_one p A).1 hm.1).2.1 with h | h
    · exact h4 h
    · exact h6 h

theorem stopEarly_none (A : Address) :
    ∀ (l : List DetectAddress), (∀ d ∈ l, DetectAddressMatch d A ≠ 1) →
      lookupStopEarly A l = none
  | [], _ => rfl
  | d :: ds, h => by
    rw [lookupStopEarly, if_neg (h d (List.mem_cons_self _ _))]
    split_ifs
    · rfl
    · exact stopEarly_none A ds (fun e he => h e (List.mem_cons_of_mem _ he))

theorem stopEarly_eq_find (A : Address) {f : Nat} :
    ∀ (l : List DetectAddress) (lb : Nat), SortedRanges f lb l →
      lookupStopEarly A l = l.find? (fun d => DetectAddressMatch d A == 1)
  | [], _, _ => rfl
  | d :: ds, lb, hs => by
    by_cases hm : DetectAddressMatch d A = 1
    · simp [lookupStopEarly, List.find?, hm]
    · rw [lookupStopEarly, if_neg hm]
      have hf : (d :: ds).find? (fun d => DetectAddressMatch d A == 1) =
          ds.find? (fun d => DetectAddressMatch d A == 1) :=
        List.find?_cons_of_neg _ (by simpa using hm)
      rw [hf]
      split_ifs with hlt
      · symm
        rw [List.find?_eq_none]
        intro e he hme
        have h1 := ((Match_eq_one e A).1 (by simpa using hme)).2.2
        have h2 := SortedRanges_mem hs.2.2.2.2 e he
        have h3 := hs.2.2.1
        omega
      · exact stopEarly_eq_find A ds (d.ip2 + 1) hs.2.2.2.2

/-- C40. In a head whose IPv4 and IPv6 lists are sorted and pairwise disjoint,
for every address `A`: at most one position of the list that
`DetectAddressLookupInHead` scans holds a record that `DetectAddressMatch`
accepts; the lookup returns a record exactly when it is that record; and the
result is the same for every other order of the scan and for the scan that
stops at the first record whose low end lies above `A`. -/
theorem DetectAddressLookupInHead_unique (gh : DetectAddressHead) (A : Address)
    (hw : WfHead gh) :
    (∀ i j : Fin (scanList gh A).length,
      DetectAddressMatch ((scanList gh A).get i) A = 1 →
      DetectAddressMatch ((scanList gh A).get j) A = 1 → i = j) ∧
    (∀ d, DetectAddressLookupInHead gh A = some d ↔
      d ∈ scanList gh A ∧ DetectAddressMatch d A = 1) ∧
    (∀ l : List DetectAddress, l.Perm (scanList gh A) →
      l.find? (fun d => DetectAddressMatch d A == 1) = DetectAddressLookupInHead gh A) ∧
    lookupStopEarly A (scanList gh A) = DetectAddressLookupInHead gh A := by
  have hu := scanList_unique gh A hw
  refine ⟨?_, ?_, ?_, ?_⟩
  · intro i j hi hj
    by_contra hne
    rcases Nat.lt_or_gt_of_ne (fun h => hne (Fin.ext h)) with h | h
    · exact (List.pairwise_iff_get.1 hu i j h) ⟨hi, hj⟩
    · exact (List.pairwise_iff_get.1 hu j i h) ⟨hj, hi⟩
  · intro d
    rw [Lookup_eq_scan]
    constructor
    · intro h
      exact ⟨List.mem_of_find?_eq_some h, by simpa using List.find?_some h⟩
    · intro h
      exact find_of_unique A _ hu d h.1 h.2
  · intro l hl
    rw [Lookup_eq_scan]
    have hl2 : l.Pairwise
        (fun p q => ¬ (DetectAddressMatch p A = 1 ∧ DetectAddressMatch q A = 1)) := by
      refine (List.Perm.pairwise_iff ?_ hl).2 hu
      intro p q h hqp
      exact h ⟨hqp.2, hqp.1⟩
    cases hf : (scanList gh A).find? (fun d => DetectAddressMatch d A == 1) with
    | none =>
      rw [List.find?_eq_none] at hf ⊢
      intro e he
      exact hf e (hl.subset he)
    | some d =>
      have hd := List.mem_of_find?_eq_some hf
      have hm : DetectAddressMatch d A = 1 := by simpa using List.find?_some hf
      exact find_of_unique A l hl2 d (hl.symm.subset hd) hm
  · rw [Lookup_eq_scan]
    unfold scanList
    split_ifs with h4 h6
    · exact stopEarly_eq_find A _ 0 ((SortedRanges_iff _).2 ⟨hw.1, hw.2.1⟩)
    · exact stopEarly_eq_find A _ 0 ((SortedRanges_iff _).2 ⟨hw.2.2.1, hw.2.2.2⟩)
    · have hn : ∀ d ∈ gh.any_head, DetectAddressMatch d A ≠ 1 := by
        intro d _ hm
        rcases ((Match_eq_one d A).1 hm).2.1 with h | h
        · exact h4 h
        · exact h6 h
      rw [stopEarly_none A _ hn]
      symm
      rw [List.find?_eq_none]
      intro e he hme
      exact hn e he (by simpa using hme)

theorem DetectAddressLookupInHead_unique_witness :
    (∀ i j : Fin (scanList testHeadThree ⟨AF_INET, 25⟩).length,
      DetectAddressMatch ((scanList testHeadThree ⟨AF_INET, 25⟩).get i) ⟨AF_INET, 25⟩ = 1 →
      DetectAddressMatch ((scanList testHeadThree ⟨AF_INET, 25⟩).get j) ⟨AF_INET, 25⟩ = 1 →
      i = j) ∧
    (∀ d, DetectAddressLookupInHead testHeadThree ⟨AF_INET, 25⟩ = some d ↔
      d ∈ scanList testHeadThree ⟨AF_INET, 25⟩ ∧ DetectAddressMatch d ⟨AF_INET, 25⟩ = 1) ∧
    (∀ l : List DetectAddress, l.Perm (scanList testHeadThree ⟨AF_INET, 25⟩) →
      l.find? (fun d => DetectAddressMatch d ⟨AF_INET, 25⟩ == 1) =
        DetectAddressLookupInHead testHeadThree ⟨AF_INET, 25⟩) ∧
    lookupStopEarly ⟨AF_INET, 25⟩ (scanList testHeadThree ⟨AF_INET, 25⟩) =
      DetectAddressLookupInHead testHeadThree ⟨AF_INET, 25⟩ :=
  DetectAddressLookupInHead_unique testHeadThree ⟨AF_INET, 25⟩
    ⟨by decide, by simp [AdjacentSorted, testHeadThree, mkV4], by decide,
      by simp [AdjacentSorted, testHeadThree]⟩

/-! ## The equal case, the return code and the recursion depth of `DetectAddressInsert` -/

theorem InsertLoop_eq_case
    (rec : DetectAddressHead → DetectAddress → Run (Int × DetectAddressHead))
    (gh : DetectAddressHead) (x cur : DetectAddress) (pre rest : List DetectAddress)
    (h : DetectAddressCmp x cur = ADDRESS_EQ) :
    InsertLoop rec gh x pre (cur :: rest) =
      Run.done (0, putList gh x (pre ++ { cur with cnt := cur.cnt + x.cnt } :: rest)) := by
  simp [InsertLoop, h]

theorem Insert_unfold (n : Nat) (gh : DetectAddressHead) (x cur : DetectAddress)
    (rest : List DetectAddress) (hx : FamilyRecord x) (hl : GetHeadPtr gh x = cur :: rest) :
    DetectAddressInsert (n + 1) gh x =
      InsertLoop (DetectAddressInsert n) gh x [] (cur :: rest) := by
  have hfam0 : ¬ (x.family = 0 ∧ x.flag_any = false) := by
    rcases hx.1 with h | h <;> simp [h, AF_INET, AF_INET6]
  rw [DetectAddressInsert]
  simp only [hfam0, if_false]
  rw [hl]

theorem SortedRanges_split {f : Nat} (pre : List DetectAddress) (c : DetectAddress)
    (post : List DetectAddress) (hs : SortedRanges f 0 (pre ++ c :: post)) :
    (∀ p ∈ pre, p.family = f ∧ p.ip ≤ p.ip2 ∧ p.ip2 < c.ip) ∧
    c.family = f ∧ c.ip ≤ c.ip2 ∧ c.ip2 ≤ addrMax f := by
  have hc := SortedRanges_mem hs c (by simp)
  refine ⟨?_, hc.1, hc.2.2.1, hc.2.2.2⟩
  intro p hp
  have hpm := SortedRanges_mem hs p (by simp [hp])
  have hpw := (List.pairwise_append.1 (SortedRanges_pairwise hs)).2.2 p hp c
    (List.mem_cons_self _ _)
  exact ⟨hpm.1, hpm.2.2.1, hpw⟩

/-- C33. On a head whose IPv4 and IPv6 lists are sorted and disjoint and whose
list for the family of `x` holds a record `c` with the same `lo` and `hi` as the IPv4 or IPv6 range `x`,
`DetectAddressInsert` returns `0` for every recursion budget above zero; the
list keeps its records in their order, with the use count of `c` raised by
that of `x`, so its ranges and its length stay the same. -/
theorem DetectAddressInsert_equal (n : Nat) (gh : DetectAddressHead) (x c : DetectAddress)
    (pre post : List DetectAddress) (hw : WfHead gh) (hx : FamilyRecord x)
    (hl : GetHeadPtr gh x = pre ++ c :: post) (hlo : c.ip = x.ip) (hhi : c.ip2 = x.ip2) :
    DetectAddressInsert (n + 1) gh x =
      Run.done (0, putList gh x (pre ++ { c with cnt := c.cnt + x.cnt } :: post)) ∧
    GetHeadPtr (putList gh x (pre ++ { c with cnt := c.cnt + x.cnt } :: post)) x =
      pre ++ { c with cnt := c.cnt + x.cnt } :: post ∧
    rangesOf (pre ++ { c with cnt := c.cnt + x.cnt } :: post) = rangesOf (GetHeadPtr gh x) ∧
    (pre ++ { c with cnt := c.cnt + x.cnt } :: post).length = (GetHeadPtr gh x).length := by
  have hs := WfHead_GetHeadPtr gh x hx hw
  rw [hl] at hs
  obtain ⟨hpre, hcf, hcv, _⟩ := SortedRanges_split pre c post hs
  have hxv : x.ip ≤ x.ip2 := by omega
  have heq : DetectAddressCmp x c = ADDRESS_EQ := by
    rw [Cmp_family_record x c hx hcf]
    exact (addressRelation_iff x c hxv hcv ADDRESS_EQ).2 ⟨hlo.symm, hhi.symm⟩
  have hgt : ∀ p ∈ pre, DetectAddressCmp x p = ADDRESS_GT := fun p hp =>
    Cmp_gt_of_below x p hx ⟨(hpre p hp).1, (hpre p hp).2.1, by have := (hpre p hp).2.2; omega⟩ hxv
  refine ⟨?_, GetHeadPtr_putList gh x x _ hx hx rfl, ?_, ?_⟩
  · cases hpc : pre ++ c :: post with
    | nil => cases pre <;> simp at hpc
    | cons y ys =>
      rw [Insert_unfold n gh x y ys hx (by rw [hl, hpc]), ← hpc,
        InsertLoop_skip _ gh x pre [] (c :: post) hgt (by simp), List.nil_append,
        InsertLoop_eq_case _ gh x c pre post heq]
  · rw [hl]
    simp [rangesOf]
  · rw [hl]
    simp

theorem DetectAddressInsert_equal_witness :
    DetectAddressInsert (0 + 1) testHeadThree (mkV4 20 30) =
      Run.done (0, putList testHeadThree (mkV4 20 30)
        ([mkV4 5 12] ++ { mkV4 20 30 with cnt := (mkV4 20 30).cnt + (mkV4 20 30).cnt } ::
          [mkV4 40 50])) ∧
    GetHeadPtr (putList testHeadThree (mkV4 20 30)
        ([mkV4 5 12] ++ { mkV4 20 30 with cnt := (mkV4 20 30).cnt + (mkV4 20 30).cnt } ::
          [mkV4 40 50])) (mkV4 20 30) =
      [mkV4 5 12] ++ { mkV4 20 30 with cnt := (mkV4 20 30).cnt + (mkV4 20 30).cnt } ::
        [mkV4 40 50] ∧
    rangesOf ([mkV4 5 12] ++ { mkV4 20 30 with cnt := (mkV4 20 30).cnt + (mkV4 20 30).cnt } ::
        [mkV4 40 50]) = rangesOf (GetHeadPtr testHeadThree (mkV4 20 30)) ∧
    ([mkV4 5 12] ++ { mkV4 20 30 with cnt := (mkV4 20 30).cnt + (mkV4 20 30).cnt } ::
        [mkV4 40 50]).length = (GetHeadPtr testHeadThree (mkV4 20 30)).length :=
  DetectAddressInsert_equal 0 testHeadThree (mkV4 20 30) (mkV4 20 30) [mkV4 5 12] [mkV4 40 50]
    ⟨by decide, by simp [AdjacentSorted, testHeadThree, mkV4], by decide,
      by simp [AdjacentSorted, testHeadThree]⟩ (by decide) (by decide) rfl rfl

/-- C35. On a head whose IPv4 and IPv6 lists are sorted and disjoint,
`DetectAddressInsert` of an IPv4 or IPv6 range with `lo <= hi` returns `0` or
`1`: the re-insertion of the pieces of a cut recurses at most as deep as the
list of the family is long, so every recursion budget above that length gives
the same result. -/
theorem DetectAddressInsert_terminates (gh : DetectAddressHead) (x : DetectAddress)
    (hw : WfHead gh) (hx : FamilyRecord x) (hv : validRange x) :
    ∃ r gh1, (r = 0 ∨ r = 1) ∧
      ∀ n, (GetHeadPtr gh x).length < n → DetectAddressInsert n gh x = Run.done (r, gh1) := by
  have hs := WfHead_GetHeadPtr gh x hx hw
  obtain ⟨r, hr, he⟩ := DetectAddressInsert_eq_insertSorted
    ((GetHeadPtr gh x).length + 1) gh x hx hv hs (by omega)
  refine ⟨r, putList gh x (insertSorted (GetHeadPtr gh x) x), hr, ?_⟩
  intro n hn
  exact DetectAddressInsert_mono _ n gh x _ (by omega) he

theorem DetectAddressInsert_terminates_witness :
    ∃ r gh1, (r = 0 ∨ r = 1) ∧
      ∀ n, (GetHeadPtr testHeadThree (mkV4 0 100)).length < n →
        DetectAddressInsert n testHeadThree (mkV4 0 100) = Run.done (r, gh1) :=
  DetectAddressInsert_terminates testHeadThree (mkV4 0 100)
    ⟨by decide, by simp [AdjacentSorted, testHeadThree, mkV4], by decide,
      by simp [AdjacentSorted, testHeadThree]⟩ (by decide) (by decide)

/-- C34. The head with the IPv4 ranges 1.2.3.0-1.2.3.6 and 1.2.3.7-1.2.3.9 and
the new range 1.2.3.0-1.2.3.9: the cut against the first record leaves
1.2.3.7-1.2.3.9 in `new` (the pieces that `AddressTestCutIPv407` expects), the
nested call `DetectAddressInsert(gh, new)` finds the equal second record,
merges `new` into it and returns `0` (the case in which the C code frees
`new`), and the outer call still returns `1`; the list holds the two old
records only. -/
theorem DetectAddressInsert_one_after_merge (n : Nat) :
    DetectAddressCmp (rangeV4 16909056 16909065) (rangeV4 16909056 16909062) = ADDRESS_EB ∧
    DetectAddressCut (rangeV4 16909056 16909062) (rangeV4 16909056 16909065) =
      some (rangeV4 16909056 16909062, rangeV4 16909063 16909065, none) ∧
    DetectAddressInsert (n + 1) testHeadTwo (rangeV4 16909063 16909065) =
      Run.done (0, testHeadTwo) ∧
    DetectAddressInsert (n + 2) testHeadTwo (rangeV4 16909056 16909065) =
      Run.done (1, testHeadTwo) := by
  refine ⟨by decide, by decide, ?_, ?_⟩
  · exact DetectAddressInsert_mono 1 (n + 1) _ _ _ (by omega) (by decide)
  · exact DetectAddressInsert_mono 2 (n + 2) _ _ _ (by omega) (by decide)

/-! ## Flags of the records under insertion and the wildcard list -/

theorem Cut_pieces {P : DetectAddress → Prop} (hP : FlagProp P) (a b a1 b1 : DetectAddress)
    (c : Option DetectAddress) (h : DetectAddressCut a b = some (a1, b1, c))
    (ha : P a) (hb : P b) :
    P a1 ∧ P b1 ∧ (∀ c1, c = some c1 → P c1 ∧ c1.flag_any = false) ∧
    b1.flag_any = b.flag_any := by
  have key : addressCut a b = some (a1, b1, c) := by
    unfold DetectAddressCut DetectAddressCutIPv4 DetectAddressCutIPv6 at h
    split_ifs at h
    · exact h
    · exact h
  unfold addressCut at key
  simp only at key
  split at key
  · split_ifs at key <;> cases key
    · exact ⟨hP.range _ _ _ ha, hP.range _ _ _ hb, by simp, rfl⟩
    · exact ⟨hP.range _ _ _ ha, hP.range _ _ _ hb, by simp, rfl⟩
    · refine ⟨hP.range _ _ _ ha, hP.range _ _ _ hb, ?_, rfl⟩
      intro c1 hc1
      cases hc1
      exact ⟨hP.init _ _ _, rfl⟩
  · split_ifs at key <;> cases key
    · exact ⟨hP.range _ _ _ ha, hP.range _ _ _ hb, by simp, rfl⟩
    · exact ⟨hP.range _ _ _ ha, hP.range _ _ _ hb, by simp, rfl⟩
    · refine ⟨hP.range _ _ _ ha, hP.range _ _ _ hb, ?_, rfl⟩
      intro c1 hc1
      cases hc1
      exact ⟨hP.init _ _ _, rfl⟩
  · cases key
    refine ⟨hP.range _ _ _ ha, hP.range _ _ _ hb, ?_, rfl⟩
    intro c1 hc1
    cases hc1
    exact ⟨hP.init _ _ _, rfl⟩
  · cases key
    refine ⟨hP.range _ _ _ ha, hP.range _ _ _ hb, ?_, rfl⟩
    intro c1 hc1
    cases hc1
    exact ⟨hP.init _ _ _, rfl⟩
  · cases key

theorem putList_familyAll {P : DetectAddress → Prop} (gh : DetectAddressHead)
    (x : DetectAddress) (l : List DetectAddress) (hx : x.flag_any = false)
    (hg : FamilyAll P gh) (hl : ∀ d ∈ l, P d) :
    FamilyAll P (putList gh x l) ∧ (putList gh x l).any_head = gh.any_head := by
  unfold putList SetHeadPtr
  simp only [hx, Bool.false_eq_true, if_false]
  split_ifs
  · exact ⟨⟨hl, hg.2⟩, rfl⟩
  · exact ⟨⟨hg.1, hl⟩, rfl⟩
  · exact ⟨hg, rfl⟩

theorem GetHeadPtr_familyAll {P : DetectAddress → Prop} (gh : DetectAddressHead)
    (x : DetectAddress) (hx : x.flag_any = false) (hg : FamilyAll P gh) :
    ∀ d ∈ GetHeadPtr gh x, P d := by
  unfold GetHeadPtr
  simp only [hx, Bool.false_eq_true, if_false]
  split_ifs
  · exact hg.1
  · exact hg.2
  · simp

theorem InsertLoop_familyAll {P : DetectAddress → Prop} (hP : FlagProp P)
    (rec : DetectAddressHead → DetectAddress → Run (Int × DetectAddressHead))
    (hrec : ∀ g y r g1, FamilyAll P g → P y → y.flag_any = false →
      rec g y = Run.done (r, g1) → FamilyAll P g1 ∧ g1.any_head = g.any_head)
    (gh : DetectAddressHead) (x : DetectAddress) (hx : P x) (hxa : x.flag_any = false)
    (hg : FamilyAll P gh) (r : Int) (gh1 : DetectAddressHead) :
    ∀ (rest pre : List DetectAddress), (∀ d ∈ pre, P d) → (∀ d ∈ rest, P d) →
      InsertLoop rec gh x pre rest = Run.done (r, gh1) →
      FamilyAll P gh1 ∧ gh1.any_head = gh.any_head
  | [], _, _, _, h => by
    simp only [InsertLoop, Run.done.injEq, Prod.mk.injEq] at h
    rw [← h.2]
    exact ⟨hg, rfl⟩
  | cur :: rest, pre, hpre, hrest, h => by
    have hcur : P cur := hrest cur (List.mem_cons_self _ _)
    have hrest2 : ∀ d ∈ rest, P d := fun d hd => hrest d (List.mem_cons_of_mem _ hd)
    by_cases hEQ : DetectAddressCmp x cur = ADDRESS_EQ
    · rw [InsertLoop_eq_case _ gh x cur pre rest hEQ] at h
      cases h
      refine putList_familyAll gh x _ hxa hg ?_
      intro d hd
      rcases List.mem_append.1 hd with hd | hd
      · exact hpre d hd
      · rcases List.mem_cons.1 hd with hd | hd
        · rw [hd]; exact hP.cnt _ _ hcur
        · exact hrest2 d hd
    by_cases hLT : DetectAddressCmp x cur = ADDRESS_LT
    · simp only [InsertLoop, hLT, Run.done.injEq, Prod.mk.injEq] at h
      rw [← h.2]
      refine putList_familyAll gh x _ hxa hg ?_
      intro d hd
      rcases List.mem_append.1 hd with hd | hd
      · exact hpre d hd
      · rcases List.mem_cons.1 hd with hd | hd
        · rw [hd]; exact hx
        · exact hrest d hd
    by_cases hER : DetectAddressCmp x cur = ADDRESS_ER
    · simp [InsertLoop, hER] at h
    by_cases hGT : DetectAddressCmp x cur = ADDRESS_GT
    · cases rest with
      | nil =>
        rw [InsertLoop_gt_nil _ gh x cur pre hGT] at h
        cases h
        refine putList_familyAll gh x _ hxa hg ?_
        intro d hd
        rcases List.mem_append.1 hd with hd | hd
        · exact hpre d hd
        · simp only [List.mem_cons, List.mem_singleton, List.not_mem_nil, or_false] at hd
          rcases hd with hd | hd
          · rw [hd]; exact hcur
          · rw [hd]; exact hx
      | cons y ys =>
        rw [InsertLoop_gt_cons _ gh x cur y pre ys hGT] at h
        refine InsertLoop_familyAll hP rec hrec gh x hx hxa hg r gh1 (y :: ys) (pre ++ [cur])
          ?_ hrest2 h
        intro d hd
        rcases List.mem_append.1 hd with hd | hd
        · exact hpre d hd
        · rw [List.mem_singleton.1 hd]; exact hcur
    · rw [InsertLoop_overlap _ gh x cur pre rest hER hEQ hGT hLT] at h
      cases hcut : DetectAddressCut cur x with
      | none =>
        simp only [hcut, Run.done.injEq, Prod.mk.injEq] at h
        rw [← h.2]
        exact ⟨hg, rfl⟩
      | some t =>
        obtain ⟨cur1, x1, c⟩ := t
        obtain ⟨hc1, hx1, hcc, hx1a⟩ := Cut_pieces hP cur x cur1 x1 c hcut hcur hx
        simp only [hcut] at h
        have hput := putList_familyAll gh x (pre ++ cur1 :: rest) hxa hg (by
          intro d hd
          rcases List.mem_append.1 hd with hd | hd
          · exact hpre d hd
          · rcases List.mem_cons.1 hd with hd | hd
            · rw [hd]; exact hc1
            · exact hrest2 d hd)
        cases h1 : rec (putList gh x (pre ++ cur1 :: rest)) x1 with
        | bug => simp [h1] at h
        | fuel => simp [h1] at h
        | done v1 =>
          obtain ⟨r1, gh2⟩ := v1
          have h2 := hrec _ _ _ _ hput.1 hx1 (by rw [hx1a, hxa]) h1
          simp only [h1] at h
          cases c with
          | none =>
            simp only [Run.done.injEq, Prod.mk.injEq] at h
            rw [← h.2]
            exact ⟨h2.1, by rw [h2.2, hput.2]⟩
          | some c1 =>
            simp only at h
            cases h3 : rec gh2 c1 with
            | bug => simp [h3] at h
            | fuel => simp [h3] at h
            | done v2 =>
              obtain ⟨r2, gh3⟩ := v2
              have h4 := hrec _ _ _ _ h2.1 (hcc c1 rfl).1 (hcc c1 rfl).2 h3
              simp only [h3, Run.done.injEq, Prod.mk.injEq] at h
              rw [← h.2]
              exact ⟨h4.1, by rw [h4.2, h2.2, hput.2]⟩

/-- Inserting a record without the ANY flag keeps a property of the records of
the family lists and does not touch the wildcard list. -/
theorem Insert_familyAll {P : DetectAddress → Prop} (hP : FlagProp P) :
    ∀ (n : Nat) (gh : DetectAddressHead) (x : DetectAddress) (r : Int)
      (gh1 : DetectAddressHead), FamilyAll P gh → P x → x.flag_any = false →
      DetectAddressInsert n gh x = Run.done (r, gh1) →
      FamilyAll P gh1 ∧ gh1.any_head = gh.any_head
  | 0, _, _, _, _, _, _, _, h => by simp [DetectAddressInsert] at h
  | n + 1, gh, x, r, gh1, hg, hx, hxa, h => by
    rw [DetectAddressInsert] at h
    split_ifs at h
    have hall := GetHeadPtr_familyAll gh x hxa hg
    cases hl : GetHeadPtr gh x with
    | nil =>
      simp only [hl] at h
      have hput := putList_familyAll gh x [x] hxa hg (by simp [hx])
      unfold putList at hput
      cases hs : SetHeadPtr gh x [x] with
      | none =>
        simp only [hs, Run.done.injEq, Prod.mk.injEq] at h
        rw [← h.2]
        exact ⟨hg, rfl⟩
      | some g2 =>
        simp only [hs, Run.done.injEq, Prod.mk.injEq] at h
        rw [hs] at hput
        rw [← h.2]
        exact hput
    | cons cur rest =>
      simp only [hl] at h
      rw [hl] at hall
      exact InsertLoop_familyAll hP (DetectAddressInsert n)
        (fun g y r g1 => Insert_familyAll hP n g y r g1) gh x hx hxa hg r gh1 (cur :: rest) []
        (by simp) hall h

/-- Inserting a record with the ANY flag into a head whose wildcard list holds
at most one record, flagged ANY. -/
theorem Insert_any_case (n : Nat) (gh gh1 : DetectAddressHead) (x : DetectAddress) (r : Int)
    (hxa : x.flag_any = true) (hlen : gh.any_head.length ≤ 1)
    (hall : ∀ d ∈ gh.any_head, d.flag_any = true)
    (h : DetectAddressInsert n gh x = Run.done (r, gh1)) :
    gh1.ipv4_head = gh.ipv4_head ∧ gh1.ipv6_head = gh.ipv6_head ∧
    ((gh.any_head = [] ∧ r = 1 ∧ gh1.any_head = [x]) ∨
     (∃ c, gh.any_head = [c] ∧ c.family = x.family ∧ r = 0 ∧
       gh1.any_head = [{ c with cnt := c.cnt + x.cnt }])) := by
  cases n with
  | zero => simp [DetectAddressInsert] at h
  | succ n =>
    rw [DetectAddressInsert] at h
    simp only [hxa, Bool.true_eq_false, and_false, if_false, GetHeadPtr, SetHeadPtr,
      if_true] at h
    cases hl : gh.any_head with
    | nil =>
      simp only [hl, Run.done.injEq, Prod.mk.injEq] at h
      rw [← h.2]
      exact ⟨rfl, rfl, Or.inl ⟨rfl, h.1.symm, rfl⟩⟩
    | cons c rest =>
      have hr : rest = [] := by
        rw [hl] at hlen
        cases rest with
        | nil => rfl
        | cons _ _ => simp at hlen
      subst hr
      have hc : c.flag_any = true := hall c (by rw [hl]; exact List.mem_cons_self _ _)
      simp only [hl] at h
      by_cases hf : x.family = c.family
      · have hcmp : DetectAddressCmp x c = ADDRESS_EQ := by
          unfold DetectAddressCmp
          simp [hf, hxa, hc]
        rw [InsertLoop_eq_case _ gh x c [] [] hcmp] at h
        simp only [putList, SetHeadPtr, hxa, if_true, Option.getD_some, List.nil_append,
          Run.done.injEq, Prod.mk.injEq] at h
        rw [← h.2]
        exact ⟨rfl, rfl, Or.inr ⟨c, rfl, hf.symm, h.1.symm, rfl⟩⟩
      · have hcmp : DetectAddressCmp x c = ADDRESS_ER := by
          unfold DetectAddressCmp
          rw [if_pos hf]
        simp [InsertLoop, hcmp] at h

theorem flagProp_noany : FlagProp (fun d => d.flag_any = false) :=
  ⟨fun _ _ h => h, fun _ _ _ h => h, fun _ _ _ => rfl⟩

theorem Insert_singleAny (n : Nat) (gh gh1 : DetectAddressHead) (x : DetectAddress) (r : Int)
    (hi : SingleAny gh) (h : DetectAddressInsert n gh x = Run.done (r, gh1)) :
    SingleAny gh1 := by
  cases hxa : x.flag_any with
  | false =>
    have := Insert_familyAll flagProp_noany n gh x r gh1 hi.2.2 hxa hxa h
    exact ⟨by rw [this.2]; exact hi.1, by rw [this.2]; exact hi.2.1, this.1⟩
  | true =>
    obtain ⟨h4, h6, hc⟩ := Insert_any_case n gh gh1 x r hxa hi.1 hi.2.1 h
    refine ⟨?_, ?_, ?_⟩
    · rcases hc with ⟨_, _, e⟩ | ⟨c, _, _, _, e⟩ <;> simp [e]
    · rcases hc with ⟨_, _, e⟩ | ⟨c, hc, _, _, e⟩
      · simp [e, hxa]
      · have := hi.2.1 c (by simp [hc])
        simp [e, this]
    · exact ⟨by rw [h4]; exact hi.2.2.1, by rw [h6]; exact hi.2.2.2⟩

theorem insertAll_singleAny (n : Nat) :
    ∀ (xs : List DetectAddress) (gh g : DetectAddressHead), SingleAny gh →
      insertAll n gh xs = Run.done g → SingleAny g
  | [], gh, g, hi, h => by
    simp only [insertAll, Run.done.injEq] at h
    rw [← h]
    exact hi
  | x :: xs, gh, g, hi, h => by
    rw [insertAll] at h
    cases h1 : DetectAddressInsert n gh x with
    | bug => simp [h1] at h
    | fuel => simp [h1] at h
    | done v =>
      obtain ⟨r, gh1⟩ := v
      simp only [h1] at h
      exact insertAll_singleAny n xs gh1 g (Insert_singleAny n gh gh1 x r hi h1) h

/-- C37. After any sequence of `DetectAddressInsert` calls from an empty head
the wildcard list holds at most one record and only records with the ANY flag.
A further call that returns leaves the wildcard list as it is when the new
record has no ANY flag; when it has the flag and the wildcard list holds a
record, the call returns `0` and the list keeps that one record, with the use
count raised by that of the new record (the same list when that count is zero,
as for a record the parser builds). The call does return when the new record
has the family field of the record present, and stops at the `BUG_ON` of the
error relation otherwise. -/
theorem DetectAddressInsert_any_single (n : Nat) (xs : List DetectAddress)
    (g : DetectAddressHead) (h : insertAll n DetectAddressHeadInit xs = Run.done g) :
    g.any_head.length ≤ 1 ∧ (∀ d ∈ g.any_head, d.flag_any = true) ∧
    (∀ m x r g1, DetectAddressInsert m g x = Run.done (r, g1) →
      (x.flag_any = false → g1.any_head = g.any_head) ∧
      (x.flag_any = true → g.any_head ≠ [] →
        r = 0 ∧ ∃ c, g.any_head = [c] ∧ g1.any_head = [{ c with cnt := c.cnt + x.cnt }] ∧
          (x.cnt = 0 → g1.any_head = g.any_head))) ∧
    (∀ m x c, x.flag_any = true → g.any_head = [c] →
      (x.family = c.family → DetectAddressInsert (m + 1) g x =
        Run.done (0, { g with any_head := [{ c with cnt := c.cnt + x.cnt }] })) ∧
      (x.family ≠ c.family → DetectAddressInsert (m + 1) g x = Run.bug)) := by
  have hi : SingleAny g := insertAll_singleAny n xs _ g
    ⟨by simp [DetectAddressHeadInit], by simp [DetectAddressHeadInit],
      by simp [FamilyAll, DetectAddressHeadInit]⟩ h
  refine ⟨hi.1, hi.2.1, ?_, ?_⟩
  · intro m x r g1 hm
    refine ⟨fun hxa => (Insert_familyAll flagProp_noany m g x r g1 hi.2.2 hxa hxa hm).2, ?_⟩
    intro hxa hne
    obtain ⟨_, _, hc⟩ := Insert_any_case m g g1 x r hxa hi.1 hi.2.1 hm
    rcases hc with ⟨e, _, _⟩ | ⟨c, hc, _, hr, e⟩
    · exact absurd e hne
    · refine ⟨hr, c, hc, e, ?_⟩
      intro h0
      rw [e, hc, h0]
      rfl
  · intro m x c hxa hc
    have hca : c.flag_any = true := hi.2.1 c (by simp [hc])
    constructor
    · intro hf
      have hcmp : DetectAddressCmp x c = ADDRESS_EQ := by
        unfold DetectAddressCmp
        simp [hf, hxa, hca]
      rw [DetectAddressInsert]
      simp only [hxa, Bool.true_eq_false, and_false, if_false, GetHeadPtr, if_true, hc]
      rw [InsertLoop_eq_case _ g x c [] [] hcmp]
      simp [putList, SetHeadPtr, hxa]
    · intro hf
      have hcmp : DetectAddressCmp x c = ADDRESS_ER := by
        unfold DetectAddressCmp
        rw [if_pos hf]
      rw [DetectAddressInsert]
      simp only [hxa, Bool.true_eq_false, and_false, if_false, GetHeadPtr, if_true, hc]
      simp [InsertLoop, hcmp]

theorem DetectAddressInsert_any_single_witness :
    testHeadAnyOne.any_head.length ≤ 1 ∧ (∀ d ∈ testHeadAnyOne.any_head, d.flag_any = true) ∧
    (∀ m x r g1, DetectAddressInsert m testHeadAnyOne x = Run.done (r, g1) →
      (x.flag_any = false → g1.any_head = testHeadAnyOne.any_head) ∧
      (x.flag_any = true → testHeadAnyOne.any_head ≠ [] →
        r = 0 ∧ ∃ c, testHeadAnyOne.any_head = [c] ∧
          g1.any_head = [{ c with cnt := c.cnt + x.cnt }] ∧
          (x.cnt = 0 → g1.any_head = testHeadAnyOne.any_head))) ∧
    (∀ m x c, x.flag_any = true → testHeadAnyOne.any_head = [c] →
      (x.family = c.family → DetectAddressInsert (m + 1) testHeadAnyOne x =
        Run.done (0, { testHeadAnyOne with any_head := [{ c with cnt := c.cnt + x.cnt }] })) ∧
      (x.family ≠ c.family → DetectAddressInsert (m + 1) testHeadAnyOne x = Run.bug)) :=
  DetectAddressInsert_any_single 2 [anyRecord, mkV4 1 2, anyRecord] testHeadAnyOne (by decide)

/-! ## The relations between negated and positive records during the merge -/

theorem Cmp_after_cut {f : Nat} (l : List DetectAddress) (hl : SortedRanges f 0 l)
    (s p : DetectAddress) (hs : FamilyRecord s) (hsf : s.family = f) (hsv : s.ip ≤ s.ip2)
    (hc1 : cutPoint l s.ip) (hc2 : cutPoint l (s.ip2 + 1)) (hp : p ∈ l) :
    DetectAddressCmp s p = ADDRESS_EQ ∨ DetectAddressCmp s p = ADDRESS_EB ∨
    DetectAddressCmp s p = ADDRESS_LT ∨ DetectAddressCmp s p = ADDRESS_GT := by
  obtain ⟨hpf, _, hpv, _⟩ := SortedRanges_mem hl p hp
  have hfam : p.family = s.family := by rw [hpf, hsf]
  have n1 := no_cutPoint_inside hl hp hc1
  have n2 := no_cutPoint_inside hl hp hc2
  have hcov := Cmp_covers s p hs hfam hsv hpv
  by_cases hlt : s.ip2 < p.ip
  · right; right; left
    rw [Cmp_family_record s p hs hfam]
    exact (addressRelation_iff s p hsv hpv ADDRESS_LT).2 hlt
  by_cases hgt : s.ip > p.ip2
  · right; right; right
    rw [Cmp_family_record s p hs hfam]
    exact (addressRelation_iff s p hsv hpv ADDRESS_GT).2 hgt
  have : DetectAddressCmp s p = ADDRESS_EQ ∨ DetectAddressCmp s p = ADDRESS_EB :=
    hcov.2 (by omega)
  rcases this with h | h
  · exact Or.inl h
  · exact Or.inr (Or.inl h)

/-- C36. In `DetectAddressMergeNot`, on heads with sorted and disjoint lists,
once the copies of the records of the negated head are inserted into the
positive head (IPv4 list, then IPv6 list), every negated record `s` and every
positive record `p` of its family compare as EQ, EB, LT or GT, so never as ES,
LE or GE; and unlinking the positive records with relation EQ or EB leaves
covered exactly the addresses that were covered and lie in no negated
range. -/
theorem DetectAddressMergeNot_relations (n : Nat) (gh ghn g2 g3 : DetectAddressHead)
    (r2 r3 : Int) (hi : HeadInv gh) (hin : HeadInv ghn)
    (h2 : mergeNotInsert n gh ghn.ipv4_head = Run.done (r2, g2))
    (h3 : mergeNotInsert n g2 ghn.ipv6_head = Run.done (r3, g3)) :
    (∀ s ∈ ghn.ipv4_head, ∀ p ∈ g3.ipv4_head,
      (DetectAddressCmp s p = ADDRESS_EQ ∨ DetectAddressCmp s p = ADDRESS_EB ∨
        DetectAddressCmp s p = ADDRESS_LT ∨ DetectAddressCmp s p = ADDRESS_GT) ∧
      DetectAddressCmp s p ≠ ADDRESS_ES ∧ DetectAddressCmp s p ≠ ADDRESS_LE ∧
      DetectAddressCmp s p ≠ ADDRESS_GE) ∧
    (∀ s ∈ ghn.ipv6_head, ∀ p ∈ g3.ipv6_head,
      (DetectAddressCmp s p = ADDRESS_EQ ∨ DetectAddressCmp s p = ADDRESS_EB ∨
        DetectAddressCmp s p = ADDRESS_LT ∨ DetectAddressCmp s p = ADDRESS_GT) ∧
      DetectAddressCmp s p ≠ ADDRESS_ES ∧ DetectAddressCmp s p ≠ ADDRESS_LE ∧
      DetectAddressCmp s p ≠ ADDRESS_GE) ∧
    (∀ A, covered (mergeNotPull ghn.ipv4_head g3.ipv4_head) A ↔
      covered g3.ipv4_head A ∧ ¬ covered ghn.ipv4_head A) ∧
    (∀ A, covered (mergeNotPull ghn.ipv6_head g3.ipv6_head) A ↔
      covered g3.ipv6_head A ∧ ¬ covered ghn.ipv6_head A) := by
  obtain ⟨hn4, hn6⟩ := HeadInv_records ghn hin
  obtain ⟨_, hi2, _, _, hall2⟩ := mergeNotInsert_spec n _ gh g2 r2 hi
    (fun d hd => ⟨(hn4 d hd).1, (hn4 d hd).2.1⟩) h2
  obtain ⟨_, hi3, href3, _, hall3⟩ := mergeNotInsert_spec n _ g2 g3 r3 hi2
    (fun d hd => ⟨(hn6 d hd).1, (hn6 d hd).2.1⟩) h3
  have hs4 : SortedRanges AF_INET 0 g3.ipv4_head := (SortedRanges_iff _).2 ⟨hi3.1.1, hi3.1.2.1⟩
  have hs6 : SortedRanges AF_INET6 0 g3.ipv6_head :=
    (SortedRanges_iff _).2 ⟨hi3.1.2.2.1, hi3.1.2.2.2⟩
  have hc4 : ∀ s ∈ ghn.ipv4_head, FamilyRecord s ∧ s.family = AF_INET ∧ s.ip ≤ s.ip2 ∧
      cutPoint g3.ipv4_head s.ip ∧ cutPoint g3.ipv4_head (s.ip2 + 1) := by
    intro s hs
    obtain ⟨hsr, hsv, hsf⟩ := hn4 s hs
    obtain ⟨_, c1, c2⟩ := hall2 s hs
    have e2 := (putList_v4 g2 s [] hsr hsf).2
    rw [e2] at c1 c2
    exact ⟨hsr, hsf, hsv.1, href3.2.1 _ c1, href3.2.1 _ c2⟩
  have hc6 : ∀ s ∈ ghn.ipv6_head, FamilyRecord s ∧ s.family = AF_INET6 ∧ s.ip ≤ s.ip2 ∧
      cutPoint g3.ipv6_head s.ip ∧ cutPoint g3.ipv6_head (s.ip2 + 1) := by
    intro s hs
    obtain ⟨hsr, hsv, hsf⟩ := hn6 s hs
    obtain ⟨_, c1, c2⟩ := hall3 s hs
    have e2 := (putList_v6 g3 s [] hsr hsf).2
    rw [e2] at c1 c2
    exact ⟨hsr, hsf, hsv.1, c1, c2⟩
  have four : ∀ r : AddressRel, (r = ADDRESS_EQ ∨ r = ADDRESS_EB ∨ r = ADDRESS_LT ∨
      r = ADDRESS_GT) → r ≠ ADDRESS_ES ∧ r ≠ ADDRESS_LE ∧ r ≠ ADDRESS_GE := by
    intro r hr
    rcases hr with h | h | h | h <;> rw [h] <;> decide
  refine ⟨?_, ?_, ?_, ?_⟩
  · intro s hs p hp
    obtain ⟨a, b, c, d, e⟩ := hc4 s hs
    have := Cmp_after_cut _ hs4 s p a b c d e hp
    exact ⟨this, four _ this⟩
  · intro s hs p hp
    obtain ⟨a, b, c, d, e⟩ := hc6 s hs
    have := Cmp_after_cut _ hs6 s p a b c d e hp
    exact ⟨this, four _ this⟩
  · exact fun A => mergeNotPull_covered ghn.ipv4_head g3.ipv4_head hs4 hc4 A
  · exact fun A => mergeNotPull_covered ghn.ipv6_head g3.ipv6_head hs6 hc6 A


theorem DetectAddressMergeNot_relations_witness :
    (∀ s ∈ testMergeNeg.ipv4_head, ∀ p ∈ testMergeCut.ipv4_head,
      (DetectAddressCmp s p = ADDRESS_EQ ∨ DetectAddressCmp s p = ADDRESS_EB ∨
        DetectAddressCmp s p = ADDRESS_LT ∨ DetectAddressCmp s p = ADDRESS_GT) ∧
      DetectAddressCmp s p ≠ ADDRESS_ES ∧ DetectAddressCmp s p ≠ ADDRESS_LE ∧
      DetectAddressCmp s p ≠ ADDRESS_GE) ∧
    (∀ s ∈ testMergeNeg.ipv6_head, ∀ p ∈ testMergeCut.ipv6_head,
      (DetectAddressCmp s p = ADDRESS_EQ ∨ DetectAddressCmp s p = ADDRESS_EB ∨
        DetectAddressCmp s p = ADDRESS_LT ∨ DetectAddressCmp s p = ADDRESS_GT) ∧
      DetectAddressCmp s p ≠ ADDRESS_ES ∧ DetectAddressCmp s p ≠ ADDRESS_LE ∧
      DetectAddressCmp s p ≠ ADDRESS_GE) ∧
    (∀ A, covered (mergeNotPull testMergeNeg.ipv4_head testMergeCut.ipv4_head) A ↔
      covered testMergeCut.ipv4_head A ∧ ¬ covered testMergeNeg.ipv4_head A) ∧
    (∀ A, covered (mergeNotPull testMergeNeg.ipv6_head testMergeCut.ipv6_head) A ↔
      covered testMergeCut.ipv6_head A ∧ ¬ covered testMergeNeg.ipv6_head A) :=
  DetectAddressMergeNot_relations 3 testMergePos testMergeNeg testMergeMid testMergeCut 0 0
    ⟨⟨by decide, by simp [AdjacentSorted, testMergePos], by decide,
      by simp [AdjacentSorted, testMergePos]⟩, by simp [testMergePos], by decide, by decide⟩
    ⟨⟨by decide, by simp [AdjacentSorted, testMergeNeg], by decide,
      by simp [AdjacentSorted, testMergeNeg]⟩, by simp [testMergeNeg], by decide, by decide⟩
    (by decide) (by decide)

/-! ## The empty list `[]` -/

theorem Parse2_unfold (E : Extern) (n : Nat) (gh ghn : DetectAddressHead) (s : List Char)
    (neg : Bool) :
    DetectAddressParse2 E (n + 1) gh ghn s neg =
      Parse2Loop E n (DetectAddressParse2 E n) neg ⟨[], false, false, false, 0, gh, ghn⟩ s :=
  rfl

/-- A bracketed text that fits the buffer is handed to the recursive call. -/
theorem Parse2_bracketed (E : Extern) (n : Nat) (gh ghn : DetectAddressHead) (w : List Char)
    (neg : Bool) (hw : Scans E n (DetectAddressParse2 E n) neg w) (hl : w.length ≤ 1023) :
    DetectAddressParse2 E (n + 1) gh ghn ('[' :: (w ++ [']'])) neg =
      (DetectAddressParse2 E n gh ghn w neg).andThen (fun g gn => Run.done (0, g, gn)) := by
  rw [Parse2_unfold, step_open E n _ neg [] false false 0 gh ghn _ (by simp),
    hw [] false false (0 + 1) gh ghn [']'] (by omega) (by simp)]
  simp only [List.length_nil, Nat.zero_add, List.nil_append]
  rw [if_pos (by omega)]
  have h1 : ((0 : Int) + 1) = 1 := by norm_num
  rw [h1, step_close E n _ neg w true false false gh ghn [] (by omega)]
  simp only [Bool.or_false, Parse2Loop_nil]

/-- An empty list after the items of a list is walked over without a call that
changes the heads. -/
theorem items_then (E : Extern) (n : Nat)
    (rec : DetectAddressHead → DetectAddressHead → List Char → Bool →
      Run (Int × DetectAddressHead × DetectAddressHead))
    (negate : Bool) : ∀ (es : ExprList), WfList es → (renderList es).length ≤ 1023 →
    ∀ (gh ghn : DetectAddressHead) (more : List Char),
    Parse2Loop E n rec negate ⟨[], false, false, false, 0, gh, ghn⟩
        (renderList es ++ ',' :: more) =
      (evalItems E n rec negate es gh ghn).andThen
        (fun g gn => Parse2Loop E n rec negate ⟨[], false, false, false, 0, g, gn⟩ more)
  | ExprList.single e, h, hl, gh, ghn, more => by
    simp only [renderList, evalItems] at hl ⊢
    rw [item_comma E n rec negate e h hl false gh ghn more, andThen_assoc]
    rfl
  | ExprList.cons e es, h, hl, gh, ghn, more => by
    simp only [renderList, evalItems, List.length_append, List.length_cons] at hl ⊢
    rw [List.append_assoc, List.cons_append,
      item_comma E n rec negate e h.1 (by omega) false gh ghn, andThen_assoc]
    congr 1
    funext g gn
    exact items_then E n rec negate es h.2 (by omega) g gn more

theorem Parse2_nil (E : Extern) (n : Nat) (gh ghn : DetectAddressHead) (neg : Bool) :
    DetectAddressParse2 E (n + 1) gh ghn [] neg = Run.done (0, gh, ghn) := by
  rw [Parse2_unfold, Parse2Loop_nil]

theorem Parse2_empty_list (E : Extern) (n : Nat) (gh ghn : DetectAddressHead) (neg : Bool) :
    DetectAddressParse2 E (n + 2) gh ghn ['[', ']'] neg = Run.done (0, gh, ghn) := by
  have := Parse2_bracketed E (n + 1) gh ghn [] neg (Scans_nil E (n + 1) _ neg) (by simp)
  simp only [List.nil_append] at this
  rw [this, Parse2_nil]
  simp [Run.andThen]

theorem Parse2_items_empty (E : Extern) (n : Nat) (gh ghn : DetectAddressHead) (neg : Bool)
    (L : ExprList) (hw : WfList L) (hl : (renderList L).length ≤ 1023) :
    DetectAddressParse2 E (n + 3) gh ghn (renderList L ++ [',', '[', ']']) neg =
      DetectAddressParse2 E (n + 3) gh ghn (renderList L) neg := by
  rw [Parse2_unfold, items_then E (n + 2) _ neg L hw hl gh ghn ['[', ']'],
    Parse2_renderList E (n + 2) neg L hw hl gh ghn]
  have hk : (fun g gn => Parse2Loop E (n + 2) (DetectAddressParse2 E (n + 2)) neg
      ⟨[], false, false, false, 0, g, gn⟩ ['[', ']']) = (fun g gn => Run.done (0, g, gn)) := by
    funext g gn
    rw [← Parse2_unfold, Parse2_empty_list E (n + 1) g gn neg]
  rw [hk, evalItems_norm]

/-- C31 (amended). An empty list is not an error by itself:
`DetectAddressParse2` returns `0` for `[]` and leaves both heads as they are,
so `DetectAddressParse` of `[]` returns `-1` only on a head without ranges
(no address is left), and a list with an empty list as its last member,
`[L,[]]`, parses exactly as the list `[L]` without it. -/
theorem DetectAddressParse_empty_list (E : Extern) (n : Nat) (L : ExprList)
    (gh ghn : DetectAddressHead) (neg : Bool) (hw : WfList L)
    (hl : (renderList L).length ≤ 1020) :
    DetectAddressParse2 E (n + 2) gh ghn ['[', ']'] neg = Run.done (0, gh, ghn) ∧
    DetectAddressParse E (n + 2) gh ['[', ']'] =
      Run.done (if gh.ipv4_head = [] ∧ gh.ipv6_head = [] then -1 else 0, gh) ∧
    DetectAddressParse2 E (n + 4) gh ghn (withEmptyList L) neg =
      DetectAddressParse2 E (n + 4) gh ghn (render (Expr.group L)) neg ∧
    DetectAddressParse E (n + 4) gh (withEmptyList L) =
      DetectAddressParse E (n + 4) gh (render (Expr.group L)) := by
  have key : ∀ (g gn : DetectAddressHead) (b : Bool),
      DetectAddressParse2 E (n + 4) g gn (withEmptyList L) b =
        DetectAddressParse2 E (n + 4) g gn (render (Expr.group L)) b := by
    intro g gn b
    have hs : Scans E (n + 3) (DetectAddressParse2 E (n + 3)) b
        (renderList L ++ [',', '[', ']']) :=
      Scans_append E (n + 3) _ b _ _ (Scans_renderList E (n + 3) _ b L hw)
        (Scans_append E (n + 3) _ b [','] ['[', ']']
          (Scans_char E (n + 3) _ b ',' (by decide) (by decide))
          (Scans_bracket E (n + 3) _ b [] (Scans_nil E (n + 3) _ b)))
    rw [withEmptyList, render,
      Parse2_bracketed E (n + 3) g gn _ b hs (by simp; omega),
      Parse2_bracketed E (n + 3) g gn _ b (Scans_renderList E (n + 3) _ b L hw) (by omega),
      Parse2_items_empty E n g gn b L hw (by omega)]
  refine ⟨Parse2_empty_list E n gh ghn neg, ?_, key gh ghn neg, ?_⟩
  · exact Parse_of_walk E (n + 2) gh gh _ (Parse2_empty_list E n gh _ false)
  · simp only [DetectAddressParse, key]

set_option maxRecDepth 100000 in
theorem DetectAddressParse_empty_list_witness :
    DetectAddressParse2 stdExtern (1 + 2) DetectAddressHeadInit DetectAddressHeadInit
      ['[', ']'] false = Run.done (0, DetectAddressHeadInit, DetectAddressHeadInit) ∧
    DetectAddressParse stdExtern (1 + 2) DetectAddressHeadInit ['[', ']'] =
      Run.done (if DetectAddressHeadInit.ipv4_head = [] ∧ DetectAddressHeadInit.ipv6_head = []
        then -1 else 0, DetectAddressHeadInit) ∧
    DetectAddressParse2 stdExtern (1 + 4) DetectAddressHeadInit DetectAddressHeadInit
        (withEmptyList (ExprList.single (Expr.atom text1234))) false =
      DetectAddressParse2 stdExtern (1 + 4) DetectAddressHeadInit DetectAddressHeadInit
        (render (Expr.group (ExprList.single (Expr.atom text1234)))) false ∧
    DetectAddressParse stdExtern (1 + 4) DetectAddressHeadInit
        (withEmptyList (ExprList.single (Expr.atom text1234))) =
      DetectAddressParse stdExtern (1 + 4) DetectAddressHeadInit
        (render (Expr.group (ExprList.single (Expr.atom text1234)))) :=
  DetectAddressParse_empty_list stdExtern 1 (ExprList.single (Expr.atom text1234))
    DetectAddressHeadInit DetectAddressHeadInit false ⟨by decide, by decide⟩ (by decide)

set_option maxRecDepth 100000 in
/-- C31 (counterexample). The expression `[1.2.3.4,[]]` holds an empty list, and
`DetectAddressParse` on an empty head returns `0` for it, with the host
1.2.3.4 in the IPv4 list. -/
theorem DetectAddressParse_empty_list_counterexample :
    textHostEmptyList = withEmptyList (ExprList.single (Expr.atom text1234)) ∧
    DetectAddressParse stdExtern 5 DetectAddressHeadInit textHostEmptyList =
      Run.done (0, { any_head := [], ipv4_head := [hostV4 16909060], ipv6_head := [] }) := by
  constructor
  · rfl
  · rfl

/-! ## The NOT flag in the heads the parser builds -/

theorem joinComma_atomList : ∀ (l : List (List Char)) (a : List Char),
    renderList (atomList a l) = joinComma (a :: l)
  | [], a => by simp [atomList, renderList, render, joinComma]
  | b :: l, a => by
    simp only [atomList, renderList, render, joinComma]
    rw [joinComma_atomList l b]

theorem atomList_wf : ∀ (l : List (List Char)) (a : List Char),
    (∀ t ∈ a :: l, plainText t) → WfList (atomList a l)
  | [], a, h => by
    simp only [atomList, WfList, WfExpr]
    exact h a (List.mem_cons_self _ _)
  | b :: l, a, h => by
    simp only [atomList, WfList, WfExpr]
    exact ⟨h a (List.mem_cons_self _ _),
      atomList_wf l b (fun t ht => h t (List.mem_cons_of_mem _ ht))⟩

theorem atomList_noVars : ∀ (l : List (List Char)) (a : List Char),
    NoVarsList (atomList a l)
  | [], a => by simp [atomList, NoVarsList, NoVars]
  | b :: l, a => by
    simp only [atomList, NoVarsList, NoVars, true_and]
    exact atomList_noVars l b

theorem atomList_nesting : ∀ (l : List (List Char)) (a : List Char),
    nestingList (atomList a l) = 0
  | [], a => by simp [atomList, nestingList, nesting]
  | b :: l, a => by
    simp only [atomList, nestingList, nesting]
    rw [atomList_nesting l b]
    rfl

theorem atomList_leaves : ∀ (l : List (List Char)) (a : List Char) (b : Bool),
    leavesList (atomList a l) b = (a :: l).map (fun t => (t, b))
  | [], a, b => by simp [atomList, leavesList, leaves]
  | c :: l, a, b => by
    simp only [atomList, leavesList, leaves]
    rw [atomList_leaves l c b]
    simp

theorem insertSorted_append {f : Nat} (x : DetectAddress) (hx : FamilyRecord x)
    (hf : x.family = f) :
    ∀ (l : List DetectAddress) (lb : Nat), SortedRanges f lb (l ++ [x]) →
      insertSorted l x = l ++ [x]
  | [], _, _ => rfl
  | cur :: rest, lb, hs => by
    have hxm := SortedRanges_mem hs.2.2.2.2 x (by simp)
    have hgt : DetectAddressCmp x cur = ADDRESS_GT :=
      Cmp_gt_of_below x cur hx ⟨by rw [hs.1, hf], hs.2.2.1, by omega⟩ hxm.2.2.1
    rw [insertSorted, hgt]
    simp only [List.cons_append, List.cons.injEq, true_and]
    exact insertSorted_append x hx hf rest (cur.ip2 + 1) hs.2.2.2.2

theorem readsBack_addrText (E : Extern) (f : Nat) (t : List Char) (v : Nat)
    (h : readsBack E f t v) : addrText t :=
  ⟨plainText_head t h.1, h.2.1, h.2.2.1⟩

/-- The text `lo-hi` written for an IPv4 range is parsed as that range. -/
theorem ParseSingle_print4 (E : Extern) (p : Nat → List Char) (d : DetectAddress)
    (hlo : readsBack E AF_INET (p d.ip) d.ip) (hhi : readsBack E AF_INET (p d.ip2) d.ip2)
    (hv : d.ip ≤ d.ip2) (hm : d.ip2 < 2 ^ 32) :
    DetectAddressParseSingle E (printRange p d) = some (rangeV4 d.ip d.ip2) := by
  have h6 : ¬ AF_INET = AF_INET6 := by decide
  have hat := readsBack_addrText E _ _ _ hlo
  obtain ⟨_, _, _, hA⟩ := hlo
  obtain ⟨_, hb, _, hB⟩ := hhi
  simp only [h6, false_and, or_false, true_and] at hA hB
  obtain ⟨d1, d2, d3, d4⟩ := ParseSingle_dash (p d.ip) (p d.ip2) hat hb
  have hc : ':' ∉ p d.ip ++ '-' :: p d.ip2 := by
    simp only [List.mem_append, List.mem_cons, not_or]
    exact ⟨hA.1, by decide, hB.1⟩
  have hmA : d.ip % 4294967296 = d.ip := Nat.mod_eq_of_lt (by omega)
  have hmB : d.ip2 % 4294967296 = d.ip2 := Nat.mod_eq_of_lt (by omega)
  rw [printRange, ParseSingle_v4 E _ d1 d2 hc]
  simp only [parseIPv4, d3, d4, hA.2, hB.2, Nat.reducePow, hmA, hmB]
  rw [if_neg (by omega)]
  rfl

/-- The text `lo-hi` written for an IPv6 range is parsed as that range. -/
theorem ParseSingle_print6 (E : Extern) (p : Nat → List Char) (d : DetectAddress)
    (hlo : readsBack E AF_INET6 (p d.ip) d.ip) (hhi : readsBack E AF_INET6 (p d.ip2) d.ip2)
    (hv : d.ip ≤ d.ip2) (hm : d.ip2 < 2 ^ 128) :
    DetectAddressParseSingle E (printRange p d) = some (rangeV6 d.ip d.ip2) := by
  have h6 : ¬ AF_INET6 = AF_INET := by decide
  have hat := readsBack_addrText E _ _ _ hlo
  obtain ⟨_, _, _, hA⟩ := hlo
  obtain ⟨_, hb, _, hB⟩ := hhi
  simp only [h6, false_and, false_or, true_and] at hA hB
  obtain ⟨d1, d2, d3, d4⟩ := ParseSingle_dash (p d.ip) (p d.ip2) hat hb
  have hc : ':' ∈ p d.ip ++ '-' :: p d.ip2 := by simp [hA.1]
  have hmA : d.ip % 2 ^ 128 = d.ip := Nat.mod_eq_of_lt (by omega)
  have hmB : d.ip2 % 2 ^ 128 = d.ip2 := Nat.mod_eq_of_lt hm
  rw [printRange, ParseSingle_v6 E _ d1 d2 hc]
  simp only [parseIPv6, d3, d4, hA.2, hB.2, hmA, hmB, AddressIPv6Gt, decide_eq_true_eq]
  rw [if_neg (by omega)]
  rfl

/-- Setting up a range that lies above all ranges of its list appends it. -/
theorem Setup_append (E : Extern) (n : Nat) (gh : DetectAddressHead) (s : List Char)
    (x : DetectAddress) (hp : DetectAddressParseSingle E s = some x)
    (hnot : x.flag_not = false) (hx : FamilyRecord x)
    (hs : SortedRanges x.family 0 (GetHeadPtr gh x ++ [x]))
    (hn : (GetHeadPtr gh x).length < n) :
    DetectAddressSetup E n gh s = Run.done (0, putList gh x (GetHeadPtr gh x ++ [x])) := by
  have hxm := SortedRanges_mem hs x (by simp)
  have hs1 : SortedRanges x.family 0 (GetHeadPtr gh x) :=
    SortedRanges_sublist hs (List.sublist_append_left _ _)
  rw [Setup_family_done E n gh s x hp hnot hx ⟨hxm.2.2.1, hxm.2.2.2⟩ hs1 hn,
    insertSorted_append x hx rfl _ 0 hs]

theorem setupLeaves_print4 (E : Extern) (n : Nat) (p : Nat → List Char)
    (a m : List DetectAddress) (ghn : DetectAddressHead) :
    ∀ (ds l : List DetectAddress),
      SortedRanges AF_INET 0 (l ++ ds.map (fun d => rangeV4 d.ip d.ip2)) →
      (∀ d ∈ ds, readsBack E AF_INET (p d.ip) d.ip ∧ readsBack E AF_INET (p d.ip2) d.ip2) →
      (l ++ ds).length < n →
      setupLeaves E n (ds.map (fun d => (printRange p d, false))) ⟨a, l, m⟩ ghn =
        Run.done (0, ⟨a, l ++ ds.map (fun d => rangeV4 d.ip d.ip2), m⟩, ghn)
  | [], l, _, _, _ => by simp [setupLeaves]
  | d :: ds, l, hs, hp, hn => by
    simp only [List.map_cons, List.length_append, List.length_cons] at hs hn ⊢
    have hdm := SortedRanges_mem hs (rangeV4 d.ip d.ip2) (by simp)
    have hd : FamilyRecord (rangeV4 d.ip d.ip2) := ⟨Or.inl rfl, rfl⟩
    have hmax : addrMax AF_INET = 2 ^ 32 - 1 := by simp [addrMax, AF_INET, AF_INET6]
    have hparse := ParseSingle_print4 E p d (hp d (List.mem_cons_self _ _)).1
      (hp d (List.mem_cons_self _ _)).2 hdm.2.2.1 (by
        have := hdm.2.2.2
        rw [hmax] at this
        simp only [rangeV4] at this
        omega)
    have hget : GetHeadPtr ⟨a, l, m⟩ (rangeV4 d.ip d.ip2) = l := by
      simp [GetHeadPtr, rangeV4, DetectAddressInit]
    have hput : putList ⟨a, l, m⟩ (rangeV4 d.ip d.ip2) (l ++ [rangeV4 d.ip d.ip2]) =
        ⟨a, l ++ [rangeV4 d.ip d.ip2], m⟩ := by
      simp [putList, SetHeadPtr, rangeV4, DetectAddressInit]
    have hs1 : SortedRanges AF_INET 0 (l ++ [rangeV4 d.ip d.ip2]) :=
      SortedRanges_sublist hs (by simp)
    have hsetup := Setup_append E n ⟨a, l, m⟩ _ _ hparse rfl hd
      (by rw [hget]; exact hs1) (by rw [hget]; omega)
    rw [hget, hput] at hsetup
    simp only [setupLeaves, setupSide, Bool.false_eq_true, if_false, hsetup, Run.andThen]
    rw [if_neg (by decide)]
    have ih := setupLeaves_print4 E n p a m ghn ds (l ++ [rangeV4 d.ip d.ip2])
      (by simpa using hs) (fun e he => hp e (List.mem_cons_of_mem _ he))
      (by simp only [List.length_append, List.length_cons, List.length_nil]; omega)
    rw [ih]
    simp

theorem setupLeaves_print6 (E : Extern) (n : Nat) (p : Nat → List Char)
    (a m : List DetectAddress) (ghn : DetectAddressHead) :
    ∀ (ds l : List DetectAddress),
      SortedRanges AF_INET6 0 (l ++ ds.map (fun d => rangeV6 d.ip d.ip2)) →
      (∀ d ∈ ds, readsBack E AF_INET6 (p d.ip) d.ip ∧ readsBack E AF_INET6 (p d.ip2) d.ip2) →
      (l ++ ds).length < n →
      setupLeaves E n (ds.map (fun d => (printRange p d, false))) ⟨a, m, l⟩ ghn =
        Run.done (0, ⟨a, m, l ++ ds.map (fun d => rangeV6 d.ip d.ip2)⟩, ghn)
  | [], l, _, _, _ => by simp [setupLeaves]
  | d :: ds, l, hs, hp, hn => by
    simp only [List.map_cons, List.length_append, List.length_cons] at hs hn ⊢
    have hdm := SortedRanges_mem hs (rangeV6 d.ip d.ip2) (by simp)
    have hd : FamilyRecord (rangeV6 d.ip d.ip2) := ⟨Or.inr rfl, rfl⟩
    have hmax : addrMax AF_INET6 = 2 ^ 128 - 1 := by simp [addrMax, AF_INET6]
    have hparse := ParseSingle_print6 E p d (hp d (List.mem_cons_self _ _)).1
      (hp d (List.mem_cons_self _ _)).2 hdm.2.2.1 (by
        have := hdm.2.2.2
        rw [hmax] at this
        simp only [rangeV6] at this
        omega)
    have hget : GetHeadPtr ⟨a, m, l⟩ (rangeV6 d.ip d.ip2) = l := by
      simp [GetHeadPtr, rangeV6, DetectAddressInit, AF_INET6, AF_INET]
    have hput : putList ⟨a, m, l⟩ (rangeV6 d.ip d.ip2) (l ++ [rangeV6 d.ip d.ip2]) =
        ⟨a, m, l ++ [rangeV6 d.ip d.ip2]⟩ := by
      simp [putList, SetHeadPtr, rangeV6, DetectAddressInit, AF_INET6, AF_INET]
    have hs1 : SortedRanges AF_INET6 0 (l ++ [rangeV6 d.ip d.ip2]) :=
      SortedRanges_sublist hs (by simp)
    have hsetup := Setup_append E n ⟨a, m, l⟩ _ _ hparse rfl hd
      (by rw [hget]; exact hs1) (by rw [hget]; omega)
    rw [hget, hput] at hsetup
    simp only [setupLeaves, setupSide, Bool.false_eq_true, if_false, hsetup, Run.andThen]
    rw [if_neg (by decide)]
    have ih := setupLeaves_print6 E n p a m ghn ds (l ++ [rangeV6 d.ip d.ip2])
      (by simpa using hs) (fun e he => hp e (List.mem_cons_of_mem _ he))
      (by simp only [List.length_append, List.length_cons, List.length_nil]; omega)
    rw [ih]
    simp

theorem SortedRanges_range4 : ∀ (l : List DetectAddress) (lb : Nat),
    SortedRanges AF_INET lb l → SortedRanges AF_INET lb (l.map (fun d => rangeV4 d.ip d.ip2))
  | [], _, _ => trivial
  | _ :: ds, _, hs =>
    ⟨rfl, hs.2.1, hs.2.2.1, hs.2.2.2.1, SortedRanges_range4 ds _ hs.2.2.2.2⟩

theorem SortedRanges_range6 : ∀ (l : List DetectAddress) (lb : Nat),
    SortedRanges AF_INET6 lb l → SortedRanges AF_INET6 lb (l.map (fun d => rangeV6 d.ip d.ip2))
  | [], _, _ => trivial
  | _ :: ds, _, hs =>
    ⟨rfl, hs.2.1, hs.2.2.1, hs.2.2.2.1, SortedRanges_range6 ds _ hs.2.2.2.2⟩

theorem plainText_range (u v : List Char) (hu : plainText u) (hv : plainText v) :
    plainText (u ++ '-' :: v) := by
  refine ⟨by simp, ?_⟩
  intro c hc
  simp only [List.mem_append, List.mem_cons] at hc
  rcases hc with h | h | h
  · exact hu.2 c h
  · rw [h]; rfl
  · exact hv.2 c h

/-- The leaves of the written list, set up one after the other on empty heads,
give the ranges of the head again. -/
theorem setupLeaves_printItems (E : Extern) (n : Nat) (p4 p6 : Nat → List Char)
    (g : DetectAddressHead) (hi : WfHead g) (hp : PrintsBack E p4 p6 g)
    (h4 : g.ipv4_head.length < n) (h6 : g.ipv6_head.length < n) :
    setupLeaves E n ((printItems p4 p6 g).map (fun t => (t, false)))
        DetectAddressHeadInit DetectAddressHeadInit =
      Run.done (0, ⟨[], g.ipv4_head.map (fun d => rangeV4 d.ip d.ip2),
        g.ipv6_head.map (fun d => rangeV6 d.ip d.ip2)⟩, DetectAddressHeadInit) := by
  have s4 : SortedRanges AF_INET 0 g.ipv4_head := (SortedRanges_iff _).2 ⟨hi.1, hi.2.1⟩
  have s6 : SortedRanges AF_INET6 0 g.ipv6_head := (SortedRanges_iff _).2 ⟨hi.2.2.1, hi.2.2.2⟩
  have e4 := setupLeaves_print4 E n p4 [] [] DetectAddressHeadInit g.ipv4_head []
    (by simpa using SortedRanges_range4 _ 0 s4) hp.1 (by simpa using h4)
  have e6 := setupLeaves_print6 E n p6 []
    (g.ipv4_head.map (fun d => rangeV4 d.ip d.ip2)) DetectAddressHeadInit g.ipv6_head []
    (by simpa using SortedRanges_range6 _ 0 s6) hp.2 (by simpa using h6)
  simp only [List.nil_append] at e4 e6
  simp only [printItems, List.map_append, List.map_map]
  rw [setupLeaves_append]
  have hc4 : ((fun t => (t, false)) ∘ printRange p4) = (fun d => (printRange p4 d, false)) :=
    rfl
  have hc6 : ((fun t => (t, false)) ∘ printRange p6) = (fun d => (printRange p6 d, false)) :=
    rfl
  rw [hc4, hc6]
  have hinit : DetectAddressHeadInit = ⟨[], [], []⟩ := rfl
  rw [hinit] at e4 ⊢
  rw [e4]
  simp only [Run.andThen]
  rw [if_neg (by decide), ← hinit, e6]

/-- C32 (amended). For every text `X` that `DetectAddressParse` parses
successfully on an empty head: when the IPv4 and IPv6 ranges of the result are
written as a bracketed list `[lo-hi,...]` whose address texts `inet_pton` reads
back, and the list between the brackets has at most 1023 characters (it has to
fit the buffer of `DetectAddressParse2`), then `DetectAddressParse` of that
text on an empty head succeeds, for every recursion budget `k + 2` with `k`
above the lengths of both lists, and the IPv4 list and the IPv6 list of the new
head have exactly the same sequence of ranges. -/
theorem DetectAddressParse_idempotent (E : Extern) (p4 p6 : Nat → List Char) (n k : Nat)
    (X : List Char) (g : DetectAddressHead)
    (hX : DetectAddressParse E n DetectAddressHeadInit X = Run.done (0, g))
    (hp : PrintsBack E p4 p6 g)
    (hlen : (joinComma (printItems p4 p6 g)).length ≤ 1023)
    (h4 : g.ipv4_head.length < k) (h6 : g.ipv6_head.length < k) :
    ∃ g1, DetectAddressParse E (k + 2) DetectAddressHeadInit (printHead p4 p6 g) =
        Run.done (0, g1) ∧
      rangesOf g1.ipv4_head = rangesOf g.ipv4_head ∧
      rangesOf g1.ipv6_head = rangesOf g.ipv6_head := by
  have hi : HeadInv g := Parse_HeadInv E n _ X 0 g HeadInv_init hX
  have hne : g.ipv4_head ≠ [] ∨ g.ipv6_head ≠ [] := by
    obtain ⟨r1, g1, gn1, _, hc⟩ := Parse_cases E n _ X 0 g hX
    rcases hc with ⟨_, h0, _⟩ | ⟨_, r2, hm, hr⟩
    · omega
    · rcases MergeNot_nonempty E n g1 gn1 g r2 hm with h | h
      · rcases hr with ⟨_, h0⟩ | ⟨hr2, _⟩ <;> omega
      · exact h.2
  have hsetup := setupLeaves_printItems E k p4 p6 g hi.1 hp h4 h6
  have hplain : ∀ t ∈ printItems p4 p6 g, plainText t := by
    intro t ht
    simp only [printItems, List.mem_append, List.mem_map] at ht
    rcases ht with ⟨d, hd, e⟩ | ⟨d, hd, e⟩
    · rw [← e]
      exact plainText_range _ _ (hp.1 d hd).1.1 (hp.1 d hd).2.1
    · rw [← e]
      exact plainText_range _ _ (hp.2 d hd).1.1 (hp.2 d hd).2.1
  cases hitems : printItems p4 p6 g with
  | nil =>
    exfalso
    simp only [printItems, List.append_eq_nil, List.map_eq_nil_iff] at hitems
    rcases hne with h | h
    · exact h hitems.1
    · exact h hitems.2
  | cons a l =>
    rw [hitems] at hsetup hplain hlen
    have hw : WfExpr (Expr.group (atomList a l)) := by
      rw [WfExpr]
      exact atomList_wf l a hplain
    have hnv : NoVars (Expr.group (atomList a l)) := by
      rw [NoVars]
      exact atomList_noVars l a
    have hfit : fitsBuffer (Expr.group (atomList a l)) = true := by
      simp only [fitsBuffer, decide_eq_true_eq]
      rw [joinComma_atomList]
      exact hlen
    have hnest : nesting (Expr.group (atomList a l)) ≤ 1 := by
      rw [nesting, atomList_nesting]
    have htext : printHead p4 p6 g = render (Expr.group (atomList a l)) := by
      rw [printHead, hitems, render, joinComma_atomList]
    have hleaves := leaves_item E (Expr.group (atomList a l)) k 1 false false _ _ _ hw hnv
      hfit hnest (by
        simp only [leaves, Bool.or_false]
        rw [atomList_leaves]
        exact hsetup)
    have hwalk : DetectAddressParse2 E (k + 2) DetectAddressHeadInit DetectAddressHeadInit
        (printHead p4 p6 g) false = Run.done (0, ⟨[], g.ipv4_head.map (fun d => rangeV4 d.ip d.ip2),
          g.ipv6_head.map (fun d => rangeV6 d.ip d.ip2)⟩, DetectAddressHeadInit) := by
      rw [htext, Parse2_render E (k + 1) false _ hw, if_pos hfit]
      exact hleaves
    refine ⟨⟨[], g.ipv4_head.map (fun d => rangeV4 d.ip d.ip2),
      g.ipv6_head.map (fun d => rangeV6 d.ip d.ip2)⟩, ?_, ?_, ?_⟩
    · rw [Parse_of_walk E (k + 2) _ _ _ hwalk, if_neg]
      simp only [List.map_eq_nil_iff, not_and_or]
      exact hne
    · simp [rangesOf, rangeV4]
    · simp [rangesOf, rangeV6]

theorem joinComma_chars (P : Char → Prop) (hc : P ',') :
    ∀ (ts : List (List Char)), (∀ t ∈ ts, ∀ c ∈ t, P c) → ∀ c ∈ joinComma ts, P c
  | [], _, c, h => by simp [joinComma] at h
  | [a], ht, c, h => by
    simp only [joinComma] at h
    exact ht a (by simp) c h
  | a :: b :: l, ht, c, h => by
    simp only [joinComma, List.mem_append, List.mem_cons] at h
    rcases h with h | h | h
    · exact ht a (by simp) c h
    · rw [h]; exact hc
    · exact joinComma_chars P hc (b :: l) (fun t hm => ht t (List.mem_cons_of_mem _ hm)) c h

/-- A written list whose inside has more than 1023 characters fills the buffer
of `DetectAddressParse2`: `DetectAddressParse` on an empty head returns `-1`. -/
theorem Parse_printHead_overflow (E : Extern) (p4 p6 : Nat → List Char) (n : Nat)
    (g : DetectAddressHead) (hp : PrintsBack E p4 p6 g)
    (hl : 1023 < (joinComma (printItems p4 p6 g)).length) :
    DetectAddressParse E (n + 1) DetectAddressHeadInit (printHead p4 p6 g) =
      Run.done (-1, DetectAddressHeadInit) := by
  have hplain : ∀ t ∈ printItems p4 p6 g, ∀ c ∈ t, c ≠ '[' ∧ c ≠ ']' := by
    intro t ht
    simp only [printItems, List.mem_append, List.mem_map] at ht
    rcases ht with ⟨d, hd, e⟩ | ⟨d, hd, e⟩
    · rw [← e]
      exact plainText_brackets _ (plainText_range _ _ (hp.1 d hd).1.1 (hp.1 d hd).2.1)
    · rw [← e]
      exact plainText_brackets _ (plainText_range _ _ (hp.2 d hd).1.1 (hp.2 d hd).2.1)
  have hw := joinComma_chars (fun c => c ≠ '[' ∧ c ≠ ']') (by decide) _ hplain
  have hwalk : DetectAddressParse2 E (n + 1) DetectAddressHeadInit DetectAddressHeadInit
      (printHead p4 p6 g) false = Run.done (0, DetectAddressHeadInit, DetectAddressHeadInit) := by
    rw [printHead, Parse2_unfold,
      step_open E n _ false [] false false 0 _ _ _ (by simp),
      Scans_run E n _ false _ hw [] false false (0 + 1) _ _ [']'] (by omega) (by simp)]
    simp only [List.length_nil, Nat.zero_add, List.nil_append]
    by_cases h1 : (joinComma (printItems p4 p6 g)).length ≤ 1024
    · rw [if_pos h1, step_full E n _ false _ ']' _ (by simp; omega)]
    · rw [if_neg h1]
  rw [Parse_of_walk E (n + 1) _ _ _ hwalk]
  rfl

set_option maxRecDepth 100000 in
theorem DetectAddressParse_idempotent_witness :
    ∃ g1, DetectAddressParse stdExtern (5 + 2) DetectAddressHeadInit
        (printHead inet_ntop4_model inet_ntop6_model testHead34) = Run.done (0, g1) ∧
      rangesOf g1.ipv4_head = rangesOf testHead34.ipv4_head ∧
      rangesOf g1.ipv6_head = rangesOf testHead34.ipv6_head :=
  DetectAddressParse_idempotent stdExtern inet_ntop4_model inet_ntop6_model 8 5 testExpr34
    testHead34 (by rfl) (by decide) (by decide) (by decide) (by decide)

set_option maxRecDepth 100000 in
/-- C32 (counterexample). The text of 33 hosts `100.100.100.100`,
`100.100.100.102`, ... parses on an empty head into 33 ranges; written as a
bracketed list of `lo-hi` ranges (in dotted decimal, which `inet_pton` reads
back) they give a text of 1057 characters, and `DetectAddressParse` of that
text on an empty head returns `-1` for every recursion budget: the buffer of
`DetectAddressParse2` is full before the closing bracket. -/
theorem DetectAddressParse_idempotent_counterexample :
    DetectAddressParse stdExtern 40 DetectAddressHeadInit textManyHosts =
      Run.done (0, headManyHosts) ∧
    PrintsBack stdExtern inet_ntop4_model inet_ntop6_model headManyHosts ∧
    (printHead inet_ntop4_model inet_ntop6_model headManyHosts).length = 1057 ∧
    ∀ n, DetectAddressParse stdExtern (n + 1) DetectAddressHeadInit
      (printHead inet_ntop4_model inet_ntop6_model headManyHosts) =
        Run.done (-1, DetectAddressHeadInit) := by
  have hp : PrintsBack stdExtern inet_ntop4_model inet_ntop6_model headManyHosts := by decide
  have hlen : (joinComma
      (printItems inet_ntop4_model inet_ntop6_model headManyHosts)).length = 1055 := by rfl
  exact ⟨by rfl, hp, by rfl,
    fun n => Parse_printHead_overflow stdExtern _ _ n headManyHosts hp (by rw [hlen]; decide)⟩

/-! ## The NOT flag and the grammar of expressions -/

theorem fitsBuffer_of_fitsComma : ∀ (e : Expr), fitsComma e = true → fitsBuffer e = true
  | Expr.atom a, h => by
    simp only [fitsComma, decide_eq_true_eq] at h
    simp only [fitsBuffer, decide_eq_true_eq]
    omega
  | Expr.var v, h => by
    simp only [fitsComma, decide_eq_true_eq] at h
    simp only [fitsBuffer, decide_eq_true_eq]
    omega
  | Expr.neg e, h => by
    rw [fitsComma] at h
    rw [fitsBuffer]
    exact fitsBuffer_of_fitsComma e h
  | Expr.group es, h => by
    simp only [fitsComma, decide_eq_true_eq] at h
    simp only [fitsBuffer, decide_eq_true_eq]
    exact h

end Suricata
